import Mathlib

/-!
# Tournament orchestration engine (`tournaments/index.js`)

A shallow embedding of the `Tournament` class.  The mutable object becomes a
record `Tournament G` that every method threads explicitly; a JavaScript
`TypeError` raised in the middle of a method becomes the `Res.threw` outcome,
which keeps the state reached at the point of the throw.  `Date.now()`, the
user registry and the battle-room factory are read from a `World` record.
The bracket generators (`generator-round-robin.js`, `generator-elimination.js`)
are not part of the unit: the class is embedded over an arbitrary
`Strategy G`, the method table of the generator object.
-/

namespace Tournaments

/-! ## Constants -/

/-- The constant `BRACKET_MINIMUM_UPDATE_INTERVAL = 2 * 1000`. -/
def BRACKET_MINIMUM_UPDATE_INTERVAL : Int := 2 * 1000
/-- The constant `AUTO_DISQUALIFY_WARNING_TIMEOUT = 30 * 1000`. -/
def AUTO_DISQUALIFY_WARNING_TIMEOUT : Int := 30 * 1000
/-- The constant `AUTO_START_MINIMUM_TIMEOUT = 30 * 1000`. -/
def AUTO_START_MINIMUM_TIMEOUT : Int := 30 * 1000

/-! ## Users and JavaScript maps -/

/-- A user object, identified by reference; `===` on users is equality here. -/
abbrev User := Nat

/-- A JavaScript `Map` keyed by users: entries in insertion order. -/
abbrev JMap (α : Type) := List (User × α)

/-- The call `map.get(k)`; `none` stands for `undefined`. -/
def JMap.get {α : Type} : JMap α → User → Option α
  | [], _ => none
  | (k1, v1) :: m, k => if k1 = k then some v1 else JMap.get m k

/-- The call `map.set(k, v)`: an existing key keeps its position. -/
def JMap.set {α : Type} : JMap α → User → α → JMap α
  | [], k, v => [(k, v)]
  | (k1, v1) :: m, k, v => if k1 = k then (k, v) :: m else (k1, v1) :: JMap.set m k v

/-- Adding a key to an inner `Map` whose values are all `true`. -/
def insertKey (l : List User) (b : User) : List User :=
  if b ∈ l then l else l ++ [b]

/-! ## Values exchanged with the outside -/

/-- The error names sent with `|tournament|error|`. -/
inductive TourError
  | BracketFrozen
  | UserNotNamed
  | Full
  | AltUserAlreadyAdded
  | AlreadyStarted
  | NotEnoughUsers
  | AlreadyDisqualified
  | InvalidAutoStartTimeout
  | InvalidAutoDisqualifyTimeout
  | NotStarted
  | InvalidMatch
  | strategy (code : Nat)
  deriving DecidableEq, Repr

/-- The `output` argument of a method: the command context of a caller, the
value `undefined` (the method was called without it), or the tournament room
itself (as `finishAcceptChallenge` passes `this.room`). -/
inductive Output
  | caller (id : Nat)
  | absent
  | room
  deriving DecidableEq, Repr

/-- A pending challenge entry: `{to, team}` on the side of the initiator,
`{from, team}` on the side of the recipient. -/
inductive Challenge
  | toUser (user : User) (team : Nat)
  | fromUser (user : User) (team : Nat)
  deriving DecidableEq, Repr

/-- An in-progress match entry `{to, room}`, stored under the initiator. -/
structure Match where
  toUser : User
  room : Nat
  deriving DecidableEq, Repr

/-- A battle room created for a tournament match. -/
structure BattleRoom where
  id : Nat
  p1 : User
  p2 : User
  deriving DecidableEq, Repr

/-- The three outcomes computed by `onBattleWin`. -/
inductive Outcome
  | win
  | loss
  | draw
  deriving DecidableEq, Repr

/-- A numeric timeout argument: `NaN`, `Infinity`, or a number of milliseconds. -/
inductive Timeout
  | nan
  | infinity
  | finite (ms : Int)
  deriving DecidableEq, Repr

/-- The three callbacks the class hands to `setTimeout`. -/
inductive TimerKind
  | bracketUpdate
  | autoStart (output : Output)
  | autoDisqualify
  deriving DecidableEq, Repr

/-- A promise callback registered with `prepBattle(...).then` and not yet run:
the arguments `finishChallenge` or `finishAcceptChallenge` will receive. -/
inductive Setup
  | challenge (source : User) (target : User) (output : Output)
  | accept (user : User) (challenge : Challenge)
  deriving DecidableEq, Repr

/-- A callback scheduled with `setTimeout` and not yet fired or cleared. -/
structure Timer where
  id : Nat
  kind : TimerKind
  delay : Int
  deriving DecidableEq, Repr

/-- The object returned by `getAvailableMatches`. -/
structure MatchesCache where
  challenges : JMap (List User)
  challengeBys : JMap (List User)
  deriving DecidableEq, Repr

/-- The value of `getBracketData()`: the data of the generator together with
the two maps the method reads to stamp `challenging` / `inprogress` on it. -/
structure BracketData where
  data : Nat
  pending : Option (JMap (Option Challenge))
  inProgress : Option (JMap (Option Match))
  deriving DecidableEq, Repr

/-- The messages `updateFor` sends to one connection. -/
inductive ConnMsg
  | update (isStarted : Bool) (isJoined : Bool) (b : Option BracketData)
  | lists (challenges : List User) (challengeBys : List User)
  | challenging (u : User)
  | challenged (u : User)
  | updateEnd
  deriving DecidableEq, Repr

/-- Everything written to the room, to a user, to a caller or to a battle room. -/
inductive Event
  | reply (o : Nat) (e : TourError)
  | roomReply (e : TourError)
  | create
  | roomUpdateInfo
  | roomUpdateGenerator (name : Nat)
  | roomUpdateBracket (b : BracketData)
  | roomUpdateStarted
  | updateEnd
  | roomUpdate
  | forceend
  | updateForError (bracket : Bool) (avail : Bool)
  | join (u : User)
  | leave (u : User)
  | replace (u : User) (r : User)
  | nowFull
  | start
  | availableMatchesError (code : Nat)
  | disqualify (u : User)
  | autostartOff
  | autostartOn (ms : Int)
  | autodqOff
  | autodqOn (ms : Int)
  | backendBreaks
  | battlestart (a : User) (b : User) (room : Nat)
  | battleend (a : User) (b : User) (o : Outcome) (failed : Bool)
  | setMatchResultError (code : Nat)
  | tournamentEnd (results : List (List User)) (b : BracketData)
  | isJoined (u : User) (joined : Bool)
  | challenges (u : User) (l : List User)
  | challengeBys (u : User) (l : List User)
  | challenging (u : User) (target : Option User)
  | challenged (u : User) (source : Option User)
  | autodqTarget (u : User) (remaining : Int)
  | popup (u : User) (reason : Option Nat)
  | battleRaw (room : Nat)
  | forfeit (room : Nat) (u : User)
  | toConnection (target : User) (conn : Option Nat) (m : ConnMsg)
  deriving DecidableEq, Repr

/-! ## The generator object -/

/-- The method table of a bracket generator over its state `G`.  A mutating
method returns the new state; a method that answers an error string returns
its code.  `getUserBusy` gives the truthiness of the answer. -/
structure Strategy (G : Type) where
  name : G → Nat
  isDrawingSupported : G → Bool
  addUser : G → User → G × Option Nat
  removeUser : G → User → G × Option Nat
  replaceUser : G → User → User → G × Option Nat
  getUsers : G → Bool → List User
  hasGenerateBracket : G → Bool
  generateBracket : G → G
  freezeBracket : G → G
  getAvailableMatches : G → Except Nat (List (User × User))
  getBracketData : G → Nat
  disqualifyUser : G → User → G × Option Nat
  setUserBusy : G → User → Bool → G
  getUserBusy : G → User → Bool
  setMatchResult : G → User × User → Outcome → Nat × Nat → G × Option Nat
  isTournamentEnded : G → Bool
  getResults : G → List (List User)

/-- What a method reads from outside the tournament during one call. -/
structure World where
  now : Int
  named : User → Bool
  latestIp : User → Nat
  connected : User → Bool
  team : User → Nat
  isExact : User → Bool
  startBattle : User → User → Nat → Nat → Option Nat
  roomCanReply : Bool

/-! ## The tournament object -/

/-- The fields of a `Tournament`, followed by what the runtime keeps for it:
the scheduled timers, the setup promises still unresolved, the battle rooms
whose `tour` points at it, whether `exports.tournaments` still lists it, and
the messages sent so far. -/
structure Tournament (G : Type) where
  playerCap : Nat
  generator : G
  autostartcap : Bool
  isBracketInvalidated : Bool
  lastBracketUpdate : Int
  bracketUpdateTimer : Option Nat
  bracketCache : Option BracketData
  isTournamentStarted : Bool
  availableMatches : Option (JMap (List User))
  inProgressMatches : Option (JMap (Option Match))
  isAvailableMatchesInvalidated : Bool
  availableMatchesCache : Option MatchesCache
  pendingChallenges : Option (JMap (Option Challenge))
  autoDisqualifyTimeout : Option Int
  autoDisqualifyTimer : Option Nat
  autoStartTimeout : Option Nat
  isEnded : Bool
  disqualifiedUsers : Option (JMap Bool)
  isAutoDisqualifyWarned : Option (JMap Bool)
  lastActionTimes : Option (JMap Int)
  timers : List Timer
  nextTimerId : Nat
  setups : List Setup
  tourRooms : List BattleRoom
  registered : Bool
  log : List Event
  deriving DecidableEq, Repr

/-- The outcome of running a method: it returned `a`, or it threw. -/
inductive Res (G : Type) (α : Type) where
  | ok (a : α) (t : Tournament G)
  | threw (t : Tournament G)
  deriving DecidableEq, Repr

/-- The state in which a method stopped. -/
def Res.state {G α : Type} : Res G α → Tournament G
  | .ok _ t => t
  | .threw t => t

/-- Run `k` after a call that returned; a throw propagates. -/
def Res.andThen {G α β : Type} (r : Res G α) (k : α → Tournament G → Res G β) : Res G β :=
  match r with
  | .ok a t => k a t
  | .threw t => .threw t

variable {G : Type}

/-- Append one message to the log. -/
def Tournament.say (t : Tournament G) (e : Event) : Tournament G :=
  { t with log := t.log ++ [e] }

/-- Append several messages to the log. -/
def Tournament.sayAll (t : Tournament G) (es : List Event) : Tournament G :=
  { t with log := t.log ++ es }

/-- The call `output.sendReply('|tournament|error|' + e)`. -/
def sendReply (w : World) (output : Output) (e : TourError) (t : Tournament G) : Res G Unit :=
  match output with
  | .caller o => .ok () (t.say (.reply o e))
  | .absent => .threw t
  | .room => if w.roomCanReply then .ok () (t.say (.roomReply e)) else .threw t

/-- The call `setTimeout(callback, delay)`: the handle returned and the new state. -/
def Tournament.setTimeout (t : Tournament G) (kind : TimerKind) (delay : Int) :
    Nat × Tournament G :=
  (t.nextTimerId,
    { t with timers := t.timers ++ [⟨t.nextTimerId, kind, delay⟩],
             nextTimerId := t.nextTimerId + 1 })

/-- The call `clearTimeout(handle)`. -/
def Tournament.clearTimeout (t : Tournament G) (handle : Nat) : Tournament G :=
  { t with timers := t.timers.filter (fun x => x.id ≠ handle) }

/-- The guarded call `if (handle) clearTimeout(handle)`. -/
def Tournament.clearIfSet (t : Tournament G) (handle : Option Nat) : Tournament G :=
  match handle with
  | some h => t.clearTimeout h
  | none => t

/-- The strategy flag `getUserBusy(user)` of the tournament's generator. -/
def Tournament.busy (S : Strategy G) (t : Tournament G) (u : User) : Bool :=
  S.getUserBusy t.generator u

/-- The call `this.generator.setUserBusy(user, b)`. -/
def Tournament.setBusy (S : Strategy G) (t : Tournament G) (u : User) (b : Bool) :
    Tournament G :=
  { t with generator := S.setUserBusy t.generator u b }


/-! ## Bracket and available-matches recomputation -/

/-- The method `getBracketData()`.  The rendering of the tree or table is
left to the generator's data; the snapshot records the maps it is stamped
with. -/
def Tournament.getBracketData (S : Strategy G) (t : Tournament G) : BracketData :=
  ⟨S.getBracketData t.generator, t.pendingChallenges, t.inProgressMatches⟩

/-- The local maps `challenges` and `challengeBys` after `users.forEach`:
every user is set to an empty array. -/
def emptyLists (users : List User) : JMap (List User) :=
  users.foldl (fun m u => m.set u []) []

/-- The loop `users.forEach` of `getAvailableMatches`: a non-empty entry is
cleared and remembered as old.  The first component is `none` when a user
has no entry (reading `.size` of `undefined` throws). -/
def resetEntries : List User → JMap (List User) → JMap Bool →
    Option (JMap Bool) × JMap (List User)
  | [], av, old => (some old, av)
  | u :: us, av, old =>
    match av.get u with
    | none => (none, av)
    | some e =>
      if e.length ≠ 0 then resetEntries us (av.set u []) (old.set u true)
      else resetEntries us av (old.set u false)

/-- The loop `matches.forEach` of `getAvailableMatches`.  The first component
is `none` when a lookup gives `undefined` and the loop throws. -/
def addMatches : List (User × User) → JMap (List User) → JMap (List User) →
    JMap (List User) → Option (JMap (List User) × JMap (List User)) × JMap (List User)
  | [], ch, cb, av => (some (ch, cb), av)
  | (a, b) :: ms, ch, cb, av =>
    match ch.get a with
    | none => (none, av)
    | some la =>
      match cb.get b with
      | none => (none, av)
      | some lb =>
        match av.get a with
        | none => (none, av)
        | some e =>
          addMatches ms (ch.set a (la ++ [b])) (cb.set b (lb ++ [a])) (av.set a (insertKey e b))

/-- The users whose last-action time the final loop of `getAvailableMatches`
sets: not old, and with a non-empty entry now. -/
def needsTouch (old : JMap Bool) : JMap (List User) → List User
  | [] => []
  | (u, e) :: av =>
    if old.get u = some true then needsTouch old av
    else if e.length ≠ 0 then u :: needsTouch old av
    else needsTouch old av

/-- The method `getAvailableMatches()`; it answers `undefined` (here `none`)
after reporting an error of the generator. -/
def Tournament.getAvailableMatches (S : Strategy G) (w : World) (t : Tournament G) :
    Res G (Option MatchesCache) :=
  match S.getAvailableMatches t.generator with
  | .error e => .ok none (t.say (.availableMatchesError e))
  | .ok ms =>
    let users := S.getUsers t.generator false
    match t.availableMatches with
    | none => .threw t
    | some av =>
      match resetEntries users av [] with
      | (none, av1) => .threw { t with availableMatches := some av1 }
      | (some old, av1) =>
        match addMatches ms (emptyLists users) (emptyLists users) av1 with
        | (none, av2) => .threw { t with availableMatches := some av2 }
        | (some (ch, cb), av2) =>
          match t.lastActionTimes with
          | none =>
            if needsTouch old av2 = [] then .ok (some ⟨ch, cb⟩) { t with availableMatches := some av2 }
            else .threw { t with availableMatches := some av2 }
          | some la =>
            .ok (some ⟨ch, cb⟩)
              { t with availableMatches := some av2,
                       lastActionTimes :=
                         some ((needsTouch old av2).foldl (fun m u => m.set u w.now) la) }

/-- The bracket half of `update()`: defer with a timer inside the minimum
interval, else recompute and broadcast. -/
def Tournament.updateBracket (S : Strategy G) (w : World) (t : Tournament G) : Tournament G :=
  if t.isBracketInvalidated then
    if w.now < t.lastBracketUpdate + BRACKET_MINIMUM_UPDATE_INTERVAL then
      let t0 := t.clearIfSet t.bracketUpdateTimer
      let r := t0.setTimeout .bracketUpdate BRACKET_MINIMUM_UPDATE_INTERVAL
      { r.2 with bracketUpdateTimer := some r.1 }
    else
      let b := t.getBracketData S
      ({ t with lastBracketUpdate := w.now, bracketCache := some b,
                isBracketInvalidated := false }).say (.roomUpdateBracket b)
  else t

/-- The messages of the two `forEach` loops over the fresh cache. -/
def cacheEvents (c : MatchesCache) : List Event :=
  c.challenges.map (fun e => Event.challenges e.1 e.2) ++
    c.challengeBys.map (fun e => Event.challengeBys e.1 e.2)

/-- The method `update()` called without a target user. -/
def Tournament.update (S : Strategy G) (w : World) (t : Tournament G) : Res G Unit :=
  if t.isEnded then .ok () t
  else
    let t1 := t.updateBracket S w
    if t1.isTournamentStarted && t1.isAvailableMatchesInvalidated then
      (t1.getAvailableMatches S w).andThen fun c t2 =>
        match c with
        | none =>
          .threw { t2 with availableMatchesCache := none, isAvailableMatchesInvalidated := false }
        | some c =>
          .ok () (({ t2 with availableMatchesCache := some c,
                             isAvailableMatchesInvalidated := false }).sayAll
                    (cacheEvents c ++ [Event.updateEnd]))
    else .ok () (t1.say .updateEnd)

/-- The method `onTournamentEnd()`.  The currency rewards that follow the
announcement touch only the external database and are not part of the state. -/
def Tournament.onTournamentEnd (S : Strategy G) (t : Tournament G) : Tournament G :=
  let t1 := t.say (.tournamentEnd (S.getResults t.generator) (t.getBracketData S))
  let t2 := { t1 with isEnded := true }
  let t3 := t2.clearIfSet t2.autoDisqualifyTimer
  { t3 with registered := false }

/-! ## Disqualification -/

/-- The scan `inProgressMatches.forEach` of `disqualifyUser`: the last key whose
match has `user` as opponent. -/
def findMatchTo (user : User) : JMap (Option Match) → Option User → Option User
  | [], acc => acc
  | (k, some m) :: rest, acc =>
    if m.toUser = user then findMatchTo user rest (some k) else findMatchTo user rest acc
  | (_, none) :: rest, acc => findMatchTo user rest acc

/-- The statement `delete room.tour` on a battle room. -/
def Tournament.detach (t : Tournament G) (room : Nat) : Tournament G :=
  { t with tourRooms := t.tourRooms.filter (fun r => r.id ≠ room) }

/-- Lines 432 to 444 of `disqualifyUser`: void the pending challenge of `user`. -/
def Tournament.voidChallenge (S : Strategy G) (user : User) (t : Tournament G) :
    Res G Unit :=
  match t.pendingChallenges with
  | none => .threw t
  | some pc =>
    match pc.get user with
    | some (some (.toUser other _)) =>
      let t1 := ({ t with pendingChallenges := some (pc.set user none) }).setBusy S other false
      .ok () (({ t1 with pendingChallenges := some ((pc.set user none).set other none) }).say
        (.challenged other none))
    | some (some (.fromUser other _)) =>
      let t1 := ({ t with pendingChallenges := some (pc.set user none) }).setBusy S other false
      .ok () (({ t1 with pendingChallenges := some ((pc.set user none).set other none) }).say
        (.challenging other none))
    | _ => .ok () t

/-- Lines 446 to 452 of `disqualifyUser`: forfeit the match `user` initiated. -/
def Tournament.forfeitFrom (S : Strategy G) (user : User) (t : Tournament G) :
    Res G Unit :=
  match t.inProgressMatches with
  | none => .threw t
  | some ip =>
    match ip.get user with
    | some (some m) =>
      let t1 := t.setBusy S m.toUser false
      let t2 := { t1 with inProgressMatches := some (ip.set user none) }
      .ok () ((t2.detach m.room).say (.forfeit m.room user))
    | _ => .ok () t

/-- Lines 454 to 464 of `disqualifyUser`: forfeit the match `user` is the
opponent of. -/
def Tournament.forfeitTo (S : Strategy G) (user : User) (t : Tournament G) :
    Res G Unit :=
  match t.inProgressMatches with
  | none => .threw t
  | some ip =>
    match findMatchTo user ip none with
    | none => .ok () t
    | some matchTo =>
      let t1 := t.setBusy S matchTo false
      match ip.get matchTo with
      | some (some m) =>
        .ok () ({ ((t1.detach m.room).say (.forfeit m.room user)) with
                  inProgressMatches := some (ip.set matchTo none) })
      | _ => .threw t1

/-- Lines 466 to 470 of `disqualifyUser`: the notices and the two dirty flags. -/
def Tournament.announceDisqualify (user : User) (reason : Option Nat) (t : Tournament G) :
    Tournament G :=
  let t1 := (t.say (.disqualify user)).say (.isJoined user false)
  let t2 := match reason with
    | some r => t1.say (.popup user (some r))
    | none => t1
  { t2 with isBracketInvalidated := true, isAvailableMatchesInvalidated := true }

/-- Lines 432 to 478 of `disqualifyUser`: what follows once `user` is marked
disqualified and freed. -/
def Tournament.settleDisqualify (S : Strategy G) (w : World) (user : User)
    (reason : Option Nat) (t1 : Tournament G) : Res G Bool :=
  (t1.voidChallenge S user).andThen fun _ t2 =>
  (t2.forfeitFrom S user).andThen fun _ t3 =>
  (t3.forfeitTo S user).andThen fun _ t4 =>
  let t5 := t4.announceDisqualify user reason
  if S.isTournamentEnded t5.generator then .ok true (t5.onTournamentEnd S)
  else (t5.update S w).andThen fun _ t6 => .ok true t6

/-- The method `disqualifyUser(user, output, reason)`.  A `reason` of `none`
is `null` (no popup); any other reason, the empty one included, is shown. -/
def Tournament.disqualifyUser (S : Strategy G) (w : World) (user : User) (output : Output)
    (reason : Option Nat) (t : Tournament G) : Res G Bool :=
  let r := S.disqualifyUser t.generator user
  let t0 := { t with generator := r.1 }
  match r.2 with
  | some e => (sendReply w output (.strategy e) t0).andThen fun _ t1 => .ok false t1
  | none =>
    match t0.disqualifiedUsers with
    | none => .threw t0
    | some dq =>
      if dq.get user = some true then
        (sendReply w output .AlreadyDisqualified t0).andThen fun _ t1 => .ok false t1
      else
        (({ t0 with disqualifiedUsers := some (dq.set user true) }).setBusy S user
          false).settleDisqualify S w user reason


/-! ## Membership and start -/

/-- The method `removeUser(user, output)`. -/
def Tournament.removeUser (S : Strategy G) (w : World) (user : User) (output : Output)
    (t : Tournament G) : Res G Unit :=
  let r := S.removeUser t.generator user
  let t0 := { t with generator := r.1 }
  match r.2 with
  | some e => sendReply w output (.strategy e) t0
  | none =>
    let t1 := (t0.say (.leave user)).say (.isJoined user false)
    ({ t1 with isBracketInvalidated := true }).update S w

/-- The method `replaceUser(user, replacementUser, output)`. -/
def Tournament.replaceUser (S : Strategy G) (w : World) (user replacementUser : User)
    (output : Output) (t : Tournament G) : Res G Unit :=
  let r := S.replaceUser t.generator user replacementUser
  let t0 := { t with generator := r.1 }
  match r.2 with
  | some e => sendReply w output (.strategy e) t0
  | none =>
    let t1 := ((t0.say (.replace user replacementUser)).say (.isJoined user false)).say
      (.isJoined replacementUser true)
    ({ t1 with isBracketInvalidated := true }).update S w

/-- The loop of `purgeGhostUsers()` over the array `getUsers(true)`.  Both
inner calls are made without `output`; `disqualifyUser` is called without
`reason`, which is not `null`, so the popup is shown. -/
def Tournament.purgeLoop (S : Strategy G) (w : World) : List User → Tournament G → Res G Unit
  | [], t => .ok () t
  | user :: rest, t =>
    if w.isExact user then Tournament.purgeLoop S w rest t
    else
      let r : Res G Unit :=
        if t.isTournamentStarted then
          match t.disqualifiedUsers with
          | none => .threw t
          | some dq =>
            if dq.get user = some true then .ok () t
            else (t.disqualifyUser S w user .absent (some 0)).andThen fun _ t1 => .ok () t1
        else t.removeUser S w user .absent
      r.andThen fun _ t1 => Tournament.purgeLoop S w rest (t1.say .roomUpdate)

/-- The method `purgeGhostUsers()`. -/
def Tournament.purgeGhostUsers (S : Strategy G) (w : World) (t : Tournament G) : Res G Unit :=
  Tournament.purgeLoop S w (S.getUsers t.generator true) t

/-- The method `removeBannedUser(user)`; it passes `user` as `output`, which
has no `sendReply`. -/
def Tournament.removeBannedUser (S : Strategy G) (w : World) (user : User)
    (t : Tournament G) : Res G Unit :=
  if user ∈ S.getUsers t.generator false then
    let r : Res G Unit :=
      if t.isTournamentStarted then
        match t.disqualifiedUsers with
        | none => .threw t
        | some dq =>
          if dq.get user = some true then .ok () t
          else (t.disqualifyUser S w user .absent none).andThen fun _ t1 => .ok () t1
      else t.removeUser S w user .absent
    r.andThen fun _ t1 => .ok () (t1.say .roomUpdate)
  else .ok () t

/-- A fresh `Map` in which every user of the array is set to `v`. -/
def freshMap {α : Type} (users : List User) (v : α) : JMap α :=
  users.foldl (fun m u => m.set u v) []

/-- The method `startTournament(output)`. -/
def Tournament.startTournament (S : Strategy G) (w : World) (output : Output)
    (t : Tournament G) : Res G Bool :=
  if t.isTournamentStarted then
    (sendReply w output .AlreadyStarted t).andThen fun _ t1 => .ok false t1
  else
    (t.purgeGhostUsers S w).andThen fun _ t1 =>
      let users := S.getUsers t1.generator false
      if users.length < 2 then
        (sendReply w output .NotEnoughUsers t1).andThen fun _ t2 => .ok false t2
      else
        let g1 := if S.hasGenerateBracket t1.generator then S.generateBracket t1.generator
          else t1.generator
        let t2 := { t1 with
          generator := S.freezeBracket g1,
          availableMatches := some (freshMap users []),
          inProgressMatches := some (freshMap users none),
          pendingChallenges := some (freshMap users none),
          disqualifiedUsers := some (freshMap users false),
          isAutoDisqualifyWarned := some (freshMap users false),
          lastActionTimes := some (freshMap users w.now),
          isTournamentStarted := true }
        let t3 := t2.clearIfSet t2.autoStartTimeout
        let t4 := (({ t3 with isBracketInvalidated := true }).say .start).say .roomUpdateStarted
        (t4.update S w).andThen fun _ t5 => .ok true t5

/-- The method `addUser(user, isAllowAlts, output)`. -/
def Tournament.addUser (S : Strategy G) (w : World) (user : User) (isAllowAlts : Bool)
    (output : Output) (t : Tournament G) : Res G Unit :=
  if !w.named user then sendReply w output .UserNotNamed t
  else
    let users := S.getUsers t.generator false
    if t.playerCap ≠ 0 ∧ users.length ≥ t.playerCap then sendReply w output .Full t
    else if !isAllowAlts ∧ users.any (fun u => w.latestIp u = w.latestIp user) then
      sendReply w output .AltUserAlreadyAdded t
    else
      let r := S.addUser t.generator user
      let t0 := { t with generator := r.1 }
      match r.2 with
      | some e => sendReply w output (.strategy e) t0
      | none =>
        let t1 := (t0.say (.join user)).say (.isJoined user true)
        (({ t1 with isBracketInvalidated := true }).update S w).andThen fun _ t2 =>
          if t2.playerCap = users.length + 1 then
            if t2.autostartcap then
              (t2.startTournament S w output).andThen fun _ t3 => .ok () t3
            else .ok () (t2.say .nowFull)
          else .ok () t2

/-- The loop of `setGenerator`: every current member is added to the
candidate generator; the error codes of the rejections are collected in order. -/
def addAll (S : Strategy G) : List User → G → List Nat → G × List Nat
  | [], g, errs => (g, errs)
  | u :: us, g, errs =>
    match S.addUser g u with
    | (g1, some e) => addAll S us g1 (errs ++ [e])
    | (g1, none) => addAll S us g1 errs

/-- The replies of `setGenerator`, one per rejected member, in order. -/
def replyAll (w : World) (output : Output) : List Nat → Tournament G → Res G Unit
  | [], t => .ok () t
  | e :: es, t => (sendReply w output (.strategy e) t).andThen fun _ t1 => replyAll w output es t1

/-- The method `setGenerator(generator, output)`; `none` is `undefined`. -/
def Tournament.setGenerator (S : Strategy G) (w : World) (generator : G) (output : Output)
    (t : Tournament G) : Res G (Option Bool) :=
  if t.isTournamentStarted then
    (sendReply w output .BracketFrozen t).andThen fun _ t1 => .ok none t1
  else
    let r := addAll S (S.getUsers t.generator false) generator []
    if r.2 ≠ [] then (replyAll w output r.2 t).andThen fun _ t1 => .ok none t1
    else
      let t1 := ({ t with generator := r.1 }).say (.roomUpdateGenerator (S.name r.1))
      (({ t1 with isBracketInvalidated := true }).update S w).andThen fun _ t2 =>
        .ok (some true) t2

/-- The loop of `forceEnd()` over `inProgressMatches`. -/
def detachAll : JMap (Option Match) → Tournament G → Tournament G
  | [], t => t
  | (_, some m) :: rest, t => detachAll rest ((t.detach m.room).say (.battleRaw m.room))
  | (_, none) :: rest, t => detachAll rest t

/-- The method `forceEnd()`. -/
def Tournament.forceEnd (t : Tournament G) : Res G Unit :=
  let r : Res G Unit :=
    if t.isTournamentStarted then
      let t1 := t.clearIfSet t.autoDisqualifyTimer
      match t1.inProgressMatches with
      | none => .threw t1
      | some ip => .ok () (detachAll ip t1)
    else .ok () (t.clearIfSet t.autoStartTimeout)
  r.andThen fun _ t2 => .ok () (({ t2 with isEnded := true }).say .forceend)

/-- The function `deleteTournament(id, output)` on an existing tournament. -/
def Tournament.deleteTournament (t : Tournament G) : Res G Bool :=
  t.forceEnd.andThen fun _ t1 => .ok true { t1 with registered := false }


/-! ## Timers -/

/-- The test `timeout < minimum || isNaN(timeout)` on a numeric argument. -/
def Timeout.below (timeout : Timeout) (minimum : Int) : Bool :=
  match timeout with
  | .nan => true
  | .infinity => false
  | .finite ms => decide (ms < minimum)

/-- The argument of `setAutoDisqualifyTimeout` as its two readers see it: the
test of line 504 (`<` and `isNaN`) converts it with `Number`, and line 509
stores `parseFloat` of it.  For a number, and for a string holding a decimal
literal, both readings are the same number.  For a string holding a
hexadecimal, octal or binary literal, such as "0x10000", `Number` gives the
value of the literal while `parseFloat` stops after the leading `0`. -/
inductive TimeoutArg
  | number (value : Timeout)
  | radixLiteral (value : Nat)
  deriving DecidableEq, Repr

/-- The number the comparison `timeout < …` and `isNaN(timeout)` read. -/
def TimeoutArg.toNumber : TimeoutArg → Timeout
  | .number value => value
  | .radixLiteral value => .finite value

/-- The value of `parseFloat(timeout)`. -/
def TimeoutArg.parseFloat : TimeoutArg → Timeout
  | .number value => value
  | .radixLiteral _ => .finite 0

/-- The method `setAutoStartTimeout(timeout, output)`; `timeout` is the value
of `parseFloat(timeout)`, which line 486 computes before any test. -/
def Tournament.setAutoStartTimeout (w : World) (timeout : Timeout) (output : Output)
    (t : Tournament G) : Res G Bool :=
  if t.isTournamentStarted then
    (sendReply w output .AlreadyStarted t).andThen fun _ t1 => .ok false t1
  else if timeout.below AUTO_START_MINIMUM_TIMEOUT then
    (sendReply w output .InvalidAutoStartTimeout t).andThen fun _ t1 => .ok false t1
  else
    let t1 := t.clearIfSet t.autoStartTimeout
    match timeout with
    | .finite ms =>
      let r := t1.setTimeout (.autoStart output) ms
      .ok true (({ r.2 with autoStartTimeout := some r.1 }).say (.autostartOn ms))
    | _ => .ok true (t1.say .autostartOff)

/-- The body of the `lastActionTimes.forEach` callback of `runAutoDisqualify`
for one entry `(user, time)`.  The branch that computes `remaining` is only
reached with a finite timeout. -/
def Tournament.sweepVisit (S : Strategy G) (w : World) (output : Output) (user : User)
    (time : Int) (t : Tournament G) : Res G Unit :=
  match t.availableMatches, t.pendingChallenges with
  | some av, some pc =>
    match av.get user with
    | none => .threw t
    | some e =>
      let pending := pc.get user
      let hasPending : Bool := match pending with
        | some (some _) => true
        | _ => false
      let isInitiator : Bool := match pending with
        | some (some (.toUser _ _)) => true
        | _ => false
      if e.length = 0 ∧ hasPending = false then .ok () t
      else if isInitiator then .ok () t
      else
        match t.isAutoDisqualifyWarned with
        | none => .threw t
        | some warned =>
          let isWarned : Bool := warned.get user = some true
          let overdue : Bool := match t.autoDisqualifyTimeout with
            | some limit => decide (w.now > time + limit)
            | none => false
          let nearing : Bool := match t.autoDisqualifyTimeout with
            | some limit => decide (w.now > time + limit - AUTO_DISQUALIFY_WARNING_TIMEOUT)
            | none => false
          if overdue ∧ isWarned then
            (t.disqualifyUser S w user output (some 1)).andThen fun _ t1 =>
              .ok () (t1.say .roomUpdate)
          else if nearing ∧ isWarned = false then
            let remaining := t.autoDisqualifyTimeout.getD 0 - w.now + time
            if remaining ≤ 0 then
              match t.lastActionTimes with
              | none => .threw t
              | some la =>
                .ok () (({ t with
                  lastActionTimes :=
                    some (la.set user (w.now - t.autoDisqualifyTimeout.getD 0 +
                      AUTO_DISQUALIFY_WARNING_TIMEOUT)),
                  isAutoDisqualifyWarned := some (warned.set user true) }).say
                  (.autodqTarget user AUTO_DISQUALIFY_WARNING_TIMEOUT))
            else
              .ok () (({ t with isAutoDisqualifyWarned := some (warned.set user true) }).say
                (.autodqTarget user remaining))
          else .ok () { t with isAutoDisqualifyWarned := some (warned.set user false) }
  | _, _ => .threw t

/-- The loop `lastActionTimes.forEach` of `runAutoDisqualify`.  A `Map` is
iterated live: the entry at position `i` is read when it is reached, and an
entry appended meanwhile is visited too, so the loop walks positions under
a fuel bound. -/
def Tournament.sweepLoop (S : Strategy G) (w : World) (output : Output) :
    Nat → Nat → Tournament G → Res G Unit
  | 0, _, t => .ok () t
  | fuel + 1, i, t =>
    match t.lastActionTimes with
    | none => .threw t
    | some la =>
      match la[i]? with
      | none => .ok () t
      | some (user, time) =>
        (t.sweepVisit S w output user time).andThen fun _ t1 =>
          Tournament.sweepLoop S w output fuel (i + 1) t1

/-- The fuel of a sweep: only keys of `availableMatches` can be appended to
`lastActionTimes` while it runs. -/
def Tournament.sweepFuel (t : Tournament G) : Nat :=
  (t.lastActionTimes.getD []).length + (t.availableMatches.getD []).length + 1

/-- The method `runAutoDisqualify(output)`; `none` is `undefined`. -/
def Tournament.runAutoDisqualify (S : Strategy G) (w : World) (output : Output)
    (t : Tournament G) : Res G (Option Bool) :=
  if !t.isTournamentStarted then
    (sendReply w output .NotStarted t).andThen fun _ t1 => .ok (some false) t1
  else
    let t1 := t.clearIfSet t.autoDisqualifyTimer
    (Tournament.sweepLoop S w output t1.sweepFuel 0 t1).andThen fun _ t2 =>
      match t2.autoDisqualifyTimeout with
      | some limit =>
        if t2.isEnded then .ok none t2
        else
          let r := t2.setTimeout .autoDisqualify limit
          .ok none { r.2 with autoDisqualifyTimer := some r.1 }
      | none => .ok none t2

/-- Lines 509 to 514 of `setAutoDisqualifyTimeout`: store the parsed timeout
and announce it.  A parsed value that passed the test of line 504 is never
`NaN`. -/
def Tournament.storeAutoDisqualifyTimeout (t : Tournament G) (timeout : Timeout) :
    Tournament G :=
  match timeout with
  | .finite ms => ({ t with autoDisqualifyTimeout := some ms }).say (.autodqOn ms)
  | _ => ({ t with autoDisqualifyTimeout := none }).say .autodqOff

/-- The method `setAutoDisqualifyTimeout(timeout, output)`: the test reads the
argument as it was passed, and what is stored is `parseFloat` of it. -/
def Tournament.setAutoDisqualifyTimeout (S : Strategy G) (w : World) (timeout : TimeoutArg)
    (output : Output) (t : Tournament G) : Res G Bool :=
  if timeout.toNumber.below AUTO_DISQUALIFY_WARNING_TIMEOUT then
    (sendReply w output .InvalidAutoDisqualifyTimeout t).andThen fun _ t1 => .ok false t1
  else
    let t1 := t.storeAutoDisqualifyTimeout timeout.parseFloat
    if t1.isTournamentStarted then
      (t1.runAutoDisqualify S w .absent).andThen fun _ t2 => .ok true t2
    else .ok true t1


/-! ## Challenge handshake and match results -/

/-- The method `challenge(from, to, output)`.  The promise callback of
`prepBattle` is recorded among the unresolved setups. -/
def Tournament.challenge (S : Strategy G) (w : World) (source target : User) (output : Output)
    (t : Tournament G) : Res G Unit :=
  if !t.isTournamentStarted then sendReply w output .NotStarted t
  else
    match t.availableMatches with
    | none => .threw t
    | some av =>
      let listed : Bool := match av.get source with
        | some e => decide (target ∈ e)
        | none => false
      if !listed then sendReply w output .InvalidMatch t
      else if t.busy S source || t.busy S target then .ok () (t.say .backendBreaks)
      else
        let t1 := (t.setBusy S source true).setBusy S target true
        let t2 := { t1 with isAvailableMatchesInvalidated := true }
        (t2.purgeGhostUsers S w).andThen fun _ t3 =>
        (t3.update S w).andThen fun _ t4 =>
          .ok () { t4 with setups := t4.setups ++ [.challenge source target output] }

/-- The method `finishChallenge(from, to, output, result)`. -/
def Tournament.finishChallenge (S : Strategy G) (w : World) (source target : User)
    (result : Bool) (t : Tournament G) : Res G Unit :=
  if !result then
    let t1 := (t.setBusy S source false).setBusy S target false
    ({ t1 with isAvailableMatchesInvalidated := true }).update S w
  else
    match t.lastActionTimes with
    | none => .threw t
    | some la =>
      let t1 := { t with lastActionTimes := some ((la.set source w.now).set target w.now) }
      match t1.pendingChallenges with
      | none => .threw t1
      | some pc =>
        let pc1 := pc.set source (some (.toUser target (w.team source)))
        let pc2 := pc1.set target (some (.fromUser source (w.team source)))
        let t2 := { t1 with pendingChallenges := some pc2 }
        let t3 := (t2.say (.challenging source (some target))).say (.challenged target (some source))
        ({ t3 with isBracketInvalidated := true }).update S w

/-- The method `cancelChallenge(user, output)`. -/
def Tournament.cancelChallenge (S : Strategy G) (w : World) (user : User) (output : Output)
    (t : Tournament G) : Res G Unit :=
  if !t.isTournamentStarted then sendReply w output .NotStarted t
  else
    match t.pendingChallenges with
    | none => .threw t
    | some pc =>
      match pc.get user with
      | some (some (.toUser target _)) =>
        let t1 := (t.setBusy S user false).setBusy S target false
        let t2 := { t1 with pendingChallenges := some ((pc.set user none).set target none) }
        let t3 := (t2.say (.challenging user none)).say (.challenged target none)
        ({ t3 with isBracketInvalidated := true,
                   isAvailableMatchesInvalidated := true }).update S w
      | _ => .ok () t

/-- The method `acceptChallenge(user, output)`.  The promise callback of
`prepBattle` is recorded among the unresolved setups. -/
def Tournament.acceptChallenge (w : World) (user : User) (output : Output)
    (t : Tournament G) : Res G Unit :=
  if !t.isTournamentStarted then sendReply w output .NotStarted t
  else
    match t.pendingChallenges with
    | none => .threw t
    | some pc =>
      match pc.get user with
      | some (some (.fromUser source team)) =>
        .ok () { t with setups := t.setups ++ [.accept user (.fromUser source team)] }
      | _ => .ok () t

/-- The truthiness of `pendingChallenges.get(user)`. -/
def hasChallenge (pc : JMap (Option Challenge)) (user : User) : Bool :=
  match pc.get user with
  | some (some _) => true
  | _ => false

/-- Lines 641 to 651 of `finishAcceptChallenge`, once the battle room exists:
the challenge becomes a match. -/
def Tournament.beginMatch (S : Strategy G) (w : World) (user source : User) (room : Nat)
    (pc : JMap (Option Challenge)) (t : Tournament G) : Res G Unit :=
  let t1 := { t with
    tourRooms := t.tourRooms ++ [BattleRoom.mk room source user],
    pendingChallenges := some ((pc.set source none).set user none) }
  let t2 := (t1.say (.challenging source none)).say (.challenged user none)
  match t2.inProgressMatches with
  | none => .threw t2
  | some ip =>
    let t3 := { t2 with inProgressMatches := some (ip.set source (some ⟨user, room⟩)) }
    let t4 := (t3.say (.battlestart source user room)).say .roomUpdate
    (({ t4 with isBracketInvalidated := true }).runAutoDisqualify S w .room).andThen
      fun _ t5 => t5.update S w

/-- The method `finishAcceptChallenge(user, challenge, result)`.  A challenge
object without `from` makes the read of `challenge.from.connected` throw. -/
def Tournament.finishAcceptChallenge (S : Strategy G) (w : World) (user : User)
    (challenge : Challenge) (result : Bool) (t : Tournament G) : Res G Unit :=
  if !result then .ok () t
  else
    match challenge with
    | .toUser _ _ => .threw t
    | .fromUser source team =>
      if !w.connected source || !w.connected user then .ok () t
      else
        match t.pendingChallenges with
        | none => .threw t
        | some pc =>
          if !hasChallenge pc source then .ok () t
          else if !hasChallenge pc user then .ok () t
          else
            match w.startBattle source user team (w.team user) with
            | none => .ok () t
            | some room => t.beginMatch S w user source room pc

/-- The outcome computed at the top of `onBattleWin`. -/
def outcomeOf (source target : User) (winner : Option User) : Outcome :=
  if some source = winner then .win
  else if some target = winner then .loss
  else .draw

/-- The common tail of `onBattleWin`: free both players and drop the match. -/
def Tournament.freeMatch (S : Strategy G) (source target : User) (t : Tournament G) :
    Res G Unit :=
  let t1 := (t.setBusy S source false).setBusy S target false
  match t1.inProgressMatches with
  | none => .threw t1
  | some ip =>
    .ok () { t1 with inProgressMatches := some (ip.set source none),
                     isBracketInvalidated := true,
                     isAvailableMatchesInvalidated := true }

/-- The method `onBattleWin(room, winner)`; `winner` is `none` when the battle
reports no winner.  The error message of a rejected result reads
`winner.userid`, which throws without a winner. -/
def Tournament.onBattleWin (S : Strategy G) (w : World) (room : BattleRoom)
    (winner : Option User) (score : Nat × Nat) (t : Tournament G) : Res G Unit :=
  let source := room.p1
  let target := room.p2
  let result := outcomeOf source target winner
  if result = .draw ∧ S.isDrawingSupported t.generator = false then
    ((t.say (.battleend source target result true)).freeMatch S source target).andThen
      fun _ t1 =>
    (t1.runAutoDisqualify S w .absent).andThen fun _ t2 =>
    (t2.update S w).andThen fun _ t3 => .ok () (t3.say .roomUpdate)
  else
    let r := S.setMatchResult t.generator (source, target) result score
    let t0 := { t with generator := r.1 }
    match r.2 with
    | some e =>
      match winner with
      | none => .threw t0
      | some _ => .ok () ((t0.say (.setMatchResultError e)).say .roomUpdate)
    | none =>
      ((t0.say (.battleend source target result false)).freeMatch S source target).andThen
        fun _ t1 =>
      if S.isTournamentEnded t1.generator then
        .ok () ((t1.onTournamentEnd S).say .roomUpdate)
      else
        (t1.runAutoDisqualify S w .absent).andThen fun _ t2 =>
        (t2.update S w).andThen fun _ t3 => .ok () (t3.say .roomUpdate)


/-! ## Construction and targeted resync -/

/-- The constructor, followed by the registration `createTournament` makes in
`exports.tournaments`; `playerCap` is the cap already resolved to a number. -/
def Tournament.create (S : Strategy G) (w : World) (generator : G) (playerCap : Nat) :
    Res G Unit :=
  let t : Tournament G :=
    { playerCap := playerCap, generator := generator, autostartcap := false,
      isBracketInvalidated := true, lastBracketUpdate := 0, bracketUpdateTimer := none,
      bracketCache := none, isTournamentStarted := false, availableMatches := none,
      inProgressMatches := none, isAvailableMatchesInvalidated := true,
      availableMatchesCache := none, pendingChallenges := none,
      autoDisqualifyTimeout := none, autoDisqualifyTimer := none, autoStartTimeout := none,
      isEnded := false, disqualifiedUsers := none, isAutoDisqualifyWarned := none,
      lastActionTimes := none, timers := [], nextTimerId := 1, setups := [],
      tourRooms := [], registered := true, log := [.create, .roomUpdateInfo] }
  t.update S w

/-- The method `updateFor(targetUser, connection)`; `conn` is `none` when the
connection defaults to the user. -/
def Tournament.updateFor (S : Strategy G) (targetUser : User) (conn : Option Nat)
    (t : Tournament G) : Res G Unit :=
  if t.isEnded then .ok () t
  else
    let staleBracket : Bool := t.bracketUpdateTimer.isNone && t.isBracketInvalidated
    let staleMatches : Bool := t.isTournamentStarted && t.isAvailableMatchesInvalidated
    if staleBracket || staleMatches then
      .ok () (t.say (.updateForError staleBracket staleMatches))
    else
      let isJoined : Bool := decide (targetUser ∈ S.getUsers t.generator false)
      let t1 := t.say (.toConnection targetUser conn
        (.update t.isTournamentStarted isJoined t.bracketCache))
      if t.isTournamentStarted && isJoined then
        match t1.availableMatchesCache with
        | none => .threw t1
        | some c =>
          match c.challenges.get targetUser, c.challengeBys.get targetUser with
          | some ch, some cb =>
            let t2 := t1.say (.toConnection targetUser conn (.lists ch cb))
            match t2.pendingChallenges with
            | none => .threw t2
            | some pc =>
              let t3 := match pc.get targetUser with
                | some (some (.toUser other _)) =>
                  t2.say (.toConnection targetUser conn (.challenging other))
                | some (some (.fromUser other _)) =>
                  t2.say (.toConnection targetUser conn (.challenged other))
                | _ => t2
              .ok () (t3.say (.toConnection targetUser conn .updateEnd))
          | _, _ => .threw t1
      else .ok () (t1.say (.toConnection targetUser conn .updateEnd))

/-- The callback of the bracket-update timer: clear the handle, then `update()`. -/
def Tournament.fireBracketTimer (S : Strategy G) (w : World) (t : Tournament G) : Res G Unit :=
  ({ t with bracketUpdateTimer := none }).update S w

/-! ## A round-robin generator for concrete runs -/

/-- Modelled from the spec: the round-robin generator, whose file
`generator-round-robin.js` is not part of the unit.  It keeps the members in
join order, the frozen flag, the busy and disqualified members and the pairs
already played. -/
structure RoundRobin where
  users : List User
  isBracketFrozen : Bool
  busy : List User
  disqualified : List User
  played : List (User × User)
  deriving DecidableEq, Repr

/-- The pairs `(a, b)` with `a` listed before `b`. -/
def orderedPairs : List User → List (User × User)
  | [] => []
  | a :: rest => rest.map (fun b => (a, b)) ++ orderedPairs rest

/-- The pairs of two different members, neither disqualified, that a
round-robin bracket still has to play. -/
def RoundRobin.openPairs (g : RoundRobin) : List (User × User) :=
  (orderedPairs g.users).filter fun p =>
    decide (p.1 ≠ p.2) && !(g.played.contains p) && !(g.disqualified.contains p.1) &&
      !(g.disqualified.contains p.2)

/-- Modelled from the spec: the contract of section 6 for the round-robin
generator.  Error codes: 1 `BracketFrozen`, 2 `UserAlreadyAdded`,
3 `UserNotAdded`, 4 `BracketNotFrozen`, 5 `InvalidMatch`. -/
def roundRobin : Strategy RoundRobin where
  name := fun _ => 0
  isDrawingSupported := fun _ => true
  addUser := fun g u =>
    if g.isBracketFrozen then (g, some 1)
    else if u ∈ g.users then (g, some 2)
    else ({ g with users := g.users ++ [u] }, none)
  removeUser := fun g u =>
    if g.isBracketFrozen then (g, some 1)
    else if u ∈ g.users then ({ g with users := g.users.filter (fun x => x ≠ u) }, none)
    else (g, some 3)
  replaceUser := fun g u r =>
    if u ∈ g.users then
      if r ∈ g.users then (g, some 2)
      else ({ g with users := g.users.map (fun x => if x = u then r else x) }, none)
    else (g, some 3)
  getUsers := fun g remaining =>
    if remaining then g.users.filter (fun x => !(g.disqualified.contains x)) else g.users
  hasGenerateBracket := fun _ => false
  generateBracket := fun g => g
  freezeBracket := fun g => { g with isBracketFrozen := true }
  getAvailableMatches := fun g =>
    if g.isBracketFrozen then
      .ok (g.openPairs.filter fun p => !(g.busy.contains p.1) && !(g.busy.contains p.2))
    else .error 4
  getBracketData := fun g => g.played.length
  disqualifyUser := fun g u =>
    if g.isBracketFrozen then
      if u ∈ g.users then
        ({ g with disqualified := if u ∈ g.disqualified then g.disqualified
                                  else g.disqualified ++ [u] }, none)
      else (g, some 3)
    else (g, some 4)
  setUserBusy := fun g u b =>
    if b then { g with busy := if u ∈ g.busy then g.busy else g.busy ++ [u] }
    else { g with busy := g.busy.filter (fun x => x ≠ u) }
  getUserBusy := fun g u => g.busy.contains u
  setMatchResult := fun g p _ _ =>
    if g.isBracketFrozen then
      if p ∈ g.openPairs then ({ g with played := g.played ++ [p] }, none) else (g, some 5)
    else (g, some 4)
  isTournamentEnded := fun g => g.openPairs.isEmpty
  getResults := fun g => [g.users.filter (fun x => !(g.disqualified.contains x))]

/-- A world in which every user is named, connected and genuine, each has
its own address, and every battle room can be created. -/
def calmWorld (now : Int) : World where
  now := now
  named := fun _ => true
  latestIp := fun u => u
  connected := fun _ => true
  team := fun u => u
  isExact := fun _ => true
  startBattle := fun a b _ _ => some (100 * a + b)
  roomCanReply := false

/-! ## Devices of the proofs and concrete runs -/

/-- The fields `update()` never writes. -/
structure Core (G : Type) where
  playerCap : Nat
  generator : G
  autostartcap : Bool
  isTournamentStarted : Bool
  inProgressMatches : Option (JMap (Option Match))
  pendingChallenges : Option (JMap (Option Challenge))
  autoDisqualifyTimeout : Option Int
  autoDisqualifyTimer : Option Nat
  autoStartTimeout : Option Nat
  isEnded : Bool
  disqualifiedUsers : Option (JMap Bool)
  isAutoDisqualifyWarned : Option (JMap Bool)
  setups : List Setup
  tourRooms : List BattleRoom
  registered : Bool

def Tournament.core (t : Tournament G) : Core G :=
  { playerCap := t.playerCap, generator := t.generator, autostartcap := t.autostartcap,
    isTournamentStarted := t.isTournamentStarted, inProgressMatches := t.inProgressMatches,
    pendingChallenges := t.pendingChallenges, autoDisqualifyTimeout := t.autoDisqualifyTimeout,
    autoDisqualifyTimer := t.autoDisqualifyTimer, autoStartTimeout := t.autoStartTimeout,
    isEnded := t.isEnded, disqualifiedUsers := t.disqualifiedUsers,
    isAutoDisqualifyWarned := t.isAutoDisqualifyWarned, setups := t.setups,
    tourRooms := t.tourRooms, registered := t.registered }

/-- The lifecycle facts no method undoes: an ended tournament stays ended, a
started one stays started, and once it is both no timer is added. -/
structure Mono (t t1 : Tournament G) : Prop where
  ended : t.isEnded = true → t1.isEnded = true
  started : t.isTournamentStarted = true → t1.isTournamentStarted = true
  timers : t.isEnded = true → t.isTournamentStarted = true → ∀ x ∈ t1.timers, x ∈ t.timers

/-- Whether a method returned (did not throw). -/
def Res.returned {G α : Type} : Res G α → Bool
  | .ok _ _ => true
  | .threw _ => false

/-- The value a method returned, if it returned. -/
def Res.value {G α : Type} : Res G α → Option α
  | .ok a _ => some a
  | .threw _ => none

/-- The lifecycle calls that the `Ended` state is said to disable. -/
inductive LifecycleCall (G : Type)
  | startTournament (output : Output)
  | addUser (user : User) (isAllowAlts : Bool) (output : Output)
  | removeUser (user : User) (output : Output)
  | replaceUser (user replacementUser : User) (output : Output)
  | setGenerator (generator : G) (output : Output)
  | disqualifyUser (user : User) (output : Output) (reason : Option Nat)
  | setAutoStartTimeout (timeout : Timeout) (output : Output)
  | setAutoDisqualifyTimeout (timeout : TimeoutArg) (output : Output)

/-- The state a lifecycle call leaves, whether it returned or threw. -/
def LifecycleCall.run (S : Strategy G) (w : World) (t : Tournament G) :
    LifecycleCall G → Tournament G
  | .startTournament o => (t.startTournament S w o).state
  | .addUser u alts o => (t.addUser S w u alts o).state
  | .removeUser u o => (t.removeUser S w u o).state
  | .replaceUser u r o => (t.replaceUser S w u r o).state
  | .setGenerator g o => (t.setGenerator S w g o).state
  | .disqualifyUser u o reason => (t.disqualifyUser S w u o reason).state
  | .setAutoStartTimeout timeout o => (t.setAutoStartTimeout w timeout o).state
  | .setAutoDisqualifyTimeout timeout o => (t.setAutoDisqualifyTimeout S w timeout o).state

/-- A round robin that, against the contract, still lets members join and
leave once the bracket is frozen. -/
def laxRoundRobin : Strategy RoundRobin :=
  { roundRobin with
    addUser := fun g u =>
      if u ∈ g.users then (g, some 2) else ({ g with users := g.users ++ [u] }, none)
    removeUser := fun g u =>
      if u ∈ g.users then ({ g with users := g.users.filter (fun x => x ≠ u) }, none)
      else (g, some 3) }

/-- A tournament over `S` with the given members, created at time 5000. -/
def formingWith (S : Strategy G) (g : G) (members : List User) : Res G Unit :=
  (Tournament.create S (calmWorld 5000) g 0).andThen fun _ t =>
  members.foldl (fun r u => r.andThen fun _ t1 =>
      t1.addUser S (calmWorld 5001) u false (.caller 0)) (Res.ok () t)

/-- A tournament over `S` with the given members, started at time 9000 by
caller 0. -/
def startedWith (S : Strategy G) (g : G) (members : List User) : Res G Bool :=
  (formingWith S g members).andThen fun _ t =>
    t.startTournament S (calmWorld 9000) (.caller 0)

def emptyRoundRobin : RoundRobin := ⟨[], false, [], [], []⟩

/-- Two members joined, then the tournament was force-ended before any start. -/
def formingEnded : Tournament RoundRobin :=
  ((formingWith roundRobin emptyRoundRobin [1, 2]).andThen fun _ t => t.forceEnd).state

/-- Three members in a started tournament over the lax round robin. -/
def laxStarted : Tournament RoundRobin :=
  (startedWith laxRoundRobin emptyRoundRobin [1, 2, 3]).state

/-- A started three-player round robin, force-ended. -/
def startedEnded : Tournament RoundRobin :=
  ((startedWith roundRobin emptyRoundRobin [1, 2, 3]).andThen fun _ t => t.forceEnd).state

/-- A generator that behaves as `S` and counts the calls of `disqualifyUser`. -/
def countingDisqualify (S : Strategy G) : Strategy (G × Nat) where
  name := fun g => S.name g.1
  isDrawingSupported := fun g => S.isDrawingSupported g.1
  addUser := fun g u => (((S.addUser g.1 u).1, g.2), (S.addUser g.1 u).2)
  removeUser := fun g u => (((S.removeUser g.1 u).1, g.2), (S.removeUser g.1 u).2)
  replaceUser := fun g u r => (((S.replaceUser g.1 u r).1, g.2), (S.replaceUser g.1 u r).2)
  getUsers := fun g b => S.getUsers g.1 b
  hasGenerateBracket := fun g => S.hasGenerateBracket g.1
  generateBracket := fun g => (S.generateBracket g.1, g.2)
  freezeBracket := fun g => (S.freezeBracket g.1, g.2)
  getAvailableMatches := fun g => S.getAvailableMatches g.1
  getBracketData := fun g => S.getBracketData g.1
  disqualifyUser := fun g u => (((S.disqualifyUser g.1 u).1, g.2 + 1), (S.disqualifyUser g.1 u).2)
  setUserBusy := fun g u b => (S.setUserBusy g.1 u b, g.2)
  getUserBusy := fun g u => S.getUserBusy g.1 u
  setMatchResult := fun g p o s =>
    (((S.setMatchResult g.1 p o s).1, g.2), (S.setMatchResult g.1 p o s).2)
  isTournamentEnded := fun g => S.isTournamentEnded g.1
  getResults := fun g => S.getResults g.1

/-- Three players in a started round robin that counts disqualifications;
player 2 has been disqualified once. -/
def countedDisqualified : Tournament (RoundRobin × Nat) :=
  ((startedWith (countingDisqualify roundRobin) (emptyRoundRobin, 0) [1, 2, 3]).andThen
    fun _ t => t.disqualifyUser (countingDisqualify roundRobin) (calmWorld 9001) 2 (.caller 9)
      (some 0)).state

/-- Three players 1, 2, 3 in a started round robin. -/
def threeStarted : Tournament RoundRobin :=
  (startedWith roundRobin emptyRoundRobin [1, 2, 3]).state

/-- Player 1 challenges 2; 2 is disqualified before the setup of 1 resolves. -/
def raceChallenged : Tournament RoundRobin :=
  (threeStarted.challenge roundRobin (calmWorld 9001) 1 2 (.caller 1)).state

def raceDisqualified : Res RoundRobin Bool :=
  raceChallenged.disqualifyUser roundRobin (calmWorld 9002) 2 (.caller 9) (some 0)

def raceFinished : Res RoundRobin Unit :=
  raceDisqualified.state.finishChallenge roundRobin (calmWorld 9003) 1 2 true

/-- Four players 1, 2, 3, 4 in a started round robin. -/
def fourStarted : Tournament RoundRobin :=
  (startedWith roundRobin emptyRoundRobin [1, 2, 3, 4]).state

/-- Player 1 challenges 2 and the setup succeeds; 2 asks to accept. -/
def staleOffered : Tournament RoundRobin :=
  ((fourStarted.challenge roundRobin (calmWorld 9001) 1 2 (.caller 1)).andThen fun _ t =>
   (t.finishChallenge roundRobin (calmWorld 9002) 1 2 true).andThen fun _ t1 =>
   t1.acceptChallenge (calmWorld 9003) 2 (.caller 2)).state

/-- While the setup of 2 is unresolved, 1 cancels and challenges 4, and 2
challenges 3. -/
def staleMoved : Tournament RoundRobin :=
  ((staleOffered.cancelChallenge roundRobin (calmWorld 9004) 1 (.caller 1)).andThen fun _ t =>
   (t.challenge roundRobin (calmWorld 9005) 1 4 (.caller 1)).andThen fun _ t1 =>
   (t1.finishChallenge roundRobin (calmWorld 9006) 1 4 true).andThen fun _ t2 =>
   (t2.challenge roundRobin (calmWorld 9007) 2 3 (.caller 2)).andThen fun _ t3 =>
   t3.finishChallenge roundRobin (calmWorld 9008) 2 3 true).state

/-- The setup of 2 for the cancelled challenge resolves. -/
def staleAccepted : Res RoundRobin Unit :=
  staleMoved.finishAcceptChallenge roundRobin (calmWorld 9009) 2 (.fromUser 1 1) true

/-- The per-player maps and the started flag are the same in both states. -/
structure SameMaps (t t1 : Tournament G) : Prop where
  started : t1.isTournamentStarted = t.isTournamentStarted
  availableMatches : t1.availableMatches = t.availableMatches
  inProgressMatches : t1.inProgressMatches = t.inProgressMatches
  pendingChallenges : t1.pendingChallenges = t.pendingChallenges
  disqualifiedUsers : t1.disqualifiedUsers = t.disqualifiedUsers
  isAutoDisqualifyWarned : t1.isAutoDisqualifyWarned = t.isAutoDisqualifyWarned
  lastActionTimes : t1.lastActionTimes = t.lastActionTimes

/-- Pending challenges are only ever voided between the two states: the map
stays in place and a user without a challenge still has none. -/
def Voids (t t1 : Tournament G) : Prop :=
  ∀ pc, t.pendingChallenges = some pc →
    ∃ pc1, t1.pendingChallenges = some pc1 ∧
      ∀ x, hasChallenge pc x = false → hasChallenge pc1 x = false

/-- The other party named by a pending challenge entry. -/
def partnerOf : Challenge → User
  | .toUser q _ => q
  | .fromUser q _ => q

/-- The pending challenge of a user: `none` when the entry is `null` or absent. -/
def pendOf (pc : JMap (Option Challenge)) (x : User) : Option Challenge := (pc.get x).join

/-- The match a user initiated: `none` when the entry is `null` or absent. -/
def matOf (ip : JMap (Option Match)) (x : User) : Option Match := (ip.get x).join

/-- Whether a user is marked disqualified. -/
def dqOf (dq : JMap Bool) (x : User) : Bool := decide (dq.get x = some true)

/-- The pending challenges after `disqualifyUser` voided the challenge of `p`. -/
def voidPc (p : User) (pc : JMap (Option Challenge)) : JMap (Option Challenge) :=
  match pendOf pc p with
  | some c => (pc.set p none).set (partnerOf c) none
  | none => pc

/-- The matches after `disqualifyUser` dropped the match `p` initiated. -/
def dropFrom (p : User) (ip : JMap (Option Match)) : JMap (Option Match) :=
  match matOf ip p with
  | some _ => ip.set p none
  | none => ip

/-- The matches after `disqualifyUser` dropped the match `p` is the opponent of. -/
def dropTo (p : User) (ip : JMap (Option Match)) : JMap (Option Match) :=
  match findMatchTo p ip none with
  | some k => ip.set k none
  | none => ip

/-- The strategy obeys the busy-flag contract: `getUserBusy` reads what
`setUserBusy` wrote. -/
def LawfulBusy (S : Strategy G) : Prop :=
  ∀ g u b v, S.getUserBusy (S.setUserBusy g u b) v = if v = u then b else S.getUserBusy g v

/-- What the busy invariant speaks about: the busy flags of the strategy, the
pending challenge and the initiated match of every user, the disqualified
marks, and the battle rooms still linked to the tournament. -/
structure View where
  busy : User → Bool
  pend : User → Option Challenge
  mat : User → Option Match
  dq : User → Bool
  rooms : List BattleRoom

/-- A party of an in-progress match: its initiator or its opponent. -/
def InMatch (mat : User → Option Match) (x : User) : Prop :=
  (∃ m, mat x = some m) ∨ ∃ k m, mat k = some m ∧ m.toUser = x

/-- A party of a challenge whose setup has not resolved. -/
def InSetup (F : List (User × User)) (x : User) : Prop :=
  ∃ f ∈ F, x = f.1 ∨ x = f.2

/-- The consistency of busy flags, challenges, matches and unresolved setups. -/
structure Inv (F : List (User × User)) (v : View) : Prop where
  busy_reason : ∀ x, v.busy x = true →
    (v.pend x).isSome = true ∨ InMatch v.mat x ∨ InSetup F x
  engaged_busy : ∀ x, (v.pend x).isSome = true ∨ InMatch v.mat x → v.busy x = true
  setup_busy : ∀ x, InSetup F x → v.dq x = false → v.busy x = true
  not_both : ∀ x, (v.pend x).isSome = true → ¬ InMatch v.mat x
  setup_free : ∀ x, InSetup F x → v.pend x = none ∧ ¬ InMatch v.mat x
  setups_apart : F.Pairwise fun f g =>
    ∀ x, (x = f.1 ∨ x = f.2) → (x = g.1 ∨ x = g.2) → v.dq x = true
  setup_pair : ∀ f ∈ F, f.1 ≠ f.2
  pend_to : ∀ p q tm, v.pend p = some (.toUser q tm) → ∃ tm1, v.pend q = some (.fromUser p tm1)
  pend_from : ∀ p q tm, v.pend q = some (.fromUser p tm) → ∃ tm1, v.pend p = some (.toUser q tm1)
  match_apart : ∀ k k1 m m1, v.mat k = some m → v.mat k1 = some m1 → k ≠ k1 →
    k ≠ m1.toUser ∧ m.toUser ≠ k1 ∧ m.toUser ≠ m1.toUser
  rooms_match : ∀ r ∈ v.rooms, v.mat r.p1 = some ⟨r.p2, r.id⟩

/-- What the busy invariant asks of a strategy: busy flags are read as
written, they change through `setUserBusy` only, and no player is offered a
match against themself. -/
structure BusyContract (S : Strategy G) : Prop where
  lawful : LawfulBusy S
  disqualify : ∀ g u, S.getUserBusy (S.disqualifyUser g u).1 = S.getUserBusy g
  result : ∀ g p o s, S.getUserBusy (S.setMatchResult g p o s).1 = S.getUserBusy g
  noSelf : ∀ g ms, S.getAvailableMatches g = .ok ms → ∀ p ∈ ms, p.1 ≠ p.2

/-- No entry of `availableMatches` lists its own player. -/
def NoSelfPairs (t : Tournament G) : Prop :=
  ∀ av a e, t.availableMatches = some av → av.get a = some e → a ∉ e

/-- The view of a state whose three maps exist. -/
def viewOf (S : Strategy G) (t : Tournament G) (pc : JMap (Option Challenge))
    (ip : JMap (Option Match)) (dq : JMap Bool) : View :=
  ⟨t.busy S, pendOf pc, matOf ip, dqOf dq, t.tourRooms⟩

/-- A started state whose maps exist and satisfy the invariant for the
unresolved challenge setups `F`. -/
structure Sound (S : Strategy G) (F : List (User × User)) (t : Tournament G) : Prop where
  started : t.isTournamentStarted = true
  maps : ∃ pc ip dq, t.pendingChallenges = some pc ∧ t.inProgressMatches = some ip ∧
    t.disqualifiedUsers = some dq ∧ (ip.map Prod.fst).Nodup ∧ Inv F (viewOf S t pc ip dq)
  noSelf : NoSelfPairs t

/-- The generator after `disqualifyUser` freed the other parties of the
challenge and of the matches of `p`. -/
def freeGen (S : Strategy G) (p : User) (pc : JMap (Option Challenge))
    (ip : JMap (Option Match)) (g : G) : G :=
  let g2 := match pendOf pc p with
    | some c => S.setUserBusy g (partnerOf c) false
    | none => g
  let g3 := match matOf ip p with
    | some m => S.setUserBusy g2 m.toUser false
    | none => g2
  match findMatchTo p (dropFrom p ip) none with
  | some k => S.setUserBusy g3 k false
  | none => g3

/-- The battle rooms still linked after `disqualifyUser` detached those of
the matches of `p`. -/
def keptRooms (p : User) (ip : JMap (Option Match)) (rooms : List BattleRoom) :
    List BattleRoom :=
  let r3 := match matOf ip p with
    | some m => rooms.filter (fun r => r.id ≠ m.room)
    | none => rooms
  match findMatchTo p (dropFrom p ip) none with
  | some k =>
    match matOf (dropFrom p ip) k with
    | some m => r3.filter (fun r => r.id ≠ m.room)
    | none => r3
  | none => r3

/-- The fields the busy invariant reads, besides `availableMatches`. -/
structure Face (G : Type) where
  generator : G
  isTournamentStarted : Bool
  pendingChallenges : Option (JMap (Option Challenge))
  inProgressMatches : Option (JMap (Option Match))
  disqualifiedUsers : Option (JMap Bool)
  tourRooms : List BattleRoom
  setups : List Setup

/-- The face of a state. -/
def Tournament.face (t : Tournament G) : Face G :=
  ⟨t.generator, t.isTournamentStarted, t.pendingChallenges, t.inProgressMatches,
    t.disqualifiedUsers, t.tourRooms, t.setups⟩

/-- The players of the unresolved `challenge` setups, in the order the setups
were started. -/
def pairs : List Setup → List (User × User)
  | [] => []
  | .challenge a b _ :: l => (a, b) :: pairs l
  | .accept _ _ :: l => pairs l

/-- The state in which `onBattleWin` runs for a battle room: the room has
ended, so it is no longer counted among the linked battle rooms. -/
def Tournament.closeRoom (t : Tournament G) (room : BattleRoom) : Tournament G :=
  { t with tourRooms := t.tourRooms.filter fun r => r.id ≠ room.id }

/-- One call of a method of the challenge handshake, of `disqualifyUser` or
of `onBattleWin` that returns normally.  A setup callback runs for a setup
that is unresolved, and resolves it; `onBattleWin` runs for a battle room
linked to the tournament, once.  `finishChallenge` records a challenge only
when neither player is disqualified, and `finishAcceptChallenge` starts a
match only when the challenge it accepts is still the one its recipient
holds. -/
inductive Step (S : Strategy G) : Tournament G → Tournament G → Prop
  | challenge (w : World) (a b : User) (o : Output) (t t1 : Tournament G) :
      t.challenge S w a b o = .ok () t1 → Step S t t1
  | finishChallenge (w : World) (a b : User) (o : Output) (result : Bool)
      (l1 l2 : List Setup) (t t1 : Tournament G) :
      t.setups = l1 ++ .challenge a b o :: l2 →
      (result = true → ∀ dq, t.disqualifiedUsers = some dq →
        dqOf dq a = false ∧ dqOf dq b = false) →
      ({ t with setups := l1 ++ l2 }).finishChallenge S w a b result = .ok () t1 →
      Step S t t1
  | cancelChallenge (w : World) (u : User) (o : Output) (t t1 : Tournament G) :
      t.cancelChallenge S w u o = .ok () t1 → Step S t t1
  | acceptChallenge (w : World) (u : User) (o : Output) (t t1 : Tournament G) :
      t.acceptChallenge w u o = .ok () t1 → Step S t t1
  | finishAcceptChallenge (w : World) (u : User) (c : Challenge) (result : Bool)
      (l1 l2 : List Setup) (t t1 : Tournament G) :
      t.setups = l1 ++ .accept u c :: l2 →
      (result = true → ∀ pc, t.pendingChallenges = some pc →
        hasChallenge pc (partnerOf c) = true → hasChallenge pc u = true →
        ∃ tm, pc.get u = some (some (.fromUser (partnerOf c) tm))) →
      ({ t with setups := l1 ++ l2 }).finishAcceptChallenge S w u c result = .ok () t1 →
      Step S t t1
  | disqualifyUser (w : World) (p : User) (o : Output) (reason : Option Nat) (b : Bool)
      (t t1 : Tournament G) :
      t.disqualifyUser S w p o reason = .ok b t1 → Step S t t1
  | onBattleWin (w : World) (room : BattleRoom) (winner : Option User) (score : Nat × Nat)
      (t t1 : Tournament G) :
      room ∈ t.tourRooms →
      (t.closeRoom room).onBattleWin S w room winner score = .ok () t1 → Step S t t1

/-- A tournament that has just started: the per-player maps exist, nobody is
busy, and no challenge, match, setup or battle room exists yet. -/
structure Fresh (S : Strategy G) (t : Tournament G) : Prop where
  started : t.isTournamentStarted = true
  idle : ∀ x, t.busy S x = false
  pending : ∃ pc, t.pendingChallenges = some pc ∧ ∀ x, pendOf pc x = none
  inProgress : ∃ ip, t.inProgressMatches = some ip ∧ (ip.map Prod.fst).Nodup ∧
    ∀ x, matOf ip x = none
  disqualified : ∃ dq, t.disqualifiedUsers = some dq
  setups : t.setups = []
  rooms : t.tourRooms = []
  noSelf : NoSelfPairs t

/-- The states reached from a freshly started tournament by steps. -/
inductive Reachable (S : Strategy G) (t0 : Tournament G) : Tournament G → Prop
  | start : Reachable S t0 t0
  | next (t t1 : Tournament G) : Reachable S t0 t → Step S t t1 → Reachable S t0 t1

/-- Four players, a match between 1 and 2 in progress. -/
def matchRunning : Tournament RoundRobin :=
  (staleOffered.finishAcceptChallenge roundRobin (calmWorld 9004) 2 (.fromUser 1 1) true).state

/-- Player 2, the opponent of the running match, is disqualified. -/
def matchForfeited : Res RoundRobin Bool :=
  matchRunning.disqualifyUser roundRobin (calmWorld 9010) 2 (.caller 9) (some 0)

/-- A round robin whose `getUsers()` lists only the members that are not
disqualified, whatever its argument. -/
def hidingRoundRobin : Strategy RoundRobin :=
  { roundRobin with
    getUsers := fun g _ => g.users.filter (fun x => !(g.disqualified.contains x)) }

/-- Three players in a started tournament over the hiding round robin;
player 2 is disqualified. -/
def hidingDisqualified : Res RoundRobin Bool :=
  (startedWith hidingRoundRobin emptyRoundRobin [1, 2, 3]).andThen fun _ t =>
    t.disqualifyUser hidingRoundRobin (calmWorld 9001) 2 (.caller 9) (some 0)

/-- The disqualified player 2 challenges 3. -/
def hidingChallenged : Res RoundRobin Unit :=
  hidingDisqualified.state.challenge hidingRoundRobin (calmWorld 9002) 2 3 (.caller 2)

/-- Three started players; the strategy has just marked player 2 disqualified
and the available matches are not recomputed yet. -/
def markedOnly : Tournament RoundRobin :=
  { threeStarted with generator := (roundRobin.disqualifyUser threeStarted.generator 2).1 }

/-- One member has joined a forming round robin. -/
def formingOne : Tournament RoundRobin :=
  (formingWith roundRobin emptyRoundRobin [1]).state

/-- Two members have joined a forming round robin. -/
def formingTwo : Tournament RoundRobin :=
  (formingWith roundRobin emptyRoundRobin [1, 2]).state

/-- Two members joined at time 5001, the bracket timer fired at 7001 and the
tournament started at 9000. -/
def twoStarted : Tournament RoundRobin :=
  ((formingWith roundRobin emptyRoundRobin [1, 2]).andThen fun _ t =>
   ((t.clearTimeout 2).fireBracketTimer roundRobin (calmWorld 7001)).andThen fun _ t1 =>
   t1.startTournament roundRobin (calmWorld 9000) (.caller 0)).state

/-- The only match of two players is being played in room 102. -/
def twoPlaying : Tournament RoundRobin :=
  ((twoStarted.challenge roundRobin (calmWorld 9001) 1 2 (.caller 1)).andThen fun _ t =>
   (t.finishChallenge roundRobin (calmWorld 9002) 1 2 true).andThen fun _ t1 =>
   (t1.acceptChallenge (calmWorld 9003) 2 (.caller 2)).andThen fun _ t2 =>
   t2.finishAcceptChallenge roundRobin (calmWorld 9004) 2 (.fromUser 1 1) true).state

/-- Player 1 wins the only match at time 9010: the tournament ends. -/
def twoWon : Res RoundRobin Unit :=
  (twoPlaying.closeRoom ⟨102, 1, 2⟩).onBattleWin roundRobin (calmWorld 9010) ⟨102, 1, 2⟩
    (some 1) (1, 0)

/-- The candidate generator after every listed user was offered to it, in
order. -/
def offerAll (S : Strategy G) (users : List User) (g : G) : G :=
  users.foldl (fun g u => (S.addUser g u).1) g

/-- Whether a message is the room-wide broadcast of a bracket snapshot. -/
def Event.isSnapshot : Event → Bool
  | .roomUpdateBracket _ => true
  | _ => false

/-- The number of bracket snapshots `update()` has broadcast so far. -/
def Tournament.snapshots (t : Tournament G) : Nat :=
  (t.log.filter Event.isSnapshot).length

/-- The bracket throttle: the fields the second half of `update()` never
writes, and the number of snapshots broadcast. -/
structure Throttle where
  isBracketInvalidated : Bool
  lastBracketUpdate : Int
  bracketUpdateTimer : Option Nat
  bracketCache : Option BracketData
  timers : List Timer
  nextTimerId : Nat
  isEnded : Bool
  snapshots : Nat

/-- The throttle of a state. -/
def Tournament.throttle (t : Tournament G) : Throttle :=
  ⟨t.isBracketInvalidated, t.lastBracketUpdate, t.bracketUpdateTimer, t.bracketCache,
    t.timers, t.nextTimerId, t.isEnded, t.snapshots⟩

/-- A forming round robin whose bracket became dirty after the snapshot
taken at time 5000. -/
def dirtyForming : Tournament RoundRobin :=
  { (Tournament.create roundRobin (calmWorld 5000) emptyRoundRobin 0).state with
    isBracketInvalidated := true }

/-- In the started tournament of two, player 1 is replaced by player 5 at
time 9500. -/
def twoReplaced : Res RoundRobin Unit :=
  twoStarted.replaceUser roundRobin (calmWorld 9500) 1 5 (.caller 0)

/-- The replacement player 5 reattaches and is resynchronised. -/
def twoResynced : Res RoundRobin Unit :=
  twoReplaced.state.updateFor roundRobin 5 none

/-- Whether an entry of `availableMatches` lists the target. -/
def listedIn (av : JMap (List User)) (a b : User) : Prop :=
  ∃ e, av.get a = some e ∧ b ∈ e

/-- The state `challenge` hands to the ghost purge: both players marked busy
and the available matches dirty. -/
def Tournament.marked (S : Strategy G) (a b : User) (t : Tournament G) : Tournament G :=
  { (t.setBusy S a true).setBusy S b true with isAvailableMatchesInvalidated := true }

/-- The conditions under which the sweep disqualifies the player of the
entry `(user, time)`: a non-empty `availableMatches` entry or a pending
challenge received, the timeout strictly exceeded, and the warned flag set. -/
def SweepDue (t : Tournament G) (w : World) (user : User) (time : Int) : Prop :=
  ∃ av pc warned e limit, t.availableMatches = some av ∧ t.pendingChallenges = some pc ∧
    t.isAutoDisqualifyWarned = some warned ∧ av.get user = some e ∧
    t.autoDisqualifyTimeout = some limit ∧
    (e ≠ [] ∨ ∃ q tm, pc.get user = some (some (.fromUser q tm))) ∧
    time + limit < w.now ∧ warned.get user = some true

/-- The started round robin of three with an auto-disqualify timeout of five
minutes, set at time 9000. -/
def idleThree : Tournament RoundRobin :=
  (threeStarted.setAutoDisqualifyTimeout roundRobin (calmWorld 9000) (.number (.finite 300000))
    (.caller 0)).state

/-- Three sweeps while nobody acts: 4:31, 4:45 and 4:55 after the last
action of every player at time 9000. -/
def idleSwept : Tournament RoundRobin :=
  ((idleThree.runAutoDisqualify roundRobin (calmWorld 280000) .absent).andThen fun _ t =>
   (t.runAutoDisqualify roundRobin (calmWorld 294000) .absent).andThen fun _ t1 =>
   t1.runAutoDisqualify roundRobin (calmWorld 304000) .absent).state

/-- The warnings sent to a player so far. -/
def Tournament.warnings (t : Tournament G) (u : User) : List Int :=
  t.log.filterMap fun e =>
    match e with
    | .autodqTarget v r => if v = u then some r else none
    | _ => none

/-- The calls that reach a tournament besides the lifecycle ones: from the
command layer, from the promise callbacks, from a battle room and from the
timers. -/
inductive Call (G : Type)
  | lifecycle (c : LifecycleCall G)
  | runAutoDisqualify (output : Output)
  | challenge (source target : User) (output : Output)
  | finishChallenge (source target : User) (result : Bool)
  | cancelChallenge (user : User) (output : Output)
  | acceptChallenge (user : User) (output : Output)
  | finishAcceptChallenge (user : User) (challenge : Challenge) (result : Bool)
  | onBattleWin (room : BattleRoom) (winner : Option User) (score : Nat × Nat)
  | forceEnd
  | update
  | updateFor (targetUser : User) (conn : Option Nat)
  | fireBracketTimer
  | purgeGhostUsers
  | removeBannedUser (user : User)

/-- The state a call leaves, whether it returned or threw. -/
def Call.run (S : Strategy G) (w : World) (t : Tournament G) : Call G → Tournament G
  | .lifecycle c => c.run S w t
  | .runAutoDisqualify o => (t.runAutoDisqualify S w o).state
  | .challenge a b o => (t.challenge S w a b o).state
  | .finishChallenge a b result => (t.finishChallenge S w a b result).state
  | .cancelChallenge u o => (t.cancelChallenge S w u o).state
  | .acceptChallenge u o => (t.acceptChallenge w u o).state
  | .finishAcceptChallenge u c result => (t.finishAcceptChallenge S w u c result).state
  | .onBattleWin room winner score => (t.onBattleWin S w room winner score).state
  | .forceEnd => t.forceEnd.state
  | .update => (t.update S w).state
  | .updateFor u conn => (t.updateFor S u conn).state
  | .fireBracketTimer => (t.fireBracketTimer S w).state
  | .purgeGhostUsers => (t.purgeGhostUsers S w).state
  | .removeBannedUser u => (t.removeBannedUser S w u).state

/-- The state after a sequence of calls, each made in its own world. -/
def runCalls (S : Strategy G) : List (Call G × World) → Tournament G → Tournament G
  | [], t => t
  | (c, w) :: rest, t => runCalls S rest (c.run S w t)

/-- The battle rooms of the matches in progress, in map order. -/
def matchRooms (ip : JMap (Option Match)) : List Nat :=
  ip.filterMap fun e => e.2.map fun m => m.room

/-- Every pending challenge names a player whose own entry names the
challenger back, with the same team. -/
def Paired (pc : JMap (Option Challenge)) : Prop :=
  ∀ a b team, pc.get a = some (some (.toUser b team)) ↔
    pc.get b = some (some (.fromUser a team))

/-- The first test of the guard of `updateFor`: the bracket is dirty and no
bracket-update timer is recorded. -/
def Tournament.staleBracket (t : Tournament G) : Bool :=
  t.bracketUpdateTimer.isNone && t.isBracketInvalidated

/-- The second test of the guard of `updateFor`: the tournament has started
and the available matches are dirty. -/
def Tournament.staleMatches (t : Tournament G) : Bool :=
  t.isTournamentStarted && t.isAvailableMatchesInvalidated

/-- The tournament has ended, or the guard of `updateFor` is false. -/
def Publishable (t : Tournament G) : Prop :=
  t.isEnded = true ∨ (t.staleBracket = false ∧ t.staleMatches = false)

/-- The state in which a method returned, if it returned. -/
def Res.final {G α : Type} : Res G α → Option (Tournament G)
  | .ok _ t => some t
  | .threw _ => none

/-- The public mutating operations of a tournament, and the bracket-update
timer firing. -/
inductive Mutation (G : Type)
  | addUser (user : User) (isAllowAlts : Bool) (output : Output)
  | removeUser (user : User) (output : Output)
  | replaceUser (user replacementUser : User) (output : Output)
  | setGenerator (generator : G) (output : Output)
  | startTournament (output : Output)
  | disqualifyUser (user : User) (output : Output) (reason : Option Nat)
  | challenge (source target : User) (output : Output)
  | finishChallenge (source target : User) (result : Bool)
  | cancelChallenge (user : User) (output : Output)
  | finishAcceptChallenge (user : User) (challenge : Challenge) (result : Bool)
  | onBattleWin (room : BattleRoom) (winner : Option User) (score : Nat × Nat)
  | fireBracketTimer

/-- The state in which a mutating operation returned; `none` when it threw. -/
def Mutation.run (S : Strategy G) (w : World) (t : Tournament G) :
    Mutation G → Option (Tournament G)
  | .addUser u alts o => (t.addUser S w u alts o).final
  | .removeUser u o => (t.removeUser S w u o).final
  | .replaceUser u r o => (t.replaceUser S w u r o).final
  | .setGenerator g o => (t.setGenerator S w g o).final
  | .startTournament o => (t.startTournament S w o).final
  | .disqualifyUser u o reason => (t.disqualifyUser S w u o reason).final
  | .challenge a b o => (t.challenge S w a b o).final
  | .finishChallenge a b result => (t.finishChallenge S w a b result).final
  | .cancelChallenge u o => (t.cancelChallenge S w u o).final
  | .finishAcceptChallenge u c result => (t.finishAcceptChallenge S w u c result).final
  | .onBattleWin room winner score => (t.onBattleWin S w room winner score).final
  | .fireBracketTimer => (t.fireBracketTimer S w).final

/-- The keys of `la1` are those of `la`, in place, followed by new ones; and
they are distinct if those of `la` are. -/
def Extends (la la1 : JMap Int) : Prop :=
  (∃ extra, la1.map Prod.fst = la.map Prod.fst ++ extra) ∧
  ((la.map Prod.fst).Nodup → (la1.map Prod.fst).Nodup)

/-- What the steps of a disqualification leave alone: the disqualified marks
and the warned flags are the same, and the last-action times keep their keys. -/
structure Steady (t t1 : Tournament G) : Prop where
  dq : t1.disqualifiedUsers = t.disqualifiedUsers
  warned : t1.isAutoDisqualifyWarned = t.isAutoDisqualifyWarned
  times : ∀ la, t.lastActionTimes = some la →
    ∃ la1, t1.lastActionTimes = some la1 ∧ Extends la la1

/-- The visits a sweep makes, in order: the position in `lastActionTimes`, the
state in which the entry is reached, and the entry read there. -/
def Tournament.sweepTrace (S : Strategy G) (w : World) (output : Output) :
    Nat → Nat → Tournament G → List (Nat × Tournament G × User × Int)
  | 0, _, _ => []
  | fuel + 1, i, t =>
    match t.lastActionTimes with
    | none => []
    | some la =>
      match la[i]? with
      | none => []
      | some (user, time) =>
        (i, t, user, time) ::
          match t.sweepVisit S w output user time with
          | .ok _ t1 => Tournament.sweepTrace S w output fuel (i + 1) t1
          | .threw _ => []

/-- The idle round robin of three after the sweep at 4:31, which warned
players 1 and 2. -/
def idleWarned : Tournament RoundRobin :=
  (idleThree.runAutoDisqualify roundRobin (calmWorld 280000) .absent).state

/-- What the sweep, a disqualification and `update()` leave alone: a busy
flag that is false stays false, a match entry that is `null` stays `null`,
and the messages sent so far stay in the log. -/
structure Quiets (S : Strategy G) (t t1 : Tournament G) : Prop where
  busy : ∀ x, t.busy S x = false → t1.busy S x = false
  mat : ∀ ip x, t.inProgressMatches = some ip → ip.get x = some none →
    ∃ ip1, t1.inProgressMatches = some ip1 ∧ ip1.get x = some none
  log : t.log <+: t1.log

/-- Player `x` is not marked disqualified in `t` and is marked in `t1`. -/
def NewlyOut (t t1 : Tournament G) (x : User) : Prop :=
  ∃ dq dq1, t.disqualifiedUsers = some dq ∧ t1.disqualifiedUsers = some dq1 ∧
    dq.get x ≠ some true ∧ dq1.get x = some true

/-- Disqualified marks are only added between the two states, and `isEnded`
changes only if a mark was added. -/
structure Outs (t t1 : Tournament G) : Prop where
  keeps : ∀ dq x, t.disqualifiedUsers = some dq → dq.get x = some true →
    ∃ dq1, t1.disqualifiedUsers = some dq1 ∧ dq1.get x = some true
  born : ∀ dq1, t1.disqualifiedUsers = some dq1 → ∃ dq, t.disqualifiedUsers = some dq
  ends : t1.isEnded = t.isEnded ∨ ∃ x, NewlyOut t t1 x

/-- The strategy `S` with another `setMatchResult`. -/
def Strategy.withResult (S : Strategy G)
    (f : G → User × User → Outcome → Nat × Nat → G × Option Nat) : Strategy G :=
  { S with setMatchResult := f }

/-- A round robin whose `setMatchResult` rejects every result. -/
def rejectingRoundRobin : Strategy RoundRobin :=
  { roundRobin with setMatchResult := fun g _ _ _ => (g, some 5) }

/-- Four players over the rejecting round robin, the match of 1 against 2
running in room 102. -/
def rejectRunning : Tournament RoundRobin :=
  ((startedWith rejectingRoundRobin emptyRoundRobin [1, 2, 3, 4]).andThen fun _ t =>
   (t.challenge rejectingRoundRobin (calmWorld 9001) 1 2 (.caller 1)).andThen fun _ t1 =>
   (t1.finishChallenge rejectingRoundRobin (calmWorld 9002) 1 2 true).andThen fun _ t2 =>
   (t2.acceptChallenge (calmWorld 9003) 2 (.caller 2)).andThen fun _ t3 =>
   t3.finishAcceptChallenge rejectingRoundRobin (calmWorld 9004) 2 (.fromUser 1 1) true).state

/-- Player 1 wins the battle of room 102; the strategy rejects the result. -/
def rejectedResult : Res RoundRobin Unit :=
  (rejectRunning.closeRoom ⟨102, 1, 2⟩).onBattleWin rejectingRoundRobin (calmWorld 9010)
    ⟨102, 1, 2⟩ (some 1) (1, 0)

/-- A round robin that does not support draws. -/
def drawless : Strategy RoundRobin :=
  { roundRobin with isDrawingSupported := fun _ => false }

/-- A generator without draws that reports the tournament complete as soon
as a player is disqualified. -/
def suddenDeath : Strategy RoundRobin :=
  { drawless with
    isTournamentEnded := fun g => g.openPairs.isEmpty || !g.disqualified.isEmpty }

/-- Four players over `suddenDeath`: the match of 1 against 2 starts at time
9004, and at 9020 the auto-disqualify timeout is set to 30 seconds, whose
sweep warns player 3. -/
def drawRunning : Tournament RoundRobin :=
  ((startedWith suddenDeath emptyRoundRobin [1, 2, 3, 4]).andThen fun _ t =>
   (t.challenge suddenDeath (calmWorld 9001) 1 2 (.caller 1)).andThen fun _ t1 =>
   (t1.finishChallenge suddenDeath (calmWorld 9002) 1 2 true).andThen fun _ t2 =>
   (t2.acceptChallenge (calmWorld 9003) 2 (.caller 2)).andThen fun _ t3 =>
   (t3.finishAcceptChallenge suddenDeath (calmWorld 9004) 2 (.fromUser 1 1) true).andThen
     fun _ t4 =>
   t4.setAutoDisqualifyTimeout suddenDeath (calmWorld 9020) (.number (.finite 30000))
     (.caller 0)).state

/-- The battle of room 102 ends without a winner at time 50000. -/
def drawReported : Res RoundRobin Unit :=
  (drawRunning.closeRoom ⟨102, 1, 2⟩).onBattleWin suddenDeath (calmWorld 50000)
    ⟨102, 1, 2⟩ none (0, 0)

/-- A world in which the identity of user 2 no longer resolves to user 2. -/
def ghostWorld (now : Int) : World :=
  { calmWorld now with isExact := fun u => decide (u ≠ 2) }

/-- In the started round robin of two, player 1 challenges 2, who has become
a ghost. -/
def ghostChallenge : Res RoundRobin Unit :=
  twoStarted.challenge roundRobin (ghostWorld 9001) 1 2 (.caller 1)

/-- Which of the six per-player maps hold an entry for the user, in the order
`availableMatches`, `pendingChallenges`, `inProgressMatches`,
`disqualifiedUsers`, `isAutoDisqualifyWarned`, `lastActionTimes`. -/
def Tournament.entriesOf (t : Tournament G) (u : User) : List Bool :=
  [ (t.availableMatches.bind fun m => m.get u).isSome,
    (t.pendingChallenges.bind fun m => m.get u).isSome,
    (t.inProgressMatches.bind fun m => m.get u).isSome,
    (t.disqualifiedUsers.bind fun m => m.get u).isSome,
    (t.isAutoDisqualifyWarned.bind fun m => m.get u).isSome,
    (t.lastActionTimes.bind fun m => m.get u).isSome ]

/-- In the started tournament of three, player 1 is replaced by player 5 at
time 9500. -/
def threeReplaced : Res RoundRobin Unit :=
  threeStarted.replaceUser roundRobin (calmWorld 9500) 1 5 (.caller 0)

/-- After the replacement, player 2 challenges player 3. -/
def threeRechallenged : Res RoundRobin Unit :=
  threeReplaced.state.challenge roundRobin (calmWorld 9600) 2 3 (.caller 2)

/-- The setup of the challenge of 1 to 2 failed: both players are free again
and the available matches are about to be recomputed. -/
def raceFreed : Tournament RoundRobin :=
  { raceChallenged with generator :=
      roundRobin.setUserBusy (roundRobin.setUserBusy raceChallenged.generator 1 false) 2 false }

/-- The available matches are recomputed once more after the disqualification
of player 2 under the hiding round robin. -/
def hidingRecomputed : Res RoundRobin (Option MatchesCache) :=
  hidingDisqualified.state.getAvailableMatches hidingRoundRobin (calmWorld 9050)

/-- The string "0x10000" as a timeout argument: `Number` reads 65536 and
`parseFloat` reads 0. -/
def hexTimeout : TimeoutArg := .radixLiteral 65536

/-- The started round robin of three is given the timeout "0x10000" at time
9500. -/
def hexAccepted : Res RoundRobin Bool :=
  threeStarted.setAutoDisqualifyTimeout roundRobin (calmWorld 9500) hexTimeout (.caller 0)

/-- After the challenge that threw, player 2 cancels at time 9700. -/
def dirtyCancelled : Res RoundRobin Unit :=
  threeRechallenged.state.cancelChallenge roundRobin (calmWorld 9700) 2 (.caller 2)

/-- After the challenge that threw, a setup of player 3 accepting a challenge
of player 2 resolves with `false` at time 9700. -/
def dirtyDeclined : Res RoundRobin Unit :=
  threeRechallenged.state.finishAcceptChallenge roundRobin (calmWorld 9700) 3 (.fromUser 2 2)
    false

/-- After the challenge that threw, user 7 asks to join at time 9700. -/
def dirtyJoin : Res RoundRobin Unit :=
  threeRechallenged.state.addUser roundRobin (calmWorld 9700) 7 false (.caller 7)

/-- What a step that disqualifies nobody leaves alone, as far as player `x`
is concerned: the pending challenges, the available matches, the warned flag
of `x` and the warnings sent to `x`. -/
structure Spares (x : User) (t t1 : Tournament G) : Prop where
  pend : t1.pendingChallenges = t.pendingChallenges
  avail : t1.availableMatches = t.availableMatches
  flag : t1.isAutoDisqualifyWarned.map (fun m => m.get x)
    = t.isAutoDisqualifyWarned.map (fun m => m.get x)
  told : t1.warnings x = t.warnings x

/-- A round robin that offers every open pair the other way round: the later
member challenges the earlier one. -/
def mirrorRoundRobin : Strategy RoundRobin :=
  { roundRobin with
    getAvailableMatches := fun g =>
      match roundRobin.getAvailableMatches g with
      | .ok ms => .ok (ms.map fun p => (p.2, p.1))
      | .error e => .error e
    setMatchResult := fun g p outcome score =>
      roundRobin.setMatchResult g (p.2, p.1) outcome score }

/-- Three players over the mirrored round robin, started at 9000 with a
timeout of five minutes.  The sweep at 280000 warns players 2 and 3; player 3
then challenges player 1, and the setup resolves at 281001; the sweep at
552000 warns player 1, who has not answered. -/
def mirrorWaiting : Tournament RoundRobin :=
  ((startedWith mirrorRoundRobin emptyRoundRobin [1, 2, 3]).andThen fun _ t =>
   (t.setAutoDisqualifyTimeout mirrorRoundRobin (calmWorld 9000) (.number (.finite 300000))
     (.caller 0)).andThen fun _ t1 =>
   (t1.runAutoDisqualify mirrorRoundRobin (calmWorld 280000) .absent).andThen fun _ t2 =>
   (t2.challenge mirrorRoundRobin (calmWorld 281000) 3 1 (.caller 3)).andThen fun _ t3 =>
   (t3.finishChallenge mirrorRoundRobin (calmWorld 281001) 3 1 true).andThen fun _ t4 =>
   t4.runAutoDisqualify mirrorRoundRobin (calmWorld 552000) .absent).state

/-- The sweep at 582000, 5:01 after the challenge of 3 to 1 was made. -/
def mirrorSwept : Res RoundRobin (Option Bool) :=
  mirrorWaiting.runAutoDisqualify mirrorRoundRobin (calmWorld 582000) .absent

/-- What a call made at time `now` does to the bracket throttle: it broadcasts
no bracket snapshot and keeps `lastBracketUpdate`, or it broadcasts exactly
one, at least BRACKET_MINIMUM_UPDATE_INTERVAL after `lastBracketUpdate`, and
records `now`. -/
def Paced (now : Int) (t t1 : Tournament G) : Prop :=
  (t1.snapshots = t.snapshots ∧ t1.lastBracketUpdate = t.lastBracketUpdate) ∨
  (t1.snapshots = t.snapshots + 1 ∧
    t.lastBracketUpdate + BRACKET_MINIMUM_UPDATE_INTERVAL ≤ now ∧
    t1.lastBracketUpdate = now)

/-- The times of the bracket snapshots broadcast in a run of calls, each made
in its own world: a call that makes the number of snapshots in the log grow
contributes its time once for every new snapshot. -/
def snapshotTimes (S : Strategy G) : List (Call G × World) → Tournament G → List Int
  | [], _ => []
  | (c, w) :: rest, t =>
    List.replicate ((c.run S w t).snapshots - t.snapshots) w.now ++
      snapshotTimes S rest (c.run S w t)

/-- A tournament created at time 5000 over the round robin. -/
def createdAtFive : Tournament RoundRobin :=
  (Tournament.create roundRobin (calmWorld 5000) emptyRoundRobin 0).state

/-- Three members join a forming tournament while `update()` and the bracket
timer run: the first join at 5500 and the second at 8000 fall inside the
interval and are deferred, the third at 14000 does not. -/
def joinsAndRefreshes : List (Call RoundRobin × World) :=
  [(.lifecycle (.addUser 1 false (.caller 1)), calmWorld 5500),
   (.fireBracketTimer, calmWorld 7500),
   (.lifecycle (.addUser 2 false (.caller 2)), calmWorld 8000),
   (.update, calmWorld 9000),
   (.fireBracketTimer, calmWorld 11000),
   (.lifecycle (.addUser 3 false (.caller 3)), calmWorld 14000),
   (.update, calmWorld 14500)]

/-! ## Basic facts about maps and outcomes -/

@[simp]
theorem Res.andThen_ok {α β : Type} (a : α) (t : Tournament G)
    (k : α → Tournament G → Res G β) : (Res.ok a t).andThen k = k a t := rfl

@[simp]
theorem Res.andThen_threw {α β : Type} (t : Tournament G)
    (k : α → Tournament G → Res G β) : (Res.threw t : Res G α).andThen k = .threw t := rfl

@[simp]
theorem Res.state_ok {α : Type} (a : α) (t : Tournament G) :
    (Res.ok a t).state = t := rfl

@[simp]
theorem Res.state_threw {α : Type} (t : Tournament G) :
    (Res.threw t : Res G α).state = t := rfl

@[simp]
theorem core_say (t : Tournament G) (e : Event) : (t.say e).core = t.core := rfl

@[simp]
theorem core_sayAll (t : Tournament G) (es : List Event) : (t.sayAll es).core = t.core := rfl

theorem JMap.get_set {α : Type} (m : JMap α) (k k2 : User) (v : α) :
    (m.set k v).get k2 = if k = k2 then some v else m.get k2 := by
  induction m with
  | nil => simp [JMap.set, JMap.get]
  | cons e m ih =>
    obtain ⟨k1, v1⟩ := e
    by_cases h1 : k1 = k
    · subst h1
      by_cases h2 : k1 = k2 <;> simp [JMap.set, JMap.get, h2]
    · by_cases h2 : k1 = k2
      · subst h2
        simp [JMap.set, JMap.get, h1, Ne.symm h1]
      · simp [JMap.set, JMap.get, h1, h2, ih]

theorem JMap.get_set_self {α : Type} (m : JMap α) (k : User) (v : α) :
    (m.set k v).get k = some v := by
  simp [JMap.get_set]

theorem JMap.get_set_ne {α : Type} (m : JMap α) (k k2 : User) (v : α) (h : k ≠ k2) :
    (m.set k v).get k2 = m.get k2 := by
  simp [JMap.get_set, h]

/-- A property of states survives a sequenced call when it survives both halves. -/
theorem Res.andThen_state {α β : Type} (P : Tournament G → Prop) (r : Res G α)
    (k : α → Tournament G → Res G β) (h1 : P r.state)
    (h2 : ∀ a t, P t → P (k a t).state) : P (r.andThen k).state := by
  cases r with
  | ok a t => exact h2 a t h1
  | threw t => exact h1

theorem getAvailableMatches_core (S : Strategy G) (w : World) (t : Tournament G) :
    (t.getAvailableMatches S w).state.core = t.core := by
  unfold Tournament.getAvailableMatches
  dsimp only
  repeat' split
  all_goals rfl

theorem updateBracket_core (S : Strategy G) (w : World) (t : Tournament G) :
    (t.updateBracket S w).core = t.core := by
  unfold Tournament.updateBracket
  dsimp only
  split
  · split
    · cases h : t.bracketUpdateTimer <;> rfl
    · rfl
  · rfl

theorem update_core (S : Strategy G) (w : World) (t : Tournament G) :
    (t.update S w).state.core = t.core := by
  unfold Tournament.update
  dsimp only
  split
  · rfl
  · split
    · have h := getAvailableMatches_core S w (t.updateBracket S w)
      rw [updateBracket_core] at h
      cases hr : (t.updateBracket S w).getAvailableMatches S w with
      | ok c t2 =>
        rw [hr] at h
        cases c <;> simpa [Res.andThen] using h
      | threw t2 =>
        rw [hr] at h
        simpa [Res.andThen] using h
    · simp [updateBracket_core]

theorem foldl_set_get {α : Type} (users : List User) (v : α) (m : JMap α) (u : User) :
    (users.foldl (fun m u => m.set u v) m).get u = if u ∈ users then some v else m.get u := by
  induction users generalizing m with
  | nil => simp
  | cons a rest ih =>
    simp only [List.foldl_cons, ih, List.mem_cons]
    by_cases h1 : u ∈ rest
    · simp [h1]
    · by_cases h2 : u = a
      · subst h2
        simp [h1, JMap.get_set_self]
      · simp [h1, h2, JMap.get_set_ne _ _ _ _ (Ne.symm h2)]

theorem freshMap_get {α : Type} (users : List User) (v : α) (u : User) :
    (freshMap users v).get u = if u ∈ users then some v else none := by
  unfold freshMap
  rw [foldl_set_get]
  rfl

theorem emptyLists_get (users : List User) (u : User) :
    (emptyLists users).get u = if u ∈ users then some [] else none := by
  unfold emptyLists
  rw [foldl_set_get]
  rfl

/-- What `resetEntries` returns when every listed user has an entry. -/
theorem resetEntries_ok (users : List User) (av : JMap (List User)) (old : JMap Bool)
    (h : ∀ u ∈ users, (av.get u).isSome = true) :
    ∃ old1 av1, resetEntries users av old = (some old1, av1) ∧
      (∀ u, u ∈ users → av1.get u = some []) ∧
      (∀ u, u ∉ users → av1.get u = av.get u) := by
  induction users generalizing av old with
  | nil => exact ⟨old, av, rfl, by simp, by simp⟩
  | cons a rest ih =>
    have ha := h a (List.mem_cons_self _ _)
    obtain ⟨e, he⟩ := Option.isSome_iff_exists.mp ha
    unfold resetEntries
    rw [he]
    dsimp only
    by_cases hlen : e.length ≠ 0
    · rw [if_pos hlen]
      have h2 : ∀ u ∈ rest, ((av.set a []).get u).isSome = true := by
        intro u hu
        rw [JMap.get_set]
        split
        · rfl
        · exact h u (List.mem_cons_of_mem _ hu)
      obtain ⟨old1, av1, h3, h4, h5⟩ := ih (av.set a []) (old.set a true) h2
      refine ⟨old1, av1, h3, ?_, ?_⟩
      · intro u hu
        by_cases hr : u ∈ rest
        · exact h4 u hr
        · have : u = a := by simpa [hr] using hu
          subst this
          rw [h5 u hr, JMap.get_set_self]
      · intro u hu
        have hr : u ∉ rest := fun x => hu (List.mem_cons_of_mem _ x)
        have hne : a ≠ u := fun x => hu (x ▸ List.mem_cons_self _ _)
        rw [h5 u hr, JMap.get_set_ne _ _ _ _ hne]
    · rw [if_neg hlen]
      have hnil : e = [] := by
        cases e with
        | nil => rfl
        | cons x xs => simp at hlen
      have h2 : ∀ u ∈ rest, (av.get u).isSome = true := fun u hu =>
        h u (List.mem_cons_of_mem _ hu)
      obtain ⟨old1, av1, h3, h4, h5⟩ := ih av (old.set a false) h2
      refine ⟨old1, av1, h3, ?_, ?_⟩
      · intro u hu
        by_cases hr : u ∈ rest
        · exact h4 u hr
        · have : u = a := by simpa [hr] using hu
          subst this
          rw [h5 u hr, he, hnil]
      · intro u hu
        exact h5 u (fun x => hu (List.mem_cons_of_mem _ x))

/-- The entries `addMatches` leaves: `b` is listed under `a` exactly when it was
before or the pair `(a, b)` is among the matches. -/
theorem addMatches_ok (ms : List (User × User)) (ch cb av : JMap (List User))
    (h : ∀ p ∈ ms, (ch.get p.1).isSome = true ∧ (cb.get p.2).isSome = true ∧
      (av.get p.1).isSome = true) :
    ∃ ch1 cb1 av1, addMatches ms ch cb av = (some (ch1, cb1), av1) ∧
      (∀ a, (av1.get a).isSome = (av.get a).isSome) ∧
      (∀ a e1, av1.get a = some e1 → ∃ e, av.get a = some e ∧
        ∀ b, b ∈ e1 ↔ (b ∈ e ∨ (a, b) ∈ ms)) := by
  induction ms generalizing ch cb av with
  | nil =>
    refine ⟨ch, cb, av, rfl, fun _ => rfl, ?_⟩
    intro a e1 he1
    exact ⟨e1, he1, by simp⟩
  | cons p rest ih =>
    obtain ⟨a0, b0⟩ := p
    obtain ⟨h1, h2, h3⟩ := h (a0, b0) (List.mem_cons_self _ _)
    obtain ⟨la, hla⟩ := Option.isSome_iff_exists.mp h1
    obtain ⟨lb, hlb⟩ := Option.isSome_iff_exists.mp h2
    obtain ⟨e0, he0⟩ := Option.isSome_iff_exists.mp h3
    unfold addMatches
    simp only [hla, hlb, he0]
    have hrest : ∀ p ∈ rest, ((ch.set a0 (la ++ [b0])).get p.1).isSome = true ∧
        ((cb.set b0 (lb ++ [a0])).get p.2).isSome = true ∧
        ((av.set a0 (insertKey e0 b0)).get p.1).isSome = true := by
      intro p hp
      obtain ⟨g1, g2, g3⟩ := h p (List.mem_cons_of_mem _ hp)
      refine ⟨?_, ?_, ?_⟩
      · rw [JMap.get_set]; split
        · rfl
        · exact g1
      · rw [JMap.get_set]; split
        · rfl
        · exact g2
      · rw [JMap.get_set]; split
        · rfl
        · exact g3
    obtain ⟨ch1, cb1, av1, k1, k2, k3⟩ := ih _ _ _ hrest
    refine ⟨ch1, cb1, av1, k1, ?_, ?_⟩
    · intro a
      rw [k2 a, JMap.get_set]
      split
      · rename_i heq; subst heq; simp [he0]
      · rfl
    · intro a e1 he1
      obtain ⟨e, he, hmem⟩ := k3 a e1 he1
      rw [JMap.get_set] at he
      by_cases haa : a0 = a
      · subst haa
        rw [if_pos rfl] at he
        refine ⟨e0, he0, ?_⟩
        intro b
        rw [hmem b]
        have : e = insertKey e0 b0 := (Option.some.inj he).symm
        subst this
        unfold insertKey
        by_cases hb : b0 ∈ e0
        · rw [if_pos hb]
          constructor
          · rintro (x | x)
            · exact Or.inl x
            · exact Or.inr (List.mem_cons_of_mem _ x)
          · rintro (x | x)
            · exact Or.inl x
            · rcases List.mem_cons.mp x with y | y
              · have : b = b0 := by simpa using congrArg Prod.snd y
                subst this
                exact Or.inl hb
              · exact Or.inr y
        · rw [if_neg hb]
          constructor
          · rintro (x | x)
            · rcases List.mem_append.mp x with y | y
              · exact Or.inl y
              · have : b = b0 := by simpa using y
                subst this
                exact Or.inr (List.mem_cons_self _ _)
            · exact Or.inr (List.mem_cons_of_mem _ x)
          · rintro (x | x)
            · exact Or.inl (List.mem_append_left _ x)
            · rcases List.mem_cons.mp x with y | y
              · have : b = b0 := by simpa using congrArg Prod.snd y
                subst this
                exact Or.inl (List.mem_append_right _ (List.mem_singleton_self _))
              · exact Or.inr y
      · rw [if_neg haa] at he
        refine ⟨e, he, ?_⟩
        intro b
        rw [hmem b]
        constructor
        · rintro (x | x)
          · exact Or.inl x
          · exact Or.inr (List.mem_cons_of_mem _ x)
        · rintro (x | x)
          · exact Or.inl x
          · rcases List.mem_cons.mp x with y | y
            · exact absurd (congrArg Prod.fst y).symm haa
            · exact Or.inr y

theorem Mono.same (t : Tournament G) : Mono t t :=
  ⟨fun h => h, fun h => h, fun _ _ _ h => h⟩

theorem Mono.chain {t t1 t2 : Tournament G} (h1 : Mono t t1) (h2 : Mono t1 t2) : Mono t t2 :=
  ⟨fun h => h2.ended (h1.ended h), fun h => h2.started (h1.started h),
    fun he hs x hx => h1.timers he hs x (h2.timers (h1.ended he) (h1.started hs) x hx)⟩

theorem Mono.of_fields {t t1 : Tournament G} (h1 : t1.isEnded = t.isEnded)
    (h2 : t1.isTournamentStarted = t.isTournamentStarted) (h3 : t1.timers = t.timers) :
    Mono t t1 :=
  ⟨fun h => by rw [h1]; exact h, fun h => by rw [h2]; exact h,
    fun _ _ x hx => by rw [h3] at hx; exact hx⟩

theorem Mono.bind {α β : Type} {t : Tournament G} {r : Res G α}
    {k : α → Tournament G → Res G β} (h1 : Mono t r.state)
    (h2 : ∀ a t1, Mono t1 (k a t1).state) : Mono t (r.andThen k).state := by
  cases r with
  | ok a t1 => exact h1.chain (h2 a t1)
  | threw t1 => exact h1

theorem clearIfSet_mono (t : Tournament G) (h : Option Nat) : Mono t (t.clearIfSet h) := by
  cases h with
  | none => exact Mono.same t
  | some x =>
    refine ⟨fun h => h, fun h => h, fun _ _ y hy => ?_⟩
    exact (List.mem_filter.mp hy).1

theorem sendReply_mono (w : World) (o : Output) (e : TourError) (t : Tournament G) :
    Mono t (sendReply w o e t).state := by
  unfold sendReply
  repeat' split
  all_goals exact Mono.of_fields rfl rfl rfl

theorem update_of_ended (S : Strategy G) (w : World) (t : Tournament G)
    (h : t.isEnded = true) : t.update S w = .ok () t := by
  unfold Tournament.update
  rw [if_pos h]

theorem update_mono (S : Strategy G) (w : World) (t : Tournament G) :
    Mono t (t.update S w).state := by
  by_cases h : t.isEnded = true
  · rw [update_of_ended S w t h]; exact Mono.same t
  · have hc := update_core S w t
    refine ⟨fun x => absurd x h, fun x => ?_, fun x => absurd x h⟩
    have : (t.update S w).state.isTournamentStarted = t.isTournamentStarted :=
      congrArg Core.isTournamentStarted hc
    rw [this]; exact x

theorem onTournamentEnd_mono (S : Strategy G) (t : Tournament G) :
    Mono t (t.onTournamentEnd S) := by
  unfold Tournament.onTournamentEnd
  dsimp only
  refine ⟨fun _ => ?_, fun h => ?_, fun _ _ x hx => ?_⟩
  · cases h : (t.say (.tournamentEnd (S.getResults t.generator) (t.getBracketData S))).autoDisqualifyTimer <;> rfl
  · cases h2 : t.autoDisqualifyTimer <;> simpa [Tournament.say, Tournament.clearIfSet, Tournament.clearTimeout, h2] using h
  · cases h2 : t.autoDisqualifyTimer
    · simpa [Tournament.say, Tournament.clearIfSet, Tournament.clearTimeout, h2] using hx
    · simp only [Tournament.say, Tournament.clearIfSet, Tournament.clearTimeout, h2] at hx
      exact (List.mem_filter.mp hx).1

theorem voidChallenge_mono (S : Strategy G) (u : User) (t : Tournament G) :
    Mono t (t.voidChallenge S u).state := by
  unfold Tournament.voidChallenge
  repeat' split
  all_goals exact Mono.of_fields rfl rfl rfl

theorem forfeitFrom_mono (S : Strategy G) (u : User) (t : Tournament G) :
    Mono t (t.forfeitFrom S u).state := by
  unfold Tournament.forfeitFrom
  repeat' split
  all_goals exact Mono.of_fields rfl rfl rfl

theorem forfeitTo_mono (S : Strategy G) (u : User) (t : Tournament G) :
    Mono t (t.forfeitTo S u).state := by
  unfold Tournament.forfeitTo
  repeat' split
  all_goals exact Mono.of_fields rfl rfl rfl

theorem announceDisqualify_mono (u : User) (reason : Option Nat) (t : Tournament G) :
    Mono t (t.announceDisqualify u reason) := by
  unfold Tournament.announceDisqualify
  cases reason <;> exact Mono.of_fields rfl rfl rfl

theorem settleDisqualify_mono (S : Strategy G) (w : World) (u : User)
    (reason : Option Nat) (t : Tournament G) :
    Mono t (t.settleDisqualify S w u reason).state := by
  unfold Tournament.settleDisqualify
  refine Mono.bind (voidChallenge_mono S u _) (fun _ t2 => ?_)
  refine Mono.bind (forfeitFrom_mono S u _) (fun _ t3 => ?_)
  refine Mono.bind (forfeitTo_mono S u _) (fun _ t4 => ?_)
  dsimp only
  refine (announceDisqualify_mono u reason t4).chain ?_
  split
  · exact onTournamentEnd_mono S _
  · exact Mono.bind (update_mono S w _) (fun _ _ => Mono.same _)

theorem disqualifyUser_mono (S : Strategy G) (w : World) (u : User) (o : Output)
    (reason : Option Nat) (t : Tournament G) :
    Mono t (t.disqualifyUser S w u o reason).state := by
  unfold Tournament.disqualifyUser
  dsimp only
  split
  · refine Mono.chain ?_ (Mono.bind (sendReply_mono _ _ _ _) (fun _ _ => Mono.same _))
    exact Mono.of_fields rfl rfl rfl
  · split
    · exact Mono.of_fields rfl rfl rfl
    · split
      · refine Mono.chain ?_ (Mono.bind (sendReply_mono _ _ _ _) (fun _ _ => Mono.same _))
        exact Mono.of_fields rfl rfl rfl
      · refine Mono.chain ?_ (settleDisqualify_mono S w u reason _)
        exact Mono.of_fields rfl rfl rfl

theorem removeUser_mono (S : Strategy G) (w : World) (u : User) (o : Output)
    (t : Tournament G) : Mono t (t.removeUser S w u o).state := by
  unfold Tournament.removeUser
  dsimp only
  split
  · refine Mono.chain ?_ (sendReply_mono _ _ _ _)
    exact Mono.of_fields rfl rfl rfl
  · refine Mono.chain ?_ (update_mono S w _)
    exact Mono.of_fields rfl rfl rfl

theorem replaceUser_mono (S : Strategy G) (w : World) (u r : User) (o : Output)
    (t : Tournament G) : Mono t (t.replaceUser S w u r o).state := by
  unfold Tournament.replaceUser
  dsimp only
  split
  · refine Mono.chain ?_ (sendReply_mono _ _ _ _)
    exact Mono.of_fields rfl rfl rfl
  · refine Mono.chain ?_ (update_mono S w _)
    exact Mono.of_fields rfl rfl rfl

theorem purgeLoop_mono (S : Strategy G) (w : World) (users : List User) (t : Tournament G) :
    Mono t (Tournament.purgeLoop S w users t).state := by
  induction users generalizing t with
  | nil => exact Mono.same t
  | cons u rest ih =>
    unfold Tournament.purgeLoop
    split
    · exact ih t
    · dsimp only
      refine Mono.bind ?_ (fun _ t1 => Mono.chain ?_ (ih _))
      · split
        · split
          · exact Mono.same t
          · split
            · exact Mono.same t
            · exact Mono.bind (disqualifyUser_mono S w u _ _ t) (fun _ _ => Mono.same _)
        · exact removeUser_mono S w u _ t
      · exact Mono.of_fields rfl rfl rfl

theorem purgeGhostUsers_mono (S : Strategy G) (w : World) (t : Tournament G) :
    Mono t (t.purgeGhostUsers S w).state :=
  purgeLoop_mono S w _ t

theorem startTournament_mono (S : Strategy G) (w : World) (o : Output) (t : Tournament G) :
    Mono t (t.startTournament S w o).state := by
  unfold Tournament.startTournament
  split
  · exact Mono.bind (sendReply_mono _ _ _ _) (fun _ _ => Mono.same _)
  · rename_i hs
    refine Mono.bind (purgeGhostUsers_mono S w t) (fun _ t1 => ?_)
    dsimp only
    split
    · exact Mono.bind (sendReply_mono _ _ _ _) (fun _ _ => Mono.same _)
    · refine Mono.chain ?_ (Mono.bind (update_mono S w _) (fun _ _ => Mono.same _))
      refine ⟨fun h => ?_, fun _ => ?_, fun he hst x hx => ?_⟩
      · cases h2 : t1.autoStartTimeout <;>
          simpa [Tournament.say, Tournament.clearIfSet, Tournament.clearTimeout, h2] using h
      · cases h2 : t1.autoStartTimeout <;>
          simp [Tournament.say, Tournament.clearIfSet, Tournament.clearTimeout, h2]
      · cases h2 : t1.autoStartTimeout
        · simpa [Tournament.say, Tournament.clearIfSet, Tournament.clearTimeout, h2] using hx
        · simp only [Tournament.say, Tournament.clearIfSet, Tournament.clearTimeout, h2] at hx
          exact (List.mem_filter.mp hx).1

theorem addUser_mono (S : Strategy G) (w : World) (u : User) (alts : Bool) (o : Output)
    (t : Tournament G) : Mono t (t.addUser S w u alts o).state := by
  unfold Tournament.addUser
  split
  · exact sendReply_mono _ _ _ _
  · dsimp only
    split
    · exact sendReply_mono _ _ _ _
    · split
      · exact sendReply_mono _ _ _ _
      · split
        · refine Mono.chain ?_ (sendReply_mono _ _ _ _)
          exact Mono.of_fields rfl rfl rfl
        · refine Mono.chain ?_ (Mono.bind (update_mono S w _) (fun _ t2 => ?_))
          · exact Mono.of_fields rfl rfl rfl
          · split
            · split
              · exact Mono.bind (startTournament_mono S w o t2) (fun _ _ => Mono.same _)
              · exact Mono.of_fields rfl rfl rfl
            · exact Mono.same _

theorem replyAll_mono (w : World) (o : Output) (es : List Nat) (t : Tournament G) :
    Mono t (replyAll w o es t).state := by
  induction es generalizing t with
  | nil => exact Mono.same t
  | cons e rest ih =>
    unfold replyAll
    exact Mono.bind (sendReply_mono _ _ _ _) (fun _ t1 => ih t1)

theorem setGenerator_mono (S : Strategy G) (w : World) (g : G) (o : Output)
    (t : Tournament G) : Mono t (t.setGenerator S w g o).state := by
  unfold Tournament.setGenerator
  split
  · exact Mono.bind (sendReply_mono _ _ _ _) (fun _ _ => Mono.same _)
  · dsimp only
    split
    · exact Mono.bind (replyAll_mono _ _ _ _) (fun _ _ => Mono.same _)
    · refine Mono.chain ?_ (Mono.bind (update_mono S w _) (fun _ _ => Mono.same _))
      exact Mono.of_fields rfl rfl rfl

theorem setAutoStartTimeout_mono (w : World) (timeout : Timeout) (o : Output)
    (t : Tournament G) : Mono t (t.setAutoStartTimeout w timeout o).state := by
  unfold Tournament.setAutoStartTimeout
  split
  · exact Mono.bind (sendReply_mono _ _ _ _) (fun _ _ => Mono.same _)
  · rename_i hs
    have hns : ¬ t.isTournamentStarted = true := hs
    split
    · exact Mono.bind (sendReply_mono _ _ _ _) (fun _ _ => Mono.same _)
    · dsimp only
      split
      · refine ⟨fun h => ?_, fun h => absurd h hns, fun _ h => absurd h hns⟩
        cases h2 : t.autoStartTimeout <;>
          simpa [Tournament.say, Tournament.setTimeout, Tournament.clearIfSet,
            Tournament.clearTimeout, h2] using h
      · refine ⟨fun h => ?_, fun h => absurd h hns, fun _ h => absurd h hns⟩
        cases h2 : t.autoStartTimeout <;>
          simpa [Tournament.say, Tournament.clearIfSet, Tournament.clearTimeout, h2] using h

theorem sweepVisit_mono (S : Strategy G) (w : World) (o : Output) (u : User) (time : Int)
    (t : Tournament G) : Mono t (t.sweepVisit S w o u time).state := by
  unfold Tournament.sweepVisit
  dsimp only
  repeat' split
  all_goals first
    | exact Mono.of_fields rfl rfl rfl
    | exact Mono.bind (disqualifyUser_mono S w u o _ t) (fun _ _ => Mono.of_fields rfl rfl rfl)

theorem sweepLoop_mono (S : Strategy G) (w : World) (o : Output) (fuel i : Nat)
    (t : Tournament G) : Mono t (Tournament.sweepLoop S w o fuel i t).state := by
  induction fuel generalizing i t with
  | zero => exact Mono.same t
  | succ n ih =>
    unfold Tournament.sweepLoop
    split
    · exact Mono.same t
    · split
      · exact Mono.same t
      · exact Mono.bind (sweepVisit_mono S w o _ _ t) (fun _ t1 => ih _ t1)

theorem runAutoDisqualify_mono (S : Strategy G) (w : World) (o : Output) (t : Tournament G) :
    Mono t (t.runAutoDisqualify S w o).state := by
  unfold Tournament.runAutoDisqualify
  split
  · exact Mono.bind (sendReply_mono _ _ _ _) (fun _ _ => Mono.same _)
  · dsimp only
    refine Mono.chain ?_ (Mono.bind (sweepLoop_mono S w o _ _ _) (fun _ t2 => ?_))
    · exact clearIfSet_mono t _
    · split
      · split
        · exact Mono.same _
        · rename_i hne
          exact ⟨fun h => absurd h hne, fun h => h, fun h => absurd h hne⟩
      · exact Mono.same _

theorem storeAutoDisqualifyTimeout_mono (timeout : Timeout) (t : Tournament G) :
    Mono t (t.storeAutoDisqualifyTimeout timeout) := by
  unfold Tournament.storeAutoDisqualifyTimeout
  split <;> exact Mono.of_fields rfl rfl rfl

theorem setAutoDisqualifyTimeout_mono (S : Strategy G) (w : World) (timeout : TimeoutArg)
    (o : Output) (t : Tournament G) :
    Mono t (t.setAutoDisqualifyTimeout S w timeout o).state := by
  unfold Tournament.setAutoDisqualifyTimeout
  split
  · exact Mono.bind (sendReply_mono _ _ _ _) (fun _ _ => Mono.same _)
  · dsimp only
    split
    · exact (storeAutoDisqualifyTimeout_mono timeout.parseFloat t).chain
        (Mono.bind (runAutoDisqualify_mono S w _ _) (fun _ _ => Mono.same _))
    · exact storeAutoDisqualifyTimeout_mono timeout.parseFloat t

/-- The entries of users that start no match are left as they were. -/
theorem addMatches_frame (ms : List (User × User)) (ch cb av : JMap (List User)) (a : User)
    (h : ∀ p ∈ ms, p.1 ≠ a) : (addMatches ms ch cb av).2.get a = av.get a := by
  induction ms generalizing ch cb av with
  | nil => rfl
  | cons p rest ih =>
    obtain ⟨a0, b0⟩ := p
    have ha0 : a0 ≠ a := h (a0, b0) (List.mem_cons_self _ _)
    have hrest : ∀ p ∈ rest, p.1 ≠ a := fun p hp => h p (List.mem_cons_of_mem _ hp)
    unfold addMatches
    split
    · rfl
    · split
      · rfl
      · split
        · rfl
        · rw [ih _ _ _ hrest, JMap.get_set_ne _ _ _ _ ha0]

/-- When every member has an entry and the generator answers pairs of members,
`getAvailableMatches` returns a cache and rebuilds the entries from the pairs. -/
theorem getAvailableMatches_ok (S : Strategy G) (w : World) (t : Tournament G)
    (ms : List (User × User)) (av : JMap (List User)) (la : JMap Int)
    (hms : S.getAvailableMatches t.generator = .ok ms)
    (hav : t.availableMatches = some av) (hla : t.lastActionTimes = some la)
    (hkeys : ∀ u ∈ S.getUsers t.generator false, (av.get u).isSome = true)
    (hmem : ∀ p ∈ ms, p.1 ∈ S.getUsers t.generator false ∧
      p.2 ∈ S.getUsers t.generator false) :
    ∃ c av2 la2, t.getAvailableMatches S w =
        .ok (some c) { t with availableMatches := some av2, lastActionTimes := some la2 } ∧
      (∀ a, a ∈ S.getUsers t.generator false →
        ∃ e, av2.get a = some e ∧ ∀ b, b ∈ e ↔ (a, b) ∈ ms) ∧
      (∀ a, a ∉ S.getUsers t.generator false → av2.get a = av.get a) := by
  obtain ⟨old1, av1, hr, hr1, hr2⟩ := resetEntries_ok (S.getUsers t.generator false) av [] hkeys
  have hpre : ∀ p ∈ ms,
      ((emptyLists (S.getUsers t.generator false)).get p.1).isSome = true ∧
      ((emptyLists (S.getUsers t.generator false)).get p.2).isSome = true ∧
      (av1.get p.1).isSome = true := by
    intro p hp
    obtain ⟨h1, h2⟩ := hmem p hp
    refine ⟨?_, ?_, ?_⟩
    · rw [emptyLists_get, if_pos h1]; rfl
    · rw [emptyLists_get, if_pos h2]; rfl
    · rw [hr1 _ h1]; rfl
  obtain ⟨ch1, cb1, av2, ha, ha1, ha2⟩ := addMatches_ok ms _ _ av1 hpre
  refine ⟨⟨ch1, cb1⟩, av2, (needsTouch old1 av2).foldl (fun m u => m.set u w.now) la,
    ?_, ?_, ?_⟩
  · unfold Tournament.getAvailableMatches
    simp only [hms, hav, hr, ha, hla]
  · intro a hmema
    have h1 := hr1 a hmema
    have h2 := ha1 a
    rw [h1] at h2
    obtain ⟨e1, he1⟩ := Option.isSome_iff_exists.mp h2
    obtain ⟨e, he, hiff⟩ := ha2 a e1 he1
    rw [h1] at he
    have : e = [] := (Option.some.inj he).symm
    subst this
    exact ⟨e1, he1, fun b => by simpa using hiff b⟩
  · intro a hnot
    have hf := addMatches_frame ms (emptyLists (S.getUsers t.generator false))
      (emptyLists (S.getUsers t.generator false)) av1 a
      (fun p hp heq => hnot (heq ▸ (hmem p hp).1))
    rw [ha] at hf
    rw [← hr2 a hnot]
    exact hf

theorem updateBracket_maps (S : Strategy G) (w : World) (t : Tournament G) :
    (t.updateBracket S w).availableMatches = t.availableMatches ∧
    (t.updateBracket S w).lastActionTimes = t.lastActionTimes ∧
    (t.updateBracket S w).isAvailableMatchesInvalidated = t.isAvailableMatchesInvalidated ∧
    (t.updateBracket S w).availableMatchesCache = t.availableMatchesCache := by
  unfold Tournament.updateBracket
  dsimp only
  split
  · split
    · cases h : t.bracketUpdateTimer <;> exact ⟨rfl, rfl, rfl, rfl⟩
    · exact ⟨rfl, rfl, rfl, rfl⟩
  · exact ⟨rfl, rfl, rfl, rfl⟩

/-- Under the same conditions `update()` returns. -/
theorem update_returns (S : Strategy G) (w : World) (t : Tournament G)
    (ms : List (User × User)) (av : JMap (List User)) (la : JMap Int)
    (hms : S.getAvailableMatches t.generator = .ok ms)
    (hav : t.availableMatches = some av) (hla : t.lastActionTimes = some la)
    (hkeys : ∀ u ∈ S.getUsers t.generator false, (av.get u).isSome = true)
    (hmem : ∀ p ∈ ms, p.1 ∈ S.getUsers t.generator false ∧
      p.2 ∈ S.getUsers t.generator false) :
    ∃ t1, t.update S w = .ok () t1 := by
  unfold Tournament.update
  split
  · exact ⟨_, rfl⟩
  · dsimp only
    split
    · have hg : (t.updateBracket S w).generator = t.generator :=
        congrArg Core.generator (updateBracket_core S w t)
      obtain ⟨m1, m2, _, _⟩ := updateBracket_maps S w t
      obtain ⟨c, av2, la2, hc, _, _⟩ := getAvailableMatches_ok S w (t.updateBracket S w) ms av la
        (by rw [hg]; exact hms) (by rw [m1]; exact hav) (by rw [m2]; exact hla)
        (by rw [hg]; exact hkeys) (by rw [hg]; exact hmem)
      rw [hc]
      exact ⟨_, rfl⟩
    · exact ⟨_, rfl⟩

theorem SameMaps.unchanged (t : Tournament G) : SameMaps t t := ⟨rfl, rfl, rfl, rfl, rfl, rfl, rfl⟩

theorem SameMaps.compose {t t1 t2 : Tournament G} (h1 : SameMaps t t1) (h2 : SameMaps t1 t2) :
    SameMaps t t2 :=
  ⟨h2.started.trans h1.started, h2.availableMatches.trans h1.availableMatches,
    h2.inProgressMatches.trans h1.inProgressMatches,
    h2.pendingChallenges.trans h1.pendingChallenges,
    h2.disqualifiedUsers.trans h1.disqualifiedUsers,
    h2.isAutoDisqualifyWarned.trans h1.isAutoDisqualifyWarned,
    h2.lastActionTimes.trans h1.lastActionTimes⟩

theorem update_forming (S : Strategy G) (w : World) (t : Tournament G)
    (hs : t.isTournamentStarted = false) : SameMaps t (t.update S w).state := by
  unfold Tournament.update
  split
  · exact SameMaps.unchanged t
  · dsimp only
    have hc : (t.updateBracket S w).isTournamentStarted = t.isTournamentStarted :=
      congrArg Core.isTournamentStarted (updateBracket_core S w t)
    obtain ⟨m1, m2, _, _⟩ := updateBracket_maps S w t
    have h3 := congrArg Core.inProgressMatches (updateBracket_core S w t)
    have h4 := congrArg Core.pendingChallenges (updateBracket_core S w t)
    have h5 := congrArg Core.disqualifiedUsers (updateBracket_core S w t)
    have h6 := congrArg Core.isAutoDisqualifyWarned (updateBracket_core S w t)
    rw [if_neg (by rw [hc, hs]; simp)]
    exact ⟨hc, m1, h3, h4, h5, h6, m2⟩

theorem sendReply_sameMaps (w : World) (o : Output) (e : TourError) (t : Tournament G) :
    SameMaps t (sendReply w o e t).state := by
  unfold sendReply
  repeat' split
  all_goals exact ⟨rfl, rfl, rfl, rfl, rfl, rfl, rfl⟩

theorem removeUser_forming (S : Strategy G) (w : World) (u : User) (o : Output)
    (t : Tournament G) (hs : t.isTournamentStarted = false) :
    SameMaps t (t.removeUser S w u o).state := by
  unfold Tournament.removeUser
  dsimp only
  split
  · refine SameMaps.compose ?_ (sendReply_sameMaps _ _ _ _)
    exact ⟨rfl, rfl, rfl, rfl, rfl, rfl, rfl⟩
  · refine SameMaps.compose ?_ (update_forming S w _ hs)
    exact ⟨rfl, rfl, rfl, rfl, rfl, rfl, rfl⟩

theorem purgeLoop_forming (S : Strategy G) (w : World) (users : List User)
    (t : Tournament G) (hs : t.isTournamentStarted = false) :
    SameMaps t (Tournament.purgeLoop S w users t).state := by
  induction users generalizing t with
  | nil => exact SameMaps.unchanged t
  | cons u rest ih =>
    unfold Tournament.purgeLoop
    split
    · exact ih t hs
    · dsimp only
      rw [if_neg (by rw [hs]; simp)]
      have h1 := removeUser_forming S w u .absent t hs
      cases hr : t.removeUser S w u .absent with
      | ok a t1 =>
        rw [hr] at h1
        have hs1 : (t1.say .roomUpdate).isTournamentStarted = false := by
          have := h1.started
          simp only [Res.state_ok] at this
          rw [← hs, ← this]; rfl
        have h2 := ih (t1.say .roomUpdate) hs1
        simp only [Res.andThen_ok]
        refine SameMaps.compose h1 (SameMaps.compose ?_ h2)
        exact ⟨rfl, rfl, rfl, rfl, rfl, rfl, rfl⟩
      | threw t1 =>
        rw [hr] at h1
        exact h1

theorem clearIfSet_generator (t : Tournament G) (h : Option Nat) :
    (t.clearIfSet h).generator = t.generator := by
  cases h <;> rfl

theorem clearIfSet_availableMatches (t : Tournament G) (h : Option Nat) :
    (t.clearIfSet h).availableMatches = t.availableMatches := by
  cases h <;> rfl

theorem clearIfSet_lastActionTimes (t : Tournament G) (h : Option Nat) :
    (t.clearIfSet h).lastActionTimes = t.lastActionTimes := by
  cases h <;> rfl

theorem clearIfSet_isTournamentStarted (t : Tournament G) (h : Option Nat) :
    (t.clearIfSet h).isTournamentStarted = t.isTournamentStarted := by
  cases h <;> rfl

theorem Voids.none_voided (t : Tournament G) : Voids t t :=
  fun pc h => ⟨pc, h, fun _ hx => hx⟩

theorem Voids.followed {t t1 t2 : Tournament G} (h1 : Voids t t1) (h2 : Voids t1 t2) :
    Voids t t2 := by
  intro pc h
  obtain ⟨pc1, e1, f1⟩ := h1 pc h
  obtain ⟨pc2, e2, f2⟩ := h2 pc1 e1
  exact ⟨pc2, e2, fun x hx => f2 x (f1 x hx)⟩

theorem Voids.of_same_map {t t1 : Tournament G} (h : t1.pendingChallenges = t.pendingChallenges) :
    Voids t t1 :=
  fun pc hpc => ⟨pc, h.trans hpc, fun _ hx => hx⟩

theorem Voids.sequence {α β : Type} {t : Tournament G} {r : Res G α}
    {k : α → Tournament G → Res G β} (h1 : Voids t r.state)
    (h2 : ∀ a t1, Voids t1 (k a t1).state) : Voids t (r.andThen k).state := by
  cases r with
  | ok a t1 => exact h1.followed (h2 a t1)
  | threw t1 => exact h1

theorem hasChallenge_set_none (pc : JMap (Option Challenge)) (k x : User)
    (h : hasChallenge pc x = false) : hasChallenge (pc.set k none) x = false := by
  by_cases hk : k = x
  · subst hk
    simp [hasChallenge, JMap.get_set_self]
  · simp only [hasChallenge, JMap.get_set_ne _ _ _ _ hk]
    exact h

theorem sendReply_voids (w : World) (o : Output) (e : TourError) (t : Tournament G) :
    Voids t (sendReply w o e t).state := by
  unfold sendReply
  repeat' split
  all_goals exact Voids.of_same_map rfl

theorem update_voids (S : Strategy G) (w : World) (t : Tournament G) :
    Voids t (t.update S w).state :=
  Voids.of_same_map (congrArg Core.pendingChallenges (update_core S w t))

theorem onTournamentEnd_voids (S : Strategy G) (t : Tournament G) :
    Voids t (t.onTournamentEnd S) := by
  refine Voids.of_same_map ?_
  unfold Tournament.onTournamentEnd
  dsimp only
  cases h : (t.say (.tournamentEnd (S.getResults t.generator)
    (t.getBracketData S))).autoDisqualifyTimer <;> rfl

theorem voidChallenge_voids (S : Strategy G) (u : User) (t : Tournament G) :
    Voids t (t.voidChallenge S u).state := by
  unfold Tournament.voidChallenge
  split
  · exact Voids.none_voided t
  · rename_i pc hpc
    split
    · intro pc0 h0
      have : pc0 = pc := Option.some.inj (h0.symm.trans hpc)
      subst this
      exact ⟨_, rfl, fun x hx => hasChallenge_set_none _ _ _ (hasChallenge_set_none _ _ _ hx)⟩
    · intro pc0 h0
      have : pc0 = pc := Option.some.inj (h0.symm.trans hpc)
      subst this
      exact ⟨_, rfl, fun x hx => hasChallenge_set_none _ _ _ (hasChallenge_set_none _ _ _ hx)⟩
    · exact Voids.none_voided t

theorem forfeitFrom_voids (S : Strategy G) (u : User) (t : Tournament G) :
    Voids t (t.forfeitFrom S u).state := by
  unfold Tournament.forfeitFrom
  repeat' split
  all_goals exact Voids.of_same_map rfl

theorem forfeitTo_voids (S : Strategy G) (u : User) (t : Tournament G) :
    Voids t (t.forfeitTo S u).state := by
  unfold Tournament.forfeitTo
  repeat' split
  all_goals exact Voids.of_same_map rfl

theorem announceDisqualify_voids (u : User) (reason : Option Nat) (t : Tournament G) :
    Voids t (t.announceDisqualify u reason) := by
  unfold Tournament.announceDisqualify
  cases reason <;> exact Voids.of_same_map rfl

theorem settleDisqualify_voids (S : Strategy G) (w : World) (u : User)
    (reason : Option Nat) (t : Tournament G) :
    Voids t (t.settleDisqualify S w u reason).state := by
  unfold Tournament.settleDisqualify
  refine Voids.sequence (voidChallenge_voids S u _) (fun _ t2 => ?_)
  refine Voids.sequence (forfeitFrom_voids S u _) (fun _ t3 => ?_)
  refine Voids.sequence (forfeitTo_voids S u _) (fun _ t4 => ?_)
  dsimp only
  refine (announceDisqualify_voids u reason t4).followed ?_
  split
  · exact onTournamentEnd_voids S _
  · exact Voids.sequence (update_voids S w _) (fun _ _ => Voids.none_voided _)

theorem disqualifyUser_voids (S : Strategy G) (w : World) (u : User) (o : Output)
    (reason : Option Nat) (t : Tournament G) :
    Voids t (t.disqualifyUser S w u o reason).state := by
  unfold Tournament.disqualifyUser
  dsimp only
  split
  · refine Voids.followed ?_ (Voids.sequence (sendReply_voids _ _ _ _) (fun _ _ => Voids.none_voided _))
    exact Voids.of_same_map rfl
  · split
    · exact Voids.of_same_map rfl
    · split
      · refine Voids.followed ?_ (Voids.sequence (sendReply_voids _ _ _ _) (fun _ _ => Voids.none_voided _))
        exact Voids.of_same_map rfl
      · refine Voids.followed ?_ (settleDisqualify_voids S w u reason _)
        exact Voids.of_same_map rfl

theorem sweepVisit_voids (S : Strategy G) (w : World) (o : Output) (u : User) (time : Int)
    (t : Tournament G) : Voids t (t.sweepVisit S w o u time).state := by
  unfold Tournament.sweepVisit
  dsimp only
  repeat' split
  all_goals first
    | exact Voids.of_same_map rfl
    | exact Voids.sequence (disqualifyUser_voids S w u o _ t) (fun _ _ => Voids.of_same_map rfl)

theorem sweepLoop_voids (S : Strategy G) (w : World) (o : Output) (fuel i : Nat)
    (t : Tournament G) : Voids t (Tournament.sweepLoop S w o fuel i t).state := by
  induction fuel generalizing i t with
  | zero => exact Voids.none_voided t
  | succ n ih =>
    unfold Tournament.sweepLoop
    split
    · exact Voids.none_voided t
    · split
      · exact Voids.none_voided t
      · exact Voids.sequence (sweepVisit_voids S w o _ _ t) (fun _ t1 => ih _ t1)

theorem clearIfSet_pendingChallenges (t : Tournament G) (h : Option Nat) :
    (t.clearIfSet h).pendingChallenges = t.pendingChallenges := by
  cases h <;> rfl

theorem runAutoDisqualify_voids (S : Strategy G) (w : World) (o : Output) (t : Tournament G) :
    Voids t (t.runAutoDisqualify S w o).state := by
  unfold Tournament.runAutoDisqualify
  split
  · exact Voids.sequence (sendReply_voids _ _ _ _) (fun _ _ => Voids.none_voided _)
  · dsimp only
    refine Voids.followed ?_ (Voids.sequence (sweepLoop_voids S w o _ _ _) (fun _ t2 => ?_))
    · exact Voids.of_same_map (clearIfSet_pendingChallenges _ _)
    · repeat' split
      all_goals exact Voids.of_same_map rfl

/-- A completion of `acceptChallenge` that finds no challenge left for the
initiator changes nothing. -/
theorem finishAcceptChallenge_without_challenge (S : Strategy G) (w : World)
    (user source : User) (team : Nat) (t : Tournament G) (pc : JMap (Option Challenge))
    (hpc : t.pendingChallenges = some pc) (h : hasChallenge pc source = false) :
    t.finishAcceptChallenge S w user (.fromUser source team) true = .ok () t := by
  unfold Tournament.finishAcceptChallenge
  simp only [hpc, h]
  split
  · rfl
  · simp

theorem beginMatch_voids (S : Strategy G) (w : World) (user source : User) (room : Nat)
    (pc : JMap (Option Challenge)) (t : Tournament G) :
    ∃ pc1, (t.beginMatch S w user source room pc).state.pendingChallenges = some pc1 ∧
      hasChallenge pc1 source = false ∧ hasChallenge pc1 user = false := by
  have h0 : hasChallenge ((pc.set source none).set user none) source = false ∧
      hasChallenge ((pc.set source none).set user none) user = false := by
    constructor
    · apply hasChallenge_set_none
      simp [hasChallenge, JMap.get_set_self]
    · simp [hasChallenge, JMap.get_set_self]
  have key : ∀ (t4 : Tournament G) (pc0 : JMap (Option Challenge)),
      t4.pendingChallenges = some pc0 →
      hasChallenge pc0 source = false ∧ hasChallenge pc0 user = false →
      ∃ pc1, ((t4.runAutoDisqualify S w .room).andThen
          fun _ t5 => t5.update S w).state.pendingChallenges = some pc1 ∧
        hasChallenge pc1 source = false ∧ hasChallenge pc1 user = false := by
    intro t4 pc0 h4 hh
    obtain ⟨pc1, e1, f1⟩ := Voids.sequence (runAutoDisqualify_voids S w .room t4)
      (fun _ t5 => update_voids S w t5) pc0 h4
    exact ⟨pc1, e1, f1 source hh.1, f1 user hh.2⟩
  unfold Tournament.beginMatch
  dsimp only
  split
  · exact ⟨_, rfl, h0⟩
  · refine key _ _ ?_ h0
    rfl

theorem Res.andThen_eq_ok {α β : Type} {r : Res G α} {k : α → Tournament G → Res G β}
    {b : β} {t1 : Tournament G} (h : r.andThen k = .ok b t1) :
    ∃ a t0, r = .ok a t0 ∧ k a t0 = .ok b t1 := by
  cases r with
  | ok a t0 => exact ⟨a, t0, rfl, h⟩
  | threw t0 => cases h

theorem pendOf_set (pc : JMap (Option Challenge)) (k : User) (v : Option Challenge) :
    pendOf (pc.set k v) = Function.update (pendOf pc) k v := by
  funext x
  unfold pendOf
  rw [JMap.get_set]
  by_cases h : k = x
  · subst h; simp
  · simp [h, Function.update_noteq (Ne.symm h)]

theorem matOf_set (ip : JMap (Option Match)) (k : User) (v : Option Match) :
    matOf (ip.set k v) = Function.update (matOf ip) k v := by
  funext x
  unfold matOf
  rw [JMap.get_set]
  by_cases h : k = x
  · subst h; simp
  · simp [h, Function.update_noteq (Ne.symm h)]

theorem dqOf_set_true (dq : JMap Bool) (k : User) :
    dqOf (dq.set k true) = Function.update (dqOf dq) k true := by
  funext x
  unfold dqOf
  rw [JMap.get_set]
  by_cases h : k = x
  · subst h; simp
  · simp [h, Function.update_noteq (Ne.symm h)]

theorem busy_setBusy (S : Strategy G) (hS : LawfulBusy S) (t : Tournament G) (u : User)
    (b : Bool) : (t.setBusy S u b).busy S = Function.update (t.busy S) u b := by
  funext v
  unfold Tournament.busy Tournament.setBusy
  have key := hS t.generator u b v
  by_cases h : v = u
  · subst h; simpa using key
  · simpa [h] using key

/-- What `voidChallenge` does to a state whose challenge map exists. -/
theorem voidChallenge_spec (S : Strategy G) (p : User) (t : Tournament G)
    (pc : JMap (Option Challenge)) (hpc : t.pendingChallenges = some pc) :
    ∃ t2, t.voidChallenge S p = .ok () t2 ∧
      t2.pendingChallenges = some (voidPc p pc) ∧
      t2.generator = (match pendOf pc p with
        | some c => S.setUserBusy t.generator (partnerOf c) false
        | none => t.generator) ∧
      t2.inProgressMatches = t.inProgressMatches ∧
      t2.disqualifiedUsers = t.disqualifiedUsers ∧
      t2.tourRooms = t.tourRooms ∧ t2.setups = t.setups ∧
      t2.isTournamentStarted = t.isTournamentStarted ∧ t2.isEnded = t.isEnded ∧
      t2.availableMatches = t.availableMatches := by
  unfold Tournament.voidChallenge
  rw [hpc]
  dsimp only
  unfold voidPc pendOf
  cases h : pc.get p with
  | none => exact ⟨t, rfl, hpc, rfl, rfl, rfl, rfl, rfl, rfl, rfl, rfl⟩
  | some oc =>
    cases oc with
    | none => exact ⟨t, rfl, hpc, rfl, rfl, rfl, rfl, rfl, rfl, rfl, rfl⟩
    | some c =>
      cases c with
      | toUser q tm => exact ⟨_, rfl, rfl, rfl, rfl, rfl, rfl, rfl, rfl, rfl, rfl⟩
      | fromUser q tm => exact ⟨_, rfl, rfl, rfl, rfl, rfl, rfl, rfl, rfl, rfl, rfl⟩

/-- What `forfeitFrom` does to a state whose match map exists. -/
theorem forfeitFrom_spec (S : Strategy G) (p : User) (t : Tournament G)
    (ip : JMap (Option Match)) (hip : t.inProgressMatches = some ip) :
    ∃ t2, t.forfeitFrom S p = .ok () t2 ∧
      t2.inProgressMatches = some (dropFrom p ip) ∧
      t2.generator = (match matOf ip p with
        | some m => S.setUserBusy t.generator m.toUser false
        | none => t.generator) ∧
      t2.tourRooms = (match matOf ip p with
        | some m => t.tourRooms.filter (fun r => r.id ≠ m.room)
        | none => t.tourRooms) ∧
      t2.pendingChallenges = t.pendingChallenges ∧
      t2.disqualifiedUsers = t.disqualifiedUsers ∧ t2.setups = t.setups ∧
      t2.isTournamentStarted = t.isTournamentStarted ∧ t2.isEnded = t.isEnded ∧
      t2.availableMatches = t.availableMatches := by
  unfold Tournament.forfeitFrom
  rw [hip]
  dsimp only
  unfold dropFrom matOf
  cases h : ip.get p with
  | none => exact ⟨t, rfl, hip, rfl, rfl, rfl, rfl, rfl, rfl, rfl, rfl⟩
  | some om =>
    cases om with
    | none => exact ⟨t, rfl, hip, rfl, rfl, rfl, rfl, rfl, rfl, rfl, rfl⟩
    | some m => exact ⟨_, rfl, rfl, rfl, rfl, rfl, rfl, rfl, rfl, rfl, rfl⟩

/-- What `forfeitTo` does when it returns. -/
theorem forfeitTo_spec (S : Strategy G) (p : User) (t t2 : Tournament G)
    (ip : JMap (Option Match)) (hip : t.inProgressMatches = some ip)
    (h : t.forfeitTo S p = .ok () t2) :
    t2.inProgressMatches = some (dropTo p ip) ∧
    (match findMatchTo p ip none with
      | some k => ∃ m, ip.get k = some (some m) ∧
          t2.generator = S.setUserBusy t.generator k false ∧
          t2.tourRooms = t.tourRooms.filter (fun r => r.id ≠ m.room)
      | none => t2.generator = t.generator ∧ t2.tourRooms = t.tourRooms) ∧
    t2.pendingChallenges = t.pendingChallenges ∧
    t2.disqualifiedUsers = t.disqualifiedUsers ∧ t2.setups = t.setups ∧
    t2.isTournamentStarted = t.isTournamentStarted ∧ t2.isEnded = t.isEnded ∧
    t2.availableMatches = t.availableMatches := by
  unfold Tournament.forfeitTo at h
  rw [hip] at h
  dsimp only at h
  unfold dropTo
  cases hk : findMatchTo p ip none with
  | none =>
    rw [hk] at h
    injection h with _ h
    subst h
    exact ⟨hip, ⟨rfl, rfl⟩, rfl, rfl, rfl, rfl, rfl, rfl⟩
  | some k =>
    rw [hk] at h
    dsimp only at h
    cases hm : ip.get k with
    | none => rw [hm] at h; cases h
    | some om =>
      cases om with
      | none => rw [hm] at h; cases h
      | some m =>
        rw [hm] at h
        injection h with _ h
        subst h
        exact ⟨rfl, ⟨m, hm, rfl, rfl⟩, rfl, rfl, rfl, rfl, rfl, rfl⟩

/-- The partner of a pending challenge holds the mirrored entry. -/
theorem Inv.partner {F : List (User × User)} {v : View} (h : Inv F v) {p : User}
    {c : Challenge} (hc : v.pend p = some c) :
    ∃ c1, v.pend (partnerOf c) = some c1 ∧ partnerOf c1 = p ∧ partnerOf c ≠ p := by
  cases c with
  | toUser q tm =>
    obtain ⟨tm1, h1⟩ := h.pend_to p q tm hc
    refine ⟨_, h1, rfl, ?_⟩
    intro heq
    simp only [partnerOf] at heq
    subst heq
    rw [hc] at h1
    cases h1
  | fromUser q tm =>
    obtain ⟨tm1, h1⟩ := h.pend_from q p tm hc
    refine ⟨_, h1, rfl, ?_⟩
    intro heq
    simp only [partnerOf] at heq
    subst heq
    rw [hc] at h1
    cases h1

/-- Marking a user without challenge or match as disqualified, and freeing it. -/
theorem Inv.markDq {F : List (User × User)} {v : View} (h : Inv F v) (p : User)
    (hp : v.pend p = none) (hm : ¬ InMatch v.mat p) :
    Inv F { v with busy := Function.update v.busy p false,
                   dq := Function.update v.dq p true } := by
  refine ⟨?_, ?_, ?_, h.not_both, h.setup_free, ?_, h.setup_pair, h.pend_to, h.pend_from,
    h.match_apart, h.rooms_match⟩
  · intro x hx
    by_cases hxp : x = p
    · subst hxp; simp at hx
    · simp only [Function.update_noteq hxp] at hx
      exact h.busy_reason x hx
  · intro x hx
    by_cases hxp : x = p
    · subst hxp
      rcases hx with hx | hx
      · simp [hp] at hx
      · exact absurd hx hm
    · simp only [Function.update_noteq hxp]
      exact h.engaged_busy x hx
  · intro x hx hd
    by_cases hxp : x = p
    · subst hxp; simp at hd
    · simp only [Function.update_noteq hxp] at hd ⊢
      exact h.setup_busy x hx hd
  · refine h.setups_apart.imp ?_
    intro f g hfg x hf hg
    by_cases hxp : x = p
    · subst hxp; simp
    · simp only [Function.update_noteq hxp]
      exact hfg x hf hg

/-- Voiding the challenge between `p` and its partner and freeing both. -/
theorem Inv.releaseChallenge {F : List (User × User)} {v : View} (h : Inv F v) (p : User)
    (c : Challenge) (hc : v.pend p = some c) :
    Inv F { v with
      busy := Function.update (Function.update v.busy p false) (partnerOf c) false,
      pend := Function.update (Function.update v.pend p none) (partnerOf c) none } := by
  obtain ⟨c1, hc1, hback, hne⟩ := h.partner hc
  have hsub : ∀ x y, Function.update (Function.update v.pend p none) (partnerOf c) none x
      = some y → v.pend x = some y ∧ x ≠ p ∧ x ≠ partnerOf c := by
    intro x y hxy
    by_cases h1 : x = partnerOf c
    · subst h1; simp at hxy
    · by_cases h2 : x = p
      · subst h2; simp [Function.update_noteq h1] at hxy
      · simp only [Function.update_noteq h1, Function.update_noteq h2] at hxy
        exact ⟨hxy, h2, h1⟩
  have hbusy : ∀ x, x ≠ p → x ≠ partnerOf c →
      Function.update (Function.update v.busy p false) (partnerOf c) false x = v.busy x := by
    intro x h2 h1
    simp only [Function.update_noteq h1, Function.update_noteq h2]
  have hpm : ¬ InMatch v.mat p := h.not_both p (by simp [hc])
  have hqm : ¬ InMatch v.mat (partnerOf c) := h.not_both _ (by simp [hc1])
  refine ⟨?_, ?_, ?_, ?_, ?_, h.setups_apart, h.setup_pair, ?_, ?_, h.match_apart,
    h.rooms_match⟩
  · intro x hx
    by_cases h1 : x = partnerOf c
    · subst h1; simp at hx
    · by_cases h2 : x = p
      · subst h2; simp [Function.update_noteq h1] at hx
      · simp only [Function.update_noteq h1, Function.update_noteq h2] at hx ⊢
        exact h.busy_reason x hx
  · intro x hx
    dsimp only at hx ⊢
    rcases hx with hx | hx
    · obtain ⟨y, hy⟩ := Option.isSome_iff_exists.mp hx
      obtain ⟨hy1, h2, h1⟩ := hsub x y hy
      rw [hbusy x h2 h1]
      exact h.engaged_busy x (Or.inl (by simp [hy1]))
    · have h2 : x ≠ p := fun e => hpm (e ▸ hx)
      have h1 : x ≠ partnerOf c := fun e => hqm (e ▸ hx)
      rw [hbusy x h2 h1]
      exact h.engaged_busy x (Or.inr hx)
  · intro x hx hd
    dsimp only at hd ⊢
    have hfree := (h.setup_free x hx).1
    have h2 : x ≠ p := fun e => by rw [e, hc] at hfree; cases hfree
    have h1 : x ≠ partnerOf c := fun e => by rw [e, hc1] at hfree; cases hfree
    rw [hbusy x h2 h1]
    exact h.setup_busy x hx hd
  · intro x hx
    dsimp only at hx ⊢
    obtain ⟨y, hy⟩ := Option.isSome_iff_exists.mp hx
    exact h.not_both x (by simp [(hsub x y hy).1])
  · intro x hx
    dsimp only
    refine ⟨?_, (h.setup_free x hx).2⟩
    have hfree := (h.setup_free x hx).1
    have h2 : x ≠ p := fun e => by rw [e, hc] at hfree; cases hfree
    have h1 : x ≠ partnerOf c := fun e => by rw [e, hc1] at hfree; cases hfree
    simp only [Function.update_noteq h1, Function.update_noteq h2]
    exact hfree
  · intro a b tm hab
    dsimp only at hab ⊢
    obtain ⟨hab1, ha2, ha1⟩ := hsub a _ hab
    obtain ⟨tm1, hb⟩ := h.pend_to a b tm hab1
    have hb2 : b ≠ p := by
      intro e
      rw [e, hc] at hb
      have : c = .fromUser a tm1 := Option.some.inj hb
      subst this
      exact ha1 rfl
    have hb1 : b ≠ partnerOf c := by
      intro e
      rw [e, hc1] at hb
      have : c1 = .fromUser a tm1 := Option.some.inj hb
      subst this
      exact ha2 hback
    exact ⟨tm1, by simp only [Function.update_noteq hb1, Function.update_noteq hb2]; exact hb⟩
  · intro a b tm hab
    dsimp only at hab ⊢
    obtain ⟨hab1, hb2, hb1⟩ := hsub b _ hab
    obtain ⟨tm1, ha⟩ := h.pend_from a b tm hab1
    have ha2 : a ≠ p := by
      intro e
      rw [e, hc] at ha
      have : c = .toUser b tm1 := Option.some.inj ha
      subst this
      exact hb1 rfl
    have ha1 : a ≠ partnerOf c := by
      intro e
      rw [e, hc1] at ha
      have : c1 = .toUser b tm1 := Option.some.inj ha
      subst this
      exact hb2 hback
    exact ⟨tm1, by simp only [Function.update_noteq ha1, Function.update_noteq ha2]; exact ha⟩

theorem InMatch.of_update_none {mat : User → Option Match} {k x : User}
    (h : InMatch (Function.update mat k none) x) :
    (∃ m, mat x = some m ∧ x ≠ k) ∨ ∃ k1 m, mat k1 = some m ∧ m.toUser = x ∧ k1 ≠ k := by
  rcases h with ⟨m, hm⟩ | ⟨k1, m, hm, hx⟩
  · left
    by_cases e : x = k
    · subst e; simp at hm
    · exact ⟨m, by simpa [Function.update_noteq e] using hm, e⟩
  · right
    by_cases e : k1 = k
    · subst e; simp at hm
    · exact ⟨k1, m, by simpa [Function.update_noteq e] using hm, hx, e⟩

theorem InMatch.mono_update_none {mat : User → Option Match} {k x : User}
    (h : InMatch (Function.update mat k none) x) : InMatch mat x := by
  rcases InMatch.of_update_none h with ⟨m, hm, _⟩ | ⟨k1, m, hm, hx, _⟩
  · exact Or.inl ⟨m, hm⟩
  · exact Or.inr ⟨k1, m, hm, hx⟩

/-- Dropping the match `k` initiated and freeing both of its players; the
rooms kept must not belong to that match. -/
theorem Inv.releaseMatch {F : List (User × User)} {v : View} (h : Inv F v) (k : User)
    (m : Match) (hk : v.mat k = some m) (rooms : List BattleRoom)
    (hr : ∀ r ∈ rooms, r ∈ v.rooms ∧ r.p1 ≠ k) :
    Inv F { v with
      busy := Function.update (Function.update v.busy k false) m.toUser false,
      mat := Function.update v.mat k none,
      rooms := rooms } := by
  have hkm : InMatch v.mat k := Or.inl ⟨m, hk⟩
  have hmm : InMatch v.mat m.toUser := Or.inr ⟨k, m, hk, rfl⟩
  have hbusy : ∀ x, x ≠ k → x ≠ m.toUser →
      Function.update (Function.update v.busy k false) m.toUser false x = v.busy x := by
    intro x h2 h1
    simp only [Function.update_noteq h1, Function.update_noteq h2]
  have hother : ∀ x, InMatch (Function.update v.mat k none) x → x ≠ k ∧ x ≠ m.toUser := by
    intro x hx
    rcases InMatch.of_update_none hx with ⟨m1, hm1, hne⟩ | ⟨k1, m1, hm1, hx1, hne⟩
    · have := h.match_apart x k m1 m hm1 hk hne
      exact ⟨hne, this.1⟩
    · have := h.match_apart k1 k m1 m hm1 hk hne
      subst hx1
      exact ⟨this.2.1, this.2.2⟩
  refine ⟨?_, ?_, ?_, ?_, ?_, h.setups_apart, h.setup_pair, h.pend_to, h.pend_from, ?_, ?_⟩
  · intro x hx
    dsimp only at hx ⊢
    by_cases h1 : x = m.toUser
    · subst h1; simp at hx
    · by_cases h2 : x = k
      · subst h2; simp [Function.update_noteq h1] at hx
      · simp only [Function.update_noteq h1, Function.update_noteq h2] at hx
        rcases h.busy_reason x hx with r | r | r
        · exact Or.inl r
        · right; left
          rcases r with ⟨m1, hm1⟩ | ⟨k1, m1, hm1, hx1⟩
          · exact Or.inl ⟨m1, by simp only [Function.update_noteq h2]; exact hm1⟩
          · have hk1 : k1 ≠ k := by
              intro e
              subst e
              rw [hk] at hm1
              have : m = m1 := Option.some.inj hm1
              subst this
              exact h1 hx1.symm
            exact Or.inr ⟨k1, m1, by simp only [Function.update_noteq hk1]; exact hm1, hx1⟩
        · exact Or.inr (Or.inr r)
  · intro x hx
    dsimp only at hx ⊢
    rcases hx with hx | hx
    · have h2 : x ≠ k := fun e => h.not_both x hx (e ▸ hkm)
      have h1 : x ≠ m.toUser := fun e => h.not_both x hx (e ▸ hmm)
      rw [hbusy x h2 h1]
      exact h.engaged_busy x (Or.inl hx)
    · obtain ⟨h2, h1⟩ := hother x hx
      rw [hbusy x h2 h1]
      exact h.engaged_busy x (Or.inr (InMatch.mono_update_none hx))
  · intro x hx hd
    dsimp only at hd ⊢
    have hfree := (h.setup_free x hx).2
    have h2 : x ≠ k := fun e => hfree (e ▸ hkm)
    have h1 : x ≠ m.toUser := fun e => hfree (e ▸ hmm)
    rw [hbusy x h2 h1]
    exact h.setup_busy x hx hd
  · intro x hx hin
    exact h.not_both x hx (InMatch.mono_update_none hin)
  · intro x hx
    exact ⟨(h.setup_free x hx).1, fun hin => (h.setup_free x hx).2 (InMatch.mono_update_none hin)⟩
  · intro a b ma mb ha hb hab
    dsimp only at ha hb
    have ha1 : a ≠ k := by intro e; subst e; simp at ha
    have hb1 : b ≠ k := by intro e; subst e; simp at hb
    simp only [Function.update_noteq ha1] at ha
    simp only [Function.update_noteq hb1] at hb
    exact h.match_apart a b ma mb ha hb hab
  · intro r hrm
    dsimp only at hrm ⊢
    obtain ⟨h1, h2⟩ := hr r hrm
    simp only [Function.update_noteq h2]
    exact h.rooms_match r h1

theorem InSetup.append_right {F : List (User × User)} {x : User} (g : User × User)
    (h : InSetup F x) : InSetup (F ++ [g]) x := by
  obtain ⟨f, hf, hx⟩ := h
  exact ⟨f, List.mem_append_left _ hf, hx⟩

theorem InSetup.of_middle {l1 l2 : List (User × User)} {a b x : User}
    (h : InSetup (l1 ++ l2) x) : InSetup (l1 ++ (a, b) :: l2) x := by
  obtain ⟨f, hf, hx⟩ := h
  refine ⟨f, ?_, hx⟩
  rcases List.mem_append.mp hf with h1 | h1
  · exact List.mem_append_left _ h1
  · exact List.mem_append_right _ (List.mem_cons_of_mem _ h1)

theorem InSetup.middle {l1 l2 : List (User × User)} {a b x : User}
    (h : InSetup (l1 ++ (a, b) :: l2) x) : x = a ∨ x = b ∨ InSetup (l1 ++ l2) x := by
  obtain ⟨f, hf, hx⟩ := h
  rcases List.mem_append.mp hf with h1 | h1
  · exact Or.inr (Or.inr ⟨f, List.mem_append_left _ h1, hx⟩)
  · rcases List.mem_cons.mp h1 with h2 | h2
    · subst h2
      rcases hx with hx | hx
      · exact Or.inl hx
      · exact Or.inr (Or.inl hx)
    · exact Or.inr (Or.inr ⟨f, List.mem_append_right _ h2, hx⟩)

/-- A player of the setup taken out of the list who is in another setup is
disqualified. -/
theorem Inv.apart_middle {l1 l2 : List (User × User)} {a b : User} {v : View}
    (h : Inv (l1 ++ (a, b) :: l2) v) {x : User} (hx : x = a ∨ x = b)
    (hin : InSetup (l1 ++ l2) x) : v.dq x = true := by
  have hp := h.setups_apart
  rw [List.pairwise_append] at hp
  obtain ⟨_, h2, h3⟩ := hp
  rw [List.pairwise_cons] at h2
  obtain ⟨f, hf, hxf⟩ := hin
  rcases List.mem_append.mp hf with h1 | h1
  · exact h3 f h1 (a, b) (List.mem_cons_self _ _) x hxf hx
  · exact h2.1 f h1 x hx hxf

/-- The marks of `challenge`: both players become busy and their setup is
unresolved. -/
theorem Inv.mark {F : List (User × User)} {v : View} (h : Inv F v) (a b : User)
    (ha : v.busy a = false) (hb : v.busy b = false) (hab : a ≠ b) :
    Inv (F ++ [(a, b)])
      { v with busy := Function.update (Function.update v.busy a true) b true } := by
  have hup : ∀ x, v.busy x = true →
      Function.update (Function.update v.busy a true) b true x = true := by
    intro x hx
    by_cases h1 : x = b
    · subst h1; simp
    · by_cases h2 : x = a
      · subst h2; simp [Function.update_noteq h1]
      · simp only [Function.update_noteq h1, Function.update_noteq h2]; exact hx
  have hnew : ∀ x, x = a ∨ x = b →
      Function.update (Function.update v.busy a true) b true x = true := by
    intro x hx
    by_cases h1 : x = b
    · subst h1; simp
    · have h2 : x = a := hx.resolve_right h1
      subst h2
      simp [Function.update_noteq h1]
  have hidle : ∀ x, x = a ∨ x = b → v.busy x = false := by
    rintro x (e | e) <;> subst e <;> assumption
  have hfree : ∀ x, x = a ∨ x = b → v.pend x = none ∧ ¬ InMatch v.mat x := by
    intro x hx
    have hxb := hidle x hx
    constructor
    · by_contra hne
      have : (v.pend x).isSome = true := by
        cases hp : v.pend x with
        | none => exact absurd hp hne
        | some c => rfl
      rw [h.engaged_busy x (Or.inl this)] at hxb
      cases hxb
    · intro hin
      rw [h.engaged_busy x (Or.inr hin)] at hxb
      cases hxb
  refine ⟨?_, ?_, ?_, h.not_both, ?_, ?_, ?_, h.pend_to, h.pend_from, h.match_apart,
    h.rooms_match⟩
  · intro x hx
    dsimp only at hx
    by_cases h1 : x = b
    · exact Or.inr (Or.inr ⟨(a, b), by simp, Or.inr h1⟩)
    · by_cases h2 : x = a
      · exact Or.inr (Or.inr ⟨(a, b), by simp, Or.inl h2⟩)
      · simp only [Function.update_noteq h1, Function.update_noteq h2] at hx
        rcases h.busy_reason x hx with r | r | r
        · exact Or.inl r
        · exact Or.inr (Or.inl r)
        · exact Or.inr (Or.inr (r.append_right _))
  · intro x hx
    exact hup x (h.engaged_busy x hx)
  · intro x hx hd
    obtain ⟨f, hf, hxf⟩ := hx
    rcases List.mem_append.mp hf with h1 | h1
    · exact hup x (h.setup_busy x ⟨f, h1, hxf⟩ hd)
    · have : f = (a, b) := by simpa using h1
      subst this
      exact hnew x hxf
  · intro x hx
    obtain ⟨f, hf, hxf⟩ := hx
    rcases List.mem_append.mp hf with h1 | h1
    · exact h.setup_free x ⟨f, h1, hxf⟩
    · have : f = (a, b) := by simpa using h1
      subst this
      exact hfree x hxf
  · rw [List.pairwise_append]
    refine ⟨h.setups_apart, List.pairwise_singleton _ _, ?_⟩
    intro f hf g hg x hxf hxg
    have : g = (a, b) := by simpa using hg
    subst this
    cases hd : v.dq x with
    | true => rfl
    | false =>
      have := h.setup_busy x ⟨f, hf, hxf⟩ hd
      rw [hidle x hxg] at this
      cases this
  · intro f hf
    rcases List.mem_append.mp hf with h1 | h1
    · exact h.setup_pair f h1
    · have : f = (a, b) := by simpa using h1
      subst this
      exact hab

/-- A failed setup: both players are freed and the setup is resolved. -/
theorem Inv.freeSetup {l1 l2 : List (User × User)} {a b : User} {v : View}
    (h : Inv (l1 ++ (a, b) :: l2) v) :
    Inv (l1 ++ l2)
      { v with busy := Function.update (Function.update v.busy a false) b false } := by
  have hmem : InSetup (l1 ++ (a, b) :: l2) a ∧ InSetup (l1 ++ (a, b) :: l2) b :=
    ⟨⟨(a, b), by simp, Or.inl rfl⟩, ⟨(a, b), by simp, Or.inr rfl⟩⟩
  have hbusy : ∀ x, x ≠ a → x ≠ b →
      Function.update (Function.update v.busy a false) b false x = v.busy x := by
    intro x h2 h1
    simp only [Function.update_noteq h1, Function.update_noteq h2]
  have hne : ∀ x, (v.pend x).isSome = true ∨ InMatch v.mat x → x ≠ a ∧ x ≠ b := by
    intro x hx
    constructor
    · intro e
      subst e
      rcases hx with hx | hx
      · rw [(h.setup_free x hmem.1).1] at hx; cases hx
      · exact (h.setup_free x hmem.1).2 hx
    · intro e
      subst e
      rcases hx with hx | hx
      · rw [(h.setup_free x hmem.2).1] at hx; cases hx
      · exact (h.setup_free x hmem.2).2 hx
  refine ⟨?_, ?_, ?_, h.not_both, ?_, ?_, ?_, h.pend_to, h.pend_from, h.match_apart,
    h.rooms_match⟩
  · intro x hx
    dsimp only at hx
    by_cases h1 : x = b
    · subst h1; simp at hx
    · by_cases h2 : x = a
      · subst h2; simp [Function.update_noteq h1] at hx
      · simp only [Function.update_noteq h1, Function.update_noteq h2] at hx
        rcases h.busy_reason x hx with r | r | r
        · exact Or.inl r
        · exact Or.inr (Or.inl r)
        · rcases r.middle with e | e | e
          · exact absurd e h2
          · exact absurd e h1
          · exact Or.inr (Or.inr e)
  · intro x hx
    dsimp only
    obtain ⟨h2, h1⟩ := hne x hx
    rw [hbusy x h2 h1]
    exact h.engaged_busy x hx
  · intro x hx hd
    dsimp only at hd ⊢
    have h2 : x ≠ a := by
      intro e
      have := h.apart_middle (Or.inl e) hx
      rw [hd] at this; cases this
    have h1 : x ≠ b := by
      intro e
      have := h.apart_middle (Or.inr e) hx
      rw [hd] at this; cases this
    rw [hbusy x h2 h1]
    exact h.setup_busy x hx.of_middle hd
  · intro x hx
    exact h.setup_free x hx.of_middle
  · exact h.setups_apart.sublist
      (List.Sublist.append_left (List.sublist_cons_self _ _) _)
  · intro f hf
    refine h.setup_pair f ?_
    rcases List.mem_append.mp hf with h1 | h1
    · exact List.mem_append_left _ h1
    · exact List.mem_append_right _ (List.mem_cons_of_mem _ h1)

/-- A successful setup between two players not disqualified meanwhile: the
challenge is recorded for both and the setup is resolved. -/
theorem Inv.record {l1 l2 : List (User × User)} {a b : User} {v : View}
    (h : Inv (l1 ++ (a, b) :: l2) v) (tm : Nat) (hda : v.dq a = false)
    (hdb : v.dq b = false) :
    Inv (l1 ++ l2)
      { v with pend := (Function.update (Function.update v.pend a (some (.toUser b tm))) b
          (some (.fromUser a tm))) } := by
  have hmem : InSetup (l1 ++ (a, b) :: l2) a ∧ InSetup (l1 ++ (a, b) :: l2) b :=
    ⟨⟨(a, b), by simp, Or.inl rfl⟩, ⟨(a, b), by simp, Or.inr rfl⟩⟩
  have hab : a ≠ b := h.setup_pair (a, b) (by simp)
  have hpa := (h.setup_free a hmem.1).1
  have hpb := (h.setup_free b hmem.2).1
  have hma := (h.setup_free a hmem.1).2
  have hmb := (h.setup_free b hmem.2).2
  have hba := h.setup_busy a hmem.1 hda
  have hbb := h.setup_busy b hmem.2 hdb
  have hat : Function.update (Function.update v.pend a (some (.toUser b tm))) b
      (some (.fromUser a tm)) a = some (.toUser b tm) := by
    simp [Function.update_noteq hab]
  have hbt : Function.update (Function.update v.pend a (some (.toUser b tm))) b
      (some (.fromUser a tm)) b = some (.fromUser a tm) := by
    simp
  have hother : ∀ x, x ≠ a → x ≠ b →
      Function.update (Function.update v.pend a (some (.toUser b tm))) b
        (some (.fromUser a tm)) x = v.pend x := by
    intro x h2 h1
    simp only [Function.update_noteq h1, Function.update_noteq h2]
  have hout : ∀ x, InSetup (l1 ++ l2) x → x ≠ a ∧ x ≠ b := by
    intro x hx
    constructor
    · intro e
      have := h.apart_middle (Or.inl e) hx
      rw [e, hda] at this; cases this
    · intro e
      have := h.apart_middle (Or.inr e) hx
      rw [e, hdb] at this; cases this
  refine ⟨?_, ?_, ?_, ?_, ?_, ?_, ?_, ?_, ?_, h.match_apart, h.rooms_match⟩
  · intro x hx
    dsimp only at hx ⊢
    by_cases h1 : x = b
    · subst h1; exact Or.inl (by rw [hbt]; rfl)
    · by_cases h2 : x = a
      · subst h2; exact Or.inl (by rw [hat]; rfl)
      · rw [hother x h2 h1]
        rcases h.busy_reason x hx with r | r | r
        · exact Or.inl r
        · exact Or.inr (Or.inl r)
        · rcases r.middle with e | e | e
          · exact absurd e h2
          · exact absurd e h1
          · exact Or.inr (Or.inr e)
  · intro x hx
    dsimp only at hx ⊢
    by_cases h1 : x = b
    · subst h1; exact hbb
    · by_cases h2 : x = a
      · subst h2; exact hba
      · rw [hother x h2 h1] at hx
        exact h.engaged_busy x hx
  · intro x hx hd
    exact h.setup_busy x hx.of_middle hd
  · intro x hx
    dsimp only at hx ⊢
    by_cases h1 : x = b
    · subst h1; exact hmb
    · by_cases h2 : x = a
      · subst h2; exact hma
      · rw [hother x h2 h1] at hx
        exact h.not_both x hx
  · intro x hx
    dsimp only
    obtain ⟨h2, h1⟩ := hout x hx
    rw [hother x h2 h1]
    exact h.setup_free x hx.of_middle
  · exact h.setups_apart.sublist
      (List.Sublist.append_left (List.sublist_cons_self _ _) _)
  · intro f hf
    refine h.setup_pair f ?_
    rcases List.mem_append.mp hf with h1 | h1
    · exact List.mem_append_left _ h1
    · exact List.mem_append_right _ (List.mem_cons_of_mem _ h1)
  · intro p q tm0 hpq
    dsimp only at hpq ⊢
    by_cases h1 : p = b
    · subst h1; rw [hbt] at hpq; cases hpq
    · by_cases h2 : p = a
      · subst h2
        rw [hat] at hpq
        have : q = b := by
          have := Option.some.inj hpq
          injection this with e1 _
          exact e1.symm
        subst this
        exact ⟨tm, hbt⟩
      · rw [hother p h2 h1] at hpq
        obtain ⟨tm1, hq⟩ := h.pend_to p q tm0 hpq
        have hq2 : q ≠ a := by intro e; rw [e, hpa] at hq; cases hq
        have hq1 : q ≠ b := by intro e; rw [e, hpb] at hq; cases hq
        exact ⟨tm1, by rw [hother q hq2 hq1]; exact hq⟩
  · intro p q tm0 hpq
    dsimp only at hpq ⊢
    by_cases h2 : q = a
    · subst h2; rw [hat] at hpq; cases hpq
    · by_cases h1 : q = b
      · subst h1
        rw [hbt] at hpq
        have : p = a := by
          have := Option.some.inj hpq
          injection this with e1 _
          exact e1.symm
        subst this
        exact ⟨tm, hat⟩
      · rw [hother q h2 h1] at hpq
        obtain ⟨tm1, hp⟩ := h.pend_from p q tm0 hpq
        have hp2 : p ≠ a := by intro e; rw [e, hpa] at hp; cases hp
        have hp1 : p ≠ b := by intro e; rw [e, hpb] at hp; cases hp
        exact ⟨tm1, by rw [hother p hp2 hp1]; exact hp⟩

theorem InMatch.of_update_some {mat : User → Option Match} {k x : User} {m : Match}
    (h : InMatch (Function.update mat k (some m)) x) :
    x = k ∨ x = m.toUser ∨ InMatch mat x := by
  rcases h with ⟨m1, hm1⟩ | ⟨k1, m1, hm1, hx⟩
  · by_cases e : x = k
    · exact Or.inl e
    · exact Or.inr (Or.inr (Or.inl ⟨m1, by simpa [Function.update_noteq e] using hm1⟩))
  · by_cases e : k1 = k
    · subst e
      have : m = m1 := by simpa using hm1
      subst this
      exact Or.inr (Or.inl hx.symm)
    · exact Or.inr (Or.inr (Or.inr ⟨k1, m1, by simpa [Function.update_noteq e] using hm1, hx⟩))

/-- An accepted challenge becomes a match: both entries are cleared, the
match is stored under the initiator and its room is linked. -/
theorem Inv.begin {F : List (User × User)} {v : View} (h : Inv F v) (source user : User)
    (room tm : Nat) (hs : v.pend source = some (.toUser user tm)) :
    Inv F { v with
      pend := Function.update (Function.update v.pend source none) user none,
      mat := Function.update v.mat source (some ⟨user, room⟩),
      rooms := v.rooms ++ [⟨room, source, user⟩] } := by
  obtain ⟨tm1, hu⟩ := h.pend_to source user tm hs
  have hne : user ≠ source := by
    intro e
    rw [e, hs] at hu
    cases hu
  have hsm : ¬ InMatch v.mat source := h.not_both source (by simp [hs])
  have hum : ¬ InMatch v.mat user := h.not_both user (by simp [hu])
  have hmat : ∀ k, k ≠ source →
      Function.update v.mat source (some ⟨user, room⟩) k = v.mat k := by
    intro k hk
    simp only [Function.update_noteq hk]
  have hkeep : ∀ x, InMatch v.mat x →
      InMatch (Function.update v.mat source (some ⟨user, room⟩)) x := by
    intro x hx
    rcases hx with ⟨m1, hm1⟩ | ⟨k1, m1, hm1, hx1⟩
    · have : x ≠ source := fun e => hsm (e ▸ Or.inl ⟨m1, hm1⟩)
      exact Or.inl ⟨m1, by rw [hmat x this]; exact hm1⟩
    · have : k1 ≠ source := fun e => hsm (e ▸ Or.inl ⟨m1, hm1⟩)
      exact Or.inr ⟨k1, m1, by rw [hmat k1 this]; exact hm1, hx1⟩
  have hsub : ∀ x y, Function.update (Function.update v.pend source none) user none x
      = some y → v.pend x = some y ∧ x ≠ source ∧ x ≠ user := by
    intro x y hxy
    by_cases h1 : x = user
    · subst h1; simp at hxy
    · by_cases h2 : x = source
      · subst h2; simp [Function.update_noteq h1] at hxy
      · simp only [Function.update_noteq h1, Function.update_noteq h2] at hxy
        exact ⟨hxy, h2, h1⟩
  have hnew_s : InMatch (Function.update v.mat source (some ⟨user, room⟩)) source :=
    Or.inl ⟨⟨user, room⟩, by simp⟩
  have hnew_u : InMatch (Function.update v.mat source (some ⟨user, room⟩)) user :=
    Or.inr ⟨source, ⟨user, room⟩, by simp, rfl⟩
  refine ⟨?_, ?_, ?_, ?_, ?_, h.setups_apart, h.setup_pair, ?_, ?_, ?_, ?_⟩
  · intro x hx
    dsimp only at hx ⊢
    by_cases h1 : x = user
    · subst h1; exact Or.inr (Or.inl hnew_u)
    · by_cases h2 : x = source
      · subst h2; exact Or.inr (Or.inl hnew_s)
      · simp only [Function.update_noteq h1, Function.update_noteq h2]
        rcases h.busy_reason x hx with r | r | r
        · exact Or.inl r
        · exact Or.inr (Or.inl (hkeep x r))
        · exact Or.inr (Or.inr r)
  · intro x hx
    dsimp only at hx ⊢
    rcases hx with hx | hx
    · obtain ⟨y, hy⟩ := Option.isSome_iff_exists.mp hx
      exact h.engaged_busy x (Or.inl (by simp [(hsub x y hy).1]))
    · rcases InMatch.of_update_some hx with e | e | e
      · subst e; exact h.engaged_busy x (Or.inl (by simp [hs]))
      · simp only at e
        subst e; exact h.engaged_busy _ (Or.inl (by simp [hu]))
      · exact h.engaged_busy x (Or.inr e)
  · exact h.setup_busy
  · intro x hx hin
    dsimp only at hx hin
    obtain ⟨y, hy⟩ := Option.isSome_iff_exists.mp hx
    obtain ⟨hy1, h2, h1⟩ := hsub x y hy
    rcases InMatch.of_update_some hin with e | e | e
    · exact h2 e
    · exact h1 e
    · exact h.not_both x (by simp [hy1]) e
  · intro x hx
    dsimp only
    obtain ⟨hp, hm⟩ := h.setup_free x hx
    have h2 : x ≠ source := by intro e; rw [e, hs] at hp; cases hp
    have h1 : x ≠ user := by intro e; rw [e, hu] at hp; cases hp
    refine ⟨by simp only [Function.update_noteq h1, Function.update_noteq h2]; exact hp, ?_⟩
    intro hin
    rcases InMatch.of_update_some hin with e | e | e
    · exact h2 e
    · exact h1 e
    · exact hm e
  · intro a b tm0 hab
    dsimp only at hab ⊢
    obtain ⟨hab1, ha2, ha1⟩ := hsub a _ hab
    obtain ⟨tm2, hb⟩ := h.pend_to a b tm0 hab1
    have hb2 : b ≠ source := by
      intro e
      rw [e, hs] at hb
      cases hb
    have hb1 : b ≠ user := by
      intro e
      rw [e, hu] at hb
      have := Option.some.inj hb
      injection this with e1 _
      exact ha2 e1.symm
    exact ⟨tm2, by simp only [Function.update_noteq hb1, Function.update_noteq hb2]; exact hb⟩
  · intro a b tm0 hab
    dsimp only at hab ⊢
    obtain ⟨hab1, hb2, hb1⟩ := hsub b _ hab
    obtain ⟨tm2, ha⟩ := h.pend_from a b tm0 hab1
    have ha2 : a ≠ source := by
      intro e
      rw [e, hs] at ha
      have := Option.some.inj ha
      injection this with e1 _
      exact hb1 e1.symm
    have ha1 : a ≠ user := by
      intro e
      rw [e, hu] at ha
      cases ha
    exact ⟨tm2, by simp only [Function.update_noteq ha1, Function.update_noteq ha2]; exact ha⟩
  · intro k k1 m m1 hk hk1 hkk
    dsimp only at hk hk1
    by_cases e : k = source
    · subst e
      have hk1s : k1 ≠ k := fun e => hkk e.symm
      rw [hmat k1 hk1s] at hk1
      have : m = ⟨user, room⟩ := by simpa using hk.symm
      subst this
      refine ⟨?_, ?_, ?_⟩
      · intro e2
        exact hsm (Or.inr ⟨k1, m1, hk1, e2.symm⟩)
      · intro e2
        simp only at e2
        exact hum (e2 ▸ Or.inl ⟨m1, hk1⟩)
      · intro e2
        simp only at e2
        exact hum (Or.inr ⟨k1, m1, hk1, e2.symm⟩)
    · rw [hmat k e] at hk
      by_cases e1 : k1 = source
      · subst e1
        have : m1 = ⟨user, room⟩ := by simpa using hk1.symm
        subst this
        refine ⟨?_, ?_, ?_⟩
        · intro e2
          simp only at e2
          exact hum (e2 ▸ Or.inl ⟨m, hk⟩)
        · intro e2
          exact hsm (Or.inr ⟨k, m, hk, e2⟩)
        · intro e2
          simp only at e2
          exact hum (Or.inr ⟨k, m, hk, e2⟩)
      · rw [hmat k1 e1] at hk1
        exact h.match_apart k k1 m m1 hk hk1 hkk
  · intro r hr
    dsimp only at hr ⊢
    rcases List.mem_append.mp hr with h1 | h1
    · have hrm := h.rooms_match r h1
      have : r.p1 ≠ source := fun e => hsm (e ▸ Or.inl ⟨_, hrm⟩)
      rw [hmat r.p1 this]
      exact hrm
    · have : r = ⟨room, source, user⟩ := by simpa using h1
      subst this
      simp

/-- Unlinking battle rooms never breaks the invariant. -/
theorem Inv.rooms_subset {F : List (User × User)} {v : View} (h : Inv F v)
    (rooms : List BattleRoom) (hr : ∀ r ∈ rooms, r ∈ v.rooms) :
    Inv F { v with rooms := rooms } :=
  ⟨h.busy_reason, h.engaged_busy, h.setup_busy, h.not_both, h.setup_free, h.setups_apart,
    h.setup_pair, h.pend_to, h.pend_from, h.match_apart, fun r hrm => h.rooms_match r (hr r hrm)⟩

theorem JMap.mem_of_get {α : Type} (m : JMap α) (k : User) (v : α) (h : m.get k = some v) :
    (k, v) ∈ m := by
  induction m with
  | nil => simp [JMap.get] at h
  | cons e m ih =>
    obtain ⟨k1, v1⟩ := e
    unfold JMap.get at h
    by_cases hk : k1 = k
    · rw [if_pos hk] at h
      have : v1 = v := Option.some.inj h
      subst this; subst hk
      exact List.mem_cons_self _ _
    · rw [if_neg hk] at h
      exact List.mem_cons_of_mem _ (ih h)

theorem JMap.get_of_mem {α : Type} (m : JMap α) (k : User) (v : α)
    (hn : (m.map Prod.fst).Nodup) (h : (k, v) ∈ m) : m.get k = some v := by
  induction m with
  | nil => simp at h
  | cons e m ih =>
    obtain ⟨k1, v1⟩ := e
    rw [List.map_cons, List.nodup_cons] at hn
    unfold JMap.get
    rcases List.mem_cons.mp h with h1 | h1
    · have e1 : k = k1 := congrArg Prod.fst h1
      have e2 : v = v1 := congrArg Prod.snd h1
      subst e1; subst e2
      rw [if_pos rfl]
    · have : k1 ≠ k := by
        intro e
        subst e
        exact hn.1 (List.mem_map.mpr ⟨(k1, v), h1, rfl⟩)
      rw [if_neg this]
      exact ih hn.2 h1

theorem JMap.keys_set {α : Type} (m : JMap α) (k : User) (v : α) (x : User) :
    x ∈ (m.set k v).map Prod.fst ↔ x = k ∨ x ∈ m.map Prod.fst := by
  induction m with
  | nil => simp [JMap.set]
  | cons e m ih =>
    obtain ⟨k1, v1⟩ := e
    unfold JMap.set
    by_cases hk : k1 = k
    · rw [if_pos hk]
      subst hk
      simp
    · rw [if_neg hk]
      simp only [List.map_cons, List.mem_cons, ih]
      tauto

theorem JMap.nodup_set {α : Type} (m : JMap α) (k : User) (v : α)
    (hn : (m.map Prod.fst).Nodup) : ((m.set k v).map Prod.fst).Nodup := by
  induction m with
  | nil => simp [JMap.set]
  | cons e m ih =>
    obtain ⟨k1, v1⟩ := e
    rw [List.map_cons, List.nodup_cons] at hn
    unfold JMap.set
    by_cases hk : k1 = k
    · rw [if_pos hk]
      subst hk
      rw [List.map_cons, List.nodup_cons]
      exact hn
    · rw [if_neg hk]
      rw [List.map_cons, List.nodup_cons]
      refine ⟨?_, ih hn.2⟩
      intro hmem
      rcases (JMap.keys_set m k v k1).mp hmem with h1 | h1
      · exact hk h1
      · exact hn.1 h1

theorem findMatchTo_result (p : User) (ip : JMap (Option Match)) (acc : Option User)
    (k : User) (h : findMatchTo p ip acc = some k) :
    acc = some k ∨ ∃ m, (k, some m) ∈ ip ∧ m.toUser = p := by
  induction ip generalizing acc with
  | nil => exact Or.inl h
  | cons e ip ih =>
    obtain ⟨k1, v1⟩ := e
    cases v1 with
    | none =>
      unfold findMatchTo at h
      rcases ih acc h with h1 | ⟨m, hm, hp⟩
      · exact Or.inl h1
      · exact Or.inr ⟨m, List.mem_cons_of_mem _ hm, hp⟩
    | some m1 =>
      unfold findMatchTo at h
      by_cases hm1 : m1.toUser = p
      · rw [if_pos hm1] at h
        rcases ih (some k1) h with h1 | ⟨m, hm, hp⟩
        · have : k1 = k := Option.some.inj h1
          subst this
          exact Or.inr ⟨m1, List.mem_cons_self _ _, hm1⟩
        · exact Or.inr ⟨m, List.mem_cons_of_mem _ hm, hp⟩
      · rw [if_neg hm1] at h
        rcases ih acc h with h1 | ⟨m, hm, hp⟩
        · exact Or.inl h1
        · exact Or.inr ⟨m, List.mem_cons_of_mem _ hm, hp⟩

theorem findMatchTo_none (p : User) (ip : JMap (Option Match)) (acc : Option User)
    (h : findMatchTo p ip acc = none) :
    acc = none ∧ ∀ k m, (k, some m) ∈ ip → m.toUser ≠ p := by
  induction ip generalizing acc with
  | nil => exact ⟨h, by simp⟩
  | cons e ip ih =>
    obtain ⟨k1, v1⟩ := e
    cases v1 with
    | none =>
      unfold findMatchTo at h
      obtain ⟨h1, h2⟩ := ih acc h
      refine ⟨h1, ?_⟩
      intro k m hm
      rcases List.mem_cons.mp hm with e | e
      · cases e
      · exact h2 k m e
    | some m1 =>
      unfold findMatchTo at h
      by_cases hm1 : m1.toUser = p
      · rw [if_pos hm1] at h
        obtain ⟨h1, _⟩ := ih (some k1) h
        cases h1
      · rw [if_neg hm1] at h
        obtain ⟨h1, h2⟩ := ih acc h
        refine ⟨h1, ?_⟩
        intro k m hm
        rcases List.mem_cons.mp hm with e | e
        · have : m = m1 := by
            have := congrArg Prod.snd e
            simpa using this
          subst this
          exact hm1
        · exact h2 k m e

/-- With distinct keys, the scan of `disqualifyUser` finds a key whose match
has `p` as opponent exactly when there is one. -/
theorem findMatchTo_matOf (p : User) (ip : JMap (Option Match))
    (hn : (ip.map Prod.fst).Nodup) :
    (∀ k, findMatchTo p ip none = some k → ∃ m, matOf ip k = some m ∧ m.toUser = p) ∧
    (findMatchTo p ip none = none → ∀ k m, matOf ip k = some m → m.toUser ≠ p) := by
  constructor
  · intro k hk
    rcases findMatchTo_result p ip none k hk with h | ⟨m, hm, hp⟩
    · cases h
    · exact ⟨m, by unfold matOf; rw [JMap.get_of_mem ip k (some m) hn hm]; rfl, hp⟩
  · intro h k m hm
    unfold matOf at hm
    cases hg : ip.get k with
    | none => rw [hg] at hm; cases hm
    | some om =>
      rw [hg] at hm
      have : om = some m := hm
      subst this
      exact (findMatchTo_none p ip none h).2 k m (JMap.mem_of_get ip k _ hg)

theorem resetEntries_sub (users : List User) (av : JMap (List User)) (old : JMap Bool)
    (a : User) (e : List User) (h : (resetEntries users av old).2.get a = some e) :
    e = [] ∨ av.get a = some e := by
  induction users generalizing av old with
  | nil => exact Or.inr h
  | cons u rest ih =>
    unfold resetEntries at h
    split at h
    · exact Or.inr h
    · split at h
      · rcases ih _ _ h with h1 | h1
        · exact Or.inl h1
        · rw [JMap.get_set] at h1
          split at h1
          · exact Or.inl (Option.some.inj h1).symm
          · exact Or.inr h1
      · exact ih _ _ h

theorem addMatches_sub (ms : List (User × User)) (ch cb av : JMap (List User)) (a : User)
    (e1 : List User) (h : (addMatches ms ch cb av).2.get a = some e1) :
    ∃ e, av.get a = some e ∧ ∀ b ∈ e1, b ∈ e ∨ (a, b) ∈ ms := by
  induction ms generalizing ch cb av with
  | nil => exact ⟨e1, h, fun b hb => Or.inl hb⟩
  | cons p rest ih =>
    obtain ⟨a0, b0⟩ := p
    unfold addMatches at h
    split at h
    · exact ⟨e1, h, fun b hb => Or.inl hb⟩
    · split at h
      · exact ⟨e1, h, fun b hb => Or.inl hb⟩
      · split at h
        · exact ⟨e1, h, fun b hb => Or.inl hb⟩
        · rename_i e0 he0
          obtain ⟨e, he, hsub⟩ := ih _ _ _ h
          rw [JMap.get_set] at he
          by_cases haa : a0 = a
          · subst haa
            rw [if_pos rfl] at he
            have : e = insertKey e0 b0 := (Option.some.inj he).symm
            subst this
            refine ⟨e0, he0, ?_⟩
            intro b hb
            rcases hsub b hb with h1 | h1
            · unfold insertKey at h1
              split at h1
              · exact Or.inl h1
              · rcases List.mem_append.mp h1 with h2 | h2
                · exact Or.inl h2
                · have : b = b0 := by simpa using h2
                  subst this
                  exact Or.inr (List.mem_cons_self _ _)
            · exact Or.inr (List.mem_cons_of_mem _ h1)
          · rw [if_neg haa] at he
            refine ⟨e, he, ?_⟩
            intro b hb
            rcases hsub b hb with h1 | h1
            · exact Or.inl h1
            · exact Or.inr (List.mem_cons_of_mem _ h1)

/-- However `getAvailableMatches` ends, it leaves no player listed under
itself when the generator offers no such pair. -/
theorem getAvailableMatches_noSelf (S : Strategy G) (hS : BusyContract S) (w : World)
    (t : Tournament G) (h : NoSelfPairs t) :
    NoSelfPairs (t.getAvailableMatches S w).state := by
  unfold Tournament.getAvailableMatches
  cases hms : S.getAvailableMatches t.generator with
  | error e => exact h
  | ok ms =>
    dsimp only
    cases hav : t.availableMatches with
    | none => exact h
    | some av =>
      dsimp only
      have key : ∀ t1 : Tournament G, t1.availableMatches =
          some (addMatches ms (emptyLists (S.getUsers t.generator false))
            (emptyLists (S.getUsers t.generator false))
            (resetEntries (S.getUsers t.generator false) av []).2).2 → NoSelfPairs t1 := by
        intro t1 h1 av1 a e hav1 hget haa
        rw [h1] at hav1
        have := Option.some.inj hav1
        subst this
        obtain ⟨e0, he0, hsub⟩ := addMatches_sub _ _ _ _ a e hget
        rcases hsub a haa with h2 | h2
        · rcases resetEntries_sub _ _ _ a e0 he0 with h3 | h3
          · subst h3; simp at h2
          · exact h av a e0 hav h3 h2
        · exact hS.noSelf _ ms hms (a, a) h2 rfl
      have key0 : ∀ t1 : Tournament G, t1.availableMatches =
          some (resetEntries (S.getUsers t.generator false) av []).2 → NoSelfPairs t1 := by
        intro t1 h1 av1 a e hav1 hget haa
        rw [h1] at hav1
        have := Option.some.inj hav1
        subst this
        rcases resetEntries_sub _ _ _ a e hget with h3 | h3
        · subst h3; simp at haa
        · exact h av a e hav h3 haa
      cases hr : resetEntries (S.getUsers t.generator false) av [] with
      | mk o1 av1 =>
        rw [hr] at key key0
        cases o1 with
        | none => exact key0 _ rfl
        | some old =>
          dsimp only
          cases ha : addMatches ms (emptyLists (S.getUsers t.generator false))
              (emptyLists (S.getUsers t.generator false)) av1 with
          | mk o2 av2 =>
            rw [ha] at key
            cases o2 with
            | none => exact key _ rfl
            | some c =>
              obtain ⟨ch, cb⟩ := c
              dsimp only
              cases hla : t.lastActionTimes with
              | none =>
                dsimp only
                split
                · exact key _ rfl
                · exact key _ rfl
              | some la => exact key _ rfl

theorem update_noSelf (S : Strategy G) (hS : BusyContract S) (w : World)
    (t : Tournament G) (h : NoSelfPairs t) : NoSelfPairs (t.update S w).state := by
  unfold Tournament.update
  split
  · exact h
  · dsimp only
    have h1 : NoSelfPairs (t.updateBracket S w) := by
      intro av a e hav
      rw [(updateBracket_maps S w t).1] at hav
      exact h av a e hav
    split
    · have h2 := getAvailableMatches_noSelf S hS w _ h1
      cases hr : (t.updateBracket S w).getAvailableMatches S w with
      | ok c t2 =>
        rw [hr] at h2
        cases c with
        | none => exact h2
        | some c => exact h2
      | threw t2 =>
        rw [hr] at h2
        exact h2
    · exact h1

theorem face_of_core {t t1 : Tournament G} (h : t1.core = t.core) : t1.face = t.face := by
  have h1 := congrArg Core.generator h
  have h2 := congrArg Core.isTournamentStarted h
  have h3 := congrArg Core.pendingChallenges h
  have h4 := congrArg Core.inProgressMatches h
  have h5 := congrArg Core.disqualifiedUsers h
  have h6 := congrArg Core.tourRooms h
  have h7 := congrArg Core.setups h
  simp only [Tournament.core] at h1 h2 h3 h4 h5 h6 h7
  simp only [Tournament.face, h1, h2, h3, h4, h5, h6, h7]

theorem update_face (S : Strategy G) (w : World) (t : Tournament G) :
    (t.update S w).state.face = t.face :=
  face_of_core (update_core S w t)

theorem update_ok_face (S : Strategy G) (w : World) (t t1 : Tournament G)
    (h : t.update S w = .ok () t1) : t1.face = t.face := by
  have := update_face S w t
  rw [h] at this
  exact this

theorem update_ok_noSelf (S : Strategy G) (hS : BusyContract S) (w : World)
    (t t1 : Tournament G) (h : t.update S w = .ok () t1) (hn : NoSelfPairs t) :
    NoSelfPairs t1 := by
  have := update_noSelf S hS w t hn
  rw [h] at this
  exact this

theorem onTournamentEnd_face (S : Strategy G) (t : Tournament G) :
    (t.onTournamentEnd S).face = t.face ∧
    (t.onTournamentEnd S).availableMatches = t.availableMatches := by
  unfold Tournament.onTournamentEnd
  dsimp only
  cases h : (t.say (.tournamentEnd (S.getResults t.generator)
    (t.getBracketData S))).autoDisqualifyTimer <;> exact ⟨rfl, rfl⟩

theorem announceDisqualify_face (u : User) (reason : Option Nat) (t : Tournament G) :
    (t.announceDisqualify u reason).face = t.face ∧
    (t.announceDisqualify u reason).availableMatches = t.availableMatches := by
  unfold Tournament.announceDisqualify
  cases reason <;> exact ⟨rfl, rfl⟩

theorem sendReply_ok (w : World) (o : Output) (e : TourError) (t t1 : Tournament G)
    (h : sendReply w o e t = .ok () t1) :
    t1.face = t.face ∧ t1.availableMatches = t.availableMatches := by
  unfold sendReply at h
  split at h
  · injection h with _ h; subst h; exact ⟨rfl, rfl⟩
  · cases h
  · split at h
    · injection h with _ h; subst h; exact ⟨rfl, rfl⟩
    · cases h

/-- What a returned `settleDisqualify` leaves in the fields the invariant reads. -/
theorem settleDisqualify_face (S : Strategy G) (hS : BusyContract S) (w : World) (p : User)
    (reason : Option Nat) (t tf : Tournament G) (b : Bool)
    (pc : JMap (Option Challenge)) (ip : JMap (Option Match))
    (hpc : t.pendingChallenges = some pc) (hip : t.inProgressMatches = some ip)
    (h : t.settleDisqualify S w p reason = .ok b tf) :
    b = true ∧
    tf.pendingChallenges = some (voidPc p pc) ∧
    tf.inProgressMatches = some (dropTo p (dropFrom p ip)) ∧
    tf.disqualifiedUsers = t.disqualifiedUsers ∧ tf.setups = t.setups ∧
    tf.isTournamentStarted = t.isTournamentStarted ∧
    tf.generator = freeGen S p pc ip t.generator ∧
    tf.tourRooms = keptRooms p ip t.tourRooms ∧
    (NoSelfPairs t → NoSelfPairs tf) := by
  unfold Tournament.settleDisqualify at h
  obtain ⟨t2, e2, a1, a2, a3, a4, a5, a6, a7, _, a9⟩ := voidChallenge_spec S p t pc hpc
  rw [e2] at h
  simp only [Res.andThen_ok] at h
  obtain ⟨t3, e3, b1, b2, b3, b4, b5, b6, b7, _, b9⟩ :=
    forfeitFrom_spec S p t2 ip (a3.trans hip)
  rw [e3] at h
  simp only [Res.andThen_ok] at h
  obtain ⟨u, t4, e4, h⟩ := Res.andThen_eq_ok h
  cases u
  obtain ⟨c1, c2, c3, c4, c5, c6, _, c8⟩ := forfeitTo_spec S p t3 t4 _ b1 e4
  obtain ⟨f1, f2⟩ := announceDisqualify_face p reason t4
  have hface4 : t4.pendingChallenges = some (voidPc p pc) ∧
      t4.inProgressMatches = some (dropTo p (dropFrom p ip)) ∧
      t4.disqualifiedUsers = t.disqualifiedUsers ∧ t4.setups = t.setups ∧
      t4.isTournamentStarted = t.isTournamentStarted ∧
      t4.generator = freeGen S p pc ip t.generator ∧
      t4.tourRooms = keptRooms p ip t.tourRooms ∧
      t4.availableMatches = t.availableMatches := by
    refine ⟨c3.trans (b4.trans a1), c1, c4.trans (b5.trans a4),
      c5.trans (b6.trans a6), c6.trans (b7.trans a7), ?_, ?_, c8.trans (b9.trans a9)⟩
    · unfold freeGen
      dsimp only
      cases hk : findMatchTo p (dropFrom p ip) none with
      | none =>
        simp only [hk] at c2
        rw [c2.1, b2, a2]
        try rfl
      | some k =>
        simp only [hk] at c2
        obtain ⟨m, _, g1, _⟩ := c2
        rw [g1, b2, a2]
        try rfl
    · unfold keptRooms
      dsimp only
      cases hk : findMatchTo p (dropFrom p ip) none with
      | none =>
        simp only [hk] at c2
        rw [c2.2, b3, a5]
        try rfl
      | some k =>
        simp only [hk] at c2
        obtain ⟨m, hm, _, g2⟩ := c2
        have : matOf (dropFrom p ip) k = some m := by
          unfold matOf
          rw [hm]
          rfl
        rw [g2, b3, a5]
        simp only [this]
        try rfl
  obtain ⟨q1, q2, q3, q4, q5, q6, q7, q8⟩ := hface4
  have hfa : ∀ tz : Tournament G, tz.face = (t4.announceDisqualify p reason).face →
      (NoSelfPairs t → NoSelfPairs tz) →
      tz.pendingChallenges = some (voidPc p pc) ∧
      tz.inProgressMatches = some (dropTo p (dropFrom p ip)) ∧
      tz.disqualifiedUsers = t.disqualifiedUsers ∧ tz.setups = t.setups ∧
      tz.isTournamentStarted = t.isTournamentStarted ∧
      tz.generator = freeGen S p pc ip t.generator ∧
      tz.tourRooms = keptRooms p ip t.tourRooms ∧
      (NoSelfPairs t → NoSelfPairs tz) := by
    intro tz hz hn
    have hz2 := hz.trans f1
    have z1 := congrArg Face.generator hz2
    have z2 := congrArg Face.isTournamentStarted hz2
    have z3 := congrArg Face.pendingChallenges hz2
    have z4 := congrArg Face.inProgressMatches hz2
    have z5 := congrArg Face.disqualifiedUsers hz2
    have z6 := congrArg Face.tourRooms hz2
    have z7 := congrArg Face.setups hz2
    simp only [Tournament.face] at z1 z2 z3 z4 z5 z6 z7
    exact ⟨z3.trans q1, z4.trans q2, z5.trans q3, z7.trans q4, z2.trans q5, z1.trans q6,
      z6.trans q7, hn⟩
  have hn5 : NoSelfPairs t → NoSelfPairs (t4.announceDisqualify p reason) := by
    intro hn av a e hav
    rw [f2, q8] at hav
    exact hn av a e hav
  split at h
  · injection h with hb ht
    subst ht
    refine ⟨hb.symm, hfa _ (onTournamentEnd_face S _).1 ?_⟩
    intro hn av a e hav
    rw [(onTournamentEnd_face S _).2] at hav
    exact hn5 hn av a e hav
  · obtain ⟨u, t6, e6, h⟩ := Res.andThen_eq_ok h
    cases u
    injection h with hb ht
    subst ht
    exact ⟨hb.symm, hfa _ (update_ok_face S w _ _ e6)
      (fun hn => update_ok_noSelf S hS w _ _ e6 (hn5 hn))⟩

theorem getUserBusy_set (S : Strategy G) (hS : LawfulBusy S) (g : G) (u : User) (b : Bool) :
    S.getUserBusy (S.setUserBusy g u b) = Function.update (S.getUserBusy g) u b := by
  funext v
  have key := hS g u b v
  by_cases h : v = u
  · subst h; simpa using key
  · simpa [h] using key

theorem Inv.of_view {F : List (User × User)} {v v1 : View} (h : Inv F v)
    (e1 : v1.busy = v.busy) (e2 : v1.pend = v.pend) (e3 : v1.mat = v.mat)
    (e4 : v1.dq = v.dq) (e5 : v1.rooms = v.rooms) : Inv F v1 := by
  cases v
  cases v1
  simp only at e1 e2 e3 e4 e5
  subst e1 e2 e3 e4 e5
  exact h

/-- Soundness only reads the face of a state and its available matches. -/
theorem Sound.transfer {S : Strategy G} {F : List (User × User)} {t : Tournament G}
    (h : Sound S F t) (t1 : Tournament G)
    (e1 : t1.isTournamentStarted = t.isTournamentStarted)
    (e2 : t1.pendingChallenges = t.pendingChallenges)
    (e3 : t1.inProgressMatches = t.inProgressMatches)
    (e4 : t1.disqualifiedUsers = t.disqualifiedUsers)
    (e5 : t1.tourRooms = t.tourRooms)
    (e6 : S.getUserBusy t1.generator = S.getUserBusy t.generator)
    (e7 : NoSelfPairs t → NoSelfPairs t1) : Sound S F t1 := by
  obtain ⟨hst, ⟨pc, ip, dq, hpc, hip, hdq, hnd, hinv⟩, hns⟩ := h
  refine ⟨e1.trans hst, ⟨pc, ip, dq, e2.trans hpc, e3.trans hip, e4.trans hdq, hnd, ?_⟩, e7 hns⟩
  exact hinv.of_view e6 rfl rfl rfl e5

theorem Sound.of_face {S : Strategy G} {F : List (User × User)} {t : Tournament G}
    (h : Sound S F t) (t1 : Tournament G) (e : t1.face = t.face)
    (e7 : NoSelfPairs t → NoSelfPairs t1) : Sound S F t1 := by
  have z1 := congrArg Face.generator e
  have z2 := congrArg Face.isTournamentStarted e
  have z3 := congrArg Face.pendingChallenges e
  have z4 := congrArg Face.inProgressMatches e
  have z5 := congrArg Face.disqualifiedUsers e
  have z6 := congrArg Face.tourRooms e
  simp only [Tournament.face] at z1 z2 z3 z4 z5 z6
  exact h.transfer t1 z2 z3 z4 z5 z6 (by rw [z1]) e7

theorem face_setups {t t1 : Tournament G} (e : t1.face = t.face) : t1.setups = t.setups :=
  congrArg Face.setups e

theorem noSelf_of_eq {t t1 : Tournament G} (e : t1.availableMatches = t.availableMatches) :
    NoSelfPairs t → NoSelfPairs t1 := by
  intro hn av a l hav
  rw [e] at hav
  exact hn av a l hav

/-- The invariant after the part of `disqualifyUser` that follows the guards. -/
theorem Inv.disqualify (S : Strategy G) (hS : LawfulBusy S) {F : List (User × User)}
    (p : User) (pc : JMap (Option Challenge)) (ip : JMap (Option Match)) (dq : JMap Bool)
    (busy : User → Bool) (rooms : List BattleRoom) (g : G)
    (hg : S.getUserBusy g = busy) (hnd : (ip.map Prod.fst).Nodup)
    (h : Inv F ⟨busy, pendOf pc, matOf ip, dqOf dq, rooms⟩) :
    ((dropTo p (dropFrom p ip)).map Prod.fst).Nodup ∧
    Inv F ⟨S.getUserBusy (freeGen S p pc ip (S.setUserBusy g p false)),
      pendOf (voidPc p pc), matOf (dropTo p (dropFrom p ip)), dqOf (dq.set p true),
      keptRooms p ip rooms⟩ := by
  have hnd1 : ((dropFrom p ip).map Prod.fst).Nodup := by
    unfold dropFrom
    split
    · exact JMap.nodup_set _ _ _ hnd
    · exact hnd
  have hnd2 : ((dropTo p (dropFrom p ip)).map Prod.fst).Nodup := by
    unfold dropTo
    split
    · exact JMap.nodup_set _ _ _ hnd1
    · exact hnd1
  refine ⟨hnd2, ?_⟩
  rw [dqOf_set_true]
  have hfind := findMatchTo_matOf p ip hnd
  cases hc : pendOf pc p with
  | some c =>
    have hpm : ¬ InMatch (matOf ip) p := h.not_both p (by simp [hc])
    have hm : matOf ip p = none := by
      cases hm : matOf ip p with
      | none => rfl
      | some m => exact absurd (Or.inl ⟨m, hm⟩) hpm
    have hdf : dropFrom p ip = ip := by unfold dropFrom; rw [hm]
    have hk : findMatchTo p ip none = none := by
      cases hk : findMatchTo p ip none with
      | none => rfl
      | some k =>
        obtain ⟨m, h1, h2⟩ := hfind.1 k hk
        exact absurd (Or.inr ⟨k, m, h1, h2⟩) hpm
    have hdt : dropTo p ip = ip := by unfold dropTo; rw [hk]
    have e1 : freeGen S p pc ip (S.setUserBusy g p false) =
        S.setUserBusy (S.setUserBusy g p false) (partnerOf c) false := by
      unfold freeGen
      simp only [hc, hm, hdf, hk]
    have e2 : voidPc p pc = (pc.set p none).set (partnerOf c) none := by
      unfold voidPc
      rw [hc]
    have e3 : keptRooms p ip rooms = rooms := by
      unfold keptRooms
      simp only [hm, hdf, hk]
    rw [e1, e2, e3, hdf, hdt, pendOf_set, pendOf_set, getUserBusy_set S hS,
      getUserBusy_set S hS, hg]
    have h1 := h.releaseChallenge p c hc
    have h2 := h1.markDq p (by simp [Function.update_apply]) hpm
    refine h2.of_view ?_ rfl rfl rfl rfl
    funext x
    dsimp only
    by_cases hx : x = p
    · subst hx
      by_cases hq : x = partnerOf c
      · rw [← hq]; simp
      · simp [Function.update_noteq hq]
    · simp [Function.update_noteq hx]
  | none =>
    have e2 : voidPc p pc = pc := by
      unfold voidPc
      rw [hc]
    rw [e2]
    cases hm : matOf ip p with
    | some m =>
      have hdf : dropFrom p ip = ip.set p none := by unfold dropFrom; rw [hm]
      have hk : findMatchTo p (ip.set p none) none = none := by
        cases hk : findMatchTo p (ip.set p none) none with
        | none => rfl
        | some k =>
          obtain ⟨m1, h1, h2⟩ :=
            (findMatchTo_matOf p (ip.set p none) (JMap.nodup_set _ _ _ hnd)).1 k hk
          rw [matOf_set] at h1
          have hkp : k ≠ p := by
            intro e
            rw [e] at h1
            simp at h1
          rw [Function.update_noteq hkp] at h1
          exact absurd h2.symm (h.match_apart p k m m1 hm h1 (Ne.symm hkp)).1
      have hdt : dropTo p (ip.set p none) = ip.set p none := by unfold dropTo; rw [hk]
      have e1 : freeGen S p pc ip (S.setUserBusy g p false) =
          S.setUserBusy (S.setUserBusy g p false) m.toUser false := by
        unfold freeGen
        simp only [hc, hm, hdf, hk]
      have e3 : keptRooms p ip rooms = rooms.filter (fun r => r.id ≠ m.room) := by
        unfold keptRooms
        simp only [hm, hdf, hk]
      rw [e1, e3, hdf, hdt, matOf_set, getUserBusy_set S hS, getUserBusy_set S hS, hg]
      have h1 := h.releaseMatch p m hm (rooms.filter (fun r => r.id ≠ m.room)) (by
        intro r hr
        obtain ⟨hr1, hr2⟩ := List.mem_filter.mp hr
        refine ⟨hr1, ?_⟩
        intro e
        have := h.rooms_match r hr1
        dsimp only at this
        rw [e, hm] at this
        have : m = ⟨r.p2, r.id⟩ := Option.some.inj this
        subst this
        simp at hr2)
      have h2 := h1.markDq p hc (by
        intro hin
        rcases InMatch.of_update_none hin with ⟨_, _, hne⟩ | ⟨k1, m1, hm1, hx1, hne⟩
        · exact hne rfl
        · exact (h.match_apart p k1 m m1 hm hm1 (Ne.symm hne)).1 hx1.symm)
      refine h2.of_view ?_ rfl rfl rfl rfl
      funext x
      dsimp only
      by_cases hx : x = p
      · subst hx
        by_cases hq : x = m.toUser
        · rw [← hq]; simp
        · simp [Function.update_noteq hq]
      · simp [Function.update_noteq hx]
    | none =>
      have hdf : dropFrom p ip = ip := by unfold dropFrom; rw [hm]
      cases hk : findMatchTo p ip none with
      | some k =>
        obtain ⟨m1, hm1, hto⟩ := hfind.1 k hk
        have hdt : dropTo p ip = ip.set k none := by unfold dropTo; rw [hk]
        have e1 : freeGen S p pc ip (S.setUserBusy g p false) =
            S.setUserBusy (S.setUserBusy g p false) k false := by
          unfold freeGen
          simp only [hc, hm, hdf, hk]
        have e3 : keptRooms p ip rooms = rooms.filter (fun r => r.id ≠ m1.room) := by
          unfold keptRooms
          simp only [hm, hdf, hk, hm1]
        rw [e1, e3, hdf, hdt, matOf_set, getUserBusy_set S hS, getUserBusy_set S hS, hg]
        have h1 := h.releaseMatch k m1 hm1 (rooms.filter (fun r => r.id ≠ m1.room)) (by
          intro r hr
          obtain ⟨hr1, hr2⟩ := List.mem_filter.mp hr
          refine ⟨hr1, ?_⟩
          intro e
          have := h.rooms_match r hr1
          dsimp only at this
          rw [e, hm1] at this
          have : m1 = ⟨r.p2, r.id⟩ := Option.some.inj this
          subst this
          simp at hr2)
        have h2 := h1.markDq p hc (by
          intro hin
          rcases InMatch.of_update_none hin with ⟨m2, hm2, _⟩ | ⟨k1, m2, hm2, hx1, hne⟩
          · exact Option.noConfusion (hm.symm.trans hm2)
          · exact (h.match_apart k1 k m2 m1 hm2 hm1 hne).2.2 (hx1.trans hto.symm))
        refine h2.of_view ?_ rfl rfl rfl rfl
        funext x
        dsimp only
        rw [hto]
        by_cases hx : x = p
        · subst hx
          by_cases hq : x = k
          · rw [← hq]; simp
          · simp [Function.update_noteq hq]
        · by_cases hq : x = k
          · subst hq; simp [Function.update_noteq hx]
          · simp [Function.update_noteq hx, Function.update_noteq hq]
      | none =>
        have hdt : dropTo p ip = ip := by unfold dropTo; rw [hk]
        have e1 : freeGen S p pc ip (S.setUserBusy g p false) = S.setUserBusy g p false := by
          unfold freeGen
          simp only [hc, hm, hdf, hk]
        have e3 : keptRooms p ip rooms = rooms := by
          unfold keptRooms
          simp only [hm, hdf, hk]
        rw [e1, e3, hdf, hdt, getUserBusy_set S hS, hg]
        exact h.markDq p hc (by
          rintro (⟨m2, hm2⟩ | ⟨k1, m2, hm2, hx1⟩)
          · exact Option.noConfusion (hm.symm.trans hm2)
          · exact hfind.2 hk k1 m2 hm2 hx1)

/-- Every returned call of `disqualifyUser` keeps a sound state sound. -/
theorem disqualifyUser_sound (S : Strategy G) (hS : BusyContract S) (w : World) (p : User)
    (o : Output) (reason : Option Nat) (F : List (User × User)) (t t1 : Tournament G)
    (b : Bool) (h : Sound S F t) (hr : t.disqualifyUser S w p o reason = .ok b t1) :
    Sound S F t1 ∧ t1.setups = t.setups := by
  have hgen : ∀ t0 t2 : Tournament G, t2.face = t0.face →
      t0.generator = (S.disqualifyUser t.generator p).1 →
      t0.isTournamentStarted = t.isTournamentStarted →
      t0.pendingChallenges = t.pendingChallenges →
      t0.inProgressMatches = t.inProgressMatches →
      t0.disqualifiedUsers = t.disqualifiedUsers →
      t0.tourRooms = t.tourRooms → t0.setups = t.setups →
      (NoSelfPairs t → NoSelfPairs t2) → Sound S F t2 ∧ t2.setups = t.setups := by
    intro t0 t2 e y1 y2 y3 y4 y5 y6 y7 hn
    have z1 := congrArg Face.generator e
    have z2 := congrArg Face.isTournamentStarted e
    have z3 := congrArg Face.pendingChallenges e
    have z4 := congrArg Face.inProgressMatches e
    have z5 := congrArg Face.disqualifiedUsers e
    have z6 := congrArg Face.tourRooms e
    have z7 := congrArg Face.setups e
    simp only [Tournament.face] at z1 z2 z3 z4 z5 z6 z7
    exact ⟨h.transfer t2 (z2.trans y2) (z3.trans y3) (z4.trans y4) (z5.trans y5)
      (z6.trans y6) (by rw [z1, y1, hS.disqualify]) hn, z7.trans y7⟩
  obtain ⟨hst, ⟨pc, ip, dq, hpc, hip, hdq, hnd, hinv⟩, hns⟩ := h
  unfold Tournament.disqualifyUser at hr
  dsimp only at hr
  cases he : (S.disqualifyUser t.generator p).2 with
  | some e =>
    rw [he] at hr
    dsimp only at hr
    obtain ⟨u, t2, e2, hr⟩ := Res.andThen_eq_ok hr
    injection hr with _ ht
    subst ht
    obtain ⟨f1, f2⟩ := sendReply_ok _ _ _ _ _ e2
    exact hgen _ _ f1 rfl rfl rfl rfl rfl rfl rfl (noSelf_of_eq f2)
  | none =>
    rw [he] at hr
    dsimp only at hr
    rw [hdq] at hr
    dsimp only at hr
    split at hr
    · obtain ⟨u, t2, e2, hr⟩ := Res.andThen_eq_ok hr
      injection hr with _ ht
      subst ht
      obtain ⟨f1, f2⟩ := sendReply_ok _ _ _ _ _ e2
      exact hgen _ _ f1 rfl rfl rfl rfl hdq.symm rfl rfl (noSelf_of_eq f2)
    · obtain ⟨_, q1, q2, q3, q4, q5, q6, q7, q8⟩ :=
        settleDisqualify_face S hS w p reason _ t1 b pc ip (by exact hpc) (by exact hip) hr
      obtain ⟨n1, n2⟩ := Inv.disqualify S hS.lawful p pc ip dq (S.getUserBusy t.generator)
        t.tourRooms (S.disqualifyUser t.generator p).1 (hS.disqualify _ _) hnd hinv
      have q3a : t1.disqualifiedUsers = some (dq.set p true) := q3
      refine ⟨⟨q5.trans hst, ⟨_, _, _, q1, q2, q3a, n1, ?_⟩, q8 (noSelf_of_eq rfl hns)⟩, q4⟩
      refine n2.of_view ?_ rfl rfl rfl ?_
      · show S.getUserBusy t1.generator = _
        rw [q6]
        rfl
      · show t1.tourRooms = _
        rw [q7]
        rfl

theorem update_sound (S : Strategy G) (hS : BusyContract S) (w : World)
    (F : List (User × User)) (t t1 : Tournament G) (h : Sound S F t)
    (hr : t.update S w = .ok () t1) : Sound S F t1 ∧ t1.setups = t.setups :=
  ⟨h.of_face t1 (update_ok_face S w t t1 hr) (update_ok_noSelf S hS w t t1 hr),
    face_setups (update_ok_face S w t t1 hr)⟩

theorem Sound.say {S : Strategy G} {F : List (User × User)} {t : Tournament G}
    (h : Sound S F t) (e : Event) : Sound S F (t.say e) :=
  h.of_face _ rfl (noSelf_of_eq rfl)

theorem purgeLoop_sound (S : Strategy G) (hS : BusyContract S) (w : World)
    (F : List (User × User)) (us : List User) (t t1 : Tournament G) (h : Sound S F t)
    (hr : Tournament.purgeLoop S w us t = .ok () t1) :
    Sound S F t1 ∧ t1.setups = t.setups := by
  induction us generalizing t with
  | nil =>
    unfold Tournament.purgeLoop at hr
    injection hr with _ e
    subst e
    exact ⟨h, rfl⟩
  | cons u rest ih =>
    unfold Tournament.purgeLoop at hr
    dsimp only at hr
    split at hr
    · exact ih t h hr
    · obtain ⟨x, t2, e2, hr⟩ := Res.andThen_eq_ok hr
      rw [h.started] at e2
      obtain ⟨pc, ip, dq, hpc, hip, hdq, hnd, hinv⟩ := h.maps
      simp only [hdq, if_true] at e2
      split at e2
      · injection e2 with _ e
        subst e
        have key := ih _ (h.say _) hr
        exact key
      · obtain ⟨b, t3, e3, e2⟩ := Res.andThen_eq_ok e2
        injection e2 with _ e
        subst e
        obtain ⟨s1, s2⟩ := disqualifyUser_sound S hS w u _ _ F t t3 b h e3
        obtain ⟨s3, s4⟩ := ih _ (s1.say _) hr
        exact ⟨s3, s4.trans s2⟩

theorem purgeGhostUsers_sound (S : Strategy G) (hS : BusyContract S) (w : World)
    (F : List (User × User)) (t t1 : Tournament G) (h : Sound S F t)
    (hr : t.purgeGhostUsers S w = .ok () t1) : Sound S F t1 ∧ t1.setups = t.setups :=
  purgeLoop_sound S hS w F _ t t1 h hr

theorem sweepVisit_sound (S : Strategy G) (hS : BusyContract S) (w : World) (o : Output)
    (u : User) (time : Int) (F : List (User × User)) (t t1 : Tournament G) (h : Sound S F t)
    (hr : t.sweepVisit S w o u time = .ok () t1) :
    Sound S F t1 ∧ t1.setups = t.setups := by
  unfold Tournament.sweepVisit at hr
  dsimp only at hr
  repeat' split at hr
  all_goals first
    | (injection hr with _ e
       subst e
       exact ⟨h.of_face _ rfl (noSelf_of_eq rfl), rfl⟩)
    | (obtain ⟨b, t3, e3, hr⟩ := Res.andThen_eq_ok hr
       injection hr with _ e
       subst e
       obtain ⟨s1, s2⟩ := disqualifyUser_sound S hS w u _ _ F t t3 b h e3
       exact ⟨s1.say _, s2⟩)
    | cases hr

theorem sweepLoop_sound (S : Strategy G) (hS : BusyContract S) (w : World) (o : Output)
    (F : List (User × User)) (fuel i : Nat) (t t1 : Tournament G) (h : Sound S F t)
    (hr : Tournament.sweepLoop S w o fuel i t = .ok () t1) :
    Sound S F t1 ∧ t1.setups = t.setups := by
  induction fuel generalizing i t with
  | zero =>
    unfold Tournament.sweepLoop at hr
    injection hr with _ e
    subst e
    exact ⟨h, rfl⟩
  | succ n ih =>
    unfold Tournament.sweepLoop at hr
    split at hr
    · cases hr
    · split at hr
      · injection hr with _ e
        subst e
        exact ⟨h, rfl⟩
      · obtain ⟨x, t2, e2, hr⟩ := Res.andThen_eq_ok hr
        obtain ⟨s1, s2⟩ := sweepVisit_sound S hS w o _ _ F t t2 h e2
        obtain ⟨s3, s4⟩ := ih _ _ s1 hr
        exact ⟨s3, s4.trans s2⟩

theorem clearIfSet_face (t : Tournament G) (hd : Option Nat) :
    (t.clearIfSet hd).face = t.face ∧
    (t.clearIfSet hd).availableMatches = t.availableMatches := by
  unfold Tournament.clearIfSet
  cases hd <;> exact ⟨rfl, rfl⟩

theorem runAutoDisqualify_sound (S : Strategy G) (hS : BusyContract S) (w : World)
    (o : Output) (F : List (User × User)) (t t1 : Tournament G) (b : Option Bool)
    (h : Sound S F t) (hr : t.runAutoDisqualify S w o = .ok b t1) :
    Sound S F t1 ∧ t1.setups = t.setups := by
  unfold Tournament.runAutoDisqualify at hr
  rw [h.started] at hr
  simp only [Bool.not_true, Bool.false_eq_true, if_false] at hr
  obtain ⟨x, t2, e2, hr⟩ := Res.andThen_eq_ok hr
  obtain ⟨c1, c2⟩ := clearIfSet_face t t.autoDisqualifyTimer
  obtain ⟨s1, s2⟩ := sweepLoop_sound S hS w o F _ _ _ t2 (h.of_face _ c1 (noSelf_of_eq c2)) e2
  have s3 : t2.setups = t.setups := s2.trans (face_setups c1)
  repeat' split at hr
  all_goals
    injection hr with _ e
    subst e
  · exact ⟨s1, s3⟩
  · exact ⟨s1.of_face _ rfl (noSelf_of_eq rfl), s3⟩
  · exact ⟨s1, s3⟩

theorem pairs_append (l1 l2 : List Setup) : pairs (l1 ++ l2) = pairs l1 ++ pairs l2 := by
  induction l1 with
  | nil => rfl
  | cons s l ih =>
    cases s with
    | challenge a b o =>
      show (a, b) :: pairs (l ++ l2) = (a, b) :: (pairs l ++ pairs l2)
      rw [ih]
    | accept u c =>
      show pairs (l ++ l2) = pairs l ++ pairs l2
      exact ih

theorem challenge_sound (S : Strategy G) (hS : BusyContract S) (w : World) (a b : User)
    (o : Output) (F : List (User × User)) (t t1 : Tournament G) (h : Sound S F t)
    (hr : t.challenge S w a b o = .ok () t1) :
    (Sound S F t1 ∧ t1.setups = t.setups) ∨
    (Sound S (F ++ [(a, b)]) t1 ∧ t1.setups = t.setups ++ [.challenge a b o]) := by
  obtain ⟨hst, ⟨pc, ip, dq, hpc, hip, hdq, hnd, hinv⟩, hns⟩ := id h
  unfold Tournament.challenge at hr
  rw [hst] at hr
  simp only [Bool.not_true, Bool.false_eq_true, if_false] at hr
  split at hr
  · cases hr
  · rename_i av hav
    try dsimp only at hr
    split at hr
    · obtain ⟨f1, f2⟩ := sendReply_ok _ _ _ _ _ hr
      exact Or.inl ⟨h.of_face _ f1 (noSelf_of_eq f2), face_setups f1⟩
    · rename_i hl
      split at hr
      · injection hr with _ e
        subst e
        exact Or.inl ⟨h.say _, rfl⟩
      · rename_i hb
        right
        have hab : a ≠ b := by
          intro e
          subst e
          cases ha : av.get a with
          | none => simp [ha] at hl
          | some l =>
            simp only [ha, Bool.not_eq_true, Bool.not_eq_false_eq_eq_true,
              decide_eq_true_eq, Bool.not_not] at hl
            exact hns av a l hav ha (by simpa using hl)
        have hba : t.busy S a = false ∧ t.busy S b = false := by
          simpa using hb
        obtain ⟨x, t3, e3, hr⟩ := Res.andThen_eq_ok hr
        obtain ⟨y, t4, e4, hr⟩ := Res.andThen_eq_ok hr
        injection hr with _ e
        subst e
        have s2 : Sound S (F ++ [(a, b)])
            { (t.setBusy S a true).setBusy S b true with
              isAvailableMatchesInvalidated := true } := by
          refine ⟨hst, ⟨pc, ip, dq, hpc, hip, hdq, hnd, ?_⟩, noSelf_of_eq rfl hns⟩
          refine (hinv.mark a b hba.1 hba.2 hab).of_view ?_ rfl rfl rfl rfl
          show ((t.setBusy S a true).setBusy S b true).busy S = _
          rw [busy_setBusy S hS.lawful, busy_setBusy S hS.lawful]
          rfl
        obtain ⟨s3, q3⟩ := purgeGhostUsers_sound S hS w _ _ t3 s2 e3
        obtain ⟨s4, q4⟩ := update_sound S hS w _ t3 t4 s3 e4
        refine ⟨s4.transfer _ rfl rfl rfl rfl rfl rfl (noSelf_of_eq rfl), ?_⟩
        show t4.setups ++ _ = _
        rw [q4, q3]
        rfl

theorem finishChallenge_sound (S : Strategy G) (hS : BusyContract S) (w : World) (a b : User)
    (result : Bool) (L1 L2 : List (User × User)) (t t1 : Tournament G)
    (h : Sound S (L1 ++ (a, b) :: L2) t)
    (hg : result = true → ∀ dq, t.disqualifiedUsers = some dq →
      dqOf dq a = false ∧ dqOf dq b = false)
    (hr : t.finishChallenge S w a b result = .ok () t1) :
    Sound S (L1 ++ L2) t1 ∧ t1.setups = t.setups := by
  obtain ⟨hst, ⟨pc, ip, dq, hpc, hip, hdq, hnd, hinv⟩, hns⟩ := id h
  unfold Tournament.finishChallenge at hr
  split at hr
  · dsimp only at hr
    have s2 : Sound S (L1 ++ L2)
        { (t.setBusy S a false).setBusy S b false with
          isAvailableMatchesInvalidated := true } := by
      refine ⟨hst, ⟨pc, ip, dq, hpc, hip, hdq, hnd, ?_⟩, noSelf_of_eq rfl hns⟩
      refine hinv.freeSetup.of_view ?_ rfl rfl rfl rfl
      show ((t.setBusy S a false).setBusy S b false).busy S = _
      rw [busy_setBusy S hS.lawful, busy_setBusy S hS.lawful]
      rfl
    have key := update_sound S hS w _ _ t1 s2 hr
    exact ⟨key.1, key.2⟩
  · rename_i hres
    have hres1 : result = true := by simpa using hres
    obtain ⟨hda, hdb⟩ := hg hres1 dq hdq
    split at hr
    · cases hr
    · dsimp only at hr
      split at hr
      · cases hr
      · rename_i la hla pc1 hpc1
        have e : pc1 = pc := Option.some.inj (hpc1.symm.trans hpc)
        subst e
        have key := update_sound S hS w (L1 ++ L2) _ t1 ?_ hr
        · exact ⟨key.1, key.2⟩
        refine ⟨hst, ⟨_, ip, dq, rfl, hip, hdq, hnd, ?_⟩, noSelf_of_eq rfl hns⟩
        refine (hinv.record (w.team a) hda hdb).of_view rfl ?_ rfl rfl rfl
        show pendOf _ = _
        rw [pendOf_set, pendOf_set]
        rfl

theorem cancelChallenge_sound (S : Strategy G) (hS : BusyContract S) (w : World) (u : User)
    (o : Output) (F : List (User × User)) (t t1 : Tournament G) (h : Sound S F t)
    (hr : t.cancelChallenge S w u o = .ok () t1) :
    Sound S F t1 ∧ t1.setups = t.setups := by
  obtain ⟨hst, ⟨pc, ip, dq, hpc, hip, hdq, hnd, hinv⟩, hns⟩ := id h
  unfold Tournament.cancelChallenge at hr
  rw [hst] at hr
  simp only [Bool.not_true, Bool.false_eq_true, if_false] at hr
  split at hr
  · cases hr
  · rename_i pc1 hpc1
    have e : pc1 = pc := Option.some.inj (hpc1.symm.trans hpc)
    subst e
    split at hr
    · rename_i target tm hget
      try dsimp only at hr
      have key := update_sound S hS w F _ t1 ?_ hr
      · exact ⟨key.1, key.2⟩
      refine ⟨hst, ⟨_, ip, dq, rfl, hip, hdq, hnd, ?_⟩, noSelf_of_eq rfl hns⟩
      have hc : pendOf pc1 u = some (.toUser target tm) := by
        unfold pendOf
        rw [hget]
        rfl
      refine (hinv.releaseChallenge u _ hc).of_view ?_ ?_ rfl rfl rfl
      · show ((t.setBusy S u false).setBusy S target false).busy S = _
        rw [busy_setBusy S hS.lawful, busy_setBusy S hS.lawful]
        rfl
      · show pendOf _ = _
        rw [pendOf_set, pendOf_set]
        rfl
    · injection hr with _ e
      subst e
      exact ⟨h, rfl⟩

theorem acceptChallenge_sound (S : Strategy G) (w : World) (u : User)
    (o : Output) (F : List (User × User)) (t t1 : Tournament G) (h : Sound S F t)
    (hr : t.acceptChallenge w u o = .ok () t1) :
    Sound S F t1 ∧ pairs t1.setups = pairs t.setups := by
  unfold Tournament.acceptChallenge at hr
  rw [h.started] at hr
  simp only [Bool.not_true, Bool.false_eq_true, if_false] at hr
  split at hr
  · cases hr
  · split at hr
    · injection hr with _ e
      subst e
      refine ⟨h.transfer _ (by first | rfl | exact h.started.symm) rfl rfl rfl rfl rfl
        (noSelf_of_eq rfl), ?_⟩
      show pairs (t.setups ++ _) = _
      rw [pairs_append]
      simp [pairs]
    · injection hr with _ e
      subst e
      exact ⟨h, rfl⟩

theorem hasChallenge_pendOf (pc : JMap (Option Challenge)) (u : User) (c : Challenge)
    (h : pc.get u = some (some c)) : pendOf pc u = some c := by
  unfold pendOf
  rw [h]
  rfl

theorem beginMatch_sound (S : Strategy G) (hS : BusyContract S) (w : World) (u source : User)
    (room : Nat) (pc : JMap (Option Challenge)) (F : List (User × User))
    (t t1 : Tournament G) (h : Sound S F t) (hpc : t.pendingChallenges = some pc)
    (hu : ∃ tm, pendOf pc u = some (.fromUser source tm))
    (hr : t.beginMatch S w u source room pc = .ok () t1) :
    Sound S F t1 ∧ t1.setups = t.setups := by
  obtain ⟨hst, ⟨pc1, ip, dq, hpc1, hip, hdq, hnd, hinv⟩, hns⟩ := id h
  have e : pc1 = pc := Option.some.inj (hpc1.symm.trans hpc)
  subst e
  obtain ⟨tm, hu⟩ := hu
  obtain ⟨tm1, hs⟩ := hinv.pend_from source u tm hu
  unfold Tournament.beginMatch at hr
  dsimp only at hr
  split at hr
  · cases hr
  · rename_i ip1 hip1
    have e : ip1 = ip := Option.some.inj (hip1.symm.trans hip)
    subst e
    obtain ⟨x, t5, e5, hr⟩ := Res.andThen_eq_ok hr
    have k5 := runAutoDisqualify_sound S hS w _ F _ t5 x ?_ e5
    · have k6 := update_sound S hS w F t5 t1 k5.1 hr
      exact ⟨k6.1, k6.2.trans k5.2⟩
    refine ⟨hst, ⟨_, _, dq, rfl, rfl, hdq, JMap.nodup_set _ _ _ hnd, ?_⟩, noSelf_of_eq rfl hns⟩
    refine (hinv.begin source u room tm1 hs).of_view rfl ?_ ?_ rfl rfl
    · show pendOf _ = _
      rw [pendOf_set, pendOf_set]
      rfl
    · show matOf _ = _
      rw [matOf_set]
      rfl

theorem finishAcceptChallenge_sound (S : Strategy G) (hS : BusyContract S) (w : World)
    (u : User) (c : Challenge) (result : Bool) (F : List (User × User))
    (t t1 : Tournament G) (h : Sound S F t)
    (hg : result = true → ∀ pc, t.pendingChallenges = some pc →
      hasChallenge pc (partnerOf c) = true → hasChallenge pc u = true →
      ∃ tm, pc.get u = some (some (.fromUser (partnerOf c) tm)))
    (hr : t.finishAcceptChallenge S w u c result = .ok () t1) :
    Sound S F t1 ∧ t1.setups = t.setups := by
  unfold Tournament.finishAcceptChallenge at hr
  split at hr
  · injection hr with _ e
    subst e
    exact ⟨h, rfl⟩
  · rename_i hres
    have hres1 : result = true := by simpa using hres
    split at hr
    · cases hr
    · rename_i source team
      split at hr
      · injection hr with _ e
        subst e
        exact ⟨h, rfl⟩
      · split at hr
        · cases hr
        · rename_i pc hpc
          split at hr
          · injection hr with _ e
            subst e
            exact ⟨h, rfl⟩
          · rename_i h1
            split at hr
            · injection hr with _ e
              subst e
              exact ⟨h, rfl⟩
            · rename_i h2
              split at hr
              · injection hr with _ e
                subst e
                exact ⟨h, rfl⟩
              · obtain ⟨tm, hget⟩ := hg hres1 pc hpc (by simpa using h1) (by simpa using h2)
                exact beginMatch_sound S hS w u source _ pc F t t1 h hpc
                  ⟨tm, hasChallenge_pendOf pc u _ hget⟩ hr

theorem freeMatch_sound (S : Strategy G) (hS : BusyContract S) (room : BattleRoom)
    (F : List (User × User)) (t0 t t1 : Tournament G) (h : Sound S F t0)
    (hroom : room ∈ t0.tourRooms)
    (e1 : t.isTournamentStarted = t0.isTournamentStarted)
    (e2 : t.pendingChallenges = t0.pendingChallenges)
    (e3 : t.inProgressMatches = t0.inProgressMatches)
    (e4 : t.disqualifiedUsers = t0.disqualifiedUsers)
    (e5 : t.tourRooms = t0.tourRooms.filter fun r => r.id ≠ room.id)
    (e6 : S.getUserBusy t.generator = S.getUserBusy t0.generator)
    (e7 : t.availableMatches = t0.availableMatches)
    (hr : t.freeMatch S room.p1 room.p2 = .ok () t1) :
    Sound S F t1 ∧ t1.setups = t.setups := by
  obtain ⟨hst, ⟨pc, ip, dq, hpc, hip, hdq, hnd, hinv⟩, hns⟩ := id h
  have hm : matOf ip room.p1 = some ⟨room.p2, room.id⟩ := hinv.rooms_match room hroom
  unfold Tournament.freeMatch at hr
  dsimp only at hr
  split at hr
  · cases hr
  · rename_i ip1 hip1
    have e : ip1 = ip := Option.some.inj (hip1.symm.trans (e3.trans hip))
    subst e
    injection hr with _ e
    subst e
    refine ⟨⟨e1.trans hst, ⟨pc, _, dq, e2.trans hpc, rfl, e4.trans hdq,
      JMap.nodup_set _ _ _ hnd, ?_⟩, ?_⟩, rfl⟩
    · have hsub : ∀ r ∈ t0.tourRooms.filter (fun r => r.id ≠ room.id),
          r ∈ (viewOf S t0 pc ip1 dq).rooms ∧ r.p1 ≠ room.p1 := by
        intro r hr
        obtain ⟨m1, m2⟩ := List.mem_filter.mp hr
        refine ⟨m1, ?_⟩
        intro e
        have hm1 : matOf ip1 r.p1 = some ⟨r.p2, r.id⟩ := hinv.rooms_match r m1
        rw [e, hm] at hm1
        have : room.id = r.id := by
          injection hm1 with hm1
          injection hm1
        simp [this] at m2
      refine (hinv.releaseMatch room.p1 _ hm _ hsub).of_view ?_ rfl ?_ rfl ?_
      · show ((t.setBusy S room.p1 false).setBusy S room.p2 false).busy S = _
        rw [busy_setBusy S hS.lawful, busy_setBusy S hS.lawful]
        unfold Tournament.busy
        rw [e6]
        rfl
      · show matOf _ = _
        rw [matOf_set]
        rfl
      · exact e5
    · intro av a l hav
      exact hns av a l (e7.symm.trans hav)

/-- The tail shared by the branches of `onBattleWin` that go on with the
tournament. -/
theorem afterMatch_sound (S : Strategy G) (hS : BusyContract S) (w : World)
    (F : List (User × User)) (t t1 : Tournament G) (h : Sound S F t)
    (hr : ((t.runAutoDisqualify S w .absent).andThen fun _ t2 =>
      (t2.update S w).andThen fun _ t3 => .ok () (t3.say .roomUpdate)) = .ok () t1) :
    Sound S F t1 ∧ t1.setups = t.setups := by
  obtain ⟨x, t2, e2, hr⟩ := Res.andThen_eq_ok hr
  obtain ⟨y, t3, e3, hr⟩ := Res.andThen_eq_ok hr
  injection hr with _ e
  subst e
  obtain ⟨s2, q2⟩ := runAutoDisqualify_sound S hS w _ F t t2 x h e2
  obtain ⟨s3, q3⟩ := update_sound S hS w F t2 t3 s2 e3
  exact ⟨s3.say _, q3.trans q2⟩

theorem onBattleWin_sound (S : Strategy G) (hS : BusyContract S) (w : World)
    (room : BattleRoom) (winner : Option User) (score : Nat × Nat)
    (F : List (User × User)) (t t1 : Tournament G) (h : Sound S F t)
    (hroom : room ∈ t.tourRooms)
    (hr : (t.closeRoom room).onBattleWin S w room winner score = .ok () t1) :
    Sound S F t1 ∧ t1.setups = t.setups := by
  obtain ⟨hst, ⟨pc, ip, dq, hpc, hip, hdq, hnd, hinv⟩, hns⟩ := id h
  unfold Tournament.onBattleWin at hr
  dsimp only at hr
  split at hr
  · obtain ⟨x, t2, e2, hr⟩ := Res.andThen_eq_ok hr
    obtain ⟨s2, q2⟩ := freeMatch_sound S hS room F t _ t2 h hroom (by rfl) (by rfl)
      (by rfl) (by rfl) (by rfl) (by rfl) (by rfl) e2
    obtain ⟨s3, q3⟩ := afterMatch_sound S hS w F t2 t1 s2 hr
    exact ⟨s3, q3.trans q2⟩
  · split at hr
    · split at hr
      · cases hr
      · injection hr with _ e
        subst e
        refine ⟨?_, rfl⟩
        refine ⟨hst, ⟨pc, ip, dq, hpc, hip, hdq, hnd, ?_⟩, noSelf_of_eq rfl hns⟩
        refine (hinv.rooms_subset (t.tourRooms.filter fun r => r.id ≠ room.id) ?_).of_view
          ?_ rfl rfl rfl rfl
        · intro r hr
          exact (List.mem_filter.mp hr).1
        · exact hS.result _ _ _ _
    · obtain ⟨x, t2, e2, hr⟩ := Res.andThen_eq_ok hr
      obtain ⟨s2, q2⟩ := freeMatch_sound S hS room F t _ t2 h hroom (by rfl) (by rfl)
        (by rfl) (by rfl) (by rfl) (by exact hS.result _ _ _ _) (by rfl) e2
      split at hr
      · injection hr with _ e
        subst e
        obtain ⟨f1, f2⟩ := onTournamentEnd_face S t2
        exact ⟨(s2.of_face _ f1 (noSelf_of_eq f2)).say _, (face_setups f1).trans q2⟩
      · obtain ⟨s3, q3⟩ := afterMatch_sound S hS w F t2 t1 s2 hr
        exact ⟨s3, q3.trans q2⟩

theorem Fresh.to_sound {S : Strategy G} {t : Tournament G} (h : Fresh S t) :
    Sound S (pairs t.setups) t := by
  obtain ⟨pc, hpc, hp⟩ := h.pending
  obtain ⟨ip, hip, hnd, hm⟩ := h.inProgress
  obtain ⟨dq, hdq⟩ := h.disqualified
  refine ⟨h.started, ⟨pc, ip, dq, hpc, hip, hdq, hnd, ?_⟩, h.noSelf⟩
  rw [h.setups]
  have hnm : ∀ x, ¬ InMatch (matOf ip) x := by
    rintro x (⟨m, e⟩ | ⟨k, m, e, _⟩)
    · rw [hm] at e; cases e
    · rw [hm] at e; cases e
  have hidle : ∀ x, (viewOf S t pc ip dq).busy x = false := h.idle
  have hpend : ∀ x, (viewOf S t pc ip dq).pend x = none := hp
  have hrooms : (viewOf S t pc ip dq).rooms = [] := h.rooms
  refine ⟨?_, ?_, ?_, ?_, ?_, List.Pairwise.nil, ?_, ?_, ?_, ?_, ?_⟩
  · intro x hx
    rw [hidle] at hx
    cases hx
  · rintro x (hx | hx)
    · rw [hpend] at hx; cases hx
    · exact absurd hx (hnm x)
  · rintro x ⟨f, hf, _⟩
    cases hf
  · intro x _
    exact hnm x
  · rintro x ⟨f, hf, _⟩
    cases hf
  · intro f hf
    cases hf
  · intro p q tm e
    rw [hpend] at e; cases e
  · intro p q tm e
    rw [hpend] at e; cases e
  · intro k k1 m m1 e
    have := hm k
    change matOf ip k = some m at e
    rw [this] at e
    cases e
  · intro r hr
    rw [hrooms] at hr
    cases hr

theorem Step.preserves {S : Strategy G} (hS : BusyContract S) {t t1 : Tournament G}
    (hs : Step S t t1) (h : Sound S (pairs t.setups) t) : Sound S (pairs t1.setups) t1 := by
  cases hs with
  | challenge w a b o _ _ hr =>
    rcases challenge_sound S hS w a b o _ t t1 h hr with ⟨s, q⟩ | ⟨s, q⟩
    · rw [q]; exact s
    · rw [q, pairs_append]; exact s
  | finishChallenge w a b o result l1 l2 _ _ hl hg hr =>
    rw [hl, pairs_append] at h
    have key := finishChallenge_sound S hS w a b result (pairs l1) (pairs l2) _ t1
      (by exact h.transfer _ rfl rfl rfl rfl rfl rfl (noSelf_of_eq rfl)) (by exact hg) hr
    rw [key.2]
    show Sound S (pairs (l1 ++ l2)) t1
    rw [pairs_append]
    exact key.1
  | cancelChallenge w u o _ _ hr =>
    obtain ⟨s, q⟩ := cancelChallenge_sound S hS w u o _ t t1 h hr
    rw [q]; exact s
  | acceptChallenge w u o _ _ hr =>
    obtain ⟨s, q⟩ := acceptChallenge_sound S w u o _ t t1 h hr
    rw [q]; exact s
  | finishAcceptChallenge w u c result l1 l2 _ _ hl hg hr =>
    rw [hl, pairs_append] at h
    have key := finishAcceptChallenge_sound S hS w u c result (pairs l1 ++ pairs l2) _ t1
      (by exact h.transfer _ rfl rfl rfl rfl rfl rfl (noSelf_of_eq rfl)) (by exact hg) hr
    rw [key.2]
    show Sound S (pairs (l1 ++ l2)) t1
    rw [pairs_append]
    exact key.1
  | disqualifyUser w p o reason b _ _ hr =>
    obtain ⟨s, q⟩ := disqualifyUser_sound S hS w p o reason _ t t1 b h hr
    rw [q]; exact s
  | onBattleWin w room winner score _ _ hroom hr =>
    obtain ⟨s, q⟩ := onBattleWin_sound S hS w room winner score _ t t1 h hroom hr
    rw [q]; exact s

theorem Reachable.invariant {S : Strategy G} (hS : BusyContract S) {t0 t : Tournament G}
    (h0 : Fresh S t0) (h : Reachable S t0 t) : Sound S (pairs t.setups) t := by
  induction h with
  | start => exact h0.to_sound
  | next t t1 _ hs ih => exact hs.preserves hS ih

/-- The round-robin generator keeps the busy-flag contract. -/
theorem roundRobin_contract : BusyContract roundRobin := by
  refine ⟨?_, ?_, ?_, ?_⟩
  · intro g u b v
    cases b with
    | true =>
      by_cases hv : v = u
      · subst hv
        by_cases hu : v ∈ g.busy <;> simp [roundRobin, hu]
      · by_cases hu : u ∈ g.busy <;> simp [roundRobin, hu, hv]
    | false =>
      by_cases hv : v = u
      · subst hv
        simp [roundRobin]
      · simp [roundRobin, hv]
  · intro g u
    funext v
    simp only [roundRobin]
    split
    · split <;> rfl
    · rfl
  · intro g p o s
    funext v
    simp only [roundRobin]
    split
    · split <;> rfl
    · rfl
  · intro g ms h p hp
    simp only [roundRobin] at h
    split at h
    · injection h with h
      subst h
      have h1 := (List.mem_filter.mp hp).1
      unfold RoundRobin.openPairs at h1
      have h2 := (List.mem_filter.mp h1).2
      simp only [Bool.and_eq_true, decide_eq_true_eq] at h2
      exact h2.1.1.1
    · cases h

set_option maxRecDepth 100000 in
/-- Three players that have just started a round robin form a fresh
tournament. -/
theorem threeStarted_fresh : Fresh roundRobin threeStarted := by
  have hg : threeStarted.generator.busy = [] := by decide
  have hpc : threeStarted.pendingChallenges = some [(1, none), (2, none), (3, none)] := by
    decide
  have hip : threeStarted.inProgressMatches = some [(1, none), (2, none), (3, none)] := by
    decide
  have hav : threeStarted.availableMatches =
      some [(1, [2, 3]), (2, [3]), (3, [])] := by decide
  refine ⟨by decide, ?_, ⟨_, hpc, ?_⟩, ⟨_, hip, by decide, ?_⟩,
    ⟨[(1, false), (2, false), (3, false)], by decide⟩, by decide, by decide, ?_⟩
  · intro x
    show threeStarted.generator.busy.contains x = false
    rw [hg]
    rfl
  · intro x
    simp only [pendOf, JMap.get]
    split_ifs <;> rfl
  · intro x
    simp only [matOf, JMap.get]
    split_ifs <;> rfl
  · intro av a e h1 h2
    rw [hav] at h1
    injection h1 with h1
    subst h1
    simp only [JMap.get] at h2
    split_ifs at h2 <;> injection h2 with h2 <;> subst h2 <;> subst_vars <;> decide

theorem voidPc_self (p : User) (pc : JMap (Option Challenge)) :
    pendOf (voidPc p pc) p = none := by
  unfold voidPc
  cases hc : pendOf pc p with
  | none => exact hc
  | some c =>
    dsimp only
    rw [pendOf_set, pendOf_set]
    by_cases hq : p = partnerOf c
    · rw [← hq]; simp
    · simp [Function.update_noteq hq]

theorem voidPc_partner (p : User) (pc : JMap (Option Challenge)) (c : Challenge)
    (hc : pendOf pc p = some c) : pendOf (voidPc p pc) (partnerOf c) = none := by
  unfold voidPc
  rw [hc]
  dsimp only
  rw [pendOf_set]
  simp

theorem voidPc_frame (p : User) (pc : JMap (Option Challenge)) (x : User) (hx : x ≠ p)
    (hq : ∀ c, pendOf pc p = some c → x ≠ partnerOf c) :
    pendOf (voidPc p pc) x = pendOf pc x := by
  unfold voidPc
  cases hc : pendOf pc p with
  | none => rfl
  | some c =>
    dsimp only
    rw [pendOf_set, pendOf_set, Function.update_noteq (hq c hc), Function.update_noteq hx]

theorem dropFrom_get (p : User) (ip : JMap (Option Match)) (x : User) :
    matOf (dropFrom p ip) x = if x = p then none else matOf ip x := by
  unfold dropFrom
  cases hm : matOf ip p with
  | none =>
    dsimp only
    by_cases hx : x = p
    · rw [if_pos hx, hx, hm]
    · rw [if_neg hx]
  | some m =>
    dsimp only
    rw [matOf_set]
    by_cases hx : x = p
    · rw [if_pos hx, hx]; simp
    · rw [if_neg hx, Function.update_noteq hx]

theorem dropFrom_nodup (p : User) (ip : JMap (Option Match))
    (hnd : (ip.map Prod.fst).Nodup) : ((dropFrom p ip).map Prod.fst).Nodup := by
  unfold dropFrom
  split
  · exact JMap.nodup_set _ _ _ hnd
  · exact hnd

/-- The matches left by `disqualifyUser`: the match `p` initiated is gone,
and so is the match found with `p` as opponent. -/
theorem dropped_get (p : User) (ip : JMap (Option Match)) (x : User) :
    matOf (dropTo p (dropFrom p ip)) x =
      if x = p then none
      else if findMatchTo p (dropFrom p ip) none = some x then none
      else matOf ip x := by
  have hd := dropFrom_get p ip
  unfold dropTo
  cases hk : findMatchTo p (dropFrom p ip) none with
  | none =>
    dsimp only
    rw [hd]
    simp
  | some k =>
    dsimp only
    rw [matOf_set]
    by_cases hx : x = k
    · subst hx
      simp
    · rw [Function.update_noteq hx, hd]
      have : ¬ (some k = some x) := fun e => hx (Option.some.inj e).symm
      simp [this]

/-- With at most one match against `p`, no match against `p` is left. -/
theorem dropped_opponent (p : User) (ip : JMap (Option Match))
    (hnd : (ip.map Prod.fst).Nodup)
    (hone : ∀ k k1 m m1, matOf ip k = some m → matOf ip k1 = some m1 →
      m.toUser = p → m1.toUser = p → k = k1)
    (k : User) (m : Match) (h : matOf (dropTo p (dropFrom p ip)) k = some m) :
    m.toUser ≠ p := by
  rw [dropped_get p ip] at h
  by_cases hkp : k = p
  · rw [if_pos hkp] at h; cases h
  · rw [if_neg hkp] at h
    split at h
    · cases h
    · rename_i hne
      intro hto
      have hfind := findMatchTo_matOf p (dropFrom p ip) (dropFrom_nodup p ip hnd)
      cases hf : findMatchTo p (dropFrom p ip) none with
      | none =>
        have hk : matOf (dropFrom p ip) k = some m := by
          rw [dropFrom_get, if_neg hkp]; exact h
        exact hfind.2 hf k m hk hto
      | some k1 =>
        obtain ⟨m1, hm1, hto1⟩ := hfind.1 k1 hf
        rw [dropFrom_get] at hm1
        split at hm1
        · cases hm1
        · have := hone k k1 m m1 h hm1 hto hto1
          rw [hf, this] at hne
          exact hne rfl

theorem dropped_frame (p : User) (ip : JMap (Option Match)) (hnd : (ip.map Prod.fst).Nodup)
    (k : User) (m : Match) (h : matOf ip k = some m) (hk : k ≠ p) (hto : m.toUser ≠ p) :
    matOf (dropTo p (dropFrom p ip)) k = some m := by
  rw [dropped_get p ip, if_neg hk]
  split
  · rename_i hf
    obtain ⟨m1, hm1, hto1⟩ :=
      (findMatchTo_matOf p (dropFrom p ip) (dropFrom_nodup p ip hnd)).1 k hf
    rw [dropFrom_get, if_neg hk, h] at hm1
    rw [Option.some.inj hm1] at hto
    exact absurd hto1 hto
  · exact h

theorem setUserBusy_false_self (S : Strategy G) (hS : LawfulBusy S) (g : G) (u : User) :
    S.getUserBusy (S.setUserBusy g u false) u = false := by
  rw [hS]
  simp

theorem setUserBusy_false_keeps (S : Strategy G) (hS : LawfulBusy S) (g : G) (u x : User)
    (h : S.getUserBusy g x = false) : S.getUserBusy (S.setUserBusy g u false) x = false := by
  rw [hS]
  split
  · rfl
  · exact h

/-- A flag cleared before `freeGen` stays cleared. -/
theorem freeGen_keeps (S : Strategy G) (hS : LawfulBusy S) (p : User)
    (pc : JMap (Option Challenge)) (ip : JMap (Option Match)) (g : G) (x : User)
    (h : S.getUserBusy g x = false) : S.getUserBusy (freeGen S p pc ip g) x = false := by
  unfold freeGen
  dsimp only
  repeat' split
  all_goals first
    | exact h
    | exact setUserBusy_false_keeps S hS _ _ _ h
    | exact setUserBusy_false_keeps S hS _ _ _ (setUserBusy_false_keeps S hS _ _ _ h)
    | exact setUserBusy_false_keeps S hS _ _ _
        (setUserBusy_false_keeps S hS _ _ _ (setUserBusy_false_keeps S hS _ _ _ h))

theorem freeGen_partner (S : Strategy G) (hS : LawfulBusy S) (p : User)
    (pc : JMap (Option Challenge)) (ip : JMap (Option Match)) (g : G) (c : Challenge)
    (hc : pendOf pc p = some c) :
    S.getUserBusy (freeGen S p pc ip g) (partnerOf c) = false := by
  unfold freeGen
  rw [hc]
  dsimp only
  have h0 := setUserBusy_false_self S hS g (partnerOf c)
  repeat' split
  all_goals first
    | exact h0
    | exact setUserBusy_false_keeps S hS _ _ _ h0
    | exact setUserBusy_false_keeps S hS _ _ _ (setUserBusy_false_keeps S hS _ _ _ h0)

theorem freeGen_opponent (S : Strategy G) (hS : LawfulBusy S) (p : User)
    (pc : JMap (Option Challenge)) (ip : JMap (Option Match)) (g : G) (m : Match)
    (hm : matOf ip p = some m) :
    S.getUserBusy (freeGen S p pc ip g) m.toUser = false := by
  unfold freeGen
  rw [hm]
  dsimp only
  repeat' split
  all_goals first
    | exact setUserBusy_false_self S hS _ _
    | exact setUserBusy_false_keeps S hS _ _ _ (setUserBusy_false_self S hS _ _)

theorem freeGen_initiator (S : Strategy G) (hS : LawfulBusy S) (p : User)
    (pc : JMap (Option Challenge)) (ip : JMap (Option Match)) (g : G) (k : User)
    (hk : findMatchTo p (dropFrom p ip) none = some k) :
    S.getUserBusy (freeGen S p pc ip g) k = false := by
  unfold freeGen
  rw [hk]
  dsimp only
  exact setUserBusy_false_self S hS _ _

/-- An unlisted target makes `challenge` report `InvalidMatch`. -/
theorem challenge_unlisted (S : Strategy G) (w : World) (a b : User) (o : Nat)
    (t : Tournament G) (av : JMap (List User)) (hst : t.isTournamentStarted = true)
    (hav : t.availableMatches = some av) (h : ∀ e, av.get a = some e → b ∉ e) :
    t.challenge S w a b (.caller o) = .ok () (t.say (.reply o .InvalidMatch)) := by
  unfold Tournament.challenge
  rw [hst, hav]
  dsimp only
  cases ha : av.get a with
  | none => simp [sendReply]
  | some e => simp [sendReply, h e ha]


/-- No lifecycle call undoes the lifecycle facts. -/
theorem lifecycleCall_mono (S : Strategy G) (w : World) (t : Tournament G)
    (c : LifecycleCall G) : Mono t (c.run S w t) := by
  cases c with
  | startTournament o => exact startTournament_mono S w o t
  | addUser u alts o => exact addUser_mono S w u alts o t
  | removeUser u o => exact removeUser_mono S w u o t
  | replaceUser u r o => exact replaceUser_mono S w u r o t
  | setGenerator g o => exact setGenerator_mono S w g o t
  | disqualifyUser u o reason => exact disqualifyUser_mono S w u o reason t
  | setAutoStartTimeout timeout o => exact setAutoStartTimeout_mono w timeout o t
  | setAutoDisqualifyTimeout timeout o => exact setAutoDisqualifyTimeout_mono S w timeout o t

theorem detachAll_timers (ip : JMap (Option Match)) (t : Tournament G) :
    (detachAll ip t).timers = t.timers ∧ (detachAll ip t).isEnded = t.isEnded := by
  induction ip generalizing t with
  | nil => exact ⟨rfl, rfl⟩
  | cons e rest ih =>
    obtain ⟨k, m⟩ := e
    cases m with
    | none => exact ih t
    | some m => exact ih _

theorem clearIfSet_timers (t : Tournament G) (h : Option Nat) (x : Timer) :
    x ∈ (t.clearIfSet h).timers ↔ x ∈ t.timers ∧ some x.id ≠ h := by
  cases h with
  | none => simp [Tournament.clearIfSet]
  | some k =>
    simp only [Tournament.clearIfSet, Tournament.clearTimeout, List.mem_filter,
      decide_eq_true_eq, ne_eq, Option.some.injEq]

theorem clearIfSet_isEnded (t : Tournament G) (h : Option Nat) :
    (t.clearIfSet h).isEnded = t.isEnded := by
  cases h <;> rfl

theorem addAll_fst (S : Strategy G) (users : List User) (g : G) (errs : List Nat) :
    (addAll S users g errs).1 = offerAll S users g := by
  induction users generalizing g errs with
  | nil => rfl
  | cons u us ih =>
    unfold addAll
    split
    · rename_i g1 e h
      rw [ih]
      show _ = offerAll S us (S.addUser g u).1
      rw [h]
    · rename_i g1 h
      rw [ih]
      show _ = offerAll S us (S.addUser g u).1
      rw [h]

theorem addAll_errs_ne_nil (S : Strategy G) (users : List User) (g : G) (errs : List Nat)
    (h : errs ≠ []) : (addAll S users g errs).2 ≠ [] := by
  induction users generalizing g errs with
  | nil => exact h
  | cons u us ih =>
    unfold addAll
    split
    · exact ih _ _ (by simp)
    · exact ih _ _ h

/-- No error is collected exactly when every user, offered to the candidate
that holds the users before it, is accepted. -/
theorem addAll_snd_nil_iff (S : Strategy G) (users : List User) (g : G) :
    (addAll S users g []).2 = [] ↔
      ∀ l1 u l2, users = l1 ++ u :: l2 → (S.addUser (offerAll S l1 g) u).2 = none := by
  induction users generalizing g with
  | nil =>
    constructor
    · intro _ l1 u l2 h
      simp at h
    · intro _
      rfl
  | cons a us ih =>
    constructor
    · intro h l1 u l2 hl
      unfold addAll at h
      split at h
      · exact absurd h (addAll_errs_ne_nil S us _ _ (by simp))
      · rename_i g1 hg
        cases l1 with
        | nil =>
          simp only [List.nil_append, List.cons.injEq] at hl
          rw [← hl.1]
          show (S.addUser g a).2 = none
          rw [hg]
        | cons b l1 =>
          simp only [List.cons_append, List.cons.injEq] at hl
          have hb : b = a := hl.1.symm
          subst hb
          have key := (ih g1).mp h l1 u l2 hl.2
          show (S.addUser (offerAll S l1 (S.addUser g b).1) u).2 = none
          rw [hg]
          exact key
    · intro h
      have h0 := h [] a us rfl
      unfold addAll
      have h1 : (S.addUser g a).2 = none := h0
      have hg : S.addUser g a = ((S.addUser g a).1, none) := by
        rw [← h1]
      rw [hg]
      dsimp only
      refine (ih _).mpr ?_
      intro l1 u l2 hl
      exact h (a :: l1) u l2 (by rw [hl]; rfl)

theorem replyAll_caller (w : World) (o : Nat) (errs : List Nat) (t : Tournament G) :
    replyAll w (.caller o) errs t =
      .ok () (t.sayAll (errs.map fun e => Event.reply o (.strategy e))) := by
  induction errs generalizing t with
  | nil =>
    show Res.ok () t = Res.ok () { t with log := t.log ++ [] }
    rw [List.append_nil]
  | cons e es ih =>
    unfold replyAll
    simp only [sendReply, Res.andThen_ok]
    rw [ih]
    simp [Tournament.say, Tournament.sayAll]

/-- In a tournament that has not started `update()` returns. -/
theorem update_forming_returns (S : Strategy G) (w : World) (t : Tournament G)
    (hs : t.isTournamentStarted = false) : ∃ t1, t.update S w = .ok () t1 := by
  unfold Tournament.update
  split
  · exact ⟨_, rfl⟩
  · dsimp only
    have hc : (t.updateBracket S w).isTournamentStarted = t.isTournamentStarted :=
      congrArg Core.isTournamentStarted (updateBracket_core S w t)
    rw [hc, hs]
    exact ⟨_, rfl⟩

theorem snapshots_sayAll (t : Tournament G) (es : List Event)
    (h : ∀ e ∈ es, e.isSnapshot = false) : (t.sayAll es).snapshots = t.snapshots := by
  unfold Tournament.snapshots Tournament.sayAll
  dsimp only
  rw [List.filter_append]
  have : es.filter Event.isSnapshot = [] := by
    rw [List.filter_eq_nil_iff]
    intro e he
    rw [h e he]
    simp
  rw [this, List.append_nil]

theorem snapshots_say (t : Tournament G) (e : Event) (h : e.isSnapshot = false) :
    (t.say e).snapshots = t.snapshots :=
  snapshots_sayAll t [e] (by simpa using h)

theorem cacheEvents_plain (c : MatchesCache) : ∀ e ∈ cacheEvents c ++ [Event.updateEnd],
    e.isSnapshot = false := by
  intro e he
  simp only [cacheEvents, List.mem_append, List.mem_map, List.mem_singleton] at he
  rcases he with (⟨x, _, rfl⟩ | ⟨x, _, rfl⟩) | rfl <;> rfl

theorem getAvailableMatches_throttle (S : Strategy G) (w : World) (t : Tournament G) :
    (t.getAvailableMatches S w).state.throttle = t.throttle := by
  unfold Tournament.getAvailableMatches
  dsimp only
  repeat' split
  all_goals first
    | rfl
    | (simp only [Res.state_ok, Tournament.throttle]
       rw [snapshots_say _ (Event.availableMatchesError _) rfl]
       rfl)

/-- What the bracket half of `update()` does to the throttle. -/
theorem updateBracket_throttle (S : Strategy G) (w : World) (t : Tournament G) :
    (t.isBracketInvalidated = false → (t.updateBracket S w).throttle = t.throttle) ∧
    (t.isBracketInvalidated = true →
      w.now < t.lastBracketUpdate + BRACKET_MINIMUM_UPDATE_INTERVAL →
      (t.updateBracket S w).throttle =
        { t.throttle with
          bracketUpdateTimer := some t.nextTimerId,
          timers := (t.clearIfSet t.bracketUpdateTimer).timers ++
            [⟨t.nextTimerId, .bracketUpdate, BRACKET_MINIMUM_UPDATE_INTERVAL⟩],
          nextTimerId := t.nextTimerId + 1 }) ∧
    (t.isBracketInvalidated = true →
      t.lastBracketUpdate + BRACKET_MINIMUM_UPDATE_INTERVAL ≤ w.now →
      (t.updateBracket S w).throttle =
        { t.throttle with
          isBracketInvalidated := false,
          lastBracketUpdate := w.now,
          bracketCache := some (t.getBracketData S),
          snapshots := t.snapshots + 1 }) := by
  refine ⟨fun h => ?_, fun h hlt => ?_, fun h hge => ?_⟩
  · unfold Tournament.updateBracket
    rw [h]
    rfl
  · unfold Tournament.updateBracket
    rw [h]
    simp only [if_true]
    rw [if_pos hlt]
    cases hb : t.bracketUpdateTimer <;> rfl
  · unfold Tournament.updateBracket
    rw [h]
    simp only [if_true]
    rw [if_neg (by omega)]
    simp only [Tournament.throttle, Tournament.say, Tournament.snapshots, List.filter_append,
      List.length_append]
    rfl

/-- The second half of `update()` leaves the throttle alone. -/
theorem update_throttle (S : Strategy G) (w : World) (t : Tournament G)
    (he : t.isEnded = false) :
    (t.update S w).state.throttle = (t.updateBracket S w).throttle := by
  unfold Tournament.update
  rw [he]
  simp only [Bool.false_eq_true, if_false]
  split
  · have h := getAvailableMatches_throttle S w (t.updateBracket S w)
    cases hr : (t.updateBracket S w).getAvailableMatches S w with
    | threw t2 =>
      rw [hr] at h
      exact h
    | ok c t2 =>
      rw [hr] at h
      cases c with
      | none => exact h
      | some c =>
        have h1 : t2.throttle = (t.updateBracket S w).throttle := h
        simp only [Res.andThen_ok, Res.state_ok]
        rw [← h1]
        simp only [Tournament.throttle]
        rw [snapshots_sayAll _ _ (cacheEvents_plain c)]
        rfl
  · simp only [Res.state_ok, Tournament.throttle]
    rw [snapshots_say _ Event.updateEnd rfl]
    rfl

/-- A call of `update()` either broadcasts no snapshot and keeps the time of
the last one, or broadcasts one, a full interval after the last, and records
its time. -/
theorem update_step (S : Strategy G) (w : World) (t : Tournament G) :
    ((t.update S w).state.snapshots = t.snapshots ∧
      (t.update S w).state.lastBracketUpdate = t.lastBracketUpdate) ∨
    ((t.update S w).state.snapshots = t.snapshots + 1 ∧
      t.lastBracketUpdate + BRACKET_MINIMUM_UPDATE_INTERVAL ≤ w.now ∧
      (t.update S w).state.lastBracketUpdate = w.now) := by
  by_cases he : t.isEnded = true
  · rw [update_of_ended S w t he]
    exact Or.inl ⟨rfl, rfl⟩
  · have he1 : t.isEnded = false := by simpa using he
    have hu := update_throttle S w t he1
    have h1 : (t.update S w).state.snapshots = (t.updateBracket S w).snapshots :=
      congrArg Throttle.snapshots hu
    have h2 : (t.update S w).state.lastBracketUpdate = (t.updateBracket S w).lastBracketUpdate :=
      congrArg Throttle.lastBracketUpdate hu
    obtain ⟨b1, b2, b3⟩ := updateBracket_throttle S w t
    rw [h1, h2]
    cases hd : t.isBracketInvalidated with
    | false =>
      have k := b1 hd
      exact Or.inl ⟨congrArg Throttle.snapshots k, congrArg Throttle.lastBracketUpdate k⟩
    | true =>
      by_cases hlt : w.now < t.lastBracketUpdate + BRACKET_MINIMUM_UPDATE_INTERVAL
      · have k := b2 hd hlt
        exact Or.inl ⟨congrArg Throttle.snapshots k, congrArg Throttle.lastBracketUpdate k⟩
      · have hge : t.lastBracketUpdate + BRACKET_MINIMUM_UPDATE_INTERVAL ≤ w.now := by omega
        have k := b3 hd hge
        exact Or.inr ⟨congrArg Throttle.snapshots k, hge,
          congrArg Throttle.lastBracketUpdate k⟩

/-- On an ended tournament `updateFor` does nothing; on another one it
refuses, with one error message to the room, exactly when the bracket is
dirty with no timer pending or the tournament is started with dirty
available matches. -/
theorem updateFor_refusal (S : Strategy G) (u : User) (conn : Option Nat)
    (t : Tournament G) :
    (t.isEnded = true → t.updateFor S u conn = .ok () t) ∧
    (t.isEnded = false →
      ((t.bracketUpdateTimer = none ∧ t.isBracketInvalidated = true) ∨
        (t.isTournamentStarted = true ∧ t.isAvailableMatchesInvalidated = true)) →
      t.updateFor S u conn = .ok () (t.say (.updateForError
        (t.bracketUpdateTimer.isNone && t.isBracketInvalidated)
        (t.isTournamentStarted && t.isAvailableMatchesInvalidated)))) ∧
    (t.isEnded = false →
      ¬ ((t.bracketUpdateTimer = none ∧ t.isBracketInvalidated = true) ∨
        (t.isTournamentStarted = true ∧ t.isAvailableMatchesInvalidated = true)) →
      ¬ (t.isTournamentStarted = true ∧ u ∈ S.getUsers t.generator false) →
      t.updateFor S u conn = .ok () ((t.say (.toConnection u conn
        (.update t.isTournamentStarted (decide (u ∈ S.getUsers t.generator false))
          t.bracketCache))).say (.toConnection u conn .updateEnd))) := by
  refine ⟨fun he => ?_, fun he hs => ?_, fun he hs hj => ?_⟩
  · unfold Tournament.updateFor
    rw [if_pos he]
  · unfold Tournament.updateFor
    rw [if_neg (by simp [he])]
    dsimp only
    rw [if_pos]
    rcases hs with ⟨h1, h2⟩ | ⟨h1, h2⟩
    · simp [h1, h2]
    · simp [h1, h2]
  · unfold Tournament.updateFor
    rw [if_neg (by simp [he])]
    dsimp only
    rw [if_neg, if_neg]
    · simpa using hj
    · intro h
      apply hs
      simp only [Bool.or_eq_true, Bool.and_eq_true, Option.isNone_iff_eq_none] at h
      exact h

theorem foldl_set_keeps {α : Type} (users : List User) (v : α) (m : JMap α) (x : User)
    (h : m.get x = some v) : (users.foldl (fun m u => m.set u v) m).get x = some v := by
  rw [foldl_set_get]
  split
  · rfl
  · exact h

/-- A last-action time equal to the current time survives
`getAvailableMatches()`. -/
theorem getAvailableMatches_lastActionTimes (S : Strategy G) (w : World) (t : Tournament G)
    (la : JMap Int) (hla : t.lastActionTimes = some la) :
    ∃ la1, (t.getAvailableMatches S w).state.lastActionTimes = some la1 ∧
      ∀ x, la.get x = some w.now → la1.get x = some w.now := by
  unfold Tournament.getAvailableMatches
  dsimp only
  repeat' split
  all_goals first
    | exact ⟨la, hla, fun _ h => h⟩
    | (rename_i la0 hla0
       have e : la0 = la := Option.some.inj (hla0.symm.trans hla)
       subst e
       exact ⟨_, rfl, fun x h => foldl_set_keeps _ _ _ x h⟩)

theorem update_lastActionTimes (S : Strategy G) (w : World) (t : Tournament G)
    (la : JMap Int) (hla : t.lastActionTimes = some la) :
    ∃ la1, (t.update S w).state.lastActionTimes = some la1 ∧
      ∀ x, la.get x = some w.now → la1.get x = some w.now := by
  unfold Tournament.update
  split
  · exact ⟨la, hla, fun _ h => h⟩
  · dsimp only
    have hb : (t.updateBracket S w).lastActionTimes = some la :=
      (updateBracket_maps S w t).2.1.trans hla
    split
    · obtain ⟨la1, h1, h2⟩ := getAvailableMatches_lastActionTimes S w _ la hb
      cases hr : (t.updateBracket S w).getAvailableMatches S w with
      | threw t2 =>
        rw [hr] at h1
        exact ⟨la1, h1, h2⟩
      | ok c t2 =>
        rw [hr] at h1
        cases c with
        | none => exact ⟨la1, h1, h2⟩
        | some c => exact ⟨la1, h1, h2⟩
    · exact ⟨la, hb, fun _ h => h⟩

/-- When `update()` returns on a started tournament that has not ended and
whose available matches are dirty, it has recomputed them, stored the cache,
cleared the flag and sent the lists to the players. -/
theorem update_republishes (S : Strategy G) (w : World) (t t1 : Tournament G)
    (he : t.isEnded = false) (hs : t.isTournamentStarted = true)
    (hd : t.isAvailableMatchesInvalidated = true) (hr : t.update S w = .ok () t1) :
    ∃ c t2, (t.updateBracket S w).getAvailableMatches S w = .ok (some c) t2 ∧
      t1 = ({ t2 with availableMatchesCache := some c,
                      isAvailableMatchesInvalidated := false }).sayAll
        (cacheEvents c ++ [Event.updateEnd]) := by
  unfold Tournament.update at hr
  rw [if_neg (by simp [he])] at hr
  dsimp only at hr
  have h1 : (t.updateBracket S w).isTournamentStarted = true :=
    (congrArg Core.isTournamentStarted (updateBracket_core S w t)).trans hs
  have h2 : (t.updateBracket S w).isAvailableMatchesInvalidated = true :=
    (updateBracket_maps S w t).2.2.1.trans hd
  rw [h1, h2] at hr
  simp only [Bool.and_self, if_true] at hr
  obtain ⟨c, t2, e2, hr⟩ := Res.andThen_eq_ok hr
  cases c with
  | none => cases hr
  | some c =>
    injection hr with _ hr
    exact ⟨c, t2, e2, hr.symm⟩

theorem mem_matchRooms (ip : JMap (Option Match)) (k : User) (m : Match)
    (h : (k, some m) ∈ ip) : m.room ∈ matchRooms ip := by
  unfold matchRooms
  rw [List.mem_filterMap]
  exact ⟨(k, some m), h, rfl⟩

theorem detachAll_rooms (ip : JMap (Option Match)) (t : Tournament G) :
    (detachAll ip t).tourRooms = t.tourRooms.filter (fun r => decide (r.id ∉ matchRooms ip)) ∧
    (detachAll ip t).log = t.log ++ (matchRooms ip).map Event.battleRaw ∧
    (detachAll ip t).isEnded = t.isEnded := by
  induction ip generalizing t with
  | nil =>
    refine ⟨?_, ?_, rfl⟩
    · show t.tourRooms = _
      simp [matchRooms]
    · show t.log = _
      simp [matchRooms]
  | cons e rest ih =>
    obtain ⟨k, m⟩ := e
    cases m with
    | none =>
      have h := ih t
      have e1 : matchRooms ((k, none) :: rest) = matchRooms rest := by
        simp [matchRooms]
      rw [e1]
      exact h
    | some m =>
      have h := ih ((t.detach m.room).say (.battleRaw m.room))
      have e1 : matchRooms ((k, some m) :: rest) = m.room :: matchRooms rest := by
        simp [matchRooms]
      rw [e1]
      refine ⟨?_, ?_, ?_⟩
      · show (detachAll rest _).tourRooms = _
        rw [h.1]
        show (t.tourRooms.filter _).filter _ = _
        rw [List.filter_filter]
        congr 1
        funext r
        simp only [List.mem_cons, not_or, ne_eq, decide_not, Bool.and_eq_true,
          Bool.not_eq_true', decide_eq_false_iff_not, Bool.decide_and]
        rw [Bool.and_comm]
      · show (detachAll rest _).log = _
        rw [h.2.1]
        show (t.log ++ [Event.battleRaw m.room]) ++ _ = _
        simp
      · show (detachAll rest _).isEnded = _
        rw [h.2.2]
        rfl

theorem Res.final_eq_some {α : Type} {r : Res G α} {t1 : Tournament G}
    (h : r.final = some t1) : ∃ a, r = .ok a t1 := by
  cases r with
  | ok a t =>
    injection h with h
    subst h
    exact ⟨a, rfl⟩
  | threw t => cases h

theorem Publishable.of_guard {t t1 : Tournament G} (h : Publishable t)
    (h1 : t1.isEnded = t.isEnded) (h2 : t1.bracketUpdateTimer = t.bracketUpdateTimer)
    (h3 : t1.isBracketInvalidated = t.isBracketInvalidated)
    (h4 : t1.isTournamentStarted = t.isTournamentStarted)
    (h5 : t1.isAvailableMatchesInvalidated = t.isAvailableMatchesInvalidated) :
    Publishable t1 := by
  unfold Publishable Tournament.staleBracket Tournament.staleMatches at *
  rw [h1, h2, h3, h4, h5]
  exact h

theorem Publishable.after_say {t : Tournament G} (h : Publishable t) (e : Event) :
    Publishable (t.say e) :=
  h.of_guard rfl rfl rfl rfl rfl

theorem Publishable.withGenerator {t : Tournament G} (h : Publishable t) (g : G) :
    Publishable { t with generator := g } :=
  h.of_guard rfl rfl rfl rfl rfl

theorem sendReply_publishable (w : World) (o : Output) (e : TourError) (t t1 : Tournament G)
    (h : Publishable t) (hr : sendReply w o e t = .ok () t1) : Publishable t1 := by
  unfold sendReply at hr
  split at hr
  · injection hr with _ hr; subst hr; exact h.after_say _
  · cases hr
  · split at hr
    · injection hr with _ hr; subst hr; exact h.after_say _
    · cases hr

theorem updateBracket_fresh (S : Strategy G) (w : World) (t : Tournament G) :
    (t.updateBracket S w).staleBracket = false := by
  unfold Tournament.updateBracket Tournament.staleBracket
  split
  · split
    · rfl
    · simp [Tournament.say]
  · rename_i h
    simp [h]

theorem update_publishable (S : Strategy G) (w : World) (t t1 : Tournament G)
    (hr : t.update S w = .ok () t1) : Publishable t1 := by
  unfold Tournament.update at hr
  split at hr
  · rename_i he
    injection hr with _ hr
    subst hr
    exact Or.inl he
  · dsimp only at hr
    have hb := updateBracket_fresh S w t
    split at hr
    · obtain ⟨c, t2, h2, h3⟩ := Res.andThen_eq_ok hr
      have ht := getAvailableMatches_throttle S w (t.updateBracket S w)
      rw [h2] at ht
      have e1 : t2.isBracketInvalidated = (t.updateBracket S w).isBracketInvalidated :=
        congrArg Throttle.isBracketInvalidated ht
      have e2 : t2.bracketUpdateTimer = (t.updateBracket S w).bracketUpdateTimer :=
        congrArg Throttle.bracketUpdateTimer ht
      cases c with
      | none => cases h3
      | some c =>
        injection h3 with _ h3
        subst h3
        refine Or.inr ⟨?_, ?_⟩
        · unfold Tournament.staleBracket at hb ⊢
          show (t2.bracketUpdateTimer.isNone && t2.isBracketInvalidated) = false
          rw [e1, e2]
          exact hb
        · unfold Tournament.staleMatches
          show (t2.isTournamentStarted && false) = false
          simp
    · rename_i hc
      injection hr with _ hr
      subst hr
      refine Or.inr ⟨hb, ?_⟩
      unfold Tournament.staleMatches
      show ((t.updateBracket S w).isTournamentStarted &&
        (t.updateBracket S w).isAvailableMatchesInvalidated) = false
      simpa using hc

theorem onTournamentEnd_publishable (S : Strategy G) (t : Tournament G) :
    Publishable (t.onTournamentEnd S) := by
  refine Or.inl ?_
  unfold Tournament.onTournamentEnd
  dsimp only
  cases h : (t.say (.tournamentEnd (S.getResults t.generator)
    (t.getBracketData S))).autoDisqualifyTimer <;> rfl

theorem settleDisqualify_publishable (S : Strategy G) (w : World) (u : User)
    (reason : Option Nat) (t t1 : Tournament G) (b : Bool)
    (hr : t.settleDisqualify S w u reason = .ok b t1) : Publishable t1 := by
  unfold Tournament.settleDisqualify at hr
  obtain ⟨_, t2, _, hr⟩ := Res.andThen_eq_ok hr
  obtain ⟨_, t3, _, hr⟩ := Res.andThen_eq_ok hr
  obtain ⟨_, t4, _, hr⟩ := Res.andThen_eq_ok hr
  dsimp only at hr
  split at hr
  · injection hr with _ hr
    subst hr
    exact onTournamentEnd_publishable S _
  · obtain ⟨_, t6, h6, hr⟩ := Res.andThen_eq_ok hr
    injection hr with _ hr
    subst hr
    exact update_publishable S w _ _ h6

theorem disqualifyUser_publishable (S : Strategy G) (w : World) (u : User) (o : Output)
    (reason : Option Nat) (t t1 : Tournament G) (b : Bool) (h : Publishable t)
    (hr : t.disqualifyUser S w u o reason = .ok b t1) : Publishable t1 := by
  unfold Tournament.disqualifyUser at hr
  dsimp only at hr
  have h0 : Publishable { t with generator := (S.disqualifyUser t.generator u).1 } :=
    h.of_guard rfl rfl rfl rfl rfl
  split at hr
  · obtain ⟨_, t2, h2, hr⟩ := Res.andThen_eq_ok hr
    injection hr with _ hr
    subst hr
    exact sendReply_publishable _ _ _ _ _ h0 h2
  · split at hr
    · cases hr
    · split at hr
      · obtain ⟨_, t2, h2, hr⟩ := Res.andThen_eq_ok hr
        injection hr with _ hr
        subst hr
        exact sendReply_publishable _ _ _ _ _ h0 h2
      · exact settleDisqualify_publishable S w u reason _ _ b hr

theorem removeUser_publishable (S : Strategy G) (w : World) (u : User) (o : Output)
    (t t1 : Tournament G) (h : Publishable t)
    (hr : t.removeUser S w u o = .ok () t1) : Publishable t1 := by
  unfold Tournament.removeUser at hr
  dsimp only at hr
  split at hr
  · exact sendReply_publishable _ _ _ _ _ (h.withGenerator _) hr
  · exact update_publishable S w _ _ hr

theorem replaceUser_publishable (S : Strategy G) (w : World) (u r : User) (o : Output)
    (t t1 : Tournament G) (h : Publishable t)
    (hr : t.replaceUser S w u r o = .ok () t1) : Publishable t1 := by
  unfold Tournament.replaceUser at hr
  dsimp only at hr
  split at hr
  · exact sendReply_publishable _ _ _ _ _ (h.withGenerator _) hr
  · exact update_publishable S w _ _ hr

theorem purgeLoop_publishable (S : Strategy G) (w : World) (users : List User)
    (t t1 : Tournament G) (h : Publishable t)
    (hr : Tournament.purgeLoop S w users t = .ok () t1) : Publishable t1 := by
  induction users generalizing t with
  | nil =>
    unfold Tournament.purgeLoop at hr
    injection hr with _ hr
    subst hr
    exact h
  | cons u rest ih =>
    unfold Tournament.purgeLoop at hr
    split at hr
    · exact ih t h hr
    · dsimp only at hr
      obtain ⟨_, t2, h2, hr⟩ := Res.andThen_eq_ok hr
      refine ih _ (Publishable.after_say ?_ _) hr
      split at h2
      · split at h2
        · cases h2
        · split at h2
          · injection h2 with _ h2
            subst h2
            exact h
          · obtain ⟨b, t3, h3, h2⟩ := Res.andThen_eq_ok h2
            injection h2 with _ h2
            subst h2
            exact disqualifyUser_publishable S w u _ _ t _ b h h3
      · exact removeUser_publishable S w u _ t _ h h2

theorem startTournament_publishable (S : Strategy G) (w : World) (o : Output)
    (t t1 : Tournament G) (b : Bool) (h : Publishable t)
    (hr : t.startTournament S w o = .ok b t1) : Publishable t1 := by
  unfold Tournament.startTournament at hr
  split at hr
  · obtain ⟨_, t2, h2, hr⟩ := Res.andThen_eq_ok hr
    injection hr with _ hr
    subst hr
    exact sendReply_publishable _ _ _ _ _ h h2
  · obtain ⟨_, t2, h2, hr⟩ := Res.andThen_eq_ok hr
    have hp : Publishable t2 := purgeLoop_publishable S w _ t t2 h h2
    dsimp only at hr
    split at hr
    · obtain ⟨_, t3, h3, hr⟩ := Res.andThen_eq_ok hr
      injection hr with _ hr
      subst hr
      exact sendReply_publishable _ _ _ _ _ hp h3
    · obtain ⟨_, t3, h3, hr⟩ := Res.andThen_eq_ok hr
      injection hr with _ hr
      subst hr
      exact update_publishable S w _ _ h3

theorem addUser_publishable (S : Strategy G) (w : World) (u : User) (alts : Bool)
    (o : Output) (t t1 : Tournament G) (h : Publishable t)
    (hr : t.addUser S w u alts o = .ok () t1) : Publishable t1 := by
  unfold Tournament.addUser at hr
  split at hr
  · exact sendReply_publishable _ _ _ _ _ h hr
  · dsimp only at hr
    split at hr
    · exact sendReply_publishable _ _ _ _ _ h hr
    · split at hr
      · exact sendReply_publishable _ _ _ _ _ h hr
      · split at hr
        · exact sendReply_publishable _ _ _ _ _ (h.withGenerator _) hr
        · obtain ⟨_, t2, h2, hr⟩ := Res.andThen_eq_ok hr
          have hp : Publishable t2 := update_publishable S w _ _ h2
          split at hr
          · split at hr
            · obtain ⟨b, t3, h3, hr⟩ := Res.andThen_eq_ok hr
              injection hr with _ hr
              subst hr
              exact startTournament_publishable S w o t2 _ b hp h3
            · injection hr with _ hr
              subst hr
              exact hp.after_say _
          · injection hr with _ hr
            subst hr
            exact hp

theorem replyAll_publishable (w : World) (o : Output) (es : List Nat)
    (t t1 : Tournament G) (h : Publishable t)
    (hr : replyAll w o es t = .ok () t1) : Publishable t1 := by
  induction es generalizing t with
  | nil =>
    unfold replyAll at hr
    injection hr with _ hr
    subst hr
    exact h
  | cons e rest ih =>
    unfold replyAll at hr
    obtain ⟨_, t2, h2, hr⟩ := Res.andThen_eq_ok hr
    exact ih t2 (sendReply_publishable _ _ _ _ _ h h2) hr

theorem setGenerator_publishable (S : Strategy G) (w : World) (g : G) (o : Output)
    (t t1 : Tournament G) (b : Option Bool) (h : Publishable t)
    (hr : t.setGenerator S w g o = .ok b t1) : Publishable t1 := by
  unfold Tournament.setGenerator at hr
  split at hr
  · obtain ⟨_, t2, h2, hr⟩ := Res.andThen_eq_ok hr
    injection hr with _ hr
    subst hr
    exact sendReply_publishable _ _ _ _ _ h h2
  · dsimp only at hr
    split at hr
    · obtain ⟨_, t2, h2, hr⟩ := Res.andThen_eq_ok hr
      injection hr with _ hr
      subst hr
      exact replyAll_publishable _ _ _ _ _ h h2
    · obtain ⟨_, t2, h2, hr⟩ := Res.andThen_eq_ok hr
      injection hr with _ hr
      subst hr
      exact update_publishable S w _ _ h2

theorem challenge_publishable (S : Strategy G) (w : World) (a b : User) (o : Output)
    (t t1 : Tournament G) (h : Publishable t)
    (hr : t.challenge S w a b o = .ok () t1) : Publishable t1 := by
  unfold Tournament.challenge at hr
  split at hr
  · exact sendReply_publishable _ _ _ _ _ h hr
  · split at hr
    · cases hr
    · dsimp only at hr
      split at hr
      · exact sendReply_publishable _ _ _ _ _ h hr
      · split at hr
        · injection hr with _ hr
          subst hr
          exact h.after_say _
        · obtain ⟨_, t3, _, hr⟩ := Res.andThen_eq_ok hr
          obtain ⟨_, t4, h4, hr⟩ := Res.andThen_eq_ok hr
          injection hr with _ hr
          subst hr
          exact (update_publishable S w _ _ h4).of_guard rfl rfl rfl rfl rfl

theorem finishChallenge_publishable (S : Strategy G) (w : World) (a b : User)
    (result : Bool) (t t1 : Tournament G)
    (hr : t.finishChallenge S w a b result = .ok () t1) : Publishable t1 := by
  unfold Tournament.finishChallenge at hr
  split at hr
  · exact update_publishable S w _ _ hr
  · split at hr
    · cases hr
    · dsimp only at hr
      split at hr
      · cases hr
      · exact update_publishable S w _ _ hr

theorem cancelChallenge_publishable (S : Strategy G) (w : World) (u : User) (o : Output)
    (t t1 : Tournament G) (h : Publishable t)
    (hr : t.cancelChallenge S w u o = .ok () t1) : Publishable t1 := by
  unfold Tournament.cancelChallenge at hr
  split at hr
  · exact sendReply_publishable _ _ _ _ _ h hr
  · split at hr
    · cases hr
    · split at hr
      · exact update_publishable S w _ _ hr
      · injection hr with _ hr
        subst hr
        exact h

theorem beginMatch_publishable (S : Strategy G) (w : World) (u source : User) (room : Nat)
    (pc : JMap (Option Challenge)) (t t1 : Tournament G)
    (hr : t.beginMatch S w u source room pc = .ok () t1) : Publishable t1 := by
  unfold Tournament.beginMatch at hr
  dsimp only at hr
  split at hr
  · cases hr
  · obtain ⟨_, t5, _, hr⟩ := Res.andThen_eq_ok hr
    exact update_publishable S w _ _ hr

theorem finishAcceptChallenge_publishable (S : Strategy G) (w : World) (u : User)
    (c : Challenge) (result : Bool) (t t1 : Tournament G) (h : Publishable t)
    (hr : t.finishAcceptChallenge S w u c result = .ok () t1) : Publishable t1 := by
  unfold Tournament.finishAcceptChallenge at hr
  split at hr
  · injection hr with _ hr
    subst hr
    exact h
  · split at hr
    · cases hr
    · split at hr
      · injection hr with _ hr
        subst hr
        exact h
      · split at hr
        · cases hr
        · split at hr
          · injection hr with _ hr
            subst hr
            exact h
          · split at hr
            · injection hr with _ hr
              subst hr
              exact h
            · split at hr
              · injection hr with _ hr
                subst hr
                exact h
              · exact beginMatch_publishable S w _ _ _ _ t _ hr

theorem onBattleWin_publishable (S : Strategy G) (w : World) (room : BattleRoom)
    (winner : Option User) (score : Nat × Nat) (t t1 : Tournament G) (h : Publishable t)
    (hr : t.onBattleWin S w room winner score = .ok () t1) : Publishable t1 := by
  unfold Tournament.onBattleWin at hr
  dsimp only at hr
  split at hr
  · obtain ⟨_, t2, _, hr⟩ := Res.andThen_eq_ok hr
    obtain ⟨_, t3, _, hr⟩ := Res.andThen_eq_ok hr
    obtain ⟨_, t4, h4, hr⟩ := Res.andThen_eq_ok hr
    injection hr with _ hr
    subst hr
    exact (update_publishable S w _ _ h4).after_say _
  · split at hr
    · split at hr
      · cases hr
      · injection hr with _ hr
        subst hr
        exact h.of_guard rfl rfl rfl rfl rfl
    · obtain ⟨_, t2, _, hr⟩ := Res.andThen_eq_ok hr
      split at hr
      · injection hr with _ hr
        subst hr
        exact (onTournamentEnd_publishable S _).after_say _
      · obtain ⟨_, t3, _, hr⟩ := Res.andThen_eq_ok hr
        obtain ⟨_, t4, h4, hr⟩ := Res.andThen_eq_ok hr
        injection hr with _ hr
        subst hr
        exact (update_publishable S w _ _ h4).after_say _

theorem updateFor_of_unpublishable (S : Strategy G) (u : User) (conn : Option Nat)
    (t : Tournament G) (h : ¬ Publishable t) :
    t.updateFor S u conn = .ok () (t.say (.updateForError t.staleBracket t.staleMatches)) := by
  have he : t.isEnded = false := by
    cases h0 : t.isEnded
    · rfl
    · exact absurd (Or.inl h0) h
  refine (updateFor_refusal S u conn t).2.1 he ?_
  by_contra hc
  apply h
  refine Or.inr ⟨?_, ?_⟩
  · unfold Tournament.staleBracket
    cases h1 : t.bracketUpdateTimer with
    | some x => rfl
    | none =>
      cases h2 : t.isBracketInvalidated with
      | false => rfl
      | true => exact absurd (Or.inl ⟨h1, h2⟩) hc
  · unfold Tournament.staleMatches
    cases h1 : t.isTournamentStarted with
    | false => rfl
    | true =>
      cases h2 : t.isAvailableMatchesInvalidated with
      | false => rfl
      | true => exact absurd (Or.inr ⟨h1, h2⟩) hc

theorem updateFor_of_publishable (S : Strategy G) (u : User) (conn : Option Nat)
    (t : Tournament G) (h : Publishable t) (b1 b2 : Bool) :
    Event.updateForError b1 b2 ∉ (t.updateFor S u conn).state.log.drop t.log.length := by
  unfold Tournament.updateFor
  split
  · simp
  · rename_i he
    have hg : (t.staleBracket || t.staleMatches) = false := by
      rcases h with h | ⟨h1, h2⟩
      · exact absurd h he
      · rw [h1, h2]
        rfl
    unfold Tournament.staleBracket Tournament.staleMatches at hg
    dsimp only
    rw [if_neg (by rw [hg]; simp)]
    repeat' split
    all_goals simp [Tournament.say]

theorem Extends.keys_same (la : JMap Int) : Extends la la :=
  ⟨⟨[], by simp⟩, fun h => h⟩

theorem Extends.keys_chain {la la1 la2 : JMap Int} (h1 : Extends la la1) (h2 : Extends la1 la2) :
    Extends la la2 := by
  obtain ⟨⟨e1, h1a⟩, h1b⟩ := h1
  obtain ⟨⟨e2, h2a⟩, h2b⟩ := h2
  refine ⟨⟨e1 ++ e2, ?_⟩, fun h => h2b (h1b h)⟩
  rw [h2a, h1a, List.append_assoc]

theorem JMap.map_fst_set {α : Type} (m : JMap α) (k : User) (v : α) :
    (m.set k v).map Prod.fst =
      if k ∈ m.map Prod.fst then m.map Prod.fst else m.map Prod.fst ++ [k] := by
  induction m with
  | nil => simp [JMap.set]
  | cons e m ih =>
    obtain ⟨k1, v1⟩ := e
    unfold JMap.set
    by_cases hk : k1 = k
    · rw [if_pos hk]
      subst hk
      simp
    · rw [if_neg hk]
      simp only [List.map_cons, ih, List.mem_cons]
      have hk2 : ¬ k = k1 := fun h => hk h.symm
      by_cases hm : k ∈ m.map Prod.fst
      · simp [hm]
      · simp [hm, hk2]

theorem Extends.set (la : JMap Int) (k : User) (v : Int) : Extends la (la.set k v) := by
  refine ⟨?_, fun h => JMap.nodup_set la k v h⟩
  rw [JMap.map_fst_set]
  split
  · exact ⟨[], by simp⟩
  · exact ⟨[k], rfl⟩

theorem Extends.foldl (users : List User) (v : Int) (la : JMap Int) :
    Extends la (users.foldl (fun m u => m.set u v) la) := by
  induction users generalizing la with
  | nil => exact Extends.keys_same la
  | cons u rest ih => exact (Extends.set la u v).keys_chain (ih _)

theorem Steady.steady_same (t : Tournament G) : Steady t t :=
  ⟨rfl, rfl, fun la h => ⟨la, h, Extends.keys_same la⟩⟩

theorem Steady.steady_chain {t t1 t2 : Tournament G} (h1 : Steady t t1) (h2 : Steady t1 t2) :
    Steady t t2 := by
  refine ⟨h2.dq.trans h1.dq, h2.warned.trans h1.warned, fun la h => ?_⟩
  obtain ⟨la1, e1, x1⟩ := h1.times la h
  obtain ⟨la2, e2, x2⟩ := h2.times la1 e1
  exact ⟨la2, e2, x1.keys_chain x2⟩

theorem Steady.steady_after {t t1 t2 : Tournament G} (h2 : Steady t1 t2) (h1 : Steady t t1) :
    Steady t t2 :=
  h1.steady_chain h2

theorem Steady.steady_of_fields {t t1 : Tournament G} (h1 : t1.disqualifiedUsers = t.disqualifiedUsers)
    (h2 : t1.isAutoDisqualifyWarned = t.isAutoDisqualifyWarned)
    (h3 : t1.lastActionTimes = t.lastActionTimes) : Steady t t1 :=
  ⟨h1, h2, fun la h => ⟨la, h3.trans h, Extends.keys_same la⟩⟩

theorem Steady.steady_bind {α β : Type} {t : Tournament G} {r : Res G α}
    {k : α → Tournament G → Res G β} (h1 : Steady t r.state)
    (h2 : ∀ a t1, Steady t1 (k a t1).state) : Steady t (r.andThen k).state := by
  cases r with
  | ok a t1 => exact h1.steady_chain (h2 a t1)
  | threw t1 => exact h1

theorem clearIfSet_steady (t : Tournament G) (h : Option Nat) : Steady t (t.clearIfSet h) := by
  cases h <;> exact Steady.steady_of_fields rfl rfl rfl

theorem sendReply_steady (w : World) (o : Output) (e : TourError) (t : Tournament G) :
    Steady t (sendReply w o e t).state := by
  unfold sendReply
  repeat' split
  all_goals exact Steady.steady_of_fields rfl rfl rfl

theorem getAvailableMatches_times (S : Strategy G) (w : World) (t : Tournament G)
    (la : JMap Int) (hla : t.lastActionTimes = some la) :
    ∃ la1, (t.getAvailableMatches S w).state.lastActionTimes = some la1 ∧ Extends la la1 := by
  unfold Tournament.getAvailableMatches
  dsimp only
  repeat' split
  all_goals first
    | exact ⟨la, hla, Extends.keys_same la⟩
    | (rename_i la0 hla0
       have e : la0 = la := Option.some.inj (hla0.symm.trans hla)
       subst e
       exact ⟨_, rfl, Extends.foldl _ _ _⟩)

theorem update_steady (S : Strategy G) (w : World) (t : Tournament G) :
    Steady t (t.update S w).state := by
  refine ⟨congrArg Core.disqualifiedUsers (update_core S w t),
    congrArg Core.isAutoDisqualifyWarned (update_core S w t), fun la hla => ?_⟩
  unfold Tournament.update
  split
  · exact ⟨la, hla, Extends.keys_same la⟩
  · dsimp only
    have hb : (t.updateBracket S w).lastActionTimes = some la :=
      (updateBracket_maps S w t).2.1.trans hla
    split
    · obtain ⟨la1, h1, h2⟩ := getAvailableMatches_times S w _ la hb
      cases hr : (t.updateBracket S w).getAvailableMatches S w with
      | threw t2 =>
        rw [hr] at h1
        exact ⟨la1, h1, h2⟩
      | ok c t2 =>
        rw [hr] at h1
        cases c with
        | none => exact ⟨la1, h1, h2⟩
        | some c => exact ⟨la1, h1, h2⟩
    · exact ⟨la, hb, Extends.keys_same la⟩

theorem onTournamentEnd_steady (S : Strategy G) (t : Tournament G) :
    Steady t (t.onTournamentEnd S) := by
  unfold Tournament.onTournamentEnd
  dsimp only
  cases h : (t.say (.tournamentEnd (S.getResults t.generator)
    (t.getBracketData S))).autoDisqualifyTimer <;> exact Steady.steady_of_fields rfl rfl rfl

theorem voidChallenge_steady (S : Strategy G) (u : User) (t : Tournament G) :
    Steady t (t.voidChallenge S u).state := by
  unfold Tournament.voidChallenge
  repeat' split
  all_goals exact Steady.steady_of_fields rfl rfl rfl

theorem forfeitFrom_steady (S : Strategy G) (u : User) (t : Tournament G) :
    Steady t (t.forfeitFrom S u).state := by
  unfold Tournament.forfeitFrom
  repeat' split
  all_goals exact Steady.steady_of_fields rfl rfl rfl

theorem forfeitTo_steady (S : Strategy G) (u : User) (t : Tournament G) :
    Steady t (t.forfeitTo S u).state := by
  unfold Tournament.forfeitTo
  repeat' split
  all_goals exact Steady.steady_of_fields rfl rfl rfl

theorem announceDisqualify_steady (u : User) (reason : Option Nat) (t : Tournament G) :
    Steady t (t.announceDisqualify u reason) := by
  unfold Tournament.announceDisqualify
  cases reason <;> exact Steady.steady_of_fields rfl rfl rfl

theorem settleDisqualify_steady (S : Strategy G) (w : World) (u : User)
    (reason : Option Nat) (t : Tournament G) :
    Steady t (t.settleDisqualify S w u reason).state := by
  unfold Tournament.settleDisqualify
  refine Steady.steady_bind (voidChallenge_steady S u _) (fun _ t2 => ?_)
  refine Steady.steady_bind (forfeitFrom_steady S u _) (fun _ t3 => ?_)
  refine Steady.steady_bind (forfeitTo_steady S u _) (fun _ t4 => ?_)
  dsimp only
  refine Steady.steady_chain (announceDisqualify_steady u reason t4) ?_
  split
  · exact onTournamentEnd_steady S _
  · exact Steady.steady_bind (update_steady S w _) (fun _ _ => Steady.steady_same _)

/-- What `disqualifyUser` does to the disqualified marks: either it only
replies, and the marks and `isEnded` are as before, or the player was not
marked and is marked now, nobody else's mark changing.  The warned flags are
untouched and the last-action times keep their keys. -/
theorem disqualifyUser_marks (S : Strategy G) (w : World) (p : User) (o : Output)
    (reason : Option Nat) (t : Tournament G) :
    (t.disqualifyUser S w p o reason).state.isAutoDisqualifyWarned
      = t.isAutoDisqualifyWarned ∧
    (∀ la, t.lastActionTimes = some la →
      ∃ la1, (t.disqualifyUser S w p o reason).state.lastActionTimes = some la1 ∧
        Extends la la1) ∧
    (((t.disqualifyUser S w p o reason).state.disqualifiedUsers = t.disqualifiedUsers ∧
        (t.disqualifyUser S w p o reason).state.isEnded = t.isEnded) ∨
      ∃ dq, t.disqualifiedUsers = some dq ∧ dq.get p ≠ some true ∧
        (t.disqualifyUser S w p o reason).state.disqualifiedUsers = some (dq.set p true)) := by
  unfold Tournament.disqualifyUser
  dsimp only
  split
  · rename_i e _
    have h := Steady.steady_after (Steady.steady_bind (k := fun _ t1 => Res.ok false t1)
      (sendReply_steady w o (.strategy e)
        { t with generator := (S.disqualifyUser t.generator p).1 })
      (fun _ t1 => Steady.steady_same t1)) (Steady.steady_of_fields (t := t) rfl rfl rfl)
    refine ⟨h.warned, h.times, Or.inl ⟨h.dq, ?_⟩⟩
    unfold sendReply
    repeat' split
    all_goals rfl
  · split
    · exact ⟨rfl, fun la h => ⟨la, h, Extends.keys_same la⟩, Or.inl ⟨rfl, rfl⟩⟩
    · rename_i dq hdq
      split
      · have h := Steady.steady_after (Steady.steady_bind (k := fun _ t1 => Res.ok false t1)
          (sendReply_steady w o .AlreadyDisqualified
            { t with generator := (S.disqualifyUser t.generator p).1 })
          (fun _ t1 => Steady.steady_same t1)) (Steady.steady_of_fields (t := t) rfl rfl rfl)
        refine ⟨h.warned, h.times, Or.inl ⟨h.dq, ?_⟩⟩
        unfold sendReply
        repeat' split
        all_goals rfl
      · rename_i hno
        have h := settleDisqualify_steady S w p reason
          (({ ({ t with generator := (S.disqualifyUser t.generator p).1 } : Tournament G) with
            disqualifiedUsers := some (dq.set p true) }).setBusy S p false)
        refine ⟨h.warned, h.times, Or.inr ⟨dq, hdq, hno, h.dq⟩⟩

/-- The visit of an entry whose player initiated a pending challenge changes
nothing at all. -/
theorem sweepVisit_initiator (S : Strategy G) (w : World) (o : Output) (u : User) (time : Int)
    (t : Tournament G) (av : JMap (List User)) (pc : JMap (Option Challenge)) (e : List User)
    (q : User) (tm : Nat) (hav : t.availableMatches = some av)
    (hpc : t.pendingChallenges = some pc) (he : av.get u = some e)
    (hq : pc.get u = some (some (.toUser q tm))) :
    t.sweepVisit S w o u time = .ok () t := by
  unfold Tournament.sweepVisit
  simp only [hav, hpc, he, hq]
  split
  · rfl
  · rfl

/-- What one visit of the sweep does: the last-action times keep their keys,
only the warned flag of the visited player can change, and either the marks
and `isEnded` are as before, or the player was due and is now marked. -/
theorem sweepVisit_marks (S : Strategy G) (w : World) (o : Output) (u : User) (time : Int)
    (t : Tournament G) :
    (∀ la, t.lastActionTimes = some la →
      ∃ la1, (t.sweepVisit S w o u time).state.lastActionTimes = some la1 ∧ Extends la la1) ∧
    (∀ x, x ≠ u →
      (t.sweepVisit S w o u time).state.isAutoDisqualifyWarned.map (fun m => m.get x)
        = t.isAutoDisqualifyWarned.map (fun m => m.get x)) ∧
    (((t.sweepVisit S w o u time).state.disqualifiedUsers = t.disqualifiedUsers ∧
        (t.sweepVisit S w o u time).state.isEnded = t.isEnded) ∨
      (SweepDue t w u time ∧ ∃ dq, t.disqualifiedUsers = some dq ∧ dq.get u ≠ some true ∧
        (t.sweepVisit S w o u time).state.disqualifiedUsers = some (dq.set u true))) := by
  have base : ∀ r : Res G Unit, r.state = t →
      (∀ la, t.lastActionTimes = some la →
        ∃ la1, r.state.lastActionTimes = some la1 ∧ Extends la la1) ∧
      (∀ x, x ≠ u →
        r.state.isAutoDisqualifyWarned.map (fun m => m.get x)
          = t.isAutoDisqualifyWarned.map (fun m => m.get x)) ∧
      ((r.state.disqualifiedUsers = t.disqualifiedUsers ∧ r.state.isEnded = t.isEnded) ∨
        (SweepDue t w u time ∧ ∃ dq, t.disqualifiedUsers = some dq ∧ dq.get u ≠ some true ∧
          r.state.disqualifiedUsers = some (dq.set u true))) := by
    intro r hr
    rw [hr]
    exact ⟨fun la h => ⟨la, h, Extends.keys_same la⟩, fun _ _ => rfl, Or.inl ⟨rfl, rfl⟩⟩
  generalize hr : t.sweepVisit S w o u time = r
  unfold Tournament.sweepVisit at hr
  split at hr
  · rename_i av pc hav hpc
    split at hr
    · subst hr
      exact base _ rfl
    · rename_i e he
      dsimp only at hr
      split at hr
      · subst hr
        exact base _ rfl
      · rename_i h1
        split at hr
        · subst hr
          exact base _ rfl
        · rename_i h2
          split at hr
          · subst hr
            exact base _ rfl
          · rename_i wd hw
            try dsimp only at hr
            split at hr
            · rename_i h3
              have hdue : SweepDue t w u time := by
                obtain ⟨lim, hT⟩ : ∃ lim, t.autoDisqualifyTimeout = lim := ⟨_, rfl⟩
                cases lim with
                | none =>
                  rw [hT] at h3
                  exact absurd h3.1 (by simp)
                | some limit =>
                  rw [hT] at h3
                  refine ⟨av, pc, wd, e, limit, hav, hpc, hw, he, hT, ?_, ?_, ?_⟩
                  · by_cases hne : e = []
                    · right
                      have hlen : e.length = 0 := by rw [hne]; rfl
                      obtain ⟨c, hp⟩ : ∃ c, pc.get u = c := ⟨_, rfl⟩
                      rw [hp] at h1 h2
                      cases c with
                      | none => exact absurd ⟨hlen, rfl⟩ h1
                      | some c =>
                        cases c with
                        | none => exact absurd ⟨hlen, rfl⟩ h1
                        | some c =>
                          cases c with
                          | toUser q tm => exact absurd rfl h2
                          | fromUser q tm => exact ⟨q, tm, hp⟩
                    · exact Or.inl hne
                  · have := of_decide_eq_true h3.1
                    omega
                  · exact of_decide_eq_true h3.2
              have hm := disqualifyUser_marks S w u o (some 1) t
              obtain ⟨d, hD⟩ : ∃ d, t.disqualifyUser S w u o (some 1) = d := ⟨_, rfl⟩
              rw [hD] at hm hr
              have hst : r.state.isAutoDisqualifyWarned = d.state.isAutoDisqualifyWarned ∧
                  r.state.lastActionTimes = d.state.lastActionTimes ∧
                  r.state.disqualifiedUsers = d.state.disqualifiedUsers ∧
                  r.state.isEnded = d.state.isEnded := by
                subst hr
                cases d <;> exact ⟨rfl, rfl, rfl, rfl⟩
              rw [← hst.1, ← hst.2.1, ← hst.2.2.1, ← hst.2.2.2] at hm
              refine ⟨hm.2.1, fun x _ => congrArg (Option.map fun m => m.get x) hm.1, ?_⟩
              rcases hm.2.2 with ⟨h4, h5⟩ | ⟨dq, h4, h5, h6⟩
              · exact Or.inl ⟨h4, h5⟩
              · exact Or.inr ⟨hdue, dq, h4, h5, h6⟩
            · split at hr
              · split at hr
                · split at hr
                  · subst hr
                    exact base _ rfl
                  · rename_i la hla
                    subst hr
                    refine ⟨fun la0 h => ?_, fun x hx => ?_, Or.inl ⟨rfl, rfl⟩⟩
                    · have e0 : la0 = la := Option.some.inj (h.symm.trans hla)
                      subst e0
                      exact ⟨_, rfl, Extends.set _ _ _⟩
                    · rw [hw]
                      show some ((wd.set u true).get x) = some (wd.get x)
                      rw [JMap.get_set_ne _ _ _ _ (Ne.symm hx)]
                · subst hr
                  refine ⟨fun la0 h => ⟨la0, h, Extends.keys_same la0⟩, fun x hx => ?_,
                    Or.inl ⟨rfl, rfl⟩⟩
                  rw [hw]
                  show some ((wd.set u true).get x) = some (wd.get x)
                  rw [JMap.get_set_ne _ _ _ _ (Ne.symm hx)]
              · subst hr
                refine ⟨fun la0 h => ⟨la0, h, Extends.keys_same la0⟩, fun x hx => ?_,
                  Or.inl ⟨rfl, rfl⟩⟩
                rw [hw]
                show some ((wd.set u false).get x) = some (wd.get x)
                rw [JMap.get_set_ne _ _ _ _ (Ne.symm hx)]
  · subst hr
    exact base _ rfl

theorem Extends.key_at {la la1 : JMap Int} (h : Extends la la1) (i : Nat) (u : User)
    (time : Int) (hi : la[i]? = some (u, time)) : (la1.map Prod.fst)[i]? = some u := by
  obtain ⟨extra, he⟩ := h.1
  have hlt : i < la.length := by
    by_contra hc
    rw [List.getElem?_eq_none (by omega)] at hi
    cases hi
  rw [he, List.getElem?_append_left (by simpa using hlt), List.getElem?_map, hi]
  rfl

theorem sweepLoop_marks (S : Strategy G) (w : World) (o : Output) (fuel : Nat) :
    ∀ (i : Nat) (t : Tournament G) (la : JMap Int) (x : User) (dq dq2 : JMap Bool),
    t.lastActionTimes = some la → (la.map Prod.fst).Nodup →
    t.disqualifiedUsers = some dq → dq.get x ≠ some true →
    (Tournament.sweepLoop S w o fuel i t).state.disqualifiedUsers = some dq2 →
    dq2.get x = some true →
    ∃ j t1 time la1, (j, t1, x, time) ∈ Tournament.sweepTrace S w o fuel i t ∧ i ≤ j ∧
      t1.lastActionTimes = some la1 ∧ la1[j]? = some (x, time) ∧ Extends la la1 ∧
      SweepDue t1 w x time ∧
      t1.isAutoDisqualifyWarned.map (fun m => m.get x)
        = t.isAutoDisqualifyWarned.map (fun m => m.get x) := by
  induction fuel with
  | zero =>
    intro i t la x dq dq2 hla hn hdq hx h5 hx2
    exfalso
    have e : dq2 = dq := Option.some.inj (h5.symm.trans hdq)
    rw [e] at hx2
    exact hx hx2
  | succ n ih =>
    intro i t la x dq dq2 hla hn hdq hx h5 hx2
    unfold Tournament.sweepLoop at h5
    unfold Tournament.sweepTrace
    simp only [hla] at h5 ⊢
    obtain ⟨p, hi⟩ : ∃ p, la[i]? = p := ⟨_, rfl⟩
    cases p with
    | none =>
      exfalso
      simp only [hi] at h5
      have e : dq2 = dq := Option.some.inj (h5.symm.trans hdq)
      rw [e] at hx2
      exact hx hx2
    | some p =>
      obtain ⟨u, time⟩ := p
      simp only [hi] at h5 ⊢
      have hm := sweepVisit_marks S w o u time t
      obtain ⟨v, hV⟩ : ∃ v, t.sweepVisit S w o u time = v := ⟨_, rfl⟩
      rw [hV] at hm h5
      rw [hV]
      have head : SweepDue t w u time → x = u →
          ∃ j t1 time1 la1, (j, t1, x, time1) ∈ (i, t, u, time) ::
              (match v with
              | .ok _ t1 => Tournament.sweepTrace S w o n (i + 1) t1
              | .threw _ => []) ∧ i ≤ j ∧
            t1.lastActionTimes = some la1 ∧ la1[j]? = some (x, time1) ∧ Extends la la1 ∧
            SweepDue t1 w x time1 ∧
            t1.isAutoDisqualifyWarned.map (fun m => m.get x)
              = t.isAutoDisqualifyWarned.map (fun m => m.get x) := by
        intro hdue hxu
        subst hxu
        exact ⟨i, t, time, la, List.mem_cons_self _ _, le_refl _, hla, hi, Extends.keys_same la,
          hdue, rfl⟩
      cases v with
      | threw t1 =>
        rcases hm.2.2 with ⟨h6, _⟩ | ⟨hdue, dq0, h6, _, h8⟩
        · exfalso
          have e : dq2 = dq := Option.some.inj (h5.symm.trans (h6.trans hdq))
          rw [e] at hx2
          exact hx hx2
        · have e0 : dq0 = dq := Option.some.inj (h6.symm.trans hdq)
          subst e0
          have e : dq2 = dq0.set u true := Option.some.inj (h5.symm.trans h8)
          rw [e] at hx2
          have hxu : x = u := by
            by_contra hne
            rw [JMap.get_set_ne _ _ _ _ (fun h => hne h.symm)] at hx2
            exact hx hx2
          exact head hdue hxu
      | ok a t1 =>
        obtain ⟨la1, hla1, hext⟩ := hm.1 la hla
        have hn1 : (la1.map Prod.fst).Nodup := hext.2 hn
        have tail : ∀ dq1, t1.disqualifiedUsers = some dq1 → dq1.get x ≠ some true →
            ∃ j t2 time1 la2, (j, t2, x, time1) ∈ (i, t, u, time) ::
                Tournament.sweepTrace S w o n (i + 1) t1 ∧ i ≤ j ∧
              t2.lastActionTimes = some la2 ∧ la2[j]? = some (x, time1) ∧ Extends la la2 ∧
              SweepDue t2 w x time1 ∧
              t2.isAutoDisqualifyWarned.map (fun m => m.get x)
                = t.isAutoDisqualifyWarned.map (fun m => m.get x) := by
          intro dq1 hdq1 hx1
          obtain ⟨j, t2, time1, la2, hmem, hij, hla2, hj, hext2, hdue, hwd⟩ :=
            ih (i + 1) t1 la1 x dq1 dq2 hla1 hn1 hdq1 hx1 h5 hx2
          have hxu : x ≠ u := by
            intro hxu
            subst hxu
            have hall := hext.keys_chain hext2
            have k1 := hall.key_at i x time hi
            have k2 : (la2.map Prod.fst)[j]? = some x := by
              rw [List.getElem?_map, hj]
              rfl
            have hjlt : j < (la2.map Prod.fst).length := by
              by_contra hc
              rw [List.getElem?_eq_none (by omega)] at k2
              cases k2
            exact (List.nodup_iff_getElem?_ne_getElem?.mp (hall.2 hn)) i j (by omega) hjlt
              (k1.trans k2.symm)
          exact ⟨j, t2, time1, la2, List.mem_cons_of_mem _ hmem, by omega, hla2, hj,
            hext.keys_chain hext2, hdue, hwd.trans (hm.2.1 x hxu)⟩
        rcases hm.2.2 with ⟨h6, _⟩ | ⟨hdue, dq0, h6, _, h8⟩
        · exact tail dq (h6.trans hdq) hx
        · have e0 : dq0 = dq := Option.some.inj (h6.symm.trans hdq)
          subst e0
          by_cases hxu : x = u
          · exact head hdue hxu
          · refine tail _ h8 ?_
            rw [JMap.get_set_ne _ _ _ _ (fun h => hxu h.symm)]
            exact hx

theorem runAutoDisqualify_dq (S : Strategy G) (w : World) (o : Output) (t : Tournament G) :
    (t.runAutoDisqualify S w o).state.disqualifiedUsers = t.disqualifiedUsers ∨
    (t.runAutoDisqualify S w o).state.disqualifiedUsers =
      (Tournament.sweepLoop S w o (t.clearIfSet t.autoDisqualifyTimer).sweepFuel 0
        (t.clearIfSet t.autoDisqualifyTimer)).state.disqualifiedUsers := by
  unfold Tournament.runAutoDisqualify
  split
  · left
    exact (Steady.steady_bind (k := fun _ t1 => Res.ok (some false) t1)
      (sendReply_steady w o .NotStarted t) (fun _ t1 => Steady.steady_same t1)).dq
  · right
    dsimp only
    cases Tournament.sweepLoop S w o (t.clearIfSet t.autoDisqualifyTimer).sweepFuel 0
        (t.clearIfSet t.autoDisqualifyTimer) with
    | threw t2 => rfl
    | ok a t2 =>
      simp only [Res.andThen]
      split
      · split <;> rfl
      · rfl

/-- The state in which a sweep visits an entry: the one in which the sweep
was called, less the cancelled timer. -/
theorem clearIfSet_sweep (t : Tournament G) (h : Option Nat) :
    (t.clearIfSet h).lastActionTimes = t.lastActionTimes ∧
    (t.clearIfSet h).disqualifiedUsers = t.disqualifiedUsers ∧
    (t.clearIfSet h).isAutoDisqualifyWarned = t.isAutoDisqualifyWarned := by
  cases h <;> exact ⟨rfl, rfl, rfl⟩

theorem Quiets.quiets_same (S : Strategy G) (t : Tournament G) : Quiets S t t :=
  ⟨fun _ h => h, fun ip _ h1 h2 => ⟨ip, h1, h2⟩, List.prefix_refl _⟩

theorem Quiets.quiets_chain {S : Strategy G} {t t1 t2 : Tournament G} (h1 : Quiets S t t1)
    (h2 : Quiets S t1 t2) : Quiets S t t2 := by
  refine ⟨fun x h => h2.busy x (h1.busy x h), fun ip x e1 e2 => ?_, h1.log.trans h2.log⟩
  obtain ⟨ip1, e3, e4⟩ := h1.mat ip x e1 e2
  exact h2.mat ip1 x e3 e4

theorem Quiets.quiets_after {S : Strategy G} {t t1 t2 : Tournament G} (h2 : Quiets S t1 t2)
    (h1 : Quiets S t t1) : Quiets S t t2 :=
  h1.quiets_chain h2

theorem Quiets.quiets_bind {S : Strategy G} {α β : Type} {t : Tournament G} {r : Res G α}
    {k : α → Tournament G → Res G β} (h1 : Quiets S t r.state)
    (h2 : ∀ a t1, Quiets S t1 (k a t1).state) : Quiets S t (r.andThen k).state := by
  cases r with
  | ok a t1 => exact h1.quiets_chain (h2 a t1)
  | threw t1 => exact h1

theorem Quiets.of_busy {S : Strategy G} {t t1 : Tournament G}
    (hb : ∀ x, t1.busy S x = t.busy S x)
    (hip : t1.inProgressMatches = t.inProgressMatches) (hl : t.log <+: t1.log) :
    Quiets S t t1 :=
  ⟨fun x h => (hb x).trans h, fun ip _ h1 h2 => ⟨ip, hip.trans h1, h2⟩, hl⟩

theorem Quiets.quiets_of_fields {S : Strategy G} {t t1 : Tournament G}
    (hg : t1.generator = t.generator)
    (hip : t1.inProgressMatches = t.inProgressMatches) (hl : t.log <+: t1.log) :
    Quiets S t t1 :=
  Quiets.of_busy (fun x => by unfold Tournament.busy; rw [hg]) hip hl

theorem Quiets.of_freed {S : Strategy G} (hS : LawfulBusy S) {t t1 : Tournament G} (u : User)
    (hg : t1.generator = S.setUserBusy t.generator u false)
    (hip : t1.inProgressMatches = t.inProgressMatches) (hl : t.log <+: t1.log) :
    Quiets S t t1 := by
  refine ⟨fun x h => ?_, fun ip _ h1 h2 => ⟨ip, hip.trans h1, h2⟩, hl⟩
  unfold Tournament.busy at h ⊢
  rw [hg, hS]
  split
  · rfl
  · exact h

theorem Quiets.of_dropped {S : Strategy G} (hS : LawfulBusy S) {t t1 : Tournament G}
    (u k : User) (ip : JMap (Option Match))
    (hg : t1.generator = S.setUserBusy t.generator u false)
    (h0 : t.inProgressMatches = some ip)
    (hip : t1.inProgressMatches = some (ip.set k none)) (hl : t.log <+: t1.log) :
    Quiets S t t1 := by
  refine ⟨fun x h => ?_, fun ip0 x h1 h2 => ⟨_, hip, ?_⟩, hl⟩
  · unfold Tournament.busy at h ⊢
    rw [hg, hS]
    split
    · rfl
    · exact h
  · have e : ip0 = ip := Option.some.inj (h1.symm.trans h0)
    subst e
    rw [JMap.get_set]
    split
    · rfl
    · exact h2

theorem log_say (t : Tournament G) (e : Event) : t.log <+: (t.say e).log :=
  List.prefix_append _ _

theorem log_say2 (t : Tournament G) (e1 e2 : Event) : t.log <+: ((t.say e1).say e2).log :=
  (List.prefix_append _ _).trans (List.prefix_append _ _)

theorem log_say3 (t : Tournament G) (e1 e2 e3 : Event) :
    t.log <+: (((t.say e1).say e2).say e3).log :=
  (log_say2 t e1 e2).trans (List.prefix_append _ _)

theorem clearIfSet_quiets (S : Strategy G) (t : Tournament G) (h : Option Nat) :
    Quiets S t (t.clearIfSet h) := by
  cases h <;> exact Quiets.quiets_of_fields rfl rfl (List.prefix_refl _)

theorem sendReply_quiets (S : Strategy G) (w : World) (o : Output) (e : TourError)
    (t : Tournament G) : Quiets S t (sendReply w o e t).state := by
  unfold sendReply
  repeat' split
  all_goals first
    | exact Quiets.quiets_of_fields rfl rfl (List.prefix_refl _)
    | exact Quiets.quiets_of_fields rfl rfl (log_say _ _)

theorem getAvailableMatches_log (S : Strategy G) (w : World) (t : Tournament G) :
    t.log <+: (t.getAvailableMatches S w).state.log := by
  unfold Tournament.getAvailableMatches
  dsimp only
  repeat' split
  all_goals first
    | exact List.prefix_refl _
    | exact log_say _ _

theorem updateBracket_log (S : Strategy G) (w : World) (t : Tournament G) :
    t.log <+: (t.updateBracket S w).log := by
  unfold Tournament.updateBracket
  dsimp only
  split
  · split
    · cases h : t.bracketUpdateTimer <;> exact List.prefix_refl _
    · exact log_say _ _
  · exact List.prefix_refl _

theorem update_log (S : Strategy G) (w : World) (t : Tournament G) :
    t.log <+: (t.update S w).state.log := by
  unfold Tournament.update
  split
  · exact List.prefix_refl _
  · dsimp only
    refine (updateBracket_log S w t).trans ?_
    split
    · have h := getAvailableMatches_log S w (t.updateBracket S w)
      cases hr : (t.updateBracket S w).getAvailableMatches S w with
      | threw t2 =>
        rw [hr] at h
        exact h
      | ok c t2 =>
        rw [hr] at h
        cases c with
        | none => exact h
        | some c => exact h.trans (List.prefix_append _ _)
    · exact log_say _ _

theorem update_quiets (S : Strategy G) (w : World) (t : Tournament G) :
    Quiets S t (t.update S w).state :=
  Quiets.quiets_of_fields (congrArg Core.generator (update_core S w t))
    (congrArg Core.inProgressMatches (update_core S w t)) (update_log S w t)

theorem onTournamentEnd_quiets (S : Strategy G) (t : Tournament G) :
    Quiets S t (t.onTournamentEnd S) := by
  unfold Tournament.onTournamentEnd
  dsimp only
  cases h : (t.say (.tournamentEnd (S.getResults t.generator)
    (t.getBracketData S))).autoDisqualifyTimer <;>
    exact Quiets.quiets_of_fields rfl rfl (log_say _ _)

theorem voidChallenge_quiets (S : Strategy G) (hS : LawfulBusy S) (u : User)
    (t : Tournament G) : Quiets S t (t.voidChallenge S u).state := by
  unfold Tournament.voidChallenge
  repeat' split
  all_goals first
    | exact Quiets.quiets_same S t
    | exact Quiets.of_freed hS _ rfl rfl (log_say _ _)

theorem forfeitFrom_quiets (S : Strategy G) (hS : LawfulBusy S) (u : User)
    (t : Tournament G) : Quiets S t (t.forfeitFrom S u).state := by
  unfold Tournament.forfeitFrom
  split
  · exact Quiets.quiets_same S t
  · rename_i ip hip
    split
    · exact Quiets.of_dropped hS _ _ ip rfl hip rfl (log_say _ _)
    · exact Quiets.quiets_same S t

theorem forfeitTo_quiets (S : Strategy G) (hS : LawfulBusy S) (u : User)
    (t : Tournament G) : Quiets S t (t.forfeitTo S u).state := by
  unfold Tournament.forfeitTo
  split
  · exact Quiets.quiets_same S t
  · rename_i ip hip
    split
    · exact Quiets.quiets_same S t
    · dsimp only
      split
      · exact Quiets.of_dropped hS _ _ ip rfl hip rfl (log_say _ _)
      · exact Quiets.of_freed hS _ rfl rfl (List.prefix_refl _)

theorem announceDisqualify_quiets (S : Strategy G) (u : User) (reason : Option Nat)
    (t : Tournament G) : Quiets S t (t.announceDisqualify u reason) := by
  unfold Tournament.announceDisqualify
  cases reason
  · exact Quiets.quiets_of_fields rfl rfl (log_say2 _ _ _)
  · exact Quiets.quiets_of_fields rfl rfl (log_say3 _ _ _ _)

theorem settleDisqualify_quiets (S : Strategy G) (hS : LawfulBusy S) (w : World) (u : User)
    (reason : Option Nat) (t : Tournament G) :
    Quiets S t (t.settleDisqualify S w u reason).state := by
  unfold Tournament.settleDisqualify
  refine Quiets.quiets_bind (voidChallenge_quiets S hS u _) (fun _ t2 => ?_)
  refine Quiets.quiets_bind (forfeitFrom_quiets S hS u _) (fun _ t3 => ?_)
  refine Quiets.quiets_bind (forfeitTo_quiets S hS u _) (fun _ t4 => ?_)
  dsimp only
  refine Quiets.quiets_chain (announceDisqualify_quiets S u reason t4) ?_
  split
  · exact onTournamentEnd_quiets S _
  · exact Quiets.quiets_bind (update_quiets S w _) (fun _ _ => Quiets.quiets_same S _)

theorem disqualifyUser_quiets (S : Strategy G) (hS : BusyContract S) (w : World) (u : User)
    (o : Output) (reason : Option Nat) (t : Tournament G) :
    Quiets S t (t.disqualifyUser S w u o reason).state := by
  have h0 : Quiets S t { t with generator := (S.disqualifyUser t.generator u).1 } :=
    Quiets.of_busy (fun x => by
      show S.getUserBusy (S.disqualifyUser t.generator u).1 x = S.getUserBusy t.generator x
      rw [hS.disqualify]) rfl (List.prefix_refl _)
  unfold Tournament.disqualifyUser
  dsimp only
  split
  · exact h0.quiets_chain (Quiets.quiets_bind (sendReply_quiets S _ _ _ _) (fun _ _ => Quiets.quiets_same S _))
  · split
    · exact h0
    · split
      · exact h0.quiets_chain (Quiets.quiets_bind (sendReply_quiets S _ _ _ _) (fun _ _ => Quiets.quiets_same S _))
      · refine h0.quiets_chain (Quiets.quiets_after (settleDisqualify_quiets S hS.lawful w u reason _) ?_)
        exact Quiets.of_freed hS.lawful u rfl rfl (List.prefix_refl _)

theorem sweepVisit_quiets (S : Strategy G) (hS : BusyContract S) (w : World) (o : Output)
    (u : User) (time : Int) (t : Tournament G) :
    Quiets S t (t.sweepVisit S w o u time).state := by
  unfold Tournament.sweepVisit
  dsimp only
  repeat' split
  all_goals first
    | exact Quiets.quiets_of_fields rfl rfl (List.prefix_refl _)
    | exact Quiets.quiets_of_fields rfl rfl (log_say _ _)
    | exact Quiets.quiets_bind (disqualifyUser_quiets S hS w u o _ t)
        (fun _ _ => Quiets.quiets_of_fields rfl rfl (log_say _ _))

theorem sweepLoop_quiets (S : Strategy G) (hS : BusyContract S) (w : World) (o : Output)
    (fuel i : Nat) (t : Tournament G) :
    Quiets S t (Tournament.sweepLoop S w o fuel i t).state := by
  induction fuel generalizing i t with
  | zero => exact Quiets.quiets_same S t
  | succ n ih =>
    unfold Tournament.sweepLoop
    split
    · exact Quiets.quiets_same S t
    · split
      · exact Quiets.quiets_same S t
      · exact Quiets.quiets_bind (sweepVisit_quiets S hS w o _ _ t) (fun _ t1 => ih _ t1)

theorem runAutoDisqualify_quiets (S : Strategy G) (hS : BusyContract S) (w : World)
    (o : Output) (t : Tournament G) : Quiets S t (t.runAutoDisqualify S w o).state := by
  unfold Tournament.runAutoDisqualify
  split
  · exact Quiets.quiets_bind (sendReply_quiets S _ _ _ _) (fun _ _ => Quiets.quiets_same S _)
  · dsimp only
    refine Quiets.quiets_chain (clearIfSet_quiets S t _)
      (Quiets.quiets_bind (sweepLoop_quiets S hS w o _ _ _) (fun _ t2 => ?_))
    split
    · split
      · exact Quiets.quiets_same S _
      · exact Quiets.quiets_of_fields rfl rfl (List.prefix_refl _)
    · exact Quiets.quiets_same S _

theorem Outs.outs_of_fields {t t1 : Tournament G} (hdq : t1.disqualifiedUsers = t.disqualifiedUsers)
    (he : t1.isEnded = t.isEnded) : Outs t t1 :=
  ⟨fun dq _ h1 h2 => ⟨dq, hdq.trans h1, h2⟩, fun dq1 h => ⟨dq1, hdq.symm.trans h⟩, Or.inl he⟩

theorem Outs.outs_same (t : Tournament G) : Outs t t :=
  Outs.outs_of_fields rfl rfl

theorem Outs.of_marked {t t1 : Tournament G} (dq : JMap Bool) (p : User)
    (h0 : t.disqualifiedUsers = some dq) (hp : dq.get p ≠ some true)
    (h1 : t1.disqualifiedUsers = some (dq.set p true)) : Outs t t1 := by
  refine ⟨fun dq0 x e1 e2 => ⟨_, h1, ?_⟩, fun _ _ => ⟨dq, h0⟩,
    Or.inr ⟨p, dq, _, h0, h1, hp, JMap.get_set_self _ _ _⟩⟩
  have e : dq0 = dq := Option.some.inj (e1.symm.trans h0)
  subst e
  rw [JMap.get_set]
  split
  · rfl
  · exact e2

theorem Outs.outs_chain {t t1 t2 : Tournament G} (h1 : Outs t t1) (h2 : Outs t1 t2) :
    Outs t t2 := by
  refine ⟨fun dq x e1 e2 => ?_, fun dq2 e => ?_, ?_⟩
  · obtain ⟨dq1, e3, e4⟩ := h1.keeps dq x e1 e2
    exact h2.keeps dq1 x e3 e4
  · obtain ⟨dq1, e1⟩ := h2.born dq2 e
    exact h1.born dq1 e1
  · rcases h1.ends with a | ⟨x, dq, dq1, a1, a2, a3, a4⟩
    · rcases h2.ends with b | ⟨x, dq1, dq2, b1, b2, b3, b4⟩
      · exact Or.inl (b.trans a)
      · obtain ⟨dq, e⟩ := h1.born dq1 b1
        refine Or.inr ⟨x, dq, dq2, e, b2, fun hc => ?_, b4⟩
        obtain ⟨dq1b, e3, e4⟩ := h1.keeps dq x e hc
        have e5 : dq1b = dq1 := Option.some.inj (e3.symm.trans b1)
        rw [e5] at e4
        exact b3 e4
    · obtain ⟨dq2, e3, e4⟩ := h2.keeps dq1 x a2 a4
      exact Or.inr ⟨x, dq, dq2, a1, e3, a3, e4⟩

theorem Outs.outs_after {t t1 t2 : Tournament G} (h2 : Outs t1 t2) (h1 : Outs t t1) :
    Outs t t2 :=
  h1.outs_chain h2

theorem Outs.outs_bind {α β : Type} {t : Tournament G} {r : Res G α}
    {k : α → Tournament G → Res G β} (h1 : Outs t r.state)
    (h2 : ∀ a t1, Outs t1 (k a t1).state) : Outs t (r.andThen k).state := by
  cases r with
  | ok a t1 => exact h1.outs_chain (h2 a t1)
  | threw t1 => exact h1

theorem sendReply_outs (w : World) (o : Output) (e : TourError) (t : Tournament G) :
    Outs t (sendReply w o e t).state := by
  unfold sendReply
  repeat' split
  all_goals exact Outs.outs_of_fields rfl rfl

theorem update_outs (S : Strategy G) (w : World) (t : Tournament G) :
    Outs t (t.update S w).state :=
  Outs.outs_of_fields (congrArg Core.disqualifiedUsers (update_core S w t))
    (congrArg Core.isEnded (update_core S w t))

theorem clearIfSet_outs (t : Tournament G) (h : Option Nat) : Outs t (t.clearIfSet h) := by
  cases h <;> exact Outs.outs_of_fields rfl rfl

theorem disqualifyUser_outs (S : Strategy G) (w : World) (p : User) (o : Output)
    (reason : Option Nat) (t : Tournament G) :
    Outs t (t.disqualifyUser S w p o reason).state := by
  rcases (disqualifyUser_marks S w p o reason t).2.2 with ⟨h1, h2⟩ | ⟨dq, h1, h2, h3⟩
  · exact Outs.outs_of_fields h1 h2
  · exact Outs.of_marked dq p h1 h2 h3

theorem sweepVisit_outs (S : Strategy G) (w : World) (o : Output) (u : User) (time : Int)
    (t : Tournament G) : Outs t (t.sweepVisit S w o u time).state := by
  rcases (sweepVisit_marks S w o u time t).2.2 with ⟨h1, h2⟩ | ⟨_, dq, h1, h2, h3⟩
  · exact Outs.outs_of_fields h1 h2
  · exact Outs.of_marked dq u h1 h2 h3

theorem sweepLoop_outs (S : Strategy G) (w : World) (o : Output) (fuel i : Nat)
    (t : Tournament G) : Outs t (Tournament.sweepLoop S w o fuel i t).state := by
  induction fuel generalizing i t with
  | zero => exact Outs.outs_same t
  | succ n ih =>
    unfold Tournament.sweepLoop
    split
    · exact Outs.outs_same t
    · split
      · exact Outs.outs_same t
      · exact Outs.outs_bind (sweepVisit_outs S w o _ _ t) (fun _ t1 => ih _ t1)

theorem runAutoDisqualify_outs (S : Strategy G) (w : World) (o : Output) (t : Tournament G) :
    Outs t (t.runAutoDisqualify S w o).state := by
  unfold Tournament.runAutoDisqualify
  split
  · exact Outs.outs_bind (sendReply_outs _ _ _ _) (fun _ _ => Outs.outs_same _)
  · dsimp only
    refine Outs.outs_chain (clearIfSet_outs t _)
      (Outs.outs_bind (sweepLoop_outs S w o _ _ _) (fun _ t2 => ?_))
    split
    · split
      · exact Outs.outs_same _
      · exact Outs.outs_of_fields rfl rfl
    · exact Outs.outs_same _

theorem removeUser_outs (S : Strategy G) (w : World) (u : User) (o : Output)
    (t : Tournament G) : Outs t (t.removeUser S w u o).state := by
  unfold Tournament.removeUser
  dsimp only
  split
  · exact Outs.outs_after (sendReply_outs _ _ _ _) (Outs.outs_of_fields rfl rfl)
  · exact Outs.outs_after (update_outs S w _) (Outs.outs_of_fields rfl rfl)

theorem purgeLoop_outs (S : Strategy G) (w : World) (users : List User) (t : Tournament G) :
    Outs t (Tournament.purgeLoop S w users t).state := by
  induction users generalizing t with
  | nil => exact Outs.outs_same t
  | cons u rest ih =>
    unfold Tournament.purgeLoop
    split
    · exact ih t
    · dsimp only
      refine Outs.outs_bind ?_ (fun _ t1 => Outs.outs_after (ih _) (Outs.outs_of_fields rfl rfl))
      split
      · split
        · exact Outs.outs_same t
        · split
          · exact Outs.outs_same t
          · exact Outs.outs_bind (disqualifyUser_outs S w u _ _ t) (fun _ _ => Outs.outs_same _)
      · exact removeUser_outs S w u _ t

theorem challenge_outs (S : Strategy G) (w : World) (a b : User) (o : Output)
    (t : Tournament G) : Outs t (t.challenge S w a b o).state := by
  unfold Tournament.challenge
  split
  · exact sendReply_outs _ _ _ _
  · split
    · exact Outs.outs_same t
    · dsimp only
      split
      · exact sendReply_outs _ _ _ _
      · split
        · exact Outs.outs_of_fields rfl rfl
        · refine Outs.outs_after (Outs.outs_bind (purgeLoop_outs S w _ _)
            (fun _ t3 => Outs.outs_bind (update_outs S w _) (fun _ _ => Outs.outs_of_fields rfl rfl)))
            (Outs.outs_of_fields rfl rfl)

theorem beginMatch_outs (S : Strategy G) (w : World) (u source : User) (room : Nat)
    (pc : JMap (Option Challenge)) (t : Tournament G) :
    Outs t (t.beginMatch S w u source room pc).state := by
  unfold Tournament.beginMatch
  dsimp only
  split
  · exact Outs.outs_of_fields rfl rfl
  · exact Outs.outs_after (Outs.outs_bind (runAutoDisqualify_outs S w _ _)
      (fun _ t5 => update_outs S w t5)) (Outs.outs_of_fields rfl rfl)

theorem finishAcceptChallenge_outs (S : Strategy G) (w : World) (u : User) (c : Challenge)
    (result : Bool) (t : Tournament G) :
    Outs t (t.finishAcceptChallenge S w u c result).state := by
  unfold Tournament.finishAcceptChallenge
  repeat' split
  all_goals first
    | exact Outs.outs_same t
    | exact beginMatch_outs S w _ _ _ _ t

theorem freeMatch_outs (S : Strategy G) (a b : User) (t : Tournament G) :
    Outs t (t.freeMatch S a b).state := by
  unfold Tournament.freeMatch
  dsimp only
  split <;> exact Outs.outs_of_fields rfl rfl

theorem finishChallenge_isEnded (S : Strategy G) (w : World) (a b : User) (result : Bool)
    (t : Tournament G) : (t.finishChallenge S w a b result).state.isEnded = t.isEnded := by
  unfold Tournament.finishChallenge
  split
  · exact congrArg Core.isEnded (update_core S w _)
  · split
    · rfl
    · dsimp only
      split
      · rfl
      · exact congrArg Core.isEnded (update_core S w _)

theorem cancelChallenge_isEnded (S : Strategy G) (w : World) (u : User) (o : Output)
    (t : Tournament G) : (t.cancelChallenge S w u o).state.isEnded = t.isEnded := by
  unfold Tournament.cancelChallenge
  split
  · unfold sendReply
    repeat' split
    all_goals rfl
  · repeat' split
    all_goals first
      | rfl
      | exact congrArg Core.isEnded (update_core S w _)

theorem acceptChallenge_isEnded (w : World) (u : User) (o : Output)
    (t : Tournament G) : (t.acceptChallenge w u o).state.isEnded = t.isEnded := by
  unfold Tournament.acceptChallenge
  split
  · unfold sendReply
    repeat' split
    all_goals rfl
  · repeat' split
    all_goals rfl

theorem voidChallenge_isEnded (S : Strategy G) (u : User) (t : Tournament G) :
    (t.voidChallenge S u).state.isEnded = t.isEnded := by
  unfold Tournament.voidChallenge
  repeat' split
  all_goals rfl

theorem forfeitFrom_isEnded (S : Strategy G) (u : User) (t : Tournament G) :
    (t.forfeitFrom S u).state.isEnded = t.isEnded := by
  unfold Tournament.forfeitFrom
  repeat' split
  all_goals rfl

theorem forfeitTo_isEnded (S : Strategy G) (u : User) (t : Tournament G) :
    (t.forfeitTo S u).state.isEnded = t.isEnded := by
  unfold Tournament.forfeitTo
  repeat' split
  all_goals rfl

theorem announceDisqualify_isEnded (u : User) (reason : Option Nat) (t : Tournament G) :
    (t.announceDisqualify u reason).isEnded = t.isEnded ∧
    (t.announceDisqualify u reason).generator = t.generator := by
  unfold Tournament.announceDisqualify
  cases reason <;> exact ⟨rfl, rfl⟩

theorem onTournamentEnd_ended (S : Strategy G) (t : Tournament G) :
    (t.onTournamentEnd S).isEnded = true ∧ (t.onTournamentEnd S).generator = t.generator := by
  unfold Tournament.onTournamentEnd
  dsimp only
  cases h : (t.say (.tournamentEnd (S.getResults t.generator)
    (t.getBracketData S))).autoDisqualifyTimer <;> exact ⟨rfl, rfl⟩

theorem Res.state_of_ok {α : Type} {r : Res G α} {a : α} {t1 : Tournament G}
    (h : r = .ok a t1) : r.state.isEnded = t1.isEnded := by
  rw [h]
  rfl

/-- After a successful `disqualifyUser` on a tournament that had not ended,
`isEnded` is what the strategy reports. -/
theorem disqualifyUser_ends (S : Strategy G) (w : World) (p : User) (o : Output)
    (reason : Option Nat) (t t1 : Tournament G) (he : t.isEnded = false)
    (hr : t.disqualifyUser S w p o reason = .ok true t1) :
    t1.isEnded = S.isTournamentEnded t1.generator := by
  unfold Tournament.disqualifyUser at hr
  dsimp only at hr
  split at hr
  · obtain ⟨_, t2, _, hr⟩ := Res.andThen_eq_ok hr
    injection hr with hr _
    cases hr
  · split at hr
    · cases hr
    · split at hr
      · obtain ⟨_, t2, _, hr⟩ := Res.andThen_eq_ok hr
        injection hr with hr _
        cases hr
      · unfold Tournament.settleDisqualify at hr
        obtain ⟨_, t2, h2, hr⟩ := Res.andThen_eq_ok hr
        obtain ⟨_, t3, h3, hr⟩ := Res.andThen_eq_ok hr
        obtain ⟨_, t4, h4, hr⟩ := Res.andThen_eq_ok hr
        have e2 : t2.isEnded = t.isEnded :=
          (Res.state_of_ok h2).symm.trans (voidChallenge_isEnded S p _)
        have e3 := forfeitFrom_isEnded S p t2
        rw [h3] at e3
        have e4 := forfeitTo_isEnded S p t3
        rw [h4] at e4
        have e5 := announceDisqualify_isEnded p reason t4
        have e6 : (t4.announceDisqualify p reason).isEnded = false := by
          rw [e5.1]
          exact e4.trans (e3.trans (e2.trans he))
        dsimp only at hr
        split at hr
        · rename_i hend
          injection hr with _ hr
          subst hr
          have e7 := onTournamentEnd_ended S (t4.announceDisqualify p reason)
          rw [e7.1, e7.2, hend]
        · rename_i hend
          obtain ⟨_, t6, h6, hr⟩ := Res.andThen_eq_ok hr
          injection hr with _ hr
          subst hr
          have hc := update_core S w (t4.announceDisqualify p reason)
          rw [h6] at hc
          have e8 : t6.isEnded = (t4.announceDisqualify p reason).isEnded :=
            congrArg Core.isEnded hc
          have e9 : t6.generator = (t4.announceDisqualify p reason).generator :=
            congrArg Core.generator hc
          rw [e8, e9, e6]
          cases hb : S.isTournamentEnded (t4.announceDisqualify p reason).generator
          · rfl
          · exact absurd hb hend

theorem update_withResult (S : Strategy G)
    (f : G → User × User → Outcome → Nat × Nat → G × Option Nat) (w : World)
    (t : Tournament G) : Tournament.update (S.withResult f) w t = Tournament.update S w t :=
  rfl

theorem sweepVisit_withResult (S : Strategy G)
    (f : G → User × User → Outcome → Nat × Nat → G × Option Nat) (w : World) (o : Output)
    (u : User) (time : Int) (t : Tournament G) :
    Tournament.sweepVisit (S.withResult f) w o u time t = Tournament.sweepVisit S w o u time t :=
  rfl

theorem sweepLoop_withResult (S : Strategy G)
    (f : G → User × User → Outcome → Nat × Nat → G × Option Nat) (w : World) (o : Output)
    (fuel i : Nat) (t : Tournament G) :
    Tournament.sweepLoop (S.withResult f) w o fuel i t = Tournament.sweepLoop S w o fuel i t := by
  induction fuel generalizing i t with
  | zero => rfl
  | succ n ih =>
    unfold Tournament.sweepLoop
    simp only [sweepVisit_withResult, ih]

theorem runAutoDisqualify_withResult (S : Strategy G)
    (f : G → User × User → Outcome → Nat × Nat → G × Option Nat) (w : World) (o : Output)
    (t : Tournament G) :
    Tournament.runAutoDisqualify (S.withResult f) w o t = Tournament.runAutoDisqualify S w o t := by
  unfold Tournament.runAutoDisqualify
  simp only [sweepLoop_withResult]

theorem freeMatch_frees (S : Strategy G) (hS : LawfulBusy S) (a b : User)
    (t : Tournament G) (ip : JMap (Option Match)) (hip : t.inProgressMatches = some ip) :
    ∃ tf, t.freeMatch S a b = .ok () tf ∧ tf.busy S a = false ∧ tf.busy S b = false ∧
      tf.inProgressMatches = some (ip.set a none) ∧ tf.log = t.log ∧
      tf.generator = S.setUserBusy (S.setUserBusy t.generator a false) b false ∧
      tf.isEnded = t.isEnded ∧ tf.disqualifiedUsers = t.disqualifiedUsers := by
  refine ⟨{ (t.setBusy S a false).setBusy S b false with
      inProgressMatches := some (ip.set a none), isBracketInvalidated := true,
      isAvailableMatchesInvalidated := true }, ?_, ?_, ?_, rfl, rfl, rfl, rfl, rfl⟩
  · unfold Tournament.freeMatch
    have h1 : ((t.setBusy S a false).setBusy S b false).inProgressMatches = some ip := hip
    simp only [h1]
  · show S.getUserBusy (S.setUserBusy (S.setUserBusy t.generator a false) b false) a = false
    rw [hS, hS]
    simp
  · show S.getUserBusy (S.setUserBusy (S.setUserBusy t.generator a false) b false) b = false
    rw [hS]
    simp

theorem outcomeOf_cases :
    (∀ a b : User, outcomeOf a b (some a) = .win) ∧
    (∀ a b : User, a ≠ b → outcomeOf a b (some b) = .loss) ∧
    (∀ (a b : User) (winner : Option User), winner ≠ some a → winner ≠ some b →
      outcomeOf a b winner = .draw) := by
  refine ⟨fun a b => ?_, fun a b h => ?_, fun a b winner h1 h2 => ?_⟩
  · unfold outcomeOf
    rw [if_pos rfl]
  · unfold outcomeOf
    rw [if_neg (fun e => h (Option.some.inj e)), if_pos rfl]
  · unfold outcomeOf
    rw [if_neg (fun e => h1 e.symm), if_neg (fun e => h2 e.symm)]

/-- The tail of `onBattleWin` after the players were freed: the sweep, then
`update()`, then the room update. -/
theorem afterFree_quiets (S : Strategy G) (hS : BusyContract S) (w : World)
    (tf : Tournament G) :
    Quiets S tf ((tf.runAutoDisqualify S w .absent).andThen fun _ t2 =>
      (t2.update S w).andThen fun _ t3 => Res.ok () (t3.say .roomUpdate)).state :=
  Quiets.quiets_bind (runAutoDisqualify_quiets S hS w _ tf) (fun _ t2 =>
    Quiets.quiets_bind (update_quiets S w t2) (fun _ t3 =>
      Quiets.quiets_of_fields rfl rfl (log_say t3 _)))

theorem afterFree_outs (S : Strategy G) (w : World) (tf : Tournament G) :
    Outs tf ((tf.runAutoDisqualify S w .absent).andThen fun _ t2 =>
      (t2.update S w).andThen fun _ t3 => Res.ok () (t3.say .roomUpdate)).state :=
  Outs.outs_bind (runAutoDisqualify_outs S w _ tf) (fun _ t2 =>
    Outs.outs_bind (update_outs S w t2) (fun _ _ => Outs.outs_of_fields rfl rfl))

theorem Outs.of_start {t tf t1 : Tournament G} (h : Outs tf t1)
    (hd : tf.disqualifiedUsers = t.disqualifiedUsers) (he : tf.isEnded = t.isEnded) :
    Outs t t1 :=
  (Outs.outs_of_fields hd he).outs_chain h

theorem onBattleWin_draw (S : Strategy G) (w : World) (room : BattleRoom)
    (winner : Option User) (score : Nat × Nat) (t : Tournament G)
    (hd : outcomeOf room.p1 room.p2 winner = .draw ∧ S.isDrawingSupported t.generator = false) :
    t.onBattleWin S w room winner score =
      ((t.say (.battleend room.p1 room.p2 (outcomeOf room.p1 room.p2 winner) true)).freeMatch S
        room.p1 room.p2).andThen fun _ t1 =>
      (t1.runAutoDisqualify S w .absent).andThen fun _ t2 =>
      (t2.update S w).andThen fun _ t3 => .ok () (t3.say .roomUpdate) := by
  unfold Tournament.onBattleWin
  dsimp only
  rw [if_pos hd]

theorem onBattleWin_rejected (S : Strategy G) (w : World) (room : BattleRoom)
    (winner : Option User) (score : Nat × Nat) (t : Tournament G) (e : Nat)
    (hd : ¬ (outcomeOf room.p1 room.p2 winner = .draw ∧
      S.isDrawingSupported t.generator = false))
    (he : (S.setMatchResult t.generator (room.p1, room.p2)
      (outcomeOf room.p1 room.p2 winner) score).2 = some e) :
    t.onBattleWin S w room winner score =
      match winner with
      | none => .threw { t with generator := (S.setMatchResult t.generator (room.p1, room.p2)
          (outcomeOf room.p1 room.p2 winner) score).1 }
      | some _ => .ok () ((({ t with generator := (S.setMatchResult t.generator
          (room.p1, room.p2) (outcomeOf room.p1 room.p2 winner) score).1 } :
            Tournament G).say (.setMatchResultError e)).say .roomUpdate) := by
  unfold Tournament.onBattleWin
  dsimp only
  rw [if_neg hd]
  simp only [he]
  cases winner <;> rfl

theorem onBattleWin_accepted (S : Strategy G) (w : World) (room : BattleRoom)
    (winner : Option User) (score : Nat × Nat) (t : Tournament G)
    (hd : ¬ (outcomeOf room.p1 room.p2 winner = .draw ∧
      S.isDrawingSupported t.generator = false))
    (he : (S.setMatchResult t.generator (room.p1, room.p2)
      (outcomeOf room.p1 room.p2 winner) score).2 = none) :
    t.onBattleWin S w room winner score =
      ((({ t with generator := (S.setMatchResult t.generator (room.p1, room.p2)
          (outcomeOf room.p1 room.p2 winner) score).1 } : Tournament G).say
        (.battleend room.p1 room.p2 (outcomeOf room.p1 room.p2 winner) false)).freeMatch S
        room.p1 room.p2).andThen fun _ t1 =>
      if S.isTournamentEnded t1.generator then
        .ok () ((t1.onTournamentEnd S).say .roomUpdate)
      else
        (t1.runAutoDisqualify S w .absent).andThen fun _ t2 =>
        (t2.update S w).andThen fun _ t3 => .ok () (t3.say .roomUpdate) := by
  unfold Tournament.onBattleWin
  dsimp only
  rw [if_neg hd]
  simp only [he]

theorem drawless_contract : BusyContract drawless :=
  ⟨roundRobin_contract.lawful, roundRobin_contract.disqualify, roundRobin_contract.result,
    roundRobin_contract.noSelf⟩

theorem purgeLoop_exact (S : Strategy G) (w : World) (users : List User) (t : Tournament G)
    (h : ∀ u, w.isExact u = true) : Tournament.purgeLoop S w users t = .ok () t := by
  induction users with
  | nil => rfl
  | cons u rest ih =>
    unfold Tournament.purgeLoop
    rw [if_pos (h u)]
    exact ih

theorem freeMatch_ok (S : Strategy G) (a b : User) (t : Tournament G)
    (ip : JMap (Option Match)) (hip : t.inProgressMatches = some ip) :
    t.freeMatch S a b = .ok () { (t.setBusy S a false).setBusy S b false with
      inProgressMatches := some (ip.set a none), isBracketInvalidated := true,
      isAvailableMatchesInvalidated := true } := by
  unfold Tournament.freeMatch
  have h1 : ((t.setBusy S a false).setBusy S b false).inProgressMatches = some ip := hip
  simp only [h1]

theorem challenge_without_ghosts (S : Strategy G) (w : World) (a b : User) (o : Output)
    (t : Tournament G) (h : ∀ u, w.isExact u = true) :
    (t.challenge S w a b o).state.isEnded = t.isEnded := by
  unfold Tournament.challenge
  split
  · unfold sendReply
    repeat' split
    all_goals rfl
  · split
    · rfl
    · dsimp only
      split
      · unfold sendReply
        repeat' split
        all_goals rfl
      · split
        · rfl
        · unfold Tournament.purgeGhostUsers
          rw [purgeLoop_exact S w _ _ h]
          refine Res.andThen_state (fun s => s.isEnded = t.isEnded) _ _ rfl ?_
          intro _ t3 h3
          refine Res.andThen_state (fun s => s.isEnded = t.isEnded) _ _ ?_ ?_
          · exact (congrArg Core.isEnded (update_core S w t3)).trans h3
          · intro _ t4 h4
            exact h4

theorem resetEntries_nodup (users : List User) (av : JMap (List User)) (old : JMap Bool)
    (hn : (av.map Prod.fst).Nodup) :
    ((resetEntries users av old).2.map Prod.fst).Nodup := by
  induction users generalizing av old with
  | nil => exact hn
  | cons u rest ih =>
    unfold resetEntries
    split
    · exact hn
    · split
      · exact ih _ _ (JMap.nodup_set _ _ _ hn)
      · exact ih _ _ hn

theorem addMatches_nodup (ms : List (User × User)) (ch cb av : JMap (List User))
    (hn : (av.map Prod.fst).Nodup) :
    ((addMatches ms ch cb av).2.map Prod.fst).Nodup := by
  induction ms generalizing ch cb av with
  | nil => exact hn
  | cons p rest ih =>
    obtain ⟨a0, b0⟩ := p
    unfold addMatches
    split
    · exact hn
    · split
      · exact hn
      · split
        · exact hn
        · exact ih _ _ _ (JMap.nodup_set _ _ _ hn)

/-- The flags `resetEntries` records: for a user visited once, whether the entry
was non-empty before the visit. -/
theorem resetEntries_flags (users : List User) (av : JMap (List User)) (old old1 : JMap Bool)
    (av1 : JMap (List User)) (hnd : users.Nodup)
    (h : resetEntries users av old = (some old1, av1)) :
    (∀ u ∈ users, ∀ e, av.get u = some e → old1.get u = some (decide (e ≠ []))) ∧
    (∀ u, u ∉ users → old1.get u = old.get u) := by
  induction users generalizing av old with
  | nil =>
    have h1 : old = old1 := by
      have := congrArg Prod.fst h
      exact Option.some.inj this
    subst h1
    exact ⟨by simp, fun _ _ => rfl⟩
  | cons a rest ih =>
    rw [List.nodup_cons] at hnd
    unfold resetEntries at h
    split at h
    · exact absurd (congrArg Prod.fst h) (by simp)
    · rename_i e0 he0
      split at h
      · rename_i hlen
        obtain ⟨k1, k2⟩ := ih _ _ hnd.2 h
        refine ⟨?_, ?_⟩
        · intro u hu e he
          by_cases hua : u = a
          · subst hua
            rw [k2 u hnd.1, JMap.get_set_self]
            rw [he0] at he
            have : e0 = e := Option.some.inj he
            subst this
            cases e0 with
            | nil => simp at hlen
            | cons x xs => simp
          · have hr : u ∈ rest := by
              rcases List.mem_cons.mp hu with x | x
              · exact absurd x hua
              · exact x
            exact k1 u hr e (by rw [JMap.get_set_ne _ _ _ _ (Ne.symm hua)]; exact he)
        · intro u hu
          have hr : u ∉ rest := fun x => hu (List.mem_cons_of_mem _ x)
          have hne : a ≠ u := fun x => hu (x ▸ List.mem_cons_self _ _)
          rw [k2 u hr, JMap.get_set_ne _ _ _ _ hne]
      · rename_i hlen
        obtain ⟨k1, k2⟩ := ih _ _ hnd.2 h
        refine ⟨?_, ?_⟩
        · intro u hu e he
          by_cases hua : u = a
          · subst hua
            rw [k2 u hnd.1, JMap.get_set_self]
            rw [he0] at he
            have : e0 = e := Option.some.inj he
            subst this
            cases e0 with
            | nil => simp
            | cons x xs => simp at hlen
          · have hr : u ∈ rest := by
              rcases List.mem_cons.mp hu with x | x
              · exact absurd x hua
              · exact x
            exact k1 u hr e he
        · intro u hu
          have hr : u ∉ rest := fun x => hu (List.mem_cons_of_mem _ x)
          have hne : a ≠ u := fun x => hu (x ▸ List.mem_cons_self _ _)
          rw [k2 u hr, JMap.get_set_ne _ _ _ _ hne]

/-- The two lists `addMatches` fills: under `a` the targets of the pairs from
`a`, under `b` the sources of the pairs to `b`, after what was there. -/
theorem addMatches_lists (ms : List (User × User)) (ch cb av ch1 cb1 av1 : JMap (List User))
    (h : addMatches ms ch cb av = (some (ch1, cb1), av1)) :
    (∀ a, (ch1.get a).isSome = (ch.get a).isSome) ∧
    (∀ b, (cb1.get b).isSome = (cb.get b).isSome) ∧
    (∀ a l, ch.get a = some l →
      ∃ l1, ch1.get a = some l1 ∧ ∀ b, b ∈ l1 ↔ (b ∈ l ∨ (a, b) ∈ ms)) ∧
    (∀ b l, cb.get b = some l →
      ∃ l1, cb1.get b = some l1 ∧ ∀ a, a ∈ l1 ↔ (a ∈ l ∨ (a, b) ∈ ms)) := by
  induction ms generalizing ch cb av with
  | nil =>
    have h1 := Option.some.inj (congrArg Prod.fst h)
    have e1 : ch = ch1 := congrArg Prod.fst h1
    have e2 : cb = cb1 := congrArg Prod.snd h1
    subst e1; subst e2
    exact ⟨fun _ => rfl, fun _ => rfl, fun a l hl => ⟨l, hl, by simp⟩,
      fun b l hl => ⟨l, hl, by simp⟩⟩
  | cons p rest ih =>
    obtain ⟨a0, b0⟩ := p
    unfold addMatches at h
    split at h
    · exact absurd (congrArg Prod.fst h) (by simp)
    · rename_i la hla
      split at h
      · exact absurd (congrArg Prod.fst h) (by simp)
      · rename_i lb hlb
        split at h
        · exact absurd (congrArg Prod.fst h) (by simp)
        · obtain ⟨k1, k2, k3, k4⟩ := ih _ _ _ h
          refine ⟨?_, ?_, ?_, ?_⟩
          · intro a
            rw [k1 a, JMap.get_set]
            split
            · rename_i heq; subst heq; simp [hla]
            · rfl
          · intro b
            rw [k2 b, JMap.get_set]
            split
            · rename_i heq; subst heq; simp [hlb]
            · rfl
          · intro a l hl
            by_cases haa : a0 = a
            · subst haa
              rw [hla] at hl
              have : la = l := Option.some.inj hl
              subst this
              obtain ⟨l1, g1, g2⟩ := k3 a0 (la ++ [b0]) (JMap.get_set_self _ _ _)
              refine ⟨l1, g1, fun b => ?_⟩
              rw [g2 b]
              simp only [List.mem_append, List.mem_singleton, List.mem_cons, Prod.mk.injEq,
                true_and]
              tauto
            · obtain ⟨l1, g1, g2⟩ := k3 a l
                (by rw [JMap.get_set_ne _ _ _ _ haa]; exact hl)
              refine ⟨l1, g1, fun b => ?_⟩
              rw [g2 b]
              have hne : ¬ a = a0 := fun x => haa x.symm
              simp only [List.mem_cons, Prod.mk.injEq, hne, false_and, false_or]
          · intro b l hl
            by_cases hbb : b0 = b
            · subst hbb
              rw [hlb] at hl
              have : lb = l := Option.some.inj hl
              subst this
              obtain ⟨l1, g1, g2⟩ := k4 b0 (lb ++ [a0]) (JMap.get_set_self _ _ _)
              refine ⟨l1, g1, fun a => ?_⟩
              rw [g2 a]
              simp only [List.mem_append, List.mem_singleton, List.mem_cons, Prod.mk.injEq,
                and_true]
              tauto
            · obtain ⟨l1, g1, g2⟩ := k4 b l
                (by rw [JMap.get_set_ne _ _ _ _ hbb]; exact hl)
              refine ⟨l1, g1, fun a => ?_⟩
              rw [g2 a]
              have hne : ¬ b = b0 := fun x => hbb x.symm
              simp only [List.mem_cons, Prod.mk.injEq, hne, and_false, false_or]

theorem needsTouch_keys (old : JMap Bool) (av : JMap (List User)) (x : User)
    (h : x ∈ needsTouch old av) : x ∈ av.map Prod.fst := by
  induction av with
  | nil => simp [needsTouch] at h
  | cons p rest ih =>
    obtain ⟨u, e⟩ := p
    unfold needsTouch at h
    rw [List.map_cons]
    split at h
    · exact List.mem_cons_of_mem _ (ih h)
    · split at h
      · rcases List.mem_cons.mp h with h1 | h1
        · exact h1 ▸ List.mem_cons_self _ _
        · exact List.mem_cons_of_mem _ (ih h1)
      · exact List.mem_cons_of_mem _ (ih h)

/-- The keys the last loop of `getAvailableMatches()` touches: those whose
recorded flag is not `true` and whose entry is non-empty. -/
theorem needsTouch_mem (old : JMap Bool) (av : JMap (List User))
    (hn : (av.map Prod.fst).Nodup) (x : User) :
    x ∈ needsTouch old av ↔ ∃ e, av.get x = some e ∧ old.get x ≠ some true ∧ e ≠ [] := by
  induction av with
  | nil => simp [needsTouch, JMap.get]
  | cons p rest ih =>
    obtain ⟨u, e0⟩ := p
    rw [List.map_cons, List.nodup_cons] at hn
    have ih1 := ih hn.2
    have e1 : needsTouch old ((u, e0) :: rest) =
        if old.get u = some true then needsTouch old rest
        else if e0.length ≠ 0 then u :: needsTouch old rest else needsTouch old rest := rfl
    have e2 : JMap.get ((u, e0) :: rest) x = if u = x then some e0 else JMap.get rest x := rfl
    rw [e1, e2]
    by_cases hux : u = x
    · subst hux
      have hnot : u ∉ needsTouch old rest := fun h => hn.1 (needsTouch_keys old rest u h)
      rw [if_pos rfl]
      by_cases ho : old.get u = some true
      · rw [if_pos ho]
        constructor
        · intro h; exact absurd h hnot
        · rintro ⟨e, _, h2, _⟩; exact absurd ho h2
      · rw [if_neg ho]
        by_cases hl : e0.length ≠ 0
        · rw [if_pos hl]
          constructor
          · intro _
            refine ⟨e0, rfl, ho, ?_⟩
            intro hnil; subst hnil; simp at hl
          · intro _; exact List.mem_cons_self _ _
        · rw [if_neg hl]
          constructor
          · intro h; exact absurd h hnot
          · rintro ⟨e, h1, _, h3⟩
            have : e0 = e := Option.some.inj h1
            subst this
            cases e0 with
            | nil => exact absurd rfl h3
            | cons y ys => simp at hl
    · rw [if_neg hux]
      have hxu : ¬ x = u := fun h => hux h.symm
      split
      · exact ih1
      · split
        · rw [List.mem_cons]
          constructor
          · rintro (h | h)
            · exact absurd h hxu
            · exact ih1.mp h
          · intro h; exact Or.inr (ih1.mpr h)
        · exact ih1

theorem Spares.spares_same (x : User) (t : Tournament G) : Spares x t t :=
  ⟨rfl, rfl, rfl, rfl⟩

theorem Spares.spares_chain {x : User} {t t1 t2 : Tournament G} (h1 : Spares x t t1)
    (h2 : Spares x t1 t2) : Spares x t t2 :=
  ⟨h2.pend.trans h1.pend, h2.avail.trans h1.avail, h2.flag.trans h1.flag,
    h2.told.trans h1.told⟩

theorem warnings_say (t : Tournament G) (e : Event) (x : User)
    (h : ∀ r, e ≠ .autodqTarget x r) : (t.say e).warnings x = t.warnings x := by
  unfold Tournament.warnings Tournament.say
  simp only [List.filterMap_append, List.filterMap_cons, List.filterMap_nil]
  cases e
  case autodqTarget v r =>
    have hv : ¬ v = x := fun hvx => h r (by rw [hvx])
    simp [hv]
  all_goals simp

theorem sendReply_spares (w : World) (o : Output) (e : TourError) (t : Tournament G)
    (x : User) : Spares x t (sendReply w o e t).state := by
  unfold sendReply
  repeat' split
  all_goals first
    | exact Spares.spares_same x t
    | exact ⟨rfl, rfl, rfl, warnings_say _ _ _ (fun _ h => nomatch h)⟩

/-- A call of `disqualifyUser` that adds no mark only replies: it leaves the
challenges, the available matches, the warned flags and the warnings alone. -/
theorem disqualifyUser_spares (S : Strategy G) (w : World) (p : User) (o : Output)
    (reason : Option Nat) (t : Tournament G) (x : User)
    (h : (t.disqualifyUser S w p o reason).state.disqualifiedUsers = t.disqualifiedUsers) :
    Spares x t (t.disqualifyUser S w p o reason).state := by
  have reply : ∀ e, Spares x t ((sendReply w o e
      { t with generator := (S.disqualifyUser t.generator p).1 }).andThen
        fun _ t1 => Res.ok false t1).state := by
    intro e
    have k := sendReply_spares w o e
      { t with generator := (S.disqualifyUser t.generator p).1 } x
    cases hr : sendReply w o e { t with generator := (S.disqualifyUser t.generator p).1 } with
    | ok a t1 =>
      rw [hr] at k
      exact ⟨k.pend, k.avail, k.flag, k.told⟩
    | threw t1 =>
      rw [hr] at k
      exact ⟨k.pend, k.avail, k.flag, k.told⟩
  generalize hr : t.disqualifyUser S w p o reason = r at h
  unfold Tournament.disqualifyUser at hr
  dsimp only at hr
  split at hr
  · subst hr
    exact reply _
  · split at hr
    · subst hr
      exact ⟨rfl, rfl, rfl, rfl⟩
    · rename_i dq hdq
      split at hr
      · subst hr
        exact reply _
      · rename_i hno
        exfalso
        subst hr
        have hs := (settleDisqualify_steady S w p reason
          (({ ({ t with generator := (S.disqualifyUser t.generator p).1 } : Tournament G) with
            disqualifiedUsers := some (dq.set p true) }).setBusy S p false)).dq
        rw [hs] at h
        have e1 : dq.set p true = dq := Option.some.inj (h.trans hdq)
        apply hno
        rw [← e1]
        exact JMap.get_set_self _ _ _

/-- A visit of the sweep that adds no disqualified mark leaves the challenges
and the available matches alone, and the warned flag and the warnings of
every player but the visited one. -/
theorem sweepVisit_spares (S : Strategy G) (w : World) (o : Output) (u : User) (time : Int)
    (t : Tournament G) (x : User) (hx : x ≠ u)
    (h : (t.sweepVisit S w o u time).state.disqualifiedUsers = t.disqualifiedUsers) :
    Spares x t (t.sweepVisit S w o u time).state := by
  generalize hr : t.sweepVisit S w o u time = r at h
  unfold Tournament.sweepVisit at hr
  split at hr
  · rename_i av pc hav hpc
    split at hr
    · subst hr
      exact Spares.spares_same x t
    · rename_i e he
      dsimp only at hr
      split at hr
      · subst hr
        exact Spares.spares_same x t
      · split at hr
        · subst hr
          exact Spares.spares_same x t
        · split at hr
          · subst hr
            exact Spares.spares_same x t
          · rename_i wd hw
            try dsimp only at hr
            split at hr
            · obtain ⟨d, hD⟩ : ∃ d, t.disqualifyUser S w u o (some 1) = d := ⟨_, rfl⟩
              have hsp := disqualifyUser_spares S w u o (some 1) t x
              rw [hD] at hsp hr
              subst hr
              cases d with
              | ok a t1 =>
                have k := hsp h
                exact ⟨k.pend, k.avail, k.flag,
                  (warnings_say t1 .roomUpdate x (fun _ hh => nomatch hh)).trans k.told⟩
              | threw t1 => exact hsp h
            · split at hr
              · split at hr
                · split at hr
                  · subst hr
                    exact Spares.spares_same x t
                  · subst hr
                    refine ⟨rfl, rfl, ?_, warnings_say _ _ _ (fun r hh => ?_)⟩
                    · rw [hw]
                      show some ((wd.set u true).get x) = some (wd.get x)
                      rw [JMap.get_set_ne _ _ _ _ (Ne.symm hx)]
                    · exact hx (by cases hh; rfl)
                · subst hr
                  refine ⟨rfl, rfl, ?_, warnings_say _ _ _ (fun r hh => ?_)⟩
                  · rw [hw]
                    show some ((wd.set u true).get x) = some (wd.get x)
                    rw [JMap.get_set_ne _ _ _ _ (Ne.symm hx)]
                  · exact hx (by cases hh; rfl)
              · subst hr
                refine ⟨rfl, rfl, ?_, rfl⟩
                rw [hw]
                show some ((wd.set u false).get x) = some (wd.get x)
                rw [JMap.get_set_ne _ _ _ _ (Ne.symm hx)]
  · subst hr
    exact Spares.spares_same x t

/-- Over a sweep that adds no disqualified mark, a player who initiated a
pending challenge keeps the challenge, the warned flag and the warnings
received. -/
theorem sweepLoop_spares (S : Strategy G) (w : World) (o : Output) (x q : User) (tm : Nat)
    (fuel : Nat) : ∀ (i : Nat) (t : Tournament G) (av : JMap (List User))
      (pc : JMap (Option Challenge)) (e : List User),
    t.availableMatches = some av → t.pendingChallenges = some pc → av.get x = some e →
    pc.get x = some (some (.toUser q tm)) →
    (Tournament.sweepLoop S w o fuel i t).state.disqualifiedUsers = t.disqualifiedUsers →
    Spares x t (Tournament.sweepLoop S w o fuel i t).state := by
  induction fuel with
  | zero =>
    intro i t av pc e _ _ _ _ _
    exact Spares.spares_same x t
  | succ n ih =>
    intro i t av pc e hav hpc he hq hdq
    unfold Tournament.sweepLoop at hdq ⊢
    split
    · exact Spares.spares_same x t
    · rename_i la hla
      simp only [hla] at hdq
      split
      · exact Spares.spares_same x t
      · rename_i u time hi
        simp only [hi] at hdq
        by_cases hxu : x = u
        · subst hxu
          rw [sweepVisit_initiator S w o x time t av pc e q tm hav hpc he hq] at hdq ⊢
          exact ih (i + 1) t av pc e hav hpc he hq hdq
        · obtain ⟨r, hr⟩ : ∃ r, t.sweepVisit S w o u time = r := ⟨_, rfl⟩
          have hm := (sweepVisit_marks S w o u time t).2.2
          have hsp := sweepVisit_spares S w o u time t x hxu
          rw [hr] at hdq hm hsp ⊢
          cases r with
          | threw t1 => exact hsp hdq
          | ok a t1 =>
            simp only [Res.andThen_ok] at hdq ⊢
            simp only [Res.state_ok] at hm hsp
            have hsame : t1.disqualifiedUsers = t.disqualifiedUsers := by
              rcases hm with ⟨h1, _⟩ | ⟨_, dq, h1, h2, h3⟩
              · exact h1
              · exfalso
                obtain ⟨dq1, k1, k2⟩ := (sweepLoop_outs S w o n (i + 1) t1).keeps
                  (dq.set u true) u h3 (JMap.get_set_self _ _ _)
                rw [hdq, h1] at k1
                have e1 : dq = dq1 := Option.some.inj k1
                subst e1
                exact h2 k2
            have k := hsp hsame
            exact k.spares_chain (ih (i + 1) t1 av pc e (k.avail.trans hav) (k.pend.trans hpc)
              he hq (hdq.trans hsame.symm))

theorem runAutoDisqualify_spares (S : Strategy G) (w : World) (o : Output) (t : Tournament G)
    (x q : User) (tm : Nat) (av : JMap (List User)) (pc : JMap (Option Challenge))
    (e : List User) (hav : t.availableMatches = some av) (hpc : t.pendingChallenges = some pc)
    (he : av.get x = some e) (hq : pc.get x = some (some (.toUser q tm)))
    (hdq : (t.runAutoDisqualify S w o).state.disqualifiedUsers = t.disqualifiedUsers) :
    Spares x t (t.runAutoDisqualify S w o).state := by
  have hc : Spares x t (t.clearIfSet t.autoDisqualifyTimer) := by
    cases t.autoDisqualifyTimer <;> exact ⟨rfl, rfl, rfl, rfl⟩
  have hcd : (t.clearIfSet t.autoDisqualifyTimer).disqualifiedUsers = t.disqualifiedUsers :=
    (clearIfSet_sweep t t.autoDisqualifyTimer).2.1
  have hl := sweepLoop_spares S w o x q tm (t.clearIfSet t.autoDisqualifyTimer).sweepFuel 0
    (t.clearIfSet t.autoDisqualifyTimer) av pc e (hc.avail.trans hav) (hc.pend.trans hpc)
    he hq
  generalize hR : t.runAutoDisqualify S w o = R at hdq
  unfold Tournament.runAutoDisqualify at hR
  split at hR
  · have k := sendReply_spares w o .NotStarted t x
    subst hR
    cases hr : sendReply w o .NotStarted t with
    | ok a t1 =>
      rw [hr] at k
      exact k
    | threw t1 =>
      rw [hr] at k
      exact k
  · dsimp only at hR
    obtain ⟨r, hr⟩ : ∃ r, Tournament.sweepLoop S w o
        (t.clearIfSet t.autoDisqualifyTimer).sweepFuel 0
        (t.clearIfSet t.autoDisqualifyTimer) = r := ⟨_, rfl⟩
    rw [hr] at hR hl
    cases r with
    | threw t1 =>
      subst hR
      exact hc.spares_chain (hl (hdq.trans hcd.symm))
    | ok a t1 =>
      simp only [Res.andThen_ok] at hR
      simp only [Res.state_ok] at hl
      split at hR
      · split at hR
        · subst hR
          exact hc.spares_chain (hl (hdq.trans hcd.symm))
        · subst hR
          have k := hl (Eq.trans (b := (Res.ok (none : Option Bool)
            { (t1.setTimeout .autoDisqualify _).2 with
              autoDisqualifyTimer := some (t1.setTimeout .autoDisqualify _).1
            }).state.disqualifiedUsers) rfl (hdq.trans hcd.symm))
          exact hc.spares_chain (k.spares_chain ⟨rfl, rfl, rfl, rfl⟩)
      · subst hR
        exact hc.spares_chain (hl (hdq.trans hcd.symm))

theorem Paced.plain {now : Int} {t t1 : Tournament G}
    (hs : t1.log.filter Event.isSnapshot = t.log.filter Event.isSnapshot)
    (hl : t1.lastBracketUpdate = t.lastBracketUpdate) : Paced now t t1 :=
  Or.inl ⟨congrArg List.length hs, hl⟩

theorem Paced.paced_same (now : Int) (t : Tournament G) : Paced now t t :=
  Or.inl ⟨rfl, rfl⟩

theorem Paced.paced_chain {now : Int} {t t1 t2 : Tournament G} (h1 : Paced now t t1)
    (h2 : Paced now t1 t2) : Paced now t t2 := by
  have hpos : (0 : Int) < BRACKET_MINIMUM_UPDATE_INTERVAL := by decide
  rcases h1 with ⟨a1, a2⟩ | ⟨a1, a2, a3⟩
  · rcases h2 with ⟨b1, b2⟩ | ⟨b1, b2, b3⟩
    · exact Or.inl ⟨b1.trans a1, b2.trans a2⟩
    · exact Or.inr ⟨by rw [b1, a1], by rw [← a2]; exact b2, b3⟩
  · rcases h2 with ⟨b1, b2⟩ | ⟨b1, b2, b3⟩
    · exact Or.inr ⟨by rw [b1, a1], a2, b2.trans a3⟩
    · exfalso
      rw [a3] at b2
      omega

theorem Paced.paced_after {now : Int} {t t1 t2 : Tournament G} (h2 : Paced now t1 t2)
    (h1 : Paced now t t1) : Paced now t t2 :=
  h1.paced_chain h2

theorem Paced.paced_bind {α β : Type} {now : Int} {t : Tournament G} {r : Res G α}
    {k : α → Tournament G → Res G β} (h1 : Paced now t r.state)
    (h2 : ∀ a t1, Paced now t1 (k a t1).state) : Paced now t (r.andThen k).state := by
  cases r with
  | ok a t1 => exact h1.paced_chain (h2 a t1)
  | threw t1 => exact h1

theorem clearIfSet_paced {now : Int} (t : Tournament G) (h : Option Nat) :
    Paced now t (t.clearIfSet h) := by
  cases h <;> (refine Paced.plain ?_ ?_ <;>
      simp [Tournament.clearIfSet, Tournament.say, Tournament.sayAll, Tournament.setTimeout,
        Tournament.clearTimeout, Tournament.setBusy, Tournament.detach, Res.state,
        List.filter_append, Event.isSnapshot])

theorem sendReply_paced (w : World) (o : Output) (e : TourError) (t : Tournament G) :
    Paced w.now t (sendReply w o e t).state := by
  unfold sendReply
  repeat' split
  all_goals (refine Paced.plain ?_ ?_ <;>
      simp [Tournament.say, Tournament.sayAll, Tournament.setTimeout, Tournament.clearTimeout,
        Tournament.setBusy, Tournament.detach, Res.state, List.filter_append, Event.isSnapshot])

theorem update_paced (S : Strategy G) (w : World) (t : Tournament G) :
    Paced w.now t (t.update S w).state :=
  update_step S w t

theorem onTournamentEnd_paced {now : Int} (S : Strategy G) (t : Tournament G) :
    Paced now t (t.onTournamentEnd S) := by
  unfold Tournament.onTournamentEnd
  dsimp only
  cases h : (t.say (.tournamentEnd (S.getResults t.generator)
    (t.getBracketData S))).autoDisqualifyTimer <;> (refine Paced.plain ?_ ?_ <;>
        simp [Tournament.clearIfSet, Tournament.say, Tournament.sayAll, Tournament.setTimeout,
          Tournament.clearTimeout, Tournament.setBusy, Tournament.detach, Res.state,
          List.filter_append, Event.isSnapshot])

theorem voidChallenge_paced {now : Int} (S : Strategy G) (u : User) (t : Tournament G) :
    Paced now t (t.voidChallenge S u).state := by
  unfold Tournament.voidChallenge
  repeat' split
  all_goals (refine Paced.plain ?_ ?_ <;>
      simp [Tournament.say, Tournament.sayAll, Tournament.setTimeout, Tournament.clearTimeout,
        Tournament.setBusy, Tournament.detach, Res.state, List.filter_append, Event.isSnapshot])

theorem forfeitFrom_paced {now : Int} (S : Strategy G) (u : User) (t : Tournament G) :
    Paced now t (t.forfeitFrom S u).state := by
  unfold Tournament.forfeitFrom
  repeat' split
  all_goals (refine Paced.plain ?_ ?_ <;>
      simp [Tournament.say, Tournament.sayAll, Tournament.setTimeout, Tournament.clearTimeout,
        Tournament.setBusy, Tournament.detach, Res.state, List.filter_append, Event.isSnapshot])

theorem forfeitTo_paced {now : Int} (S : Strategy G) (u : User) (t : Tournament G) :
    Paced now t (t.forfeitTo S u).state := by
  unfold Tournament.forfeitTo
  repeat' split
  all_goals (refine Paced.plain ?_ ?_ <;>
      simp [Tournament.say, Tournament.sayAll, Tournament.setTimeout, Tournament.clearTimeout,
        Tournament.setBusy, Tournament.detach, Res.state, List.filter_append, Event.isSnapshot])

theorem announceDisqualify_paced {now : Int} (u : User) (reason : Option Nat)
    (t : Tournament G) :
    Paced now t (t.announceDisqualify u reason) := by
  unfold Tournament.announceDisqualify
  cases reason <;> (refine Paced.plain ?_ ?_ <;>
      simp [Tournament.say, Tournament.sayAll, Tournament.setTimeout, Tournament.clearTimeout,
        Tournament.setBusy, Tournament.detach, Res.state, List.filter_append, Event.isSnapshot])

theorem settleDisqualify_paced (S : Strategy G) (w : World) (u : User)
    (reason : Option Nat) (t : Tournament G) :
    Paced w.now t (t.settleDisqualify S w u reason).state := by
  unfold Tournament.settleDisqualify
  refine Paced.paced_bind (voidChallenge_paced S u _) (fun _ t2 => ?_)
  refine Paced.paced_bind (forfeitFrom_paced S u _) (fun _ t3 => ?_)
  refine Paced.paced_bind (forfeitTo_paced S u _) (fun _ t4 => ?_)
  dsimp only
  refine Paced.paced_chain (announceDisqualify_paced u reason t4) ?_
  split
  · exact onTournamentEnd_paced S _
  · exact Paced.paced_bind (update_paced S w _) (fun _ _ => (by
      refine Paced.plain ?_ ?_ <;>
        simp [Tournament.say, Tournament.sayAll, Tournament.setTimeout, Tournament.clearTimeout,
          Tournament.setBusy, Tournament.detach, Res.state, List.filter_append, Event.isSnapshot]))

theorem disqualifyUser_paced (S : Strategy G) (w : World) (u : User) (o : Output)
    (reason : Option Nat) (t : Tournament G) :
    Paced w.now t (t.disqualifyUser S w u o reason).state := by
  unfold Tournament.disqualifyUser
  dsimp only
  split
  · exact Paced.paced_after (Paced.paced_bind (sendReply_paced _ _ _ _) (fun _ _ => (by
      refine Paced.plain ?_ ?_ <;>
        simp [Tournament.say, Tournament.sayAll, Tournament.setTimeout, Tournament.clearTimeout,
          Tournament.setBusy, Tournament.detach, Res.state, List.filter_append, Event.isSnapshot]))) (by
      refine Paced.plain ?_ ?_ <;>
        simp [Tournament.say, Tournament.sayAll, Tournament.setTimeout, Tournament.clearTimeout,
          Tournament.setBusy, Tournament.detach, Res.state, List.filter_append, Event.isSnapshot])
  · split
    · (refine Paced.plain ?_ ?_ <;>
        simp [Tournament.say, Tournament.sayAll, Tournament.setTimeout, Tournament.clearTimeout,
          Tournament.setBusy, Tournament.detach, Res.state, List.filter_append, Event.isSnapshot])
    · split
      · exact Paced.paced_after (Paced.paced_bind (sendReply_paced _ _ _ _) (fun _ _ => (by
          refine Paced.plain ?_ ?_ <;>
            simp [Tournament.say, Tournament.sayAll, Tournament.setTimeout,
              Tournament.clearTimeout, Tournament.setBusy, Tournament.detach, Res.state,
              List.filter_append, Event.isSnapshot]))) (by
          refine Paced.plain ?_ ?_ <;>
            simp [Tournament.say, Tournament.sayAll, Tournament.setTimeout,
              Tournament.clearTimeout, Tournament.setBusy, Tournament.detach, Res.state,
              List.filter_append, Event.isSnapshot])
      · exact Paced.paced_after (settleDisqualify_paced S w u reason _) (by
          refine Paced.plain ?_ ?_ <;>
            simp [Tournament.say, Tournament.sayAll, Tournament.setTimeout,
              Tournament.clearTimeout, Tournament.setBusy, Tournament.detach, Res.state,
              List.filter_append, Event.isSnapshot])

theorem removeUser_paced (S : Strategy G) (w : World) (u : User) (o : Output)
    (t : Tournament G) : Paced w.now t (t.removeUser S w u o).state := by
  unfold Tournament.removeUser
  dsimp only
  split
  · exact Paced.paced_after (sendReply_paced _ _ _ _) (by
      refine Paced.plain ?_ ?_ <;>
        simp [Tournament.say, Tournament.sayAll, Tournament.setTimeout, Tournament.clearTimeout,
          Tournament.setBusy, Tournament.detach, Res.state, List.filter_append, Event.isSnapshot])
  · exact Paced.paced_after (update_paced S w _) (by
      refine Paced.plain ?_ ?_ <;>
        simp [Tournament.say, Tournament.sayAll, Tournament.setTimeout, Tournament.clearTimeout,
          Tournament.setBusy, Tournament.detach, Res.state, List.filter_append, Event.isSnapshot])

theorem replaceUser_paced (S : Strategy G) (w : World) (u r : User) (o : Output)
    (t : Tournament G) : Paced w.now t (t.replaceUser S w u r o).state := by
  unfold Tournament.replaceUser
  dsimp only
  split
  · exact Paced.paced_after (sendReply_paced _ _ _ _) (by
      refine Paced.plain ?_ ?_ <;>
        simp [Tournament.say, Tournament.sayAll, Tournament.setTimeout, Tournament.clearTimeout,
          Tournament.setBusy, Tournament.detach, Res.state, List.filter_append, Event.isSnapshot])
  · exact Paced.paced_after (update_paced S w _) (by
      refine Paced.plain ?_ ?_ <;>
        simp [Tournament.say, Tournament.sayAll, Tournament.setTimeout, Tournament.clearTimeout,
          Tournament.setBusy, Tournament.detach, Res.state, List.filter_append, Event.isSnapshot])

theorem purgeLoop_paced (S : Strategy G) (w : World) (users : List User) (t : Tournament G) :
    Paced w.now t (Tournament.purgeLoop S w users t).state := by
  induction users generalizing t with
  | nil => exact Paced.paced_same _ _
  | cons u rest ih =>
    unfold Tournament.purgeLoop
    split
    · exact ih t
    · dsimp only
      refine Paced.paced_bind ?_ (fun _ t1 => Paced.paced_after (ih _) (by
          refine Paced.plain ?_ ?_ <;>
            simp [Tournament.say, Tournament.sayAll, Tournament.setTimeout,
              Tournament.clearTimeout, Tournament.setBusy, Tournament.detach, Res.state,
              List.filter_append, Event.isSnapshot]))
      split
      · split
        · (refine Paced.plain ?_ ?_ <;>
            simp [Tournament.say, Tournament.sayAll, Tournament.setTimeout,
              Tournament.clearTimeout, Tournament.setBusy, Tournament.detach, Res.state,
              List.filter_append, Event.isSnapshot])
        · split
          · (refine Paced.plain ?_ ?_ <;>
              simp [Tournament.say, Tournament.sayAll, Tournament.setTimeout,
                Tournament.clearTimeout, Tournament.setBusy, Tournament.detach, Res.state,
                List.filter_append, Event.isSnapshot])
          · exact Paced.paced_bind (disqualifyUser_paced S w u _ _ t) (fun _ _ => (by
              refine Paced.plain ?_ ?_ <;>
                simp [Tournament.say, Tournament.sayAll, Tournament.setTimeout,
                  Tournament.clearTimeout, Tournament.setBusy, Tournament.detach, Res.state,
                  List.filter_append, Event.isSnapshot]))
      · exact removeUser_paced S w u _ t

theorem purgeGhostUsers_paced (S : Strategy G) (w : World) (t : Tournament G) :
    Paced w.now t (t.purgeGhostUsers S w).state :=
  purgeLoop_paced S w _ t

theorem removeBannedUser_paced (S : Strategy G) (w : World) (u : User) (t : Tournament G) :
    Paced w.now t (t.removeBannedUser S w u).state := by
  unfold Tournament.removeBannedUser
  split
  · dsimp only
    refine Paced.paced_bind ?_ (fun _ _ => (by
        refine Paced.plain ?_ ?_ <;>
          simp [Tournament.say, Tournament.sayAll, Tournament.setTimeout,
            Tournament.clearTimeout, Tournament.setBusy, Tournament.detach, Res.state,
            List.filter_append, Event.isSnapshot]))
    split
    · split
      · (refine Paced.plain ?_ ?_ <;>
          simp [Tournament.say, Tournament.sayAll, Tournament.setTimeout,
            Tournament.clearTimeout, Tournament.setBusy, Tournament.detach, Res.state,
            List.filter_append, Event.isSnapshot])
      · split
        · (refine Paced.plain ?_ ?_ <;>
            simp [Tournament.say, Tournament.sayAll, Tournament.setTimeout,
              Tournament.clearTimeout, Tournament.setBusy, Tournament.detach, Res.state,
              List.filter_append, Event.isSnapshot])
        · exact Paced.paced_bind (disqualifyUser_paced S w u _ _ t) (fun _ _ => (by
            refine Paced.plain ?_ ?_ <;>
              simp [Tournament.say, Tournament.sayAll, Tournament.setTimeout,
                Tournament.clearTimeout, Tournament.setBusy, Tournament.detach, Res.state,
                List.filter_append, Event.isSnapshot]))
    · exact removeUser_paced S w u _ t
  · (refine Paced.plain ?_ ?_ <;>
      simp [Tournament.say, Tournament.sayAll, Tournament.setTimeout, Tournament.clearTimeout,
        Tournament.setBusy, Tournament.detach, Res.state, List.filter_append, Event.isSnapshot])

theorem startTournament_paced (S : Strategy G) (w : World) (o : Output) (t : Tournament G) :
    Paced w.now t (t.startTournament S w o).state := by
  unfold Tournament.startTournament
  split
  · exact Paced.paced_bind (sendReply_paced _ _ _ _) (fun _ _ => (by
      refine Paced.plain ?_ ?_ <;>
        simp [Tournament.say, Tournament.sayAll, Tournament.setTimeout, Tournament.clearTimeout,
          Tournament.setBusy, Tournament.detach, Res.state, List.filter_append, Event.isSnapshot]))
  · refine Paced.paced_bind (purgeGhostUsers_paced S w t) (fun _ t1 => ?_)
    dsimp only
    split
    · exact Paced.paced_bind (sendReply_paced _ _ _ _) (fun _ _ => (by
        refine Paced.plain ?_ ?_ <;>
          simp [Tournament.say, Tournament.sayAll, Tournament.setTimeout,
            Tournament.clearTimeout, Tournament.setBusy, Tournament.detach, Res.state,
            List.filter_append, Event.isSnapshot]))
    · refine Paced.paced_chain (t := t1) ?_ (Paced.paced_bind (update_paced S w _) (fun _ _ => (by
        refine Paced.plain ?_ ?_ <;>
          simp [Tournament.say, Tournament.sayAll, Tournament.setTimeout,
            Tournament.clearTimeout, Tournament.setBusy, Tournament.detach, Res.state,
            List.filter_append, Event.isSnapshot])))
      cases h2 : t1.autoStartTimeout <;>
        (refine Paced.plain ?_ ?_ <;>
          simp [Tournament.say, Tournament.clearIfSet, Tournament.clearTimeout, h2,
            List.filter_append, Event.isSnapshot])

theorem addUser_paced (S : Strategy G) (w : World) (u : User) (alts : Bool) (o : Output)
    (t : Tournament G) : Paced w.now t (t.addUser S w u alts o).state := by
  unfold Tournament.addUser
  split
  · exact sendReply_paced _ _ _ _
  · dsimp only
    split
    · exact sendReply_paced _ _ _ _
    · split
      · exact sendReply_paced _ _ _ _
      · split
        · exact Paced.paced_after (sendReply_paced _ _ _ _) (by
            refine Paced.plain ?_ ?_ <;>
              simp [Tournament.say, Tournament.sayAll, Tournament.setTimeout,
                Tournament.clearTimeout, Tournament.setBusy, Tournament.detach, Res.state,
                List.filter_append, Event.isSnapshot])
        · refine Paced.paced_after (Paced.paced_bind (update_paced S w _) (fun _ t2 => ?_)) (by
            refine Paced.plain ?_ ?_ <;>
              simp [Tournament.say, Tournament.sayAll, Tournament.setTimeout,
                Tournament.clearTimeout, Tournament.setBusy, Tournament.detach, Res.state,
                List.filter_append, Event.isSnapshot])
          split
          · split
            · exact Paced.paced_bind (startTournament_paced S w o t2) (fun _ _ => (by
                refine Paced.plain ?_ ?_ <;>
                  simp [Tournament.say, Tournament.sayAll, Tournament.setTimeout,
                    Tournament.clearTimeout, Tournament.setBusy, Tournament.detach, Res.state,
                    List.filter_append, Event.isSnapshot]))
            · (refine Paced.plain ?_ ?_ <;>
                simp [Tournament.say, Tournament.sayAll, Tournament.setTimeout,
                  Tournament.clearTimeout, Tournament.setBusy, Tournament.detach, Res.state,
                  List.filter_append, Event.isSnapshot])
          · (refine Paced.plain ?_ ?_ <;>
              simp [Tournament.say, Tournament.sayAll, Tournament.setTimeout,
                Tournament.clearTimeout, Tournament.setBusy, Tournament.detach, Res.state,
                List.filter_append, Event.isSnapshot])

theorem replyAll_paced (w : World) (o : Output) (es : List Nat) (t : Tournament G) :
    Paced w.now t (replyAll w o es t).state := by
  induction es generalizing t with
  | nil => exact Paced.paced_same _ _
  | cons e rest ih =>
    unfold replyAll
    exact Paced.paced_bind (sendReply_paced _ _ _ _) (fun _ t1 => ih t1)

theorem setGenerator_paced (S : Strategy G) (w : World) (g : G) (o : Output)
    (t : Tournament G) : Paced w.now t (t.setGenerator S w g o).state := by
  unfold Tournament.setGenerator
  split
  · exact Paced.paced_bind (sendReply_paced _ _ _ _) (fun _ _ => (by
      refine Paced.plain ?_ ?_ <;>
        simp [Tournament.say, Tournament.sayAll, Tournament.setTimeout, Tournament.clearTimeout,
          Tournament.setBusy, Tournament.detach, Res.state, List.filter_append, Event.isSnapshot]))
  · dsimp only
    split
    · exact Paced.paced_bind (replyAll_paced _ _ _ _) (fun _ _ => (by
        refine Paced.plain ?_ ?_ <;>
          simp [Tournament.say, Tournament.sayAll, Tournament.setTimeout,
            Tournament.clearTimeout, Tournament.setBusy, Tournament.detach, Res.state,
            List.filter_append, Event.isSnapshot]))
    · exact Paced.paced_after (Paced.paced_bind (update_paced S w _) (fun _ _ => (by
        refine Paced.plain ?_ ?_ <;>
          simp [Tournament.say, Tournament.sayAll, Tournament.setTimeout,
            Tournament.clearTimeout, Tournament.setBusy, Tournament.detach, Res.state,
            List.filter_append, Event.isSnapshot]))) (by
        refine Paced.plain ?_ ?_ <;>
          simp [Tournament.say, Tournament.sayAll, Tournament.setTimeout,
            Tournament.clearTimeout, Tournament.setBusy, Tournament.detach, Res.state,
            List.filter_append, Event.isSnapshot])

theorem detachAll_paced {now : Int} (ip : JMap (Option Match)) (t : Tournament G) :
    Paced now t (detachAll ip t) := by
  induction ip generalizing t with
  | nil => exact Paced.paced_same _ _
  | cons e rest ih =>
    obtain ⟨k, m⟩ := e
    cases m with
    | none => exact ih t
    | some m => exact Paced.paced_after (ih _) (by
        refine Paced.plain ?_ ?_ <;>
          simp [Tournament.say, Tournament.sayAll, Tournament.setTimeout,
            Tournament.clearTimeout, Tournament.setBusy, Tournament.detach, Res.state,
            List.filter_append, Event.isSnapshot])

theorem forceEnd_paced {now : Int} (t : Tournament G) : Paced now t t.forceEnd.state := by
  unfold Tournament.forceEnd
  dsimp only
  refine Paced.paced_bind ?_ (fun _ _ => (by
      refine Paced.plain ?_ ?_ <;>
        simp [Tournament.say, Tournament.sayAll, Tournament.setTimeout, Tournament.clearTimeout,
          Tournament.setBusy, Tournament.detach, Res.state, List.filter_append, Event.isSnapshot]))
  split
  · split
    · exact clearIfSet_paced t _
    · exact Paced.paced_chain (clearIfSet_paced t _) (detachAll_paced _ _)
  · exact clearIfSet_paced t _

theorem deleteTournament_paced {now : Int} (t : Tournament G) :
    Paced now t t.deleteTournament.state := by
  unfold Tournament.deleteTournament
  exact Paced.paced_bind (forceEnd_paced t) (fun _ _ => (by
      refine Paced.plain ?_ ?_ <;>
        simp [Tournament.say, Tournament.sayAll, Tournament.setTimeout, Tournament.clearTimeout,
          Tournament.setBusy, Tournament.detach, Res.state, List.filter_append, Event.isSnapshot]))

theorem setAutoStartTimeout_paced (w : World) (timeout : Timeout) (o : Output)
    (t : Tournament G) : Paced w.now t (t.setAutoStartTimeout w timeout o).state := by
  unfold Tournament.setAutoStartTimeout
  split
  · exact Paced.paced_bind (sendReply_paced _ _ _ _) (fun _ _ => (by
      refine Paced.plain ?_ ?_ <;>
        simp [Tournament.say, Tournament.sayAll, Tournament.setTimeout, Tournament.clearTimeout,
          Tournament.setBusy, Tournament.detach, Res.state, List.filter_append, Event.isSnapshot]))
  · split
    · exact Paced.paced_bind (sendReply_paced _ _ _ _) (fun _ _ => (by
        refine Paced.plain ?_ ?_ <;>
          simp [Tournament.say, Tournament.sayAll, Tournament.setTimeout,
            Tournament.clearTimeout, Tournament.setBusy, Tournament.detach, Res.state,
            List.filter_append, Event.isSnapshot]))
    · dsimp only
      split <;> exact Paced.paced_chain (clearIfSet_paced t t.autoStartTimeout) (by
          refine Paced.plain ?_ ?_ <;>
            simp [Tournament.say, Tournament.sayAll, Tournament.setTimeout,
              Tournament.clearTimeout, Tournament.setBusy, Tournament.detach, Res.state,
              List.filter_append, Event.isSnapshot])

theorem sweepVisit_paced (S : Strategy G) (w : World) (o : Output) (u : User) (time : Int)
    (t : Tournament G) : Paced w.now t (t.sweepVisit S w o u time).state := by
  unfold Tournament.sweepVisit
  dsimp only
  repeat' split
  all_goals first
    | exact Paced.paced_bind (disqualifyUser_paced S w u o _ t) (fun _ _ => (by
        refine Paced.plain ?_ ?_ <;>
          simp [Tournament.say, Tournament.sayAll, Tournament.setTimeout,
            Tournament.clearTimeout, Tournament.setBusy, Tournament.detach, Res.state,
            List.filter_append, Event.isSnapshot]))
    | (refine Paced.plain ?_ ?_ <;>
        simp [Tournament.say, Tournament.sayAll, Tournament.setTimeout, Tournament.clearTimeout,
          Tournament.setBusy, Tournament.detach, Res.state, List.filter_append, Event.isSnapshot])

theorem sweepLoop_paced (S : Strategy G) (w : World) (o : Output) (fuel i : Nat)
    (t : Tournament G) : Paced w.now t (Tournament.sweepLoop S w o fuel i t).state := by
  induction fuel generalizing i t with
  | zero => exact Paced.paced_same _ _
  | succ n ih =>
    unfold Tournament.sweepLoop
    split
    · (refine Paced.plain ?_ ?_ <;>
        simp [Tournament.say, Tournament.sayAll, Tournament.setTimeout, Tournament.clearTimeout,
          Tournament.setBusy, Tournament.detach, Res.state, List.filter_append, Event.isSnapshot])
    · split
      · (refine Paced.plain ?_ ?_ <;>
          simp [Tournament.say, Tournament.sayAll, Tournament.setTimeout,
            Tournament.clearTimeout, Tournament.setBusy, Tournament.detach, Res.state,
            List.filter_append, Event.isSnapshot])
      · exact Paced.paced_bind (sweepVisit_paced S w o _ _ t) (fun _ t1 => ih _ t1)

theorem runAutoDisqualify_paced (S : Strategy G) (w : World) (o : Output) (t : Tournament G) :
    Paced w.now t (t.runAutoDisqualify S w o).state := by
  unfold Tournament.runAutoDisqualify
  split
  · exact Paced.paced_bind (sendReply_paced _ _ _ _) (fun _ _ => (by
      refine Paced.plain ?_ ?_ <;>
        simp [Tournament.say, Tournament.sayAll, Tournament.setTimeout, Tournament.clearTimeout,
          Tournament.setBusy, Tournament.detach, Res.state, List.filter_append, Event.isSnapshot]))
  · dsimp only
    refine Paced.paced_chain (clearIfSet_paced t _) (Paced.paced_bind (sweepLoop_paced S w o _ _ _)
      (fun _ t2 => ?_))
    split
    · split
      · (refine Paced.plain ?_ ?_ <;>
          simp [Tournament.say, Tournament.sayAll, Tournament.setTimeout,
            Tournament.clearTimeout, Tournament.setBusy, Tournament.detach, Res.state,
            List.filter_append, Event.isSnapshot])
      · (refine Paced.plain ?_ ?_ <;>
          simp [Tournament.say, Tournament.sayAll, Tournament.setTimeout,
            Tournament.clearTimeout, Tournament.setBusy, Tournament.detach, Res.state,
            List.filter_append, Event.isSnapshot])
    · (refine Paced.plain ?_ ?_ <;>
        simp [Tournament.say, Tournament.sayAll, Tournament.setTimeout, Tournament.clearTimeout,
          Tournament.setBusy, Tournament.detach, Res.state, List.filter_append, Event.isSnapshot])

theorem challenge_paced (S : Strategy G) (w : World) (a b : User) (o : Output)
    (t : Tournament G) : Paced w.now t (t.challenge S w a b o).state := by
  unfold Tournament.challenge
  split
  · exact sendReply_paced _ _ _ _
  · split
    · (refine Paced.plain ?_ ?_ <;>
        simp [Tournament.say, Tournament.sayAll, Tournament.setTimeout, Tournament.clearTimeout,
          Tournament.setBusy, Tournament.detach, Res.state, List.filter_append, Event.isSnapshot])
    · dsimp only
      split
      · exact sendReply_paced _ _ _ _
      · split
        · (refine Paced.plain ?_ ?_ <;>
            simp [Tournament.say, Tournament.sayAll, Tournament.setTimeout,
              Tournament.clearTimeout, Tournament.setBusy, Tournament.detach, Res.state,
              List.filter_append, Event.isSnapshot])
        · refine Paced.paced_after (Paced.paced_bind (purgeGhostUsers_paced S w _)
            (fun _ t3 => Paced.paced_bind (update_paced S w _) (fun _ _ => (by
                refine Paced.plain ?_ ?_ <;>
                  simp [Tournament.say, Tournament.sayAll, Tournament.setTimeout,
                    Tournament.clearTimeout, Tournament.setBusy, Tournament.detach, Res.state,
                    List.filter_append, Event.isSnapshot])))) (by
                refine Paced.plain ?_ ?_ <;>
                  simp [Tournament.say, Tournament.sayAll, Tournament.setTimeout,
                    Tournament.clearTimeout, Tournament.setBusy, Tournament.detach, Res.state,
                    List.filter_append, Event.isSnapshot])

theorem finishChallenge_paced (S : Strategy G) (w : World) (a b : User) (result : Bool)
    (t : Tournament G) : Paced w.now t (t.finishChallenge S w a b result).state := by
  unfold Tournament.finishChallenge
  split
  · exact Paced.paced_after (update_paced S w _) (by
      refine Paced.plain ?_ ?_ <;>
        simp [Tournament.say, Tournament.sayAll, Tournament.setTimeout, Tournament.clearTimeout,
          Tournament.setBusy, Tournament.detach, Res.state, List.filter_append, Event.isSnapshot])
  · split
    · (refine Paced.plain ?_ ?_ <;>
        simp [Tournament.say, Tournament.sayAll, Tournament.setTimeout, Tournament.clearTimeout,
          Tournament.setBusy, Tournament.detach, Res.state, List.filter_append, Event.isSnapshot])
    · dsimp only
      split
      · (refine Paced.plain ?_ ?_ <;>
          simp [Tournament.say, Tournament.sayAll, Tournament.setTimeout,
            Tournament.clearTimeout, Tournament.setBusy, Tournament.detach, Res.state,
            List.filter_append, Event.isSnapshot])
      · exact Paced.paced_after (update_paced S w _) (by
          refine Paced.plain ?_ ?_ <;>
            simp [Tournament.say, Tournament.sayAll, Tournament.setTimeout,
              Tournament.clearTimeout, Tournament.setBusy, Tournament.detach, Res.state,
              List.filter_append, Event.isSnapshot])

theorem cancelChallenge_paced (S : Strategy G) (w : World) (u : User) (o : Output)
    (t : Tournament G) : Paced w.now t (t.cancelChallenge S w u o).state := by
  unfold Tournament.cancelChallenge
  split
  · exact sendReply_paced _ _ _ _
  · repeat' split
    all_goals first
      | exact Paced.paced_after (update_paced S w _) (by
          refine Paced.plain ?_ ?_ <;>
            simp [Tournament.say, Tournament.sayAll, Tournament.setTimeout,
              Tournament.clearTimeout, Tournament.setBusy, Tournament.detach, Res.state,
              List.filter_append, Event.isSnapshot])
      | (refine Paced.plain ?_ ?_ <;>
          simp [Tournament.say, Tournament.sayAll, Tournament.setTimeout,
            Tournament.clearTimeout, Tournament.setBusy, Tournament.detach, Res.state,
            List.filter_append, Event.isSnapshot])

theorem acceptChallenge_paced (w : World) (u : User) (o : Output)
    (t : Tournament G) : Paced w.now t (t.acceptChallenge w u o).state := by
  unfold Tournament.acceptChallenge
  split
  · exact sendReply_paced _ _ _ _
  · repeat' split
    all_goals (refine Paced.plain ?_ ?_ <;>
        simp [Tournament.say, Tournament.sayAll, Tournament.setTimeout, Tournament.clearTimeout,
          Tournament.setBusy, Tournament.detach, Res.state, List.filter_append, Event.isSnapshot])

theorem beginMatch_paced (S : Strategy G) (w : World) (u source : User) (room : Nat)
    (pc : JMap (Option Challenge)) (t : Tournament G) :
    Paced w.now t (t.beginMatch S w u source room pc).state := by
  unfold Tournament.beginMatch
  dsimp only
  split
  · (refine Paced.plain ?_ ?_ <;>
      simp [Tournament.say, Tournament.sayAll, Tournament.setTimeout, Tournament.clearTimeout,
        Tournament.setBusy, Tournament.detach, Res.state, List.filter_append, Event.isSnapshot])
  · exact Paced.paced_after (Paced.paced_bind (runAutoDisqualify_paced S w _ _)
      (fun _ t5 => update_paced S w t5)) (by
          refine Paced.plain ?_ ?_ <;>
            simp [Tournament.say, Tournament.sayAll, Tournament.setTimeout,
              Tournament.clearTimeout, Tournament.setBusy, Tournament.detach, Res.state,
              List.filter_append, Event.isSnapshot])

theorem finishAcceptChallenge_paced (S : Strategy G) (w : World) (u : User) (c : Challenge)
    (result : Bool) (t : Tournament G) :
    Paced w.now t (t.finishAcceptChallenge S w u c result).state := by
  unfold Tournament.finishAcceptChallenge
  repeat' split
  all_goals first
    | exact beginMatch_paced S w _ _ _ _ t
    | (refine Paced.plain ?_ ?_ <;>
        simp [Tournament.say, Tournament.sayAll, Tournament.setTimeout, Tournament.clearTimeout,
          Tournament.setBusy, Tournament.detach, Res.state, List.filter_append, Event.isSnapshot])

theorem freeMatch_paced {now : Int} (S : Strategy G) (a b : User) (t : Tournament G) :
    Paced now t (t.freeMatch S a b).state := by
  unfold Tournament.freeMatch
  dsimp only
  split <;> (refine Paced.plain ?_ ?_ <;>
      simp [Tournament.say, Tournament.sayAll, Tournament.setTimeout, Tournament.clearTimeout,
        Tournament.setBusy, Tournament.detach, Res.state, List.filter_append, Event.isSnapshot])

theorem onBattleWin_paced (S : Strategy G) (w : World) (room : BattleRoom)
    (winner : Option User) (score : Nat × Nat) (t : Tournament G) :
    Paced w.now t (t.onBattleWin S w room winner score).state := by
  unfold Tournament.onBattleWin
  dsimp only
  split
  · refine Paced.paced_after (Paced.paced_bind (freeMatch_paced S _ _ _) (fun _ t1 => ?_)) (by
      refine Paced.plain ?_ ?_ <;>
        simp [Tournament.say, Tournament.sayAll, Tournament.setTimeout, Tournament.clearTimeout,
          Tournament.setBusy, Tournament.detach, Res.state, List.filter_append, Event.isSnapshot])
    refine Paced.paced_bind (runAutoDisqualify_paced S w _ t1) (fun _ t2 => ?_)
    exact Paced.paced_bind (update_paced S w t2) (fun _ _ => (by
        refine Paced.plain ?_ ?_ <;>
          simp [Tournament.say, Tournament.sayAll, Tournament.setTimeout,
            Tournament.clearTimeout, Tournament.setBusy, Tournament.detach, Res.state,
            List.filter_append, Event.isSnapshot]))
  · split
    · split <;> (refine Paced.plain ?_ ?_ <;>
        simp [Tournament.say, Tournament.sayAll, Tournament.setTimeout, Tournament.clearTimeout,
          Tournament.setBusy, Tournament.detach, Res.state, List.filter_append, Event.isSnapshot])
    · refine Paced.paced_after (Paced.paced_bind (freeMatch_paced S _ _ _) (fun _ t1 => ?_)) (by
        refine Paced.plain ?_ ?_ <;>
          simp [Tournament.say, Tournament.sayAll, Tournament.setTimeout,
            Tournament.clearTimeout, Tournament.setBusy, Tournament.detach, Res.state,
            List.filter_append, Event.isSnapshot])
      split
      · exact Paced.paced_chain (onTournamentEnd_paced S t1) (by
          refine Paced.plain ?_ ?_ <;>
            simp [Tournament.say, Tournament.sayAll, Tournament.setTimeout,
              Tournament.clearTimeout, Tournament.setBusy, Tournament.detach, Res.state,
              List.filter_append, Event.isSnapshot])
      · refine Paced.paced_bind (runAutoDisqualify_paced S w _ t1) (fun _ t2 => ?_)
        exact Paced.paced_bind (update_paced S w t2) (fun _ _ => (by
            refine Paced.plain ?_ ?_ <;>
              simp [Tournament.say, Tournament.sayAll, Tournament.setTimeout,
                Tournament.clearTimeout, Tournament.setBusy, Tournament.detach, Res.state,
                List.filter_append, Event.isSnapshot]))

theorem updateFor_paced {now : Int} (S : Strategy G) (u : User) (conn : Option Nat)
    (t : Tournament G) : Paced now t (t.updateFor S u conn).state := by
  obtain ⟨r, hr⟩ : ∃ r, t.updateFor S u conn = r := ⟨_, rfl⟩
  rw [hr]
  unfold Tournament.updateFor at hr
  dsimp only at hr
  repeat' split at hr
  all_goals subst hr
  all_goals refine Paced.plain ?_ ?_
  all_goals simp [Tournament.say, List.filter_append, Event.isSnapshot, Res.state]

theorem fireBracketTimer_paced (S : Strategy G) (w : World) (t : Tournament G) :
    Paced w.now t (t.fireBracketTimer S w).state := by
  unfold Tournament.fireBracketTimer
  exact Paced.paced_after (update_paced S w _) (by
      refine Paced.plain ?_ ?_ <;>
        simp [Tournament.say, Tournament.sayAll, Tournament.setTimeout, Tournament.clearTimeout,
          Tournament.setBusy, Tournament.detach, Res.state, List.filter_append, Event.isSnapshot])

theorem storeAutoDisqualifyTimeout_paced {now : Int} (timeout : Timeout) (t : Tournament G) :
    Paced now t (t.storeAutoDisqualifyTimeout timeout) := by
  unfold Tournament.storeAutoDisqualifyTimeout
  split <;>
    (refine Paced.plain ?_ ?_ <;>
      simp [Tournament.say, List.filter_append, Event.isSnapshot])

theorem setAutoDisqualifyTimeout_paced (S : Strategy G) (w : World) (timeout : TimeoutArg)
    (o : Output) (t : Tournament G) :
    Paced w.now t (t.setAutoDisqualifyTimeout S w timeout o).state := by
  unfold Tournament.setAutoDisqualifyTimeout
  split
  · exact Paced.paced_bind (sendReply_paced _ _ _ _) (fun _ _ => Paced.paced_same _ _)
  · dsimp only
    split
    · exact (storeAutoDisqualifyTimeout_paced timeout.parseFloat t).paced_chain
        (Paced.paced_bind (runAutoDisqualify_paced S w _ _) (fun _ _ => Paced.paced_same _ _))
    · exact storeAutoDisqualifyTimeout_paced timeout.parseFloat t

theorem lifecycleCall_paced (S : Strategy G) (w : World) (c : LifecycleCall G)
    (t : Tournament G) : Paced w.now t (c.run S w t) := by
  cases c with
  | startTournament o => exact startTournament_paced S w o t
  | addUser u alts o => exact addUser_paced S w u alts o t
  | removeUser u o => exact removeUser_paced S w u o t
  | replaceUser u r o => exact replaceUser_paced S w u r o t
  | setGenerator g o => exact setGenerator_paced S w g o t
  | disqualifyUser u o reason => exact disqualifyUser_paced S w u o reason t
  | setAutoStartTimeout timeout o => exact setAutoStartTimeout_paced w timeout o t
  | setAutoDisqualifyTimeout timeout o => exact setAutoDisqualifyTimeout_paced S w timeout o t

/-- Every call made at time `now` broadcasts at most one bracket snapshot, and
only a full interval after the last one. -/
theorem call_paced (S : Strategy G) (w : World) (c : Call G) (t : Tournament G) :
    Paced w.now t (c.run S w t) := by
  cases c with
  | lifecycle c => exact lifecycleCall_paced S w c t
  | runAutoDisqualify o => exact runAutoDisqualify_paced S w o t
  | challenge a b o => exact challenge_paced S w a b o t
  | finishChallenge a b result => exact finishChallenge_paced S w a b result t
  | cancelChallenge u o => exact cancelChallenge_paced S w u o t
  | acceptChallenge u o => exact acceptChallenge_paced w u o t
  | finishAcceptChallenge u c result => exact finishAcceptChallenge_paced S w u c result t
  | onBattleWin room winner score => exact onBattleWin_paced S w room winner score t
  | forceEnd => exact forceEnd_paced t
  | update => exact update_paced S w t
  | updateFor u conn => exact updateFor_paced S u conn t
  | fireBracketTimer => exact fireBracketTimer_paced S w t
  | purgeGhostUsers => exact purgeGhostUsers_paced S w t
  | removeBannedUser u => exact removeBannedUser_paced S w u t

/-! ## The claims -/

set_option maxRecDepth 100000 in
/-- C1, counterexample: after `challenge(1, 2)` on a started round robin of
three players, while the setup of the challenge is unresolved, players 1
and 2 are busy although neither has a pending Challenge or a Match. -/
theorem busy_during_setup_without_challenge :
    threeStarted.isTournamentStarted = true ∧
    threeStarted.challenge roundRobin (calmWorld 9001) 1 2 (.caller 1) =
      .ok () raceChallenged ∧
    raceChallenged.isTournamentStarted = true ∧
    roundRobin.getUsers raceChallenged.generator false = [1, 2, 3] ∧
    raceChallenged.busy roundRobin 1 = true ∧ raceChallenged.busy roundRobin 2 = true ∧
    raceChallenged.pendingChallenges = some [(1, none), (2, none), (3, none)] ∧
    raceChallenged.inProgressMatches = some [(1, none), (2, none), (3, none)] ∧
    raceChallenged.setups = [.challenge 1 2 (.caller 1)] := by
  decide

/-- C1, amended: in every state reached from a freshly started tournament by
calls of challenge, finishChallenge, cancelChallenge, acceptChallenge,
finishAcceptChallenge, disqualifyUser and onBattleWin that return normally,
where the two setup callbacks run for an unresolved setup, finishChallenge
records a challenge only if neither player is disqualified and
finishAcceptChallenge starts a match only for the challenge its recipient
still holds, and the strategy keeps the busy-flag contract: the tournament is
still started, a busy player has a pending Challenge, is a party of an
in-progress Match or is a player of a challenge whose setup is unresolved;
a player with a Challenge or in a Match is busy; a player of an unresolved
setup who is not disqualified is busy; and nobody has both a Challenge and
a Match. -/
theorem busy_iff_engaged_or_setting_up (S : Strategy G) (hS : BusyContract S)
    (t0 t : Tournament G) (h0 : Fresh S t0) (h : Reachable S t0 t) :
    t.isTournamentStarted = true ∧
    ∃ pc ip dq, t.pendingChallenges = some pc ∧ t.inProgressMatches = some ip ∧
      t.disqualifiedUsers = some dq ∧
      ∀ p : User,
        (t.busy S p = true →
          (pendOf pc p).isSome = true ∨ InMatch (matOf ip) p ∨ InSetup (pairs t.setups) p) ∧
        ((pendOf pc p).isSome = true ∨ InMatch (matOf ip) p → t.busy S p = true) ∧
        (InSetup (pairs t.setups) p → dqOf dq p = false → t.busy S p = true) ∧
        ¬ ((pendOf pc p).isSome = true ∧ InMatch (matOf ip) p) := by
  obtain ⟨hst, ⟨pc, ip, dq, hpc, hip, hdq, _, hinv⟩, _⟩ := h.invariant hS h0
  exact ⟨hst, pc, ip, dq, hpc, hip, hdq, fun p =>
    ⟨hinv.busy_reason p, hinv.engaged_busy p, hinv.setup_busy p,
      fun hb => hinv.not_both p hb.1 hb.2⟩⟩

set_option maxRecDepth 100000 in
/-- C1, witness: the state after `challenge(1, 2)` on three freshly started
players is reachable over the round robin, which keeps the contract. -/
theorem busy_iff_engaged_or_setting_up_witness :
    raceChallenged.isTournamentStarted = true ∧
    ∃ pc ip dq, raceChallenged.pendingChallenges = some pc ∧
      raceChallenged.inProgressMatches = some ip ∧
      raceChallenged.disqualifiedUsers = some dq ∧
      ∀ p : User,
        (raceChallenged.busy roundRobin p = true →
          (pendOf pc p).isSome = true ∨ InMatch (matOf ip) p ∨
            InSetup (pairs raceChallenged.setups) p) ∧
        ((pendOf pc p).isSome = true ∨ InMatch (matOf ip) p →
          raceChallenged.busy roundRobin p = true) ∧
        (InSetup (pairs raceChallenged.setups) p → dqOf dq p = false →
          raceChallenged.busy roundRobin p = true) ∧
        ¬ ((pendOf pc p).isSome = true ∧ InMatch (matOf ip) p) :=
  busy_iff_engaged_or_setting_up roundRobin roundRobin_contract threeStarted raceChallenged
    threeStarted_fresh
    (Reachable.next threeStarted raceChallenged Reachable.start
      (Step.challenge (calmWorld 9001) 1 2 (.caller 1) threeStarted raceChallenged
        (by decide)))

set_option maxRecDepth 100000 in
/-- C2: on a started round robin of three players, 2 is in the entry of 1 and
neither is busy; after `challenge(1, 2)`, a `disqualifyUser(2)` that returns
true and `finishChallenge(1, 2, output, true)`, the Challenge is recorded for
1 and for the disqualified 2, and 1 is still busy while 2 is not. -/
theorem finishChallenge_after_disqualify :
    threeStarted.isTournamentStarted = true ∧
    (threeStarted.availableMatches.bind fun av => av.get 1) = some [2, 3] ∧
    threeStarted.busy roundRobin 1 = false ∧ threeStarted.busy roundRobin 2 = false ∧
    raceChallenged.setups = [.challenge 1 2 (.caller 1)] ∧
    raceDisqualified.value = some true ∧
    raceFinished.returned = true ∧
    raceFinished.state.pendingChallenges =
      some [(1, some (.toUser 2 1)), (2, some (.fromUser 1 1)), (3, none)] ∧
    raceFinished.state.busy roundRobin 1 = true ∧
    raceFinished.state.busy roundRobin 2 = false ∧
    raceFinished.state.disqualifiedUsers = some [(1, false), (2, true), (3, false)] := by
  decide

set_option maxRecDepth 100000 in
/-- C3: player 2 asks to accept the challenge of 1; while the setup is
unresolved 1 cancels and challenges 4, and 2 challenges 3.  When the setup
resolves, `pendingChallenges(2)` names 3 and `pendingChallenges(1)` names 4,
yet `finishAcceptChallenge(2, challenge, true)` starts a battle, records a
Match of 1 against 2 and clears the entries of 1 and 2, leaving 3 and 4 with
a Challenge whose other party has none. -/
theorem finishAcceptChallenge_stale_challenge :
    Setup.accept 2 (.fromUser 1 1) ∈ staleOffered.setups ∧
    staleMoved.pendingChallenges =
      some [(1, some (.toUser 4 1)), (2, some (.toUser 3 2)), (3, some (.fromUser 2 2)),
        (4, some (.fromUser 1 1))] ∧
    staleMoved.inProgressMatches = some [(1, none), (2, none), (3, none), (4, none)] ∧
    staleAccepted.returned = true ∧
    staleAccepted.state.inProgressMatches =
      some [(1, some ⟨2, 102⟩), (2, none), (3, none), (4, none)] ∧
    staleAccepted.state.tourRooms = [⟨102, 1, 2⟩] ∧
    staleAccepted.state.pendingChallenges =
      some [(1, none), (2, none), (3, some (.fromUser 2 2)), (4, some (.fromUser 1 1))] := by
  decide

/-- C4: when `finishAcceptChallenge(user, challenge, true)` passes its guards
and the battle room is created, it runs the match creation, and a second
`finishAcceptChallenge` for the same challenge in the state the first one
left returns that state unchanged: no map entry, battle room or message is
added. -/
theorem second_accept_changes_nothing (S : Strategy G) (w w2 : World) (user source : User)
    (team room : Nat) (t : Tournament G) (pc : JMap (Option Challenge))
    (hpc : t.pendingChallenges = some pc)
    (hsource : hasChallenge pc source = true) (huser : hasChallenge pc user = true)
    (hcs : w.connected source = true) (hcu : w.connected user = true)
    (hroom : w.startBattle source user team (w.team user) = some room) :
    t.finishAcceptChallenge S w user (.fromUser source team) true =
      t.beginMatch S w user source room pc ∧
    (t.beginMatch S w user source room pc).state.finishAcceptChallenge
        S w2 user (.fromUser source team) true =
      .ok () (t.beginMatch S w user source room pc).state := by
  constructor
  · unfold Tournament.finishAcceptChallenge
    simp [hpc, hsource, huser, hcs, hcu, hroom]
  · obtain ⟨pc1, e1, f1, _⟩ := beginMatch_voids S w user source room pc t
    exact finishAcceptChallenge_without_challenge S w2 user source team _ pc1 e1 f1

set_option maxRecDepth 100000 in
/-- C4, witness: player 2 accepts the challenge of 1 twice in a round robin
of four; the first setup creates the match in room 102. -/
theorem second_accept_changes_nothing_witness :
    staleOffered.setups =
      [.challenge 1 2 (.caller 1), .accept 2 (.fromUser 1 1)] ∧
    matchRunning.inProgressMatches =
      some [(1, some ⟨2, 102⟩), (2, none), (3, none), (4, none)] ∧
    matchRunning.tourRooms = [⟨102, 1, 2⟩] ∧
    staleOffered.finishAcceptChallenge roundRobin (calmWorld 9004) 2 (.fromUser 1 1) true =
      staleOffered.beginMatch roundRobin (calmWorld 9004) 2 1 102
        [(1, some (.toUser 2 1)), (2, some (.fromUser 1 1)), (3, none), (4, none)] ∧
    (staleOffered.beginMatch roundRobin (calmWorld 9004) 2 1 102
        [(1, some (.toUser 2 1)), (2, some (.fromUser 1 1)), (3, none),
          (4, none)]).state.finishAcceptChallenge
        roundRobin (calmWorld 9005) 2 (.fromUser 1 1) true =
      .ok () (staleOffered.beginMatch roundRobin (calmWorld 9004) 2 1 102
        [(1, some (.toUser 2 1)), (2, some (.fromUser 1 1)), (3, none), (4, none)]).state :=
  ⟨by decide, by decide, by decide,
    second_accept_changes_nothing roundRobin (calmWorld 9004) (calmWorld 9005) 2 1 1 102
      staleOffered [(1, some (.toUser 2 1)), (2, some (.fromUser 1 1)), (3, none), (4, none)]
      (by decide) (by decide) (by decide) (by decide) (by decide) (by decide)⟩

/-- C5: in a tournament whose per-player maps exist, where the other party of
the Challenge of `p` names `p` back and at most one Match has `p` as
opponent, a call `disqualifyUser(p, output, reason)` for a player not yet
marked that the strategy accepts and that returns, returns true, and
afterwards: the strategy state is the one its `disqualifyUser` produced,
with busy flags cleared; `p` is marked disqualified and not busy; the
Challenge entries of `p` and of the other party of its Challenge are null
and that party is not busy; no Match has `p` as initiator or as opponent,
and the other party of each such Match is not busy; and every Challenge and
Match that does not reference `p` is unchanged. -/
theorem disqualifyUser_clears_player (S : Strategy G) (hS : BusyContract S) (w : World)
    (p : User) (o : Output) (reason : Option Nat) (t t1 : Tournament G) (b : Bool)
    (pc : JMap (Option Challenge)) (ip : JMap (Option Match)) (dq : JMap Bool)
    (hpc : t.pendingChallenges = some pc) (hip : t.inProgressMatches = some ip)
    (hdq : t.disqualifiedUsers = some dq) (hnd : (ip.map Prod.fst).Nodup)
    (hsym : ∀ c c1, pendOf pc p = some c → pendOf pc (partnerOf c) = some c1 →
      partnerOf c1 = p)
    (hone : ∀ k k1 m m1, matOf ip k = some m → matOf ip k1 = some m1 →
      m.toUser = p → m1.toUser = p → k = k1)
    (hnot : dq.get p ≠ some true) (hacc : (S.disqualifyUser t.generator p).2 = none)
    (hr : t.disqualifyUser S w p o reason = .ok b t1) :
    b = true ∧
    t1.generator =
      freeGen S p pc ip (S.setUserBusy (S.disqualifyUser t.generator p).1 p false) ∧
    ∃ pc1 ip1, t1.pendingChallenges = some pc1 ∧ t1.inProgressMatches = some ip1 ∧
      t1.disqualifiedUsers = some (dq.set p true) ∧ (dq.set p true).get p = some true ∧
      t1.busy S p = false ∧ pendOf pc1 p = none ∧
      (∀ c, pendOf pc p = some c →
        pendOf pc1 (partnerOf c) = none ∧ t1.busy S (partnerOf c) = false) ∧
      ¬ InMatch (matOf ip1) p ∧
      (∀ k m, matOf ip k = some m →
        (k = p → t1.busy S m.toUser = false) ∧ (m.toUser = p → t1.busy S k = false)) ∧
      (∀ x c, pendOf pc x = some c → x ≠ p → partnerOf c ≠ p → pendOf pc1 x = some c) ∧
      (∀ k m, matOf ip k = some m → k ≠ p → m.toUser ≠ p → matOf ip1 k = some m) := by
  unfold Tournament.disqualifyUser at hr
  dsimp only at hr
  rw [hacc] at hr
  dsimp only at hr
  rw [hdq] at hr
  dsimp only at hr
  rw [if_neg hnot] at hr
  obtain ⟨hb, q1, q2, q3, _, _, q6, _, _⟩ :=
    settleDisqualify_face S hS w p reason _ t1 b pc ip (by exact hpc) (by exact hip) hr
  have q6a : t1.generator =
      freeGen S p pc ip (S.setUserBusy (S.disqualifyUser t.generator p).1 p false) := q6
  have hbusy : ∀ x, t1.busy S x = S.getUserBusy (freeGen S p pc ip
      (S.setUserBusy (S.disqualifyUser t.generator p).1 p false)) x := by
    intro x
    unfold Tournament.busy
    rw [q6a]
  have hp : t1.busy S p = false := by
    rw [hbusy]
    exact freeGen_keeps S hS.lawful p pc ip _ p (setUserBusy_false_self S hS.lawful _ p)
  refine ⟨hb, q6a, _, _, q1, q2, q3, JMap.get_set_self _ _ _, hp, voidPc_self p pc, ?_, ?_,
    ?_, ?_, ?_⟩
  · intro c hc
    refine ⟨voidPc_partner p pc c hc, ?_⟩
    rw [hbusy]
    exact freeGen_partner S hS.lawful p pc ip _ c hc
  · rintro (⟨m, hm⟩ | ⟨k, m, hm, hto⟩)
    · rw [dropped_get, if_pos rfl] at hm
      cases hm
    · exact dropped_opponent p ip hnd hone k m hm hto
  · intro k m hm
    constructor
    · intro e
      subst e
      rw [hbusy]
      exact freeGen_opponent S hS.lawful k pc ip _ m hm
    · intro hto
      by_cases hk : k = p
      · rw [hk]; exact hp
      · have hfind := findMatchTo_matOf p (dropFrom p ip) (dropFrom_nodup p ip hnd)
        have hmk : matOf (dropFrom p ip) k = some m := by
          rw [dropFrom_get, if_neg hk]; exact hm
        cases hf : findMatchTo p (dropFrom p ip) none with
        | none => exact absurd hto (hfind.2 hf k m hmk)
        | some k1 =>
          obtain ⟨m1, hm1, hto1⟩ := hfind.1 k1 hf
          rw [dropFrom_get] at hm1
          split at hm1
          · cases hm1
          · have e := hone k k1 m m1 hm hm1 hto hto1
            rw [hbusy, e]
            exact freeGen_initiator S hS.lawful p pc ip _ k1 hf
  · intro x c hx hxp hcp
    rw [voidPc_frame p pc x hxp, hx]
    intro c0 hc0 e
    rw [e] at hx
    exact hcp (hsym c0 c hc0 hx)
  · intro k m hm hk hto
    exact dropped_frame p ip hnd k m hm hk hto

set_option maxRecDepth 100000 in
/-- C5, witness: the opponent 2 of the running match of 1 against 2 is
disqualified; 1 and 2 are no longer busy and no match involves 2. -/
theorem disqualifyUser_clears_player_witness :
    matchRunning.inProgressMatches =
      some [(1, some ⟨2, 102⟩), (2, none), (3, none), (4, none)] ∧
    matchForfeited = .ok true matchForfeited.state ∧
    matchForfeited.state.busy roundRobin 2 = false ∧
    matchForfeited.state.busy roundRobin 1 = false ∧
    ∃ ip1, matchForfeited.state.inProgressMatches = some ip1 ∧ ¬ InMatch (matOf ip1) 2 := by
  have key := disqualifyUser_clears_player roundRobin roundRobin_contract (calmWorld 9010) 2
    (.caller 9) (some 0) matchRunning matchForfeited.state true
    [(1, none), (2, none), (3, none), (4, none)]
    [(1, some ⟨2, 102⟩), (2, none), (3, none), (4, none)]
    [(1, false), (2, false), (3, false), (4, false)]
    (by decide) (by decide) (by decide) (by decide)
    (by
      intro c c1 h
      simp only [pendOf, JMap.get] at h
      split_ifs at h <;> cases h)
    (by
      intro k k1 m m1 h1 h2 _ _
      simp only [matOf, JMap.get] at h1 h2
      split_ifs at h1 h2 <;> simp_all)
    (by decide) (by decide) (by decide)
  obtain ⟨_, _, pc1, ip1, _, h2, _, _, h5, _, _, h8, h9, _, _⟩ := key
  exact ⟨by decide, by decide, h5, (h9 1 ⟨2, 102⟩ (by decide)).2 rfl, ip1, h2, h8⟩

/-- C6: for a player `p` already marked disqualified, `disqualifyUser(p, output,
reason)` returns false after replying, but the state it leaves carries the
strategy state produced by a second `disqualifyUser(p)` of the strategy, and
the error replied is the strategy's own when it rejects the call, else
`AlreadyDisqualified`. -/
theorem disqualifyUser_already_disqualified (S : Strategy G) (w : World) (p : User)
    (o : Nat) (reason : Option Nat) (t : Tournament G) (dq : JMap Bool)
    (hdq : t.disqualifiedUsers = some dq) (hp : dq.get p = some true) :
    t.disqualifyUser S w p (.caller o) reason =
      .ok false (({ t with generator := (S.disqualifyUser t.generator p).1 }).say
        (.reply o (match (S.disqualifyUser t.generator p).2 with
          | some e => .strategy e
          | none => .AlreadyDisqualified))) := by
  unfold Tournament.disqualifyUser
  dsimp only
  cases h : (S.disqualifyUser t.generator p).2 with
  | some e => simp [sendReply]
  | none => simp [sendReply, hdq, hp]

set_option maxRecDepth 100000 in
/-- C6, witness: over a round robin that counts the calls of its
`disqualifyUser`, disqualifying player 2 again replies `AlreadyDisqualified`
and moves the count from 1 to 2. -/
theorem disqualifyUser_already_disqualified_witness :
    countedDisqualified.isTournamentStarted = true ∧
    countedDisqualified.disqualifiedUsers = some [(1, false), (2, true), (3, false)] ∧
    countedDisqualified.generator.2 = 1 ∧
    countedDisqualified.disqualifyUser (countingDisqualify roundRobin) (calmWorld 9002) 2
        (.caller 9) (some 0) =
      .ok false (({ countedDisqualified with
        generator := ((countingDisqualify roundRobin).disqualifyUser
          countedDisqualified.generator 2).1 }).say (.reply 9 .AlreadyDisqualified)) ∧
    ((countingDisqualify roundRobin).disqualifyUser countedDisqualified.generator 2).1.2 = 2 :=
  ⟨by decide, by decide, by decide,
    disqualifyUser_already_disqualified (countingDisqualify roundRobin) (calmWorld 9002) 2 9
      (some 0) countedDisqualified [(1, false), (2, true), (3, false)] (by decide) (by decide),
    by decide⟩

set_option maxRecDepth 100000 in
/-- C7, counterexample: over a round robin whose `getUsers()` leaves out
disqualified members and whose pairs never contain one, player 2 is
disqualified and the available matches are recomputed; the entry of 2 still
lists 3, and `challenge(2, 3)` is not rejected: it marks both busy and starts
a setup. -/
theorem stale_entry_of_hidden_player :
    hidingDisqualified.value = some true ∧
    hidingDisqualified.state.disqualifiedUsers = some [(1, false), (2, true), (3, false)] ∧
    hidingDisqualified.state.isAvailableMatchesInvalidated = false ∧
    (hidingRoundRobin.getAvailableMatches hidingDisqualified.state.generator).toOption =
      some [(1, 3)] ∧
    hidingDisqualified.state.availableMatches = some [(1, [3]), (2, [3]), (3, [])] ∧
    hidingChallenged.returned = true ∧
    hidingChallenged.state.setups = [.challenge 2 3 (.caller 2)] ∧
    hidingChallenged.state.busy hidingRoundRobin 2 = true ∧
    hidingChallenged.state.busy hidingRoundRobin 3 = true := by
  decide

/-- C7, amended: let the tournament be started, let every member listed by
`getUsers()` have an entry of `availableMatches` and every entry belong to
such a member, let `p` be listed, and let the strategy answer pairs of
listed members none of which contains `p`.  Then `getAvailableMatches()`
returns a cache, and afterwards the entry of `p` is empty, no entry contains
`p`, and `challenge(p, x)` and `challenge(x, p)` report `InvalidMatch` for
every `x` and change nothing else. -/
theorem recompute_drops_excluded_player (S : Strategy G) (w : World) (p : User)
    (t : Tournament G) (ms : List (User × User)) (av : JMap (List User)) (la : JMap Int)
    (hst : t.isTournamentStarted = true)
    (hms : S.getAvailableMatches t.generator = .ok ms)
    (hclean : ∀ q ∈ ms, q.1 ≠ p ∧ q.2 ≠ p)
    (hmem : ∀ q ∈ ms, q.1 ∈ S.getUsers t.generator false ∧
      q.2 ∈ S.getUsers t.generator false)
    (hp : p ∈ S.getUsers t.generator false)
    (hav : t.availableMatches = some av) (hla : t.lastActionTimes = some la)
    (hkeys : ∀ u, u ∈ S.getUsers t.generator false ↔ (av.get u).isSome = true) :
    ∃ c t2 av2, t.getAvailableMatches S w = .ok (some c) t2 ∧
      t2.availableMatches = some av2 ∧ av2.get p = some [] ∧
      (∀ a e, av2.get a = some e → p ∉ e) ∧
      ∀ (w1 : World) (x : User) (o : Nat),
        t2.challenge S w1 p x (.caller o) = .ok () (t2.say (.reply o .InvalidMatch)) ∧
        t2.challenge S w1 x p (.caller o) = .ok () (t2.say (.reply o .InvalidMatch)) := by
  obtain ⟨c, av2, la2, hr, h1, h2⟩ :=
    getAvailableMatches_ok S w t ms av la hms hav hla (fun u hu => (hkeys u).mp hu) hmem
  have hnone : ∀ a e, av2.get a = some e → p ∉ e := by
    intro a e he hpe
    by_cases ha : a ∈ S.getUsers t.generator false
    · obtain ⟨e1, he1, hiff⟩ := h1 a ha
      rw [he] at he1
      rw [Option.some.inj he1] at hpe
      exact (hclean _ ((hiff p).mp hpe)).2 rfl
    · rw [h2 a ha] at he
      have : (av.get a).isSome = true := by rw [he]; rfl
      exact ha ((hkeys a).mpr this)
  have hself : av2.get p = some [] := by
    obtain ⟨e, he, hiff⟩ := h1 p hp
    rw [he]
    cases e with
    | nil => rfl
    | cons b rest =>
      exact absurd rfl (hclean _ ((hiff b).mp (List.mem_cons_self _ _))).1
  refine ⟨c, _, av2, hr, rfl, hself, hnone, fun w1 x o => ⟨?_, ?_⟩⟩
  · refine challenge_unlisted S w1 p x o _ av2 hst rfl ?_
    intro e he
    rw [hself] at he
    rw [← Option.some.inj he]
    simp
  · exact challenge_unlisted S w1 x p o _ av2 hst rfl (fun e he => hnone x e he)

set_option maxRecDepth 100000 in
/-- C7, witness: three started players, the round robin has marked player 2
disqualified, and the recomputation empties the entry of 2. -/
theorem recompute_drops_excluded_player_witness :
    ∃ c t2 av2, markedOnly.getAvailableMatches roundRobin (calmWorld 9100) =
        .ok (some c) t2 ∧
      t2.availableMatches = some av2 ∧ av2.get 2 = some [] ∧
      (∀ a e, av2.get a = some e → 2 ∉ e) ∧
      ∀ (w1 : World) (x : User) (o : Nat),
        t2.challenge roundRobin w1 2 x (.caller o) =
          .ok () (t2.say (.reply o .InvalidMatch)) ∧
        t2.challenge roundRobin w1 x 2 (.caller o) =
          .ok () (t2.say (.reply o .InvalidMatch)) :=
  recompute_drops_excluded_player roundRobin (calmWorld 9100) 2 markedOnly
    [(1, 3)] [(1, [2, 3]), (2, [3]), (3, [])] [(1, 9000), (2, 9000), (3, 9000)]
    (by decide) (by rfl) (by decide) (by decide) (by decide) (by decide) (by decide)
    (by
      intro u
      have hu : roundRobin.getUsers markedOnly.generator false = [1, 2, 3] := by
        decide
      rw [hu]
      simp only [JMap.get]
      constructor
      · intro h
        simp only [List.mem_cons, List.mem_singleton, List.not_mem_nil, or_false] at h
        rcases h with h | h | h <;> subst h <;> decide
      · intro h
        split_ifs at h with h1 h2 h3
        · subst h1; decide
        · subst h2; decide
        · subst h3; decide
        · cases h)

/-- C8: in a forming tournament whose ghost purge returns, the purge leaves the
per-player maps and the started flag as they were; with fewer than 2 members
afterwards `startTournament` returns false, replies `NotEnoughUsers` and
leaves the purged state; with at least 2 members, when the frozen bracket
answers pairs of its members, which all were members before, it returns true
in a started state that holds the frozen bracket. -/
theorem startTournament_needs_two_members (S : Strategy G) (w : World) (o : Nat)
    (t t1 : Tournament G) (hs : t.isTournamentStarted = false)
    (hp : t.purgeGhostUsers S w = .ok () t1) :
    SameMaps t t1 ∧
    ((S.getUsers t1.generator false).length < 2 →
      t.startTournament S w (.caller o) = .ok false (t1.say (.reply o .NotEnoughUsers))) ∧
    (2 ≤ (S.getUsers t1.generator false).length →
      ∀ ms, S.getAvailableMatches (S.freezeBracket
          (if S.hasGenerateBracket t1.generator then S.generateBracket t1.generator
            else t1.generator)) = .ok ms →
        (∀ u ∈ S.getUsers (S.freezeBracket
          (if S.hasGenerateBracket t1.generator then S.generateBracket t1.generator
            else t1.generator)) false, u ∈ S.getUsers t1.generator false) →
        (∀ p ∈ ms, p.1 ∈ S.getUsers (S.freezeBracket
          (if S.hasGenerateBracket t1.generator then S.generateBracket t1.generator
            else t1.generator)) false ∧ p.2 ∈ S.getUsers (S.freezeBracket
          (if S.hasGenerateBracket t1.generator then S.generateBracket t1.generator
            else t1.generator)) false) →
        ∃ t2, t.startTournament S w (.caller o) = .ok true t2 ∧
          t2.isTournamentStarted = true ∧
          t2.generator = S.freezeBracket
            (if S.hasGenerateBracket t1.generator then S.generateBracket t1.generator
              else t1.generator)) := by
  have hsame : SameMaps t t1 := by
    have := purgeLoop_forming S w (S.getUsers t.generator true) t hs
    unfold Tournament.purgeGhostUsers at hp
    rw [hp] at this
    exact this
  refine ⟨hsame, fun hlt => ?_, fun hge ms hms hsub hmem => ?_⟩
  · unfold Tournament.startTournament
    rw [if_neg (by rw [hs]; simp), hp]
    simp only [Res.andThen_ok]
    rw [if_pos hlt]
    rfl
  · unfold Tournament.startTournament
    rw [if_neg (by rw [hs]; simp), hp]
    simp only [Res.andThen_ok]
    rw [if_neg (by omega)]
    have key : ∀ t4 : Tournament G,
        t4.generator = S.freezeBracket
          (if S.hasGenerateBracket t1.generator then S.generateBracket t1.generator
            else t1.generator) →
        t4.availableMatches = some (freshMap (S.getUsers t1.generator false) []) →
        t4.lastActionTimes = some (freshMap (S.getUsers t1.generator false) w.now) →
        t4.isTournamentStarted = true →
        ∃ t2, ((t4.update S w).andThen fun _ t5 => Res.ok true t5) = .ok true t2 ∧
          t2.isTournamentStarted = true ∧ t2.generator = S.freezeBracket
          (if S.hasGenerateBracket t1.generator then S.generateBracket t1.generator
            else t1.generator) := by
      intro t4 hg hav hla hst
      obtain ⟨t5, h5⟩ := update_returns S w t4 ms _ _ (by rw [hg]; exact hms) hav hla
        (by
          intro u hu
          rw [hg] at hu
          rw [freshMap_get, if_pos (hsub u hu)]
          rfl)
        (by rw [hg]; exact hmem)
      refine ⟨t5, by rw [h5]; rfl, ?_, ?_⟩
      · have := congrArg Core.isTournamentStarted (update_core S w t4)
        rw [h5] at this
        exact this.trans hst
      · have := congrArg Core.generator (update_core S w t4)
        rw [h5] at this
        exact this.trans hg
    refine key _ ?_ ?_ ?_ ?_
    · exact clearIfSet_generator _ _
    · exact clearIfSet_availableMatches _ _
    · exact clearIfSet_lastActionTimes _ _
    · exact clearIfSet_isTournamentStarted _ _

set_option maxRecDepth 100000 in
/-- C8, witness: a round robin with one member does not start, with two
members it does. -/
theorem startTournament_needs_two_members_witness :
    formingOne.startTournament roundRobin (calmWorld 9000) (.caller 0) =
      .ok false (formingOne.say (.reply 0 .NotEnoughUsers)) ∧
    ∃ t2, formingTwo.startTournament roundRobin (calmWorld 9000) (.caller 0) = .ok true t2 ∧
      t2.isTournamentStarted = true ∧
      t2.generator = roundRobin.freezeBracket
        (if roundRobin.hasGenerateBracket formingTwo.generator
          then roundRobin.generateBracket formingTwo.generator else formingTwo.generator) :=
  ⟨(startTournament_needs_two_members roundRobin (calmWorld 9000) 0 formingOne formingOne
      (by decide) (by decide)).2.1 (by decide),
    (startTournament_needs_two_members roundRobin (calmWorld 9000) 0 formingTwo formingTwo
      (by decide) (by decide)).2.2 (by decide) [(1, 2)] (by rfl) (by decide) (by decide)⟩

set_option maxRecDepth 100000 in
/-- C9, counterexample: a forming round robin with two members is force-ended;
afterwards `startTournament` returns true and the tournament is started,
`addUser` adds a third member, and `setAutoStartTimeout` schedules a timer;
the bracket timer set before the end is still scheduled. -/
theorem forceEnded_forming_still_starts :
    formingEnded.isEnded = true ∧ formingEnded.isTournamentStarted = false ∧
    (formingEnded.startTournament roundRobin (calmWorld 9000) (.caller 0)).value = some true ∧
    (LifecycleCall.run roundRobin (calmWorld 9000) formingEnded
      (.startTournament (.caller 0))).isTournamentStarted = true ∧
    roundRobin.getUsers formingEnded.generator false = [1, 2] ∧
    roundRobin.getUsers (LifecycleCall.run roundRobin (calmWorld 9000) formingEnded
      (.addUser 3 false (.caller 0))).generator false = [1, 2, 3] ∧
    formingEnded.timers = [⟨2, .bracketUpdate, 2000⟩] ∧
    (LifecycleCall.run roundRobin (calmWorld 9000) formingEnded
      (.setAutoStartTimeout (.finite 60000) (.caller 0))).timers =
        [⟨2, .bracketUpdate, 2000⟩, ⟨3, .autoStart (.caller 0), 60000⟩] := by
  decide

/-- C9, amended: once `isEnded` is true, none of startTournament, addUser,
removeUser, replaceUser, setGenerator, disqualifyUser, setAutoStartTimeout and
setAutoDisqualifyTimeout clears it; if the tournament had started as well,
each of them leaves it started and schedules no timer, and startTournament,
setGenerator and setAutoStartTimeout only reply their error. -/
theorem ended_is_never_cleared (S : Strategy G) (w : World) (t : Tournament G)
    (he : t.isEnded = true) :
    (∀ c : LifecycleCall G, (c.run S w t).isEnded = true) ∧
    (t.isTournamentStarted = true →
      (∀ c : LifecycleCall G, (c.run S w t).isTournamentStarted = true ∧
        ∀ x ∈ (c.run S w t).timers, x ∈ t.timers) ∧
      (∀ o, t.startTournament S w (.caller o) = .ok false (t.say (.reply o .AlreadyStarted))) ∧
      (∀ g o, t.setGenerator S w g (.caller o) = .ok none (t.say (.reply o .BracketFrozen))) ∧
      (∀ timeout o, t.setAutoStartTimeout w timeout (.caller o) =
        .ok false (t.say (.reply o .AlreadyStarted)))) := by
  refine ⟨fun c => (lifecycleCall_mono S w t c).ended he, fun hs => ⟨fun c => ?_, ?_, ?_, ?_⟩⟩
  · exact ⟨(lifecycleCall_mono S w t c).started hs, (lifecycleCall_mono S w t c).timers he hs⟩
  · intro o
    simp [Tournament.startTournament, hs, sendReply]
  · intro g o
    simp [Tournament.setGenerator, hs, sendReply]
  · intro timeout o
    simp [Tournament.setAutoStartTimeout, hs, sendReply]

set_option maxRecDepth 100000 in
/-- C9, witness: a started round robin of three players, force-ended. -/
theorem ended_is_never_cleared_witness :
    startedEnded.isEnded = true ∧ startedEnded.isTournamentStarted = true ∧
    (∀ c : LifecycleCall RoundRobin,
      (c.run roundRobin (calmWorld 9500) startedEnded).isEnded = true) :=
  ⟨by decide, by decide,
    (ended_is_never_cleared roundRobin (calmWorld 9500) startedEnded (by decide)).1⟩

set_option maxRecDepth 100000 in
/-- C10, counterexample: over a round robin that does not reject joins and
leaves once frozen, `addUser` on a started tournament returns and adds a
fourth member, and `removeUser` removes a member. -/
theorem lax_strategy_joins_after_start :
    laxStarted.isTournamentStarted = true ∧
    laxRoundRobin.getUsers laxStarted.generator false = [1, 2, 3] ∧
    (laxStarted.addUser laxRoundRobin (calmWorld 9100) 4 false (.caller 4)).returned = true ∧
    laxRoundRobin.getUsers
      (laxStarted.addUser laxRoundRobin (calmWorld 9100) 4 false (.caller 4)).state.generator
      false = [1, 2, 3, 4] ∧
    laxRoundRobin.getUsers
      (laxStarted.removeUser laxRoundRobin (calmWorld 9100) 1 (.caller 1)).state.generator
      false = [2, 3] := by
  decide

/-- C10, amended: on a started tournament `setGenerator` replies `BracketFrozen`
and `setAutoStartTimeout` replies `AlreadyStarted`, both changing nothing
else; `removeUser` and `addUser` fail exactly when the strategy rejects the
call, and then reply the error and leave every field but the strategy state
the strategy returned. -/
theorem started_rejects_forming_calls (S : Strategy G) (w : World) (t : Tournament G)
    (o : Nat) (hs : t.isTournamentStarted = true) :
    (∀ g, t.setGenerator S w g (.caller o) = .ok none (t.say (.reply o .BracketFrozen))) ∧
    (∀ timeout, t.setAutoStartTimeout w timeout (.caller o) =
      .ok false (t.say (.reply o .AlreadyStarted))) ∧
    (∀ u e, (S.removeUser t.generator u).2 = some e →
      t.removeUser S w u (.caller o) =
        .ok () (({ t with generator := (S.removeUser t.generator u).1 }).say
          (.reply o (.strategy e)))) ∧
    (∀ u alts e, (S.addUser t.generator u).2 = some e →
      ∃ err t1, t.addUser S w u alts (.caller o) = .ok () (t1.say (.reply o err)) ∧
        (t1 = t ∨ t1 = { t with generator := (S.addUser t.generator u).1 })) := by
  refine ⟨fun g => ?_, fun timeout => ?_, fun u e he => ?_, fun u alts e he => ?_⟩
  · simp [Tournament.setGenerator, hs, sendReply]
  · simp [Tournament.setAutoStartTimeout, hs, sendReply]
  · simp [Tournament.removeUser, he, sendReply]
  · unfold Tournament.addUser
    split
    · exact ⟨_, t, rfl, Or.inl rfl⟩
    · dsimp only
      split
      · exact ⟨_, t, rfl, Or.inl rfl⟩
      · split
        · exact ⟨_, t, rfl, Or.inl rfl⟩
        · rw [he]
          exact ⟨_, _, rfl, Or.inr rfl⟩

set_option maxRecDepth 100000 in
/-- C10, witness: the round robin rejects `removeUser(1)` once frozen. -/
theorem started_rejects_forming_calls_witness :
    threeStarted.isTournamentStarted = true ∧
    (roundRobin.removeUser threeStarted.generator 1).2 = some 1 ∧
    threeStarted.removeUser roundRobin (calmWorld 9100) 1 (.caller 7) =
      .ok () (({ threeStarted with
        generator := (roundRobin.removeUser threeStarted.generator 1).1 }).say
          (.reply 7 (.strategy 1))) :=
  ⟨by decide, by decide,
    (started_rejects_forming_calls roundRobin (calmWorld 9100) threeStarted 7
      (by decide)).2.2.1 1 1 (by decide)⟩

set_option maxRecDepth 100000 in
/-- C11, counterexample: a started round robin of three players is
force-ended; afterwards `challenge(1, 2)` returns, marks 1 and 2 busy and
starts a setup, and `disqualifyUser(3)` returns true and marks 3
disqualified. -/
theorem ended_tournament_still_challenges :
    startedEnded.isEnded = true ∧
    (startedEnded.challenge roundRobin (calmWorld 9600) 1 2 (.caller 1)).returned = true ∧
    (startedEnded.challenge roundRobin (calmWorld 9600) 1 2 (.caller 1)).state.setups =
      [.challenge 1 2 (.caller 1)] ∧
    (startedEnded.challenge roundRobin (calmWorld 9600) 1 2 (.caller 1)).state.busy
      roundRobin 1 = true ∧
    (startedEnded.challenge roundRobin (calmWorld 9600) 1 2 (.caller 1)).state.busy
      roundRobin 2 = true ∧
    (startedEnded.disqualifyUser roundRobin (calmWorld 9600) 3 (.caller 9) (some 0)).value =
      some true ∧
    (startedEnded.disqualifyUser roundRobin (calmWorld 9600) 3 (.caller 9)
      (some 0)).state.disqualifiedUsers = some [(1, false), (2, false), (3, true)] := by
  decide

/-- C11, amended: on a tournament that has not started, `challenge`,
`cancelChallenge`, `acceptChallenge` and `runAutoDisqualify` reply
`NotStarted` and change nothing else; `disqualifyUser` has no guard of its
own and fails when the strategy rejects the call: it then returns false,
replies the strategy's error and keeps the strategy state the strategy
returned. -/
theorem forming_rejects_started_calls (S : Strategy G) (w : World) (o : Nat)
    (t : Tournament G) (hs : t.isTournamentStarted = false) :
    (∀ a b, t.challenge S w a b (.caller o) = .ok () (t.say (.reply o .NotStarted))) ∧
    (∀ u, t.cancelChallenge S w u (.caller o) = .ok () (t.say (.reply o .NotStarted))) ∧
    (∀ u, t.acceptChallenge w u (.caller o) = .ok () (t.say (.reply o .NotStarted))) ∧
    t.runAutoDisqualify S w (.caller o) = .ok (some false) (t.say (.reply o .NotStarted)) ∧
    (∀ p reason e, (S.disqualifyUser t.generator p).2 = some e →
      t.disqualifyUser S w p (.caller o) reason =
        .ok false (({ t with generator := (S.disqualifyUser t.generator p).1 }).say
          (.reply o (.strategy e)))) := by
  refine ⟨fun a b => ?_, fun u => ?_, fun u => ?_, ?_, fun p reason e he => ?_⟩
  · simp [Tournament.challenge, hs, sendReply]
  · simp [Tournament.cancelChallenge, hs, sendReply]
  · simp [Tournament.acceptChallenge, hs, sendReply]
  · simp [Tournament.runAutoDisqualify, hs, sendReply]
  · simp [Tournament.disqualifyUser, he, sendReply]

set_option maxRecDepth 100000 in
/-- C11, witness: a forming round robin with two members; its generator
rejects `disqualifyUser` while the bracket is not frozen. -/
theorem forming_rejects_started_calls_witness :
    formingTwo.challenge roundRobin (calmWorld 6000) 1 2 (.caller 7) =
      .ok () (formingTwo.say (.reply 7 .NotStarted)) ∧
    formingTwo.disqualifyUser roundRobin (calmWorld 6000) 1 (.caller 7) (some 0) =
      .ok false (({ formingTwo with
        generator := (roundRobin.disqualifyUser formingTwo.generator 1).1 }).say
          (.reply 7 (.strategy 4))) :=
  ⟨(forming_rejects_started_calls roundRobin (calmWorld 6000) 7 formingTwo (by decide)).1 1 2,
    (forming_rejects_started_calls roundRobin (calmWorld 6000) 7 formingTwo
      (by decide)).2.2.2.2 1 (some 0) 4 (by decide)⟩

set_option maxRecDepth 100000 in
/-- C12, counterexample: a tournament of two started at time 9000 arms the
bracket timer; `forceEnd` at once leaves that timer scheduled.  In the same
tournament the match is won at time 9010, `onTournamentEnd` runs, and the
bracket timer armed at 9004 is still scheduled. -/
theorem ended_keeps_bracket_timer :
    twoStarted.timers = [⟨3, .bracketUpdate, 2000⟩] ∧
    twoStarted.forceEnd.returned = true ∧
    twoStarted.forceEnd.state.isEnded = true ∧
    twoStarted.forceEnd.state.timers = [⟨3, .bracketUpdate, 2000⟩] ∧
    twoStarted.forceEnd.state.bracketUpdateTimer = some 3 ∧
    twoWon.returned = true ∧
    twoWon.state.isEnded = true ∧
    twoWon.state.timers = [⟨5, .bracketUpdate, 2000⟩] ∧
    twoWon.state.bracketUpdateTimer = some 5 := by
  decide

/-- C12, amended: `forceEnd` cancels the timer named by `autoDisqualifyTimer`
when the tournament has started and the one named by `autoStartTimeout` when
it has not, `onTournamentEnd` cancels the one named by `autoDisqualifyTimer`,
and each keeps every other scheduled timer, the bracket-update timer among
them; both set `isEnded`.  On an ended tournament a sweep schedules no timer,
and the bracket timer, when it fires, only clears its handle. -/
theorem end_cancels_only_its_own_timer (S : Strategy G) (w : World) (o : Output)
    (t : Tournament G) :
    (∀ x, x ∈ t.forceEnd.state.timers ↔ x ∈ t.timers ∧
      some x.id ≠ (if t.isTournamentStarted then t.autoDisqualifyTimer
        else t.autoStartTimeout)) ∧
    (∀ t1, t.forceEnd = .ok () t1 → t1.isEnded = true) ∧
    (∀ x, x ∈ (t.onTournamentEnd S).timers ↔ x ∈ t.timers ∧
      some x.id ≠ t.autoDisqualifyTimer) ∧
    (t.onTournamentEnd S).isEnded = true ∧
    (t.isEnded = true → t.isTournamentStarted = true →
      ∀ x ∈ (t.runAutoDisqualify S w o).state.timers, x ∈ t.timers) ∧
    (t.isEnded = true → ∀ h, (t.clearTimeout h).fireBracketTimer S w =
      .ok () { t.clearTimeout h with bracketUpdateTimer := none }) := by
  refine ⟨?_, ?_, ?_, ?_, ?_, ?_⟩
  · intro x
    unfold Tournament.forceEnd
    by_cases hs : t.isTournamentStarted = true
    · simp only [hs, if_true]
      cases hip : (t.clearIfSet t.autoDisqualifyTimer).inProgressMatches with
      | none =>
        simp only [hip]
        exact clearIfSet_timers t _ x
      | some ip =>
        simp only [hip]
        show x ∈ (detachAll ip (t.clearIfSet t.autoDisqualifyTimer)).timers ↔ _
        rw [(detachAll_timers ip _).1]
        exact clearIfSet_timers t _ x
    · simp only [hs]
      exact clearIfSet_timers t _ x
  · intro t1 h
    unfold Tournament.forceEnd at h
    obtain ⟨u, t2, _, h2⟩ := Res.andThen_eq_ok h
    injection h2 with _ h2
    rw [← h2]
    rfl
  · intro x
    unfold Tournament.onTournamentEnd
    dsimp only
    exact clearIfSet_timers
      ({ t.say (.tournamentEnd (S.getResults t.generator) (t.getBracketData S)) with
        isEnded := true }) t.autoDisqualifyTimer x
  · unfold Tournament.onTournamentEnd
    dsimp only
    show (Tournament.clearIfSet _ _).isEnded = true
    rw [clearIfSet_isEnded]
  · intro he hs
    exact (runAutoDisqualify_mono S w o t).timers he hs
  · intro he h
    unfold Tournament.fireBracketTimer
    exact update_of_ended S w _ he

/-- C13: in a tournament that has not started, `setGenerator(g, output)`
offers every current member to `g` in order.  If a member is rejected it
returns `undefined`, and the state is the old one with one reply per
rejection: strategy, membership, dirty flags and bracket cache are unchanged.
If every member is accepted it returns true and the tournament's strategy is
`g` with every prior member added. -/
theorem setGenerator_all_or_nothing (S : Strategy G) (w : World) (g : G) (o : Nat)
    (t : Tournament G) (hs : t.isTournamentStarted = false) :
    ((∃ l1 u l2 e, S.getUsers t.generator false = l1 ++ u :: l2 ∧
        (S.addUser (offerAll S l1 g) u).2 = some e) →
      ∃ es, es ≠ [] ∧ t.setGenerator S w g (.caller o) =
        .ok none (t.sayAll (es.map fun e => Event.reply o (.strategy e)))) ∧
    ((∀ l1 u l2, S.getUsers t.generator false = l1 ++ u :: l2 →
        (S.addUser (offerAll S l1 g) u).2 = none) →
      ∃ t1, t.setGenerator S w g (.caller o) = .ok (some true) t1 ∧
        t1.generator = offerAll S (S.getUsers t.generator false) g ∧
        t1.isTournamentStarted = false) := by
  constructor
  · rintro ⟨l1, u, l2, e, hl, he⟩
    have hne : (addAll S (S.getUsers t.generator false) g []).2 ≠ [] := by
      intro h
      have := (addAll_snd_nil_iff S _ g).mp h l1 u l2 hl
      rw [he] at this
      cases this
    refine ⟨_, hne, ?_⟩
    unfold Tournament.setGenerator
    rw [hs]
    simp only [Bool.false_eq_true, if_false]
    rw [if_pos hne, replyAll_caller]
    rfl
  · intro h
    have hnil := (addAll_snd_nil_iff S _ g).mpr h
    unfold Tournament.setGenerator
    rw [hs]
    simp only [Bool.false_eq_true, if_false]
    rw [if_neg (by rw [hnil]; simp)]
    have key : ∀ t0 : Tournament G, t0.isTournamentStarted = false →
        t0.generator = (addAll S (S.getUsers t.generator false) g []).1 →
        ∃ t1, ((t0.update S w).andThen fun _ t2 => Res.ok (some true) t2) =
            .ok (some true) t1 ∧
          t1.generator = offerAll S (S.getUsers t.generator false) g ∧
          t1.isTournamentStarted = false := by
      intro t0 h0 hg
      obtain ⟨t1, h1⟩ := update_forming_returns S w t0 h0
      have hc := update_core S w t0
      rw [h1] at hc
      refine ⟨t1, by rw [h1]; rfl, ?_, ?_⟩
      · rw [← addAll_fst S _ g []]
        exact (congrArg Core.generator hc).trans hg
      · exact (congrArg Core.isTournamentStarted hc).trans h0
    exact key _ (by rfl) rfl

set_option maxRecDepth 100000 in
/-- C13, witness: a candidate round robin that already holds player 2 rejects
one of the members 1 and 2; an empty one accepts both. -/
theorem setGenerator_all_or_nothing_witness :
    (∃ es, es ≠ [] ∧ formingTwo.setGenerator roundRobin (calmWorld 6000)
        ⟨[2], false, [], [], []⟩ (.caller 7) =
      .ok none (formingTwo.sayAll (es.map fun e => Event.reply 7 (.strategy e)))) ∧
    ∃ t1, formingTwo.setGenerator roundRobin (calmWorld 6000) emptyRoundRobin (.caller 7) =
        .ok (some true) t1 ∧
      t1.generator = offerAll roundRobin (roundRobin.getUsers formingTwo.generator false)
        emptyRoundRobin ∧
      t1.isTournamentStarted = false :=
  ⟨(setGenerator_all_or_nothing roundRobin (calmWorld 6000) ⟨[2], false, [], [], []⟩ 7
      formingTwo (by decide)).1 ⟨[1], 2, [], 2, by decide, by decide⟩,
    (setGenerator_all_or_nothing roundRobin (calmWorld 6000) emptyRoundRobin 7
      formingTwo (by decide)).2 (by
        intro l1 u l2 hl
        have hu : roundRobin.getUsers formingTwo.generator false = [1, 2] := by decide
        rw [hu] at hl
        match l1, hl with
        | [], hl =>
          simp only [List.nil_append, List.cons.injEq] at hl
          rw [← hl.1]
          decide
        | [a], hl =>
          simp only [List.cons_append, List.nil_append, List.cons.injEq] at hl
          rw [← hl.1, ← hl.2.1]
          decide
        | a :: b :: l, hl =>
          simp at hl)⟩

/-- C14: `addUser(user, isAllowAlts, output)` replies `UserNotNamed` when the
user is not named; else `Full` when the cap is non-zero and the member count
has reached it; else `AltUserAlreadyAdded` when alts are not allowed and a
member has the same latest IP; else the strategy's error when the strategy
rejects.  In the first three cases the state is the old one with the reply
added; in the fourth the strategy state is the one the rejecting strategy
returned, so the membership is unchanged when the strategy leaves it so, and
nothing else changes but the reply: no flag is set and no join is sent. -/
theorem addUser_rejections (S : Strategy G) (w : World) (u : User) (alts : Bool) (o : Nat)
    (t : Tournament G) :
    (w.named u = false →
      t.addUser S w u alts (.caller o) = .ok () (t.say (.reply o .UserNotNamed))) ∧
    (w.named u = true → t.playerCap ≠ 0 →
      t.playerCap ≤ (S.getUsers t.generator false).length →
      t.addUser S w u alts (.caller o) = .ok () (t.say (.reply o .Full))) ∧
    (w.named u = true →
      ¬ (t.playerCap ≠ 0 ∧ t.playerCap ≤ (S.getUsers t.generator false).length) →
      alts = false →
      (∃ m ∈ S.getUsers t.generator false, w.latestIp m = w.latestIp u) →
      t.addUser S w u alts (.caller o) = .ok () (t.say (.reply o .AltUserAlreadyAdded))) ∧
    (w.named u = true →
      ¬ (t.playerCap ≠ 0 ∧ t.playerCap ≤ (S.getUsers t.generator false).length) →
      (alts = true ∨ ∀ m ∈ S.getUsers t.generator false, w.latestIp m ≠ w.latestIp u) →
      ∀ e, (S.addUser t.generator u).2 = some e →
        t.addUser S w u alts (.caller o) =
          .ok () (({ t with generator := (S.addUser t.generator u).1 }).say
            (.reply o (.strategy e))) ∧
        (S.getUsers (S.addUser t.generator u).1 false = S.getUsers t.generator false →
          S.getUsers (t.addUser S w u alts (.caller o)).state.generator false =
            S.getUsers t.generator false)) := by
  refine ⟨fun hn => ?_, fun hn hc hl => ?_, fun hn hf ha hm => ?_, fun hn hf ha e he => ?_⟩
  · simp [Tournament.addUser, hn, sendReply]
  · unfold Tournament.addUser
    simp only [hn, Bool.not_true, Bool.false_eq_true, if_false]
    rw [if_pos ⟨hc, hl⟩]
    rfl
  · unfold Tournament.addUser
    simp only [hn, Bool.not_true, Bool.false_eq_true, if_false]
    rw [if_neg hf, if_pos]
    · rfl
    · refine ⟨by simp [ha], ?_⟩
      obtain ⟨m, hm1, hm2⟩ := hm
      exact List.any_eq_true.mpr ⟨m, hm1, by simp [hm2]⟩
  · have hno : ¬ ((!alts) = true ∧
        (S.getUsers t.generator false).any (fun m => w.latestIp m = w.latestIp u) = true) := by
      rintro ⟨h1, h2⟩
      rcases ha with ha | ha
      · simp [ha] at h1
      · obtain ⟨m, hm1, hm2⟩ := List.any_eq_true.mp h2
        exact ha m hm1 (by simpa using hm2)
    have key : t.addUser S w u alts (.caller o) =
        .ok () (({ t with generator := (S.addUser t.generator u).1 }).say
          (.reply o (.strategy e))) := by
      unfold Tournament.addUser
      simp only [hn, Bool.not_true, Bool.false_eq_true, if_false]
      rw [if_neg hf, if_neg hno]
      simp only [he]
      rfl
    refine ⟨key, fun hsame => ?_⟩
    rw [key]
    exact hsame

set_option maxRecDepth 100000 in
/-- C16, counterexample: the bracket was last recomputed at 5000; `update()`
finds it dirty at 6500, 500 ms before the interval ends, and arms a timer of
2000 ms; a second `update()` at 6999 cancels it and arms another of 2000 ms,
with 1 ms of the interval left. -/
theorem deferred_call_waits_full_interval :
    dirtyForming.lastBracketUpdate = 5000 ∧ dirtyForming.isBracketInvalidated = true ∧
    (dirtyForming.update roundRobin (calmWorld 6500)).state.timers =
      [⟨1, .bracketUpdate, 2000⟩] ∧
    ((dirtyForming.update roundRobin (calmWorld 6500)).state.update roundRobin
      (calmWorld 6999)).state.timers = [⟨2, .bracketUpdate, 2000⟩] ∧
    ((dirtyForming.update roundRobin (calmWorld 6500)).state.update roundRobin
      (calmWorld 6999)).state.isBracketInvalidated = true := by
  decide

/-- C16, amended: when `update()` on a tournament that has not ended finds
the bracket dirty at a time before `lastBracketUpdate` plus the interval, it
takes no snapshot and leaves the bracket dirty, cancels the timer named by
`bracketUpdateTimer` and arms one new timer, whose delay is the full interval
BRACKET_MINIMUM_UPDATE_INTERVAL; if every bracket timer scheduled before was
the one named by the handle, the new timer is the only bracket timer.  When
that timer fires a full interval later, with the clock not behind the last
snapshot, the bracket is recomputed and is no longer dirty. -/
theorem update_defers_by_full_interval (S : Strategy G) (w : World) (t : Tournament G)
    (he : t.isEnded = false) (hd : t.isBracketInvalidated = true)
    (hlt : w.now < t.lastBracketUpdate + BRACKET_MINIMUM_UPDATE_INTERVAL) :
    (t.update S w).state.snapshots = t.snapshots ∧
    (t.update S w).state.isBracketInvalidated = true ∧
    (t.update S w).state.lastBracketUpdate = t.lastBracketUpdate ∧
    (t.update S w).state.bracketUpdateTimer = some t.nextTimerId ∧
    (t.update S w).state.timers = (t.clearIfSet t.bracketUpdateTimer).timers ++
      [⟨t.nextTimerId, .bracketUpdate, BRACKET_MINIMUM_UPDATE_INTERVAL⟩] ∧
    ((∀ x ∈ t.timers, x.kind = .bracketUpdate → some x.id = t.bracketUpdateTimer) →
      ∀ x ∈ (t.update S w).state.timers, x.kind = .bracketUpdate →
        x = ⟨t.nextTimerId, .bracketUpdate, BRACKET_MINIMUM_UPDATE_INTERVAL⟩) ∧
    (∀ w2 : World, t.lastBracketUpdate ≤ w.now →
      w2.now = w.now + BRACKET_MINIMUM_UPDATE_INTERVAL →
      (((t.update S w).state.clearTimeout t.nextTimerId).fireBracketTimer S w2).state.isBracketInvalidated
        = false ∧
      (((t.update S w).state.clearTimeout t.nextTimerId).fireBracketTimer S w2).state.lastBracketUpdate
        = w2.now) := by
  have hu := (update_throttle S w t he).trans ((updateBracket_throttle S w t).2.1 hd hlt)
  have k1 : (t.update S w).state.snapshots = t.snapshots := congrArg Throttle.snapshots hu
  have k2 : (t.update S w).state.isBracketInvalidated = t.isBracketInvalidated :=
    congrArg Throttle.isBracketInvalidated hu
  have k3 : (t.update S w).state.lastBracketUpdate = t.lastBracketUpdate :=
    congrArg Throttle.lastBracketUpdate hu
  have k4 : (t.update S w).state.bracketUpdateTimer = some t.nextTimerId :=
    congrArg Throttle.bracketUpdateTimer hu
  have k5 : (t.update S w).state.timers = (t.clearIfSet t.bracketUpdateTimer).timers ++
      [⟨t.nextTimerId, .bracketUpdate, BRACKET_MINIMUM_UPDATE_INTERVAL⟩] :=
    congrArg Throttle.timers hu
  have k6 : (t.update S w).state.isEnded = t.isEnded := congrArg Throttle.isEnded hu
  refine ⟨k1, k2.trans hd, k3, k4, k5, ?_, ?_⟩
  · intro hone x hx hk
    rw [k5] at hx
    rcases List.mem_append.mp hx with h1 | h1
    · have h2 := (clearIfSet_timers t _ x).mp h1
      exact absurd (hone x h2.1 hk) h2.2
    · simpa using h1
  · intro w2 hle hw2
    have hu2 := update_throttle S w2
      { (t.update S w).state.clearTimeout t.nextTimerId with bracketUpdateTimer := none }
      (k6.trans he)
    have hb := (updateBracket_throttle S w2
      { (t.update S w).state.clearTimeout t.nextTimerId with bracketUpdateTimer := none }).2.2
      (k2.trans hd) (by
        show (t.update S w).state.lastBracketUpdate + BRACKET_MINIMUM_UPDATE_INTERVAL ≤ w2.now
        rw [k3, hw2]
        omega)
    have hall := hu2.trans hb
    exact ⟨congrArg Throttle.isBracketInvalidated hall,
      congrArg Throttle.lastBracketUpdate hall⟩

set_option maxRecDepth 100000 in
/-- C16, witness: the dirty bracket last recomputed at 5000 is updated at
6500. -/
theorem update_defers_by_full_interval_witness :
    (dirtyForming.update roundRobin (calmWorld 6500)).state.bracketUpdateTimer = some 1 ∧
    (dirtyForming.update roundRobin (calmWorld 6500)).state.timers =
      (dirtyForming.clearIfSet dirtyForming.bracketUpdateTimer).timers ++
        [⟨dirtyForming.nextTimerId, .bracketUpdate, BRACKET_MINIMUM_UPDATE_INTERVAL⟩] :=
  have key := update_defers_by_full_interval roundRobin (calmWorld 6500) dirtyForming
    (by decide) (by decide) (by decide)
  ⟨key.2.2.2.1, key.2.2.2.2.1⟩

set_option maxRecDepth 100000 in
/-- C17: in a started tournament of two, `replaceUser(1, 5)` returns and
neither flag is dirty without a recompute pending; `updateFor(5)` then sends
the first update message to the connection and throws on the missing lists
of player 5: no `updateEnd` marker is sent and no error is reported to the
room. -/
theorem updateFor_throws_for_replacement :
    twoReplaced.returned = true ∧
    twoReplaced.state.isEnded = false ∧
    twoReplaced.state.isBracketInvalidated = false ∧
    twoReplaced.state.isAvailableMatchesInvalidated = false ∧
    roundRobin.getUsers twoReplaced.state.generator false = [5, 2] ∧
    twoReplaced.state.availableMatchesCache =
      some ⟨[(1, [2]), (2, [])], [(1, []), (2, [1])]⟩ ∧
    twoResynced.returned = false ∧
    twoResynced.state.log = twoReplaced.state.log ++
      [.toConnection 5 none (.update true true twoReplaced.state.bracketCache)] := by
  decide

/-- C18: on a started tournament `challenge(from, to)` replies `InvalidMatch`
and changes nothing else unless `to` is in the `availableMatches` entry of
`from`; when it is and one of the two is busy, it reports the internal error
to the room and changes nothing else; when neither is busy both are marked
busy before the ghost purge and `update()` run, and when the call returns the
setup of `from` is among the unresolved setups. -/
theorem challenge_checks (S : Strategy G) (hS : LawfulBusy S) (w : World) (a b : User)
    (o : Nat) (t : Tournament G) (av : JMap (List User))
    (hst : t.isTournamentStarted = true) (hav : t.availableMatches = some av) :
    (¬ listedIn av a b →
      t.challenge S w a b (.caller o) = .ok () (t.say (.reply o .InvalidMatch))) ∧
    (listedIn av a b → (t.busy S a = true ∨ t.busy S b = true) →
      t.challenge S w a b (.caller o) = .ok () (t.say .backendBreaks)) ∧
    (listedIn av a b → t.busy S a = false → t.busy S b = false →
      (t.marked S a b).busy S a = true ∧ (t.marked S a b).busy S b = true ∧
      t.challenge S w a b (.caller o) =
        (((t.marked S a b).purgeGhostUsers S w).andThen fun _ t3 =>
          (t3.update S w).andThen fun _ t4 =>
            .ok () { t4 with setups := t4.setups ++ [.challenge a b (.caller o)] }) ∧
      ∀ t1, t.challenge S w a b (.caller o) = .ok () t1 →
        Setup.challenge a b (.caller o) ∈ t1.setups) := by
  refine ⟨fun hl => ?_, fun hl hb => ?_, fun hl ha hb => ?_⟩
  · refine challenge_unlisted S w a b o t av hst hav ?_
    intro e he hbe
    exact hl ⟨e, he, hbe⟩
  · obtain ⟨e, he, hbe⟩ := hl
    unfold Tournament.challenge
    rw [hst, hav]
    simp only [he, Bool.not_true, Bool.false_eq_true, if_false, decide_eq_true_eq.mpr hbe]
    rw [if_pos (by simpa using hb)]
  · obtain ⟨e, he, hbe⟩ := hl
    have hm : ∀ x, (t.marked S a b).busy S x =
        Function.update (Function.update (t.busy S) a true) b true x := by
      intro x
      show ((t.setBusy S a true).setBusy S b true).busy S x = _
      rw [busy_setBusy S hS, busy_setBusy S hS]
    have heq : t.challenge S w a b (.caller o) =
        (((t.marked S a b).purgeGhostUsers S w).andThen fun _ t3 =>
          (t3.update S w).andThen fun _ t4 =>
            .ok () { t4 with setups := t4.setups ++ [.challenge a b (.caller o)] }) := by
      unfold Tournament.challenge
      rw [hst, hav]
      simp only [he, Bool.not_true, Bool.false_eq_true, if_false, decide_eq_true_eq.mpr hbe]
      rw [if_neg (by simp [ha, hb])]
      rfl
    refine ⟨?_, ?_, heq, ?_⟩
    · rw [hm]
      by_cases hab : a = b
      · subst hab; simp
      · simp [Function.update_noteq hab]
    · rw [hm]
      simp
    · intro t1 h1
      rw [heq] at h1
      obtain ⟨_, t3, _, h1⟩ := Res.andThen_eq_ok h1
      obtain ⟨_, t4, _, h1⟩ := Res.andThen_eq_ok h1
      injection h1 with _ h1
      rw [← h1]
      simp

set_option maxRecDepth 100000 in
/-- C18, witness: in the started round robin of three, 2 is in the entry of 1
and neither is busy. -/
theorem challenge_checks_witness :
    (threeStarted.marked roundRobin 1 2).busy roundRobin 1 = true ∧
    (threeStarted.marked roundRobin 1 2).busy roundRobin 2 = true ∧
    ∀ t1, threeStarted.challenge roundRobin (calmWorld 9001) 1 2 (.caller 1) = .ok () t1 →
      Setup.challenge 1 2 (.caller 1) ∈ t1.setups :=
  have key := (challenge_checks roundRobin roundRobin_contract.lawful (calmWorld 9001) 1 2 1
    threeStarted [(1, [2, 3]), (2, [3]), (3, [])] (by decide) (by decide)).2.2
    ⟨[2, 3], by decide, by decide⟩ (by decide) (by decide)
  ⟨key.1, key.2.1, key.2.2.2⟩

/-- C19: when the setup failed, `finishChallenge(from, to, output, false)`
leaves both players not busy and writes no `pendingChallenges` entry, and
when it returns on a started tournament that has not ended the available
matches have been recomputed and sent and the dirty flag is cleared.  When
the setup succeeded, the entries of `from` and `to` become `{to, team}` and
`{from, team}` with the team of `from`, both last-action times are the
current time, and every busy flag is as it was. -/
theorem finishChallenge_outcomes (S : Strategy G) (hS : LawfulBusy S) (w : World)
    (a b : User) (t : Tournament G) :
    ((t.finishChallenge S w a b false).state.busy S a = false ∧
      (t.finishChallenge S w a b false).state.busy S b = false ∧
      (t.finishChallenge S w a b false).state.pendingChallenges = t.pendingChallenges ∧
      (t.isEnded = false → t.isTournamentStarted = true →
        ∀ t1, t.finishChallenge S w a b false = .ok () t1 →
          t1.isAvailableMatchesInvalidated = false ∧
          ∃ c, t1.availableMatchesCache = some c ∧
            ∃ l, t1.log = l ++ (cacheEvents c ++ [Event.updateEnd]))) ∧
    (∀ pc la, t.pendingChallenges = some pc → t.lastActionTimes = some la →
      (t.finishChallenge S w a b true).state.pendingChallenges =
        some ((pc.set a (some (.toUser b (w.team a)))).set b
          (some (.fromUser a (w.team a)))) ∧
      (a ≠ b → pendOf ((pc.set a (some (.toUser b (w.team a)))).set b
          (some (.fromUser a (w.team a)))) a = some (.toUser b (w.team a))) ∧
      pendOf ((pc.set a (some (.toUser b (w.team a)))).set b
          (some (.fromUser a (w.team a)))) b = some (.fromUser a (w.team a)) ∧
      (∃ la1, (t.finishChallenge S w a b true).state.lastActionTimes = some la1 ∧
        la1.get a = some w.now ∧ la1.get b = some w.now) ∧
      ∀ x, (t.finishChallenge S w a b true).state.busy S x = t.busy S x) := by
  constructor
  · have hfail : t.finishChallenge S w a b false =
        ({ (t.setBusy S a false).setBusy S b false with
          isAvailableMatchesInvalidated := true }).update S w := by
      unfold Tournament.finishChallenge
      rfl
    have hc := update_core S w ({ (t.setBusy S a false).setBusy S b false with
      isAvailableMatchesInvalidated := true })
    rw [← hfail] at hc
    have hg : (t.finishChallenge S w a b false).state.generator =
        ((t.setBusy S a false).setBusy S b false).generator := congrArg Core.generator hc
    have hbusy : ∀ x, (t.finishChallenge S w a b false).state.busy S x =
        Function.update (Function.update (t.busy S) a false) b false x := by
      intro x
      have h0 : (t.finishChallenge S w a b false).state.busy S x =
          ((t.setBusy S a false).setBusy S b false).busy S x := by
        show S.getUserBusy _ x = S.getUserBusy _ x
        rw [hg]
      rw [h0, busy_setBusy S hS, busy_setBusy S hS]
    refine ⟨?_, ?_, congrArg Core.pendingChallenges hc, ?_⟩
    · rw [hbusy]
      by_cases hab : a = b
      · subst hab; simp
      · simp [Function.update_noteq hab]
    · rw [hbusy]
      simp
    · intro he hs t1 h1
      rw [hfail] at h1
      obtain ⟨c, t2, _, e⟩ := update_republishes S w _ t1 (by exact he) (by exact hs)
        (by rfl) h1
      rw [e]
      exact ⟨rfl, c, rfl, _, rfl⟩
  · intro pc la hpc hla
    have hok : t.finishChallenge S w a b true =
        ({ ((({ t with
            lastActionTimes := some ((la.set a w.now).set b w.now),
            pendingChallenges := some ((pc.set a (some (.toUser b (w.team a)))).set b
              (some (.fromUser a (w.team a)))) }).say (.challenging a (some b))).say
            (.challenged b (some a))) with isBracketInvalidated := true }).update S w := by
      unfold Tournament.finishChallenge
      simp only [Bool.not_true, Bool.false_eq_true, if_false, hla, hpc]
    have hc := update_core S w ({ ((({ t with
            lastActionTimes := some ((la.set a w.now).set b w.now),
            pendingChallenges := some ((pc.set a (some (.toUser b (w.team a)))).set b
              (some (.fromUser a (w.team a)))) }).say (.challenging a (some b))).say
            (.challenged b (some a))) with isBracketInvalidated := true })
    obtain ⟨la1, l1, l2⟩ := update_lastActionTimes S w ({ ((({ t with
            lastActionTimes := some ((la.set a w.now).set b w.now),
            pendingChallenges := some ((pc.set a (some (.toUser b (w.team a)))).set b
              (some (.fromUser a (w.team a)))) }).say (.challenging a (some b))).say
            (.challenged b (some a))) with isBracketInvalidated := true })
      ((la.set a w.now).set b w.now) rfl
    rw [← hok] at hc l1
    refine ⟨congrArg Core.pendingChallenges hc, ?_, ?_, ⟨la1, l1, ?_, ?_⟩, ?_⟩
    · intro hab
      rw [pendOf_set, Function.update_noteq hab, pendOf_set]
      simp
    · rw [pendOf_set]
      simp
    · apply l2
      rw [JMap.get_set]
      split
      · rfl
      · exact JMap.get_set_self _ _ _
    · apply l2
      exact JMap.get_set_self _ _ _
    · intro x
      have hgen : (t.finishChallenge S w a b true).state.generator = t.generator :=
        congrArg Core.generator hc
      unfold Tournament.busy
      rw [hgen]

set_option maxRecDepth 100000 in
/-- C19, witness: the setup of the challenge of 1 to 2 fails, and it
succeeds, in the started round robin of three. -/
theorem finishChallenge_outcomes_witness :
    ((raceChallenged.finishChallenge roundRobin (calmWorld 9002) 1 2 false).state.busy
        roundRobin 1 = false ∧
      (raceChallenged.finishChallenge roundRobin (calmWorld 9002) 1 2 false).state.busy
        roundRobin 2 = false) ∧
    (raceChallenged.finishChallenge roundRobin (calmWorld 9002) 1 2 true).state.pendingChallenges
      = some [(1, some (.toUser 2 1)), (2, some (.fromUser 1 1)), (3, none)] :=
  have key := finishChallenge_outcomes roundRobin roundRobin_contract.lawful (calmWorld 9002)
    1 2 raceChallenged
  ⟨⟨key.1.1, key.1.2.1⟩,
    (key.2 [(1, none), (2, none), (3, none)] [(1, 9000), (2, 9000), (3, 9000)]
      (by decide) (by decide)).1⟩

/-- C20: on a started tournament whose challenge map exists,
`cancelChallenge(user)` of the initiator of a pending Challenge leaves both
parties not busy and both `pendingChallenges` entries null; for a user with
no pending Challenge, or who is only its recipient, it returns the state
unchanged, so that no message is sent. -/
theorem cancelChallenge_only_by_initiator (S : Strategy G) (hS : LawfulBusy S) (w : World)
    (u : User) (o : Output) (t : Tournament G) (pc : JMap (Option Challenge))
    (hst : t.isTournamentStarted = true) (hpc : t.pendingChallenges = some pc) :
    (∀ target tm, pc.get u = some (some (.toUser target tm)) →
      (t.cancelChallenge S w u o).state.busy S u = false ∧
      (t.cancelChallenge S w u o).state.busy S target = false ∧
      (t.cancelChallenge S w u o).state.pendingChallenges =
        some ((pc.set u none).set target none) ∧
      pendOf ((pc.set u none).set target none) u = none ∧
      pendOf ((pc.set u none).set target none) target = none) ∧
    ((∀ target tm, pc.get u ≠ some (some (.toUser target tm))) →
      t.cancelChallenge S w u o = .ok () t) := by
  constructor
  · intro target tm hget
    have heq : t.cancelChallenge S w u o =
        ({ (({ (t.setBusy S u false).setBusy S target false with
            pendingChallenges := some ((pc.set u none).set target none) }).say
            (.challenging u none)).say (.challenged target none) with
          isBracketInvalidated := true, isAvailableMatchesInvalidated := true }).update S w := by
      unfold Tournament.cancelChallenge
      rw [hst, hpc]
      simp only [Bool.not_true, Bool.false_eq_true, if_false, hget]
    have hc := update_core S w
        ({ (({ (t.setBusy S u false).setBusy S target false with
            pendingChallenges := some ((pc.set u none).set target none) }).say
            (.challenging u none)).say (.challenged target none) with
          isBracketInvalidated := true, isAvailableMatchesInvalidated := true })
    rw [← heq] at hc
    have hg : (t.cancelChallenge S w u o).state.generator =
        ((t.setBusy S u false).setBusy S target false).generator := congrArg Core.generator hc
    have hbusy : ∀ x, (t.cancelChallenge S w u o).state.busy S x =
        Function.update (Function.update (t.busy S) u false) target false x := by
      intro x
      have h0 : (t.cancelChallenge S w u o).state.busy S x =
          ((t.setBusy S u false).setBusy S target false).busy S x := by
        show S.getUserBusy _ x = S.getUserBusy _ x
        rw [hg]
      rw [h0, busy_setBusy S hS, busy_setBusy S hS]
    refine ⟨?_, ?_, congrArg Core.pendingChallenges hc, ?_, ?_⟩
    · rw [hbusy]
      by_cases hab : u = target
      · subst hab; simp
      · simp [Function.update_noteq hab]
    · rw [hbusy]
      simp
    · rw [pendOf_set, pendOf_set]
      by_cases hab : u = target
      · subst hab; simp
      · simp [Function.update_noteq hab]
    · rw [pendOf_set]
      simp
  · intro hno
    unfold Tournament.cancelChallenge
    rw [hst, hpc]
    simp only [Bool.not_true, Bool.false_eq_true, if_false]

set_option maxRecDepth 100000 in
/-- C20, witness: player 1 cancels the challenge offered to 2, and the
recipient 2 tries to cancel it, in the round robin of four. -/
theorem cancelChallenge_only_by_initiator_witness :
    ((staleOffered.cancelChallenge roundRobin (calmWorld 9004) 1 (.caller 1)).state.busy
        roundRobin 1 = false ∧
      (staleOffered.cancelChallenge roundRobin (calmWorld 9004) 1 (.caller 1)).state.busy
        roundRobin 2 = false) ∧
    staleOffered.cancelChallenge roundRobin (calmWorld 9004) 2 (.caller 2) =
      .ok () staleOffered :=
  have key := fun u o => cancelChallenge_only_by_initiator roundRobin
    roundRobin_contract.lawful (calmWorld 9004) u o staleOffered
    [(1, some (.toUser 2 1)), (2, some (.fromUser 1 1)), (3, none), (4, none)]
    (by decide) (by decide)
  ⟨⟨((key 1 (.caller 1)).1 2 1 (by decide)).1, ((key 1 (.caller 1)).1 2 1 (by decide)).2.1⟩,
    (key 2 (.caller 2)).2 (by
      intro target tm h
      have h2 : JMap.get [(1, some (Challenge.toUser 2 1)), (2, some (Challenge.fromUser 1 1)),
          (3, none), (4, none)] 2 = some (some (.fromUser 1 1)) := by decide
      rw [h2] at h
      cases h)⟩

/-- C26: when the sweep visits a player it has to warn, with the finite
timeout `limit` and the warning window W of 30000 ms, it returns, sets the
warned flag and sends one notice; the remaining time notified is
`limit - (now - time)` when that is positive, with the last-action time kept,
and else W with the last-action time moved to `now - limit + W`; either way it
equals the last-action time afterwards plus `limit` minus `now`, is positive
and is at most W. -/
theorem sweep_warning_time (S : Strategy G) (w : World) (o : Output) (u : User) (time : Int)
    (t : Tournament G) (av : JMap (List User)) (pc : JMap (Option Challenge))
    (warned : JMap Bool) (la : JMap Int) (e : List User) (limit : Int)
    (hav : t.availableMatches = some av) (hpc : t.pendingChallenges = some pc)
    (hw : t.isAutoDisqualifyWarned = some warned) (hla : t.lastActionTimes = some la)
    (he : av.get u = some e) (hT : t.autoDisqualifyTimeout = some limit)
    (helig : e ≠ [] ∨ ∃ q tm, pc.get u = some (some (.fromUser q tm)))
    (hnot : ∀ q tm, pc.get u ≠ some (some (.toUser q tm)))
    (hnw : warned.get u ≠ some true)
    (hnear : time + limit - AUTO_DISQUALIFY_WARNING_TIMEOUT < w.now) :
    ∃ r time1 t1, t.sweepVisit S w o u time = .ok () t1 ∧
      t1.log = t.log ++ [.autodqTarget u r] ∧
      t1.isAutoDisqualifyWarned = some (warned.set u true) ∧
      (0 < limit - (w.now - time) →
        r = limit - (w.now - time) ∧ time1 = time ∧ t1.lastActionTimes = some la) ∧
      (limit - (w.now - time) ≤ 0 →
        r = AUTO_DISQUALIFY_WARNING_TIMEOUT ∧
        time1 = w.now - limit + AUTO_DISQUALIFY_WARNING_TIMEOUT ∧
        t1.lastActionTimes = some (la.set u time1)) ∧
      r = time1 + limit - w.now ∧ 0 < r ∧ r ≤ AUTO_DISQUALIFY_WARNING_TIMEOUT := by
  have hW : AUTO_DISQUALIFY_WARNING_TIMEOUT = 30000 := rfl
  have h2 : (match pc.get u with
      | some (some (.toUser _ _)) => true
      | _ => false) = false := by
    split
    · rename_i q tm h
      exact absurd h (hnot q tm)
    · rfl
  have h3 : ¬ ((decide (w.now > time + limit)) = true ∧
      (decide (warned.get u = some true)) = true) := by
    rintro ⟨_, h⟩
    exact hnw (of_decide_eq_true h)
  have h4 : (decide (w.now > time + limit - AUTO_DISQUALIFY_WARNING_TIMEOUT)) = true ∧
      (decide (warned.get u = some true)) = false := by
    exact ⟨decide_eq_true hnear, decide_eq_false hnw⟩
  by_cases hr : limit - w.now + time ≤ 0
  · refine ⟨AUTO_DISQUALIFY_WARNING_TIMEOUT,
      w.now - limit + AUTO_DISQUALIFY_WARNING_TIMEOUT,
      ({ t with
        lastActionTimes := some (la.set u (w.now - limit + AUTO_DISQUALIFY_WARNING_TIMEOUT)),
        isAutoDisqualifyWarned := some (warned.set u true) }).say
        (.autodqTarget u AUTO_DISQUALIFY_WARNING_TIMEOUT), ?_, rfl, rfl, ?_, ?_, ?_, ?_, ?_⟩
    · unfold Tournament.sweepVisit
      simp only [hav, hpc, he, hw, hT, hla]
      split
      · rename_i c
        exfalso
        obtain ⟨c1, c2⟩ := c
        rcases helig with h | ⟨q, tm, h⟩
        · exact h (List.length_eq_zero.mp c1)
        · rw [h] at c2
          cases c2
      simp only [Option.getD_some, Bool.false_eq_true, if_false]
      rw [if_pos hr]
    · intro h
      omega
    · intro _
      exact ⟨rfl, rfl, rfl⟩
    · omega
    · omega
    · omega
  · refine ⟨limit - w.now + time, time,
      ({ t with isAutoDisqualifyWarned := some (warned.set u true) }).say
        (.autodqTarget u (limit - w.now + time)), ?_, rfl, rfl, ?_, ?_, ?_, ?_, ?_⟩
    · unfold Tournament.sweepVisit
      simp only [hav, hpc, he, hw, hT, hla]
      split
      · rename_i c
        exfalso
        obtain ⟨c1, c2⟩ := c
        rcases helig with h | ⟨q, tm, h⟩
        · exact h (List.length_eq_zero.mp c1)
        · rw [h] at c2
          cases c2
      simp only [Option.getD_some, Bool.false_eq_true, if_false]
      rw [if_neg hr]
    · intro _
      exact ⟨by omega, rfl, hla⟩
    · intro h
      omega
    · omega
    · omega
    · omega

/-- C26, witness: in the started round robin of three with a timeout of five
minutes, the sweep at 4:31 after the last action of player 1 warns them with
29 seconds left. -/
theorem sweep_warning_time_witness :
    ∃ t1, idleThree.sweepVisit roundRobin (calmWorld 280000) .absent 1 9000 = .ok () t1 ∧
      t1.log = idleThree.log ++ [.autodqTarget 1 29000] ∧
      t1.lastActionTimes = some [(1, 9000), (2, 9000), (3, 9000)] := by
  obtain ⟨r, time1, t1, h1, h2, _, h4, _, _⟩ :=
    sweep_warning_time roundRobin (calmWorld 280000) .absent 1 9000 idleThree
      [(1, [2, 3]), (2, [3]), (3, [])] [(1, none), (2, none), (3, none)]
      [(1, false), (2, false), (3, false)] [(1, 9000), (2, 9000), (3, 9000)] [2, 3] 300000
      (by decide) (by decide) (by decide) (by decide) (by decide) (by decide)
      (Or.inl (by decide)) (by intro q tm h; cases h) (by decide) (by decide)
  obtain ⟨hr, _, hla⟩ := h4 (by decide)
  refine ⟨t1, h1, ?_, hla⟩
  rw [h2, hr]
  rfl

set_option maxRecDepth 100000 in
/-- C25: with a timeout of five minutes and nobody acting after time 9000,
the sweeps at 4:31, 4:45 and 4:55 send player 1 two warnings, not one: the
first sweep warns and sets the flag, the second finds the flag set, falls
through to the last branch and clears it, and the third warns again.  No
last-action time changed in between and nobody was disqualified. -/
theorem idle_player_warned_twice :
    idleThree.autoDisqualifyTimeout = some 300000 ∧
    idleThree.lastActionTimes = some [(1, 9000), (2, 9000), (3, 9000)] ∧
    idleThree.warnings 1 = [] ∧
    ((idleThree.runAutoDisqualify roundRobin (calmWorld 280000) .absent).state.warnings 1
      = [29000]) ∧
    ((idleThree.runAutoDisqualify roundRobin (calmWorld 280000) .absent).state.isAutoDisqualifyWarned
      = some [(1, true), (2, true), (3, false)]) ∧
    (((idleThree.runAutoDisqualify roundRobin (calmWorld 280000) .absent).andThen fun _ t =>
      t.runAutoDisqualify roundRobin (calmWorld 294000) .absent).state.isAutoDisqualifyWarned
      = some [(1, false), (2, false), (3, false)]) ∧
    idleSwept.warnings 1 = [29000, 5000] ∧
    idleSwept.lastActionTimes = some [(1, 9000), (2, 9000), (3, 9000)] ∧
    idleSwept.disqualifiedUsers = some [(1, false), (2, false), (3, false)] := by
  decide

/-- C28: `forceEnd()` returns from every state that is forming, or started
with its map of matches in place, ended or not.  Afterwards `isEnded` is
true, the last message is the forced-end notice, and for every match in
progress the battle room is no longer linked to the tournament and was sent
the notice that the match no longer counts; no other room is unlinked. -/
theorem forceEnd_always_succeeds (t : Tournament G)
    (h : t.isTournamentStarted = true → ∃ ip, t.inProgressMatches = some ip) :
    ∃ t1 l, t.forceEnd = .ok () t1 ∧ t1.isEnded = true ∧
      t1.log = t.log ++ l ++ [.forceend] ∧
      (t.isTournamentStarted = false → l = [] ∧ t1.tourRooms = t.tourRooms) ∧
      ∀ ip, t.isTournamentStarted = true → t.inProgressMatches = some ip →
        l = (matchRooms ip).map Event.battleRaw ∧
        t1.tourRooms = t.tourRooms.filter (fun r => decide (r.id ∉ matchRooms ip)) ∧
        ∀ k m, (k, some m) ∈ ip →
          Event.battleRaw m.room ∈ l ∧ ∀ r ∈ t1.tourRooms, r.id ≠ m.room := by
  by_cases hs : t.isTournamentStarted = true
  · obtain ⟨ip, hip⟩ := h hs
    have hip1 : (t.clearIfSet t.autoDisqualifyTimer).inProgressMatches = some ip := by
      cases hd : t.autoDisqualifyTimer <;> exact hip
    have hd := detachAll_rooms ip (t.clearIfSet t.autoDisqualifyTimer)
    have hrooms : (t.clearIfSet t.autoDisqualifyTimer).tourRooms = t.tourRooms := by
      cases hd : t.autoDisqualifyTimer <;> rfl
    have hlog : (t.clearIfSet t.autoDisqualifyTimer).log = t.log := by
      cases hd : t.autoDisqualifyTimer <;> rfl
    refine ⟨({ detachAll ip (t.clearIfSet t.autoDisqualifyTimer) with isEnded := true }).say
      .forceend, (matchRooms ip).map Event.battleRaw, ?_, rfl, ?_, ?_, ?_⟩
    · unfold Tournament.forceEnd
      simp only [hs, if_true, hip1]
      rfl
    · show (detachAll ip (t.clearIfSet t.autoDisqualifyTimer)).log ++ [Event.forceend] = _
      rw [hd.2.1, hlog]
    · intro hf
      rw [hs] at hf
      cases hf
    · intro ip2 _ hip2
      rw [hip] at hip2
      injection hip2 with hip2
      subst hip2
      have hr : (({ detachAll ip (t.clearIfSet t.autoDisqualifyTimer) with
          isEnded := true }).say .forceend).tourRooms
          = t.tourRooms.filter (fun r => decide (r.id ∉ matchRooms ip)) := by
        show (detachAll ip (t.clearIfSet t.autoDisqualifyTimer)).tourRooms = _
        rw [hd.1, hrooms]
      refine ⟨rfl, hr, fun k m hm => ⟨?_, fun r hr2 => ?_⟩⟩
      · exact List.mem_map.mpr ⟨m.room, mem_matchRooms ip k m hm, rfl⟩
      · rw [hr] at hr2
        have h2 := (List.mem_filter.mp hr2).2
        have h3 : r.id ∉ matchRooms ip := of_decide_eq_true h2
        intro e
        exact h3 (e ▸ mem_matchRooms ip k m hm)
  · have hf : t.isTournamentStarted = false := by
      cases h0 : t.isTournamentStarted
      · rfl
      · exact absurd h0 hs
    refine ⟨({ t.clearIfSet t.autoStartTimeout with isEnded := true }).say .forceend, [],
      ?_, rfl, ?_, ?_, ?_⟩
    · unfold Tournament.forceEnd
      simp only [hf]
      rfl
    · show (t.clearIfSet t.autoStartTimeout).log ++ [Event.forceend] = _
      cases hd : t.autoStartTimeout <;> simp [Tournament.clearIfSet, Tournament.clearTimeout]
    · intro _
      refine ⟨rfl, ?_⟩
      show (t.clearIfSet t.autoStartTimeout).tourRooms = _
      cases hd : t.autoStartTimeout <;> rfl
    · intro ip h1
      exact absurd h1 hs

set_option maxRecDepth 100000 in
/-- C28, witness: with the match of 1 against 2 running in room 102,
`forceEnd()` returns, ends the tournament, unlinks room 102 and notifies it. -/
theorem forceEnd_always_succeeds_witness :
    matchRunning.tourRooms = [⟨102, 1, 2⟩] ∧
    ∃ t1 l, matchRunning.forceEnd = .ok () t1 ∧ t1.isEnded = true ∧
      t1.log = matchRunning.log ++ l ++ [.forceend] ∧
      Event.battleRaw 102 ∈ l ∧ ∀ r ∈ t1.tourRooms, r.id ≠ 102 := by
  refine ⟨by decide, ?_⟩
  obtain ⟨t1, l, h1, h2, h3, _, h5⟩ :=
    forceEnd_always_succeeds matchRunning
      (fun _ => ⟨[(1, some ⟨2, 102⟩), (2, none), (3, none), (4, none)], by decide⟩)
  obtain ⟨_, _, h6⟩ := h5 [(1, some ⟨2, 102⟩), (2, none), (3, none), (4, none)]
    (by decide) (by decide)
  exact ⟨t1, l, h1, h2, h3, h6 1 ⟨2, 102⟩ (by decide)⟩

set_option maxRecDepth 100000 in
/-- C29: in the started round robin of four, player 2 asks to accept the
challenge of 1; while the setup is unresolved 1 cancels and challenges 4,
and 2 challenges 3; then the setup resolves.  Every call returns, the
tournament is started and not ended, and before the last call the pending
challenges are paired.  After it, `pendingChallenges(3)` is `{from: 2}` while
`pendingChallenges(2)` is `null`, and `pendingChallenges(4)` is `{from: 1}`
while `pendingChallenges(1)` is `null`: the map is not symmetric. -/
theorem stale_accept_breaks_pairing :
    ((fourStarted.challenge roundRobin (calmWorld 9001) 1 2 (.caller 1)).andThen fun _ t =>
      (t.finishChallenge roundRobin (calmWorld 9002) 1 2 true).andThen fun _ t1 =>
      t1.acceptChallenge (calmWorld 9003) 2 (.caller 2)).returned = true ∧
    ((staleOffered.cancelChallenge roundRobin (calmWorld 9004) 1 (.caller 1)).andThen fun _ t =>
      (t.challenge roundRobin (calmWorld 9005) 1 4 (.caller 1)).andThen fun _ t1 =>
      (t1.finishChallenge roundRobin (calmWorld 9006) 1 4 true).andThen fun _ t2 =>
      (t2.challenge roundRobin (calmWorld 9007) 2 3 (.caller 2)).andThen fun _ t3 =>
      t3.finishChallenge roundRobin (calmWorld 9008) 2 3 true).returned = true ∧
    (∃ pc, staleMoved.pendingChallenges = some pc ∧ Paired pc) ∧
    staleAccepted.returned = true ∧
    staleAccepted.state.isTournamentStarted = true ∧
    staleAccepted.state.isEnded = false ∧
    ∃ pc, staleAccepted.state.pendingChallenges = some pc ∧
      pc.get 3 = some (some (.fromUser 2 2)) ∧ pc.get 2 = some none ∧
      pc.get 4 = some (some (.fromUser 1 1)) ∧ pc.get 1 = some none ∧
      ¬ Paired pc := by
  refine ⟨by decide, by decide,
    ⟨[(1, some (.toUser 4 1)), (2, some (.toUser 3 2)), (3, some (.fromUser 2 2)),
      (4, some (.fromUser 1 1))], by decide, ?_⟩, by decide, by decide, by decide,
    ⟨[(1, none), (2, none), (3, some (.fromUser 2 2)), (4, some (.fromUser 1 1))],
      by decide, by decide, by decide, by decide, by decide, ?_⟩⟩
  · intro a b team
    constructor
    · intro h
      simp only [JMap.get] at h
      split_ifs at h <;> subst_vars <;> cases h <;> decide
    · intro h
      simp only [JMap.get] at h
      split_ifs at h <;> subst_vars <;> cases h <;> decide
  · intro h
    have h1 := (h 2 3 2).mpr (by decide)
    revert h1
    decide

/-- What holds of the invariant of C30 while no call throws: the constructor
returns with the tournament publishable, that is, ended, or with the bracket
clean or a bracket-update timer recorded and, when started, the available
matches clean; and each public mutating operation and the bracket-update
timer, run on a publishable tournament, returns with it publishable.
`updateFor` answers with its internal error exactly on the tournaments that
are not publishable. -/
theorem mutations_leave_publishable (S : Strategy G) (w : World) :
    (∀ g cap t1, (Tournament.create S w g cap).final = some t1 → Publishable t1) ∧
    (∀ (c : Mutation G) t t1, Publishable t → c.run S w t = some t1 → Publishable t1) ∧
    (∀ t u conn, ¬ Publishable t →
      t.updateFor S u conn = .ok () (t.say (.updateForError t.staleBracket t.staleMatches))) ∧
    (∀ t u conn b1 b2, Publishable t →
      Event.updateForError b1 b2 ∉ (t.updateFor S u conn).state.log.drop t.log.length) := by
  refine ⟨fun g cap t1 h => ?_, fun c t t1 h hr => ?_,
    fun t u conn h => updateFor_of_unpublishable S u conn t h,
    fun t u conn b1 b2 h => updateFor_of_publishable S u conn t h b1 b2⟩
  · obtain ⟨a, h⟩ := Res.final_eq_some h
    unfold Tournament.create at h
    exact update_publishable S w _ _ h
  · cases c with
    | addUser u alts o =>
      obtain ⟨a, hr⟩ := Res.final_eq_some hr
      exact addUser_publishable S w u alts o t t1 h hr
    | removeUser u o =>
      obtain ⟨a, hr⟩ := Res.final_eq_some hr
      exact removeUser_publishable S w u o t t1 h hr
    | replaceUser u r o =>
      obtain ⟨a, hr⟩ := Res.final_eq_some hr
      exact replaceUser_publishable S w u r o t t1 h hr
    | setGenerator g o =>
      obtain ⟨a, hr⟩ := Res.final_eq_some hr
      exact setGenerator_publishable S w g o t t1 a h hr
    | startTournament o =>
      obtain ⟨a, hr⟩ := Res.final_eq_some hr
      exact startTournament_publishable S w o t t1 a h hr
    | disqualifyUser u o reason =>
      obtain ⟨a, hr⟩ := Res.final_eq_some hr
      exact disqualifyUser_publishable S w u o reason t t1 a h hr
    | challenge a b o =>
      obtain ⟨_, hr⟩ := Res.final_eq_some hr
      exact challenge_publishable S w a b o t t1 h hr
    | finishChallenge a b result =>
      obtain ⟨_, hr⟩ := Res.final_eq_some hr
      exact finishChallenge_publishable S w a b result t t1 hr
    | cancelChallenge u o =>
      obtain ⟨_, hr⟩ := Res.final_eq_some hr
      exact cancelChallenge_publishable S w u o t t1 h hr
    | finishAcceptChallenge u c result =>
      obtain ⟨_, hr⟩ := Res.final_eq_some hr
      exact finishAcceptChallenge_publishable S w u c result t t1 h hr
    | onBattleWin room winner score =>
      obtain ⟨_, hr⟩ := Res.final_eq_some hr
      exact onBattleWin_publishable S w room winner score t t1 h hr
    | fireBracketTimer =>
      obtain ⟨_, hr⟩ := Res.final_eq_some hr
      unfold Tournament.fireBracketTimer at hr
      exact update_publishable S w _ _ hr

set_option maxRecDepth 100000 in
/-- An instance of the preservation: when the setup of the accepted challenge
resolves in the round robin of four, `finishAcceptChallenge` returns with the
tournament not ended and publishable. -/
theorem mutations_leave_publishable_witness :
    matchRunning.isEnded = false ∧ Publishable matchRunning :=
  ⟨by decide,
    (mutations_leave_publishable roundRobin (calmWorld 9004)).2.1
      (.finishAcceptChallenge 2 (.fromUser 1 1) true) staleOffered matchRunning
      (Or.inr ⟨by decide, by decide⟩) (by decide)⟩

/-- C21, amended: for the result of an in-progress match, when the outcome
is a draw the strategy does not support, or the strategy accepts the result,
`onBattleWin` leaves both players' busy flags false and the
`inProgressMatches` entry of the first player `null`, whether it then
returns or throws.  When the strategy rejects the result, the call frees
nobody: every busy flag, the map of matches and `isEnded` are as before, and
with a winner it returns after the error message and a room update. -/
theorem onBattleWin_frees_unless_rejected (S : Strategy G) (hS : BusyContract S) (w : World)
    (room : BattleRoom) (winner : Option User) (score : Nat × Nat) (t : Tournament G)
    (ip : JMap (Option Match)) (hip : t.inProgressMatches = some ip) :
    (((outcomeOf room.p1 room.p2 winner = .draw ∧ S.isDrawingSupported t.generator = false) ∨
        (S.setMatchResult t.generator (room.p1, room.p2)
          (outcomeOf room.p1 room.p2 winner) score).2 = none) →
      (t.onBattleWin S w room winner score).state.busy S room.p1 = false ∧
      (t.onBattleWin S w room winner score).state.busy S room.p2 = false ∧
      ∃ ip1, (t.onBattleWin S w room winner score).state.inProgressMatches = some ip1 ∧
        ip1.get room.p1 = some none) ∧
    (¬ (outcomeOf room.p1 room.p2 winner = .draw ∧ S.isDrawingSupported t.generator = false) →
      ∀ e, (S.setMatchResult t.generator (room.p1, room.p2)
          (outcomeOf room.p1 room.p2 winner) score).2 = some e →
        (∀ x, (t.onBattleWin S w room winner score).state.busy S x = t.busy S x) ∧
        (t.onBattleWin S w room winner score).state.inProgressMatches = some ip ∧
        (t.onBattleWin S w room winner score).state.isEnded = t.isEnded ∧
        (winner ≠ none →
          t.onBattleWin S w room winner score =
            .ok () ((({ t with generator := (S.setMatchResult t.generator (room.p1, room.p2)
              (outcomeOf room.p1 room.p2 winner) score).1 } : Tournament G).say
                (.setMatchResultError e)).say .roomUpdate))) := by
  have freed : ∀ (tf : Tournament G) (r : Res G Unit), Quiets S tf r.state →
      tf.busy S room.p1 = false → tf.busy S room.p2 = false →
      tf.inProgressMatches = some (ip.set room.p1 none) →
      r.state.busy S room.p1 = false ∧ r.state.busy S room.p2 = false ∧
      ∃ ip1, r.state.inProgressMatches = some ip1 ∧ ip1.get room.p1 = some none := by
    intro tf r q h1 h2 h3
    exact ⟨q.busy _ h1, q.busy _ h2, q.mat _ _ h3 (JMap.get_set_self _ _ _)⟩
  refine ⟨fun h => ?_, fun hd e he => ?_⟩
  · by_cases hd : outcomeOf room.p1 room.p2 winner = .draw ∧
        S.isDrawingSupported t.generator = false
    · rw [onBattleWin_draw S w room winner score t hd]
      obtain ⟨tf, hf, h1, h2, h3, _⟩ := freeMatch_frees S hS.lawful room.p1 room.p2
        (t.say (.battleend room.p1 room.p2 (outcomeOf room.p1 room.p2 winner) true)) ip hip
      rw [hf]
      exact freed tf _ (afterFree_quiets S hS w tf) h1 h2 h3
    · have he : (S.setMatchResult t.generator (room.p1, room.p2)
          (outcomeOf room.p1 room.p2 winner) score).2 = none := by
        rcases h with h | h
        · exact absurd h hd
        · exact h
      rw [onBattleWin_accepted S w room winner score t hd he]
      obtain ⟨tf, hf, h1, h2, h3, _⟩ := freeMatch_frees S hS.lawful room.p1 room.p2
        (({ t with generator := (S.setMatchResult t.generator (room.p1, room.p2)
          (outcomeOf room.p1 room.p2 winner) score).1 } : Tournament G).say
          (.battleend room.p1 room.p2 (outcomeOf room.p1 room.p2 winner) false)) ip hip
      rw [hf]
      show _ ∧ _ ∧ ∃ ip1, _
      simp only [Res.andThen]
      split
      · exact freed tf (.ok () ((tf.onTournamentEnd S).say .roomUpdate))
          ((onTournamentEnd_quiets S tf).quiets_chain (Quiets.quiets_of_fields rfl rfl (log_say _ _)))
          h1 h2 h3
      · exact freed tf _ (afterFree_quiets S hS w tf) h1 h2 h3
  · rw [onBattleWin_rejected S w room winner score t e hd he]
    cases winner with
    | none =>
      refine ⟨fun x => ?_, hip, rfl, fun h => absurd rfl h⟩
      show S.getUserBusy (S.setMatchResult t.generator _ _ score).1 x = S.getUserBusy t.generator x
      rw [hS.result]
    | some wn =>
      refine ⟨fun x => ?_, hip, rfl, fun _ => rfl⟩
      show S.getUserBusy (S.setMatchResult t.generator _ _ score).1 x = S.getUserBusy t.generator x
      rw [hS.result]

set_option maxRecDepth 100000 in
/-- C21, witness: player 1 wins the match of room 102 in the round robin of
four; the result is accepted and both players are freed. -/
theorem onBattleWin_frees_unless_rejected_witness :
    ((matchRunning.closeRoom ⟨102, 1, 2⟩).onBattleWin roundRobin (calmWorld 9010)
      ⟨102, 1, 2⟩ (some 1) (1, 0)).state.busy roundRobin 1 = false ∧
    ((matchRunning.closeRoom ⟨102, 1, 2⟩).onBattleWin roundRobin (calmWorld 9010)
      ⟨102, 1, 2⟩ (some 1) (1, 0)).state.busy roundRobin 2 = false ∧
    ∃ ip1, ((matchRunning.closeRoom ⟨102, 1, 2⟩).onBattleWin roundRobin (calmWorld 9010)
      ⟨102, 1, 2⟩ (some 1) (1, 0)).state.inProgressMatches = some ip1 ∧
      ip1.get 1 = some none :=
  (onBattleWin_frees_unless_rejected roundRobin roundRobin_contract (calmWorld 9010)
    ⟨102, 1, 2⟩ (some 1) (1, 0) (matchRunning.closeRoom ⟨102, 1, 2⟩)
    [(1, some ⟨2, 102⟩), (2, none), (3, none), (4, none)] (by decide)).1
      (Or.inr (by decide))

set_option maxRecDepth 100000 in
/-- C21, counterexample: the match of 1 against 2 runs in room 102 and both
are busy; player 1 wins and the strategy rejects the result.  `onBattleWin`
returns after the error message and the room update, and both players are
still busy and the match is still the `inProgressMatches` entry of 1. -/
theorem rejected_result_frees_nobody :
    rejectRunning.busy rejectingRoundRobin 1 = true ∧
    rejectRunning.busy rejectingRoundRobin 2 = true ∧
    rejectRunning.inProgressMatches =
      some [(1, some ⟨2, 102⟩), (2, none), (3, none), (4, none)] ∧
    rejectedResult.returned = true ∧
    rejectedResult.state.log = rejectRunning.log ++ [.setMatchResultError 5, .roomUpdate] ∧
    rejectedResult.state.busy rejectingRoundRobin 1 = true ∧
    rejectedResult.state.busy rejectingRoundRobin 2 = true ∧
    rejectedResult.state.inProgressMatches =
      some [(1, some ⟨2, 102⟩), (2, none), (3, none), (4, none)] := by
  decide

/-- C22, amended: `onBattleWin` computes the outcome as win for the first
player of the room, loss for the second and draw otherwise.  For a draw
that the strategy does not support, the call does the same whatever
`setMatchResult` would answer, the failed battle-end record follows the
messages sent before, both players' busy flags are false afterwards and the
`inProgressMatches` entry of the first player is `null`; and `isEnded`
changes in the call only if a player who was not marked disqualified is
marked afterwards. -/
theorem unsupported_draw_frees_without_result (S : Strategy G) (hS : BusyContract S)
    (w : World) (room : BattleRoom) (winner : Option User) (score : Nat × Nat)
    (t : Tournament G) (ip : JMap (Option Match)) (hip : t.inProgressMatches = some ip)
    (hdraw : outcomeOf room.p1 room.p2 winner = .draw)
    (hno : S.isDrawingSupported t.generator = false) :
    ((∀ a b : User, outcomeOf a b (some a) = .win) ∧
      (∀ a b : User, a ≠ b → outcomeOf a b (some b) = .loss) ∧
      (∀ (a b : User) (wn : Option User), wn ≠ some a → wn ≠ some b →
        outcomeOf a b wn = .draw)) ∧
    (∀ f, Tournament.onBattleWin (S.withResult f) w room winner score t
      = t.onBattleWin S w room winner score) ∧
    (t.log ++ [.battleend room.p1 room.p2 .draw true])
      <+: (t.onBattleWin S w room winner score).state.log ∧
    (t.onBattleWin S w room winner score).state.busy S room.p1 = false ∧
    (t.onBattleWin S w room winner score).state.busy S room.p2 = false ∧
    (∃ ip1, (t.onBattleWin S w room winner score).state.inProgressMatches = some ip1 ∧
      ip1.get room.p1 = some none) ∧
    ((t.onBattleWin S w room winner score).state.isEnded = t.isEnded ∨
      ∃ x, NewlyOut t (t.onBattleWin S w room winner score).state x) := by
  have hd : outcomeOf room.p1 room.p2 winner = .draw ∧
      S.isDrawingSupported t.generator = false := ⟨hdraw, hno⟩
  refine ⟨outcomeOf_cases, fun f => ?_, ?_⟩
  · rw [onBattleWin_draw S w room winner score t hd,
      onBattleWin_draw (S.withResult f) w room winner score t hd]
    simp only [runAutoDisqualify_withResult, update_withResult]
    rfl
  · rw [onBattleWin_draw S w room winner score t hd]
    obtain ⟨tf, hf, h1, h2, h3, h4, _, h6, h7⟩ := freeMatch_frees S hS.lawful room.p1 room.p2
      (t.say (.battleend room.p1 room.p2 (outcomeOf room.p1 room.p2 winner) true)) ip hip
    rw [hf]
    have q := afterFree_quiets S hS w tf
    have o := (afterFree_outs S w tf).of_start (t := t) h7 h6
    refine ⟨?_, q.busy _ h1, q.busy _ h2, q.mat _ _ h3 (JMap.get_set_self _ _ _), o.ends⟩
    have hl := q.log
    rw [h4, hdraw] at hl
    exact hl

set_option maxRecDepth 100000 in
/-- C22, witness: over the round robin without draws, the battle of room
102 ends without a winner; both players are freed, the failed record is
sent and the tournament has not ended. -/
theorem unsupported_draw_frees_without_result_witness :
    ((matchRunning.closeRoom ⟨102, 1, 2⟩).onBattleWin drawless (calmWorld 9010)
      ⟨102, 1, 2⟩ none (0, 0)).returned = true ∧
    ((matchRunning.closeRoom ⟨102, 1, 2⟩).onBattleWin drawless (calmWorld 9010)
      ⟨102, 1, 2⟩ none (0, 0)).state.isEnded = false ∧
    (matchRunning.log ++ [.battleend 1 2 .draw true])
      <+: ((matchRunning.closeRoom ⟨102, 1, 2⟩).onBattleWin drawless (calmWorld 9010)
        ⟨102, 1, 2⟩ none (0, 0)).state.log ∧
    ((matchRunning.closeRoom ⟨102, 1, 2⟩).onBattleWin drawless (calmWorld 9010)
      ⟨102, 1, 2⟩ none (0, 0)).state.busy drawless 1 = false ∧
    ((matchRunning.closeRoom ⟨102, 1, 2⟩).onBattleWin drawless (calmWorld 9010)
      ⟨102, 1, 2⟩ none (0, 0)).state.busy drawless 2 = false := by
  have h := unsupported_draw_frees_without_result drawless drawless_contract (calmWorld 9010)
    ⟨102, 1, 2⟩ none (0, 0) (matchRunning.closeRoom ⟨102, 1, 2⟩)
    [(1, some ⟨2, 102⟩), (2, none), (3, none), (4, none)] (by decide) (by decide) (by decide)
  exact ⟨by decide, by decide, h.2.2.1, h.2.2.2.1, h.2.2.2.2.1⟩

set_option maxRecDepth 100000 in
/-- C22, counterexample: over a generator without draws that reports
completion once somebody is disqualified, player 3 was warned at time 9020
with a timeout of 30 seconds.  When the battle of 1 against 2 ends without a
winner at time 50000, `onBattleWin` records the failed draw, its sweep
disqualifies 3, and the call returns with the tournament ended. -/
theorem drawn_match_sweep_ends_tournament :
    drawRunning.isEnded = false ∧
    drawRunning.autoDisqualifyTimeout = some 30000 ∧
    drawRunning.isAutoDisqualifyWarned
      = some [(1, false), (2, false), (3, true), (4, false)] ∧
    drawRunning.inProgressMatches =
      some [(1, some ⟨2, 102⟩), (2, none), (3, none), (4, none)] ∧
    suddenDeath.isDrawingSupported drawRunning.generator = false ∧
    drawReported.returned = true ∧
    drawReported.state.log.take (drawRunning.log.length + 2)
      = drawRunning.log ++ [.battleend 1 2 .draw true, .disqualify 3] ∧
    drawReported.state.disqualifiedUsers
      = some [(1, false), (2, false), (3, true), (4, false)] ∧
    drawReported.state.generator.played = [] ∧
    drawReported.state.isEnded = true := by
  decide

/-- C23, amended: on a tournament that has not ended, a successful
`disqualifyUser` leaves `isEnded` equal to what the strategy reports for the
generator it leaves.  After `onBattleWin` with a result the strategy
accepted, `isEnded` is true if the strategy reports completion once both
players are freed; if it does not, `isEnded` changes only when the sweep of
that call marks a player disqualified.  `finishChallenge`, `cancelChallenge`
and `acceptChallenge` never change `isEnded`; `challenge` and
`finishAcceptChallenge` change it only when a player who was not marked
disqualified is marked afterwards, and `challenge` not at all when every
member's identity still resolves. -/
theorem ending_follows_strategy (S : Strategy G) (w : World) (t : Tournament G) :
    (∀ p o reason t1, t.isEnded = false → t.disqualifyUser S w p o reason = .ok true t1 →
      t1.isEnded = S.isTournamentEnded t1.generator) ∧
    (∀ room winner score ip, t.inProgressMatches = some ip →
      ¬ (outcomeOf room.p1 room.p2 winner = .draw ∧
        S.isDrawingSupported t.generator = false) →
      (S.setMatchResult t.generator (room.p1, room.p2)
        (outcomeOf room.p1 room.p2 winner) score).2 = none →
      (S.isTournamentEnded (S.setUserBusy (S.setUserBusy
          (S.setMatchResult t.generator (room.p1, room.p2)
            (outcomeOf room.p1 room.p2 winner) score).1 room.p1 false) room.p2 false) = true →
        (t.onBattleWin S w room winner score).state.isEnded = true) ∧
      (S.isTournamentEnded (S.setUserBusy (S.setUserBusy
          (S.setMatchResult t.generator (room.p1, room.p2)
            (outcomeOf room.p1 room.p2 winner) score).1 room.p1 false) room.p2 false) = false →
        ((t.onBattleWin S w room winner score).state.isEnded = t.isEnded ∨
          ∃ x, NewlyOut t (t.onBattleWin S w room winner score).state x))) ∧
    (∀ a b result, (t.finishChallenge S w a b result).state.isEnded = t.isEnded) ∧
    (∀ u o, (t.cancelChallenge S w u o).state.isEnded = t.isEnded) ∧
    (∀ u o, (t.acceptChallenge w u o).state.isEnded = t.isEnded) ∧
    (∀ a b o, (t.challenge S w a b o).state.isEnded = t.isEnded ∨
      ∃ x, NewlyOut t (t.challenge S w a b o).state x) ∧
    (∀ a b o, (∀ u, w.isExact u = true) → (t.challenge S w a b o).state.isEnded = t.isEnded) ∧
    (∀ u c result, (t.finishAcceptChallenge S w u c result).state.isEnded = t.isEnded ∨
      ∃ x, NewlyOut t (t.finishAcceptChallenge S w u c result).state x) := by
  refine ⟨fun p o reason t1 he hr => disqualifyUser_ends S w p o reason t t1 he hr,
    fun room winner score ip hip hd he => ?_,
    fun a b result => finishChallenge_isEnded S w a b result t,
    fun u o => cancelChallenge_isEnded S w u o t,
    fun u o => acceptChallenge_isEnded w u o t,
    fun a b o => (challenge_outs S w a b o t).ends,
    fun a b o h => challenge_without_ghosts S w a b o t h,
    fun u c result => (finishAcceptChallenge_outs S w u c result t).ends⟩
  rw [onBattleWin_accepted S w room winner score t hd he]
  have hfree : ∃ tf, (({ t with generator := (S.setMatchResult t.generator (room.p1, room.p2)
        (outcomeOf room.p1 room.p2 winner) score).1 } : Tournament G).say
        (.battleend room.p1 room.p2 (outcomeOf room.p1 room.p2 winner) false)).freeMatch S
        room.p1 room.p2 = .ok () tf ∧
      tf.generator = S.setUserBusy (S.setUserBusy (S.setMatchResult t.generator
        (room.p1, room.p2) (outcomeOf room.p1 room.p2 winner) score).1 room.p1 false)
        room.p2 false ∧
      tf.isEnded = t.isEnded ∧ tf.disqualifiedUsers = t.disqualifiedUsers := by
    exact ⟨_, freeMatch_ok S room.p1 room.p2 _ ip (by exact hip), rfl, rfl, rfl⟩
  obtain ⟨tf, hf, hg, h6, h7⟩ := hfree
  rw [hf]
  simp only [Res.andThen]
  rw [← hg]
  constructor
  · intro hend
    rw [if_pos hend]
    exact (onTournamentEnd_ended S tf).1
  · intro hend
    rw [if_neg (by rw [hend]; simp)]
    exact ((afterFree_outs S w tf).of_start (t := t) h7 h6).ends

set_option maxRecDepth 100000 in
/-- C23, witness: when player 1 wins the only match of the round robin of
two, the strategy accepts the result and reports completion, and
`onBattleWin` returns with `isEnded` true. -/
theorem ending_follows_strategy_witness :
    (twoPlaying.closeRoom ⟨102, 1, 2⟩).isEnded = false ∧
    ((twoPlaying.closeRoom ⟨102, 1, 2⟩).onBattleWin roundRobin (calmWorld 9010)
      ⟨102, 1, 2⟩ (some 1) (1, 0)).state.isEnded = true :=
  ⟨by decide,
    ((ending_follows_strategy roundRobin (calmWorld 9010)
      (twoPlaying.closeRoom ⟨102, 1, 2⟩)).2.1 ⟨102, 1, 2⟩ (some 1) (1, 0)
      [(1, some ⟨2, 102⟩), (2, none)] (by decide) (by decide) (by decide)).1 (by decide)⟩

set_option maxRecDepth 100000 in
/-- C23, counterexample: in the started round robin of two, player 2 has
become a ghost when 1 challenges them.  The ghost purge inside `challenge`
disqualifies 2, the strategy reports completion, and `challenge` returns with
`isEnded` set. -/
theorem challenge_purge_ends_tournament :
    twoStarted.isTournamentStarted = true ∧
    twoStarted.isEnded = false ∧
    twoStarted.disqualifiedUsers = some [(1, false), (2, false)] ∧
    ghostChallenge.returned = true ∧
    ghostChallenge.state.disqualifiedUsers = some [(1, false), (2, true)] ∧
    ghostChallenge.state.isEnded = true ∧
    Setup.challenge 1 2 (.caller 1) ∈ ghostChallenge.state.setups := by
  decide

set_option maxRecDepth 100000 in
/-- C31: after a successful start of a round robin of 1, 2, 3 every listed
player has an entry in each of the six maps; `replaceUser(1, 5)` then returns
normally on the started tournament, after which `getUsers()` lists player 5,
who has no entry in any of the six maps; the next recomputation of the
available matches, alone or inside `challenge(2, 3)`, throws on the missing
entry. -/
theorem replacement_has_no_entries :
    threeStarted.isTournamentStarted = true ∧
    roundRobin.getUsers threeStarted.generator false = [1, 2, 3] ∧
    (∀ u ∈ roundRobin.getUsers threeStarted.generator false,
      threeStarted.entriesOf u = [true, true, true, true, true, true]) ∧
    threeReplaced.returned = true ∧
    threeReplaced.state.isEnded = false ∧
    threeReplaced.state.log.drop threeStarted.log.length =
      [.replace 1 5, .isJoined 1 false, .isJoined 5 true, .updateEnd] ∧
    roundRobin.getUsers threeReplaced.state.generator false = [5, 2, 3] ∧
    threeReplaced.state.entriesOf 5 = [false, false, false, false, false, false] ∧
    (threeReplaced.state.getAvailableMatches roundRobin (calmWorld 9600)).returned = false ∧
    (threeReplaced.state.availableMatches.bind fun m => m.get 2) = some [3] ∧
    threeRechallenged.returned = false := by
  decide

set_option maxRecDepth 100000 in
/-- C32, counterexample: under a round robin whose `getUsers()` leaves out
disqualified members, player 2 is disqualified at 9001 and the available
matches are recomputed at 9050.  The strategy returns only the pair (1, 3),
yet the entry of 2 still lists 3, and the last-action time of 2 becomes 9050
although that entry was non-empty before the recomputation. -/
theorem unlisted_player_kept_and_touched :
    hidingRoundRobin.getUsers hidingDisqualified.state.generator false = [1, 3] ∧
    (hidingRoundRobin.getAvailableMatches hidingDisqualified.state.generator).toOption =
      some [(1, 3)] ∧
    (hidingDisqualified.state.availableMatches.bind fun m => m.get 2) = some [3] ∧
    (hidingDisqualified.state.lastActionTimes.bind fun m => m.get 2) = some 9001 ∧
    hidingRecomputed.value =
      some (some ⟨[(1, [3]), (3, [])], [(1, []), (3, [1])]⟩) ∧
    (hidingRecomputed.state.availableMatches.bind fun m => m.get 2) = some [3] ∧
    (hidingRecomputed.state.lastActionTimes.bind fun m => m.get 2) = some 9050 := by
  decide

/-- C32, amended: let the strategy answer the pairs `ms` of listed players,
let `getUsers()` list no player twice and every listed player have an entry of
`availableMatches`.  Then `getAvailableMatches()` returns the two maps
`challenges` and `challengeBys` and changes only `availableMatches` and
`lastActionTimes`, such that for listed players: `b` is in the entry of `a`
exactly when `(a, b)` is a returned pair; `b` is in `challenges(a)` exactly
when `(a, b)` is a returned pair, exactly when `a` is in `challengeBys(b)`;
and the last-action time of a listed player becomes `now` exactly when the
entry was empty before and is non-empty after, and is unchanged otherwise.
A key of `availableMatches` that `getUsers()` does not list keeps its entry,
and its last-action time becomes `now` whenever that entry is non-empty; a
player without an entry keeps the last-action time. -/
theorem getAvailableMatches_rebuilds_listed (S : Strategy G) (w : World) (t : Tournament G)
    (ms : List (User × User)) (av : JMap (List User)) (la : JMap Int)
    (hms : S.getAvailableMatches t.generator = .ok ms)
    (hav : t.availableMatches = some av) (hla : t.lastActionTimes = some la)
    (hnd : (S.getUsers t.generator false).Nodup)
    (hdist : (av.map Prod.fst).Nodup)
    (hkeys : ∀ u ∈ S.getUsers t.generator false, (av.get u).isSome = true)
    (hmem : ∀ p ∈ ms, p.1 ∈ S.getUsers t.generator false ∧
      p.2 ∈ S.getUsers t.generator false) :
    ∃ ch cb av2 la2,
      t.getAvailableMatches S w = .ok (some ⟨ch, cb⟩)
        { t with availableMatches := some av2, lastActionTimes := some la2 } ∧
      (∀ a ∈ S.getUsers t.generator false,
        ∃ e, av2.get a = some e ∧ ∀ b, b ∈ e ↔ (a, b) ∈ ms) ∧
      (∀ a ∈ S.getUsers t.generator false,
        ∃ l, ch.get a = some l ∧ ∀ b, b ∈ l ↔ (a, b) ∈ ms) ∧
      (∀ b ∈ S.getUsers t.generator false,
        ∃ l, cb.get b = some l ∧ ∀ a, a ∈ l ↔ (a, b) ∈ ms) ∧
      (∀ a b l1 l2, ch.get a = some l1 → cb.get b = some l2 → (b ∈ l1 ↔ a ∈ l2)) ∧
      (∀ x ∈ S.getUsers t.generator false, ∀ e e2, av.get x = some e → av2.get x = some e2 →
        la2.get x = if e = [] ∧ e2 ≠ [] then some w.now else la.get x) ∧
      (∀ x, x ∉ S.getUsers t.generator false → ∀ e, av.get x = some e →
        av2.get x = some e ∧ la2.get x = if e ≠ [] then some w.now else la.get x) ∧
      (∀ x, av.get x = none → av2.get x = none ∧ la2.get x = la.get x) := by
  obtain ⟨old1, av1, hr, hr1, hr2⟩ := resetEntries_ok (S.getUsers t.generator false) av [] hkeys
  have hpre : ∀ p ∈ ms,
      ((emptyLists (S.getUsers t.generator false)).get p.1).isSome = true ∧
      ((emptyLists (S.getUsers t.generator false)).get p.2).isSome = true ∧
      (av1.get p.1).isSome = true := by
    intro p hp
    obtain ⟨h1, h2⟩ := hmem p hp
    refine ⟨?_, ?_, ?_⟩
    · rw [emptyLists_get, if_pos h1]; rfl
    · rw [emptyLists_get, if_pos h2]; rfl
    · rw [hr1 _ h1]; rfl
  obtain ⟨ch1, cb1, av2, ha, ha1, ha2⟩ := addMatches_ok ms _ _ av1 hpre
  obtain ⟨hf1, hf2⟩ := resetEntries_flags _ _ _ _ _ hnd hr
  obtain ⟨hl1, hl2, hl3, hl4⟩ := addMatches_lists _ _ _ _ _ _ _ ha
  have hn1 : (av1.map Prod.fst).Nodup := by
    have := resetEntries_nodup (S.getUsers t.generator false) av [] hdist
    rw [hr] at this
    exact this
  have hn2 : (av2.map Prod.fst).Nodup := by
    have := addMatches_nodup ms (emptyLists (S.getUsers t.generator false))
      (emptyLists (S.getUsers t.generator false)) av1 hn1
    rw [ha] at this
    exact this
  -- the entries after the rebuild
  have hentry : ∀ a ∈ S.getUsers t.generator false,
      ∃ e, av2.get a = some e ∧ ∀ b, b ∈ e ↔ (a, b) ∈ ms := by
    intro a hmema
    have h1 := hr1 a hmema
    have h2 := ha1 a
    rw [h1] at h2
    obtain ⟨e1, he1⟩ := Option.isSome_iff_exists.mp h2
    obtain ⟨e, he, hiff⟩ := ha2 a e1 he1
    rw [h1] at he
    have : e = [] := (Option.some.inj he).symm
    subst this
    exact ⟨e1, he1, fun b => by simpa using hiff b⟩
  have hstale : ∀ a, a ∉ S.getUsers t.generator false → av2.get a = av.get a := by
    intro a hnot
    have hf := addMatches_frame ms (emptyLists (S.getUsers t.generator false))
      (emptyLists (S.getUsers t.generator false)) av1 a
      (fun p hp heq => hnot (heq ▸ (hmem p hp).1))
    rw [ha] at hf
    rw [← hr2 a hnot]
    exact hf
  have hch : ∀ a ∈ S.getUsers t.generator false,
      ∃ l, ch1.get a = some l ∧ ∀ b, b ∈ l ↔ (a, b) ∈ ms := by
    intro a hmema
    obtain ⟨l1, g1, g2⟩ := hl3 a [] (by rw [emptyLists_get, if_pos hmema])
    exact ⟨l1, g1, fun b => by simpa using g2 b⟩
  have hcb : ∀ b ∈ S.getUsers t.generator false,
      ∃ l, cb1.get b = some l ∧ ∀ a, a ∈ l ↔ (a, b) ∈ ms := by
    intro b hmemb
    obtain ⟨l1, g1, g2⟩ := hl4 b [] (by rw [emptyLists_get, if_pos hmemb])
    exact ⟨l1, g1, fun a => by simpa using g2 a⟩
  have hlisted : ∀ (m : JMap (List User)) (a : User) (l : List User),
      (m.get a).isSome = ((emptyLists (S.getUsers t.generator false)).get a).isSome →
      m.get a = some l → a ∈ S.getUsers t.generator false := by
    intro m a l h1 h2
    rw [h2, emptyLists_get] at h1
    by_contra hnot
    rw [if_neg hnot] at h1
    exact absurd h1 (by simp)
  have htouch : ∀ x, ((needsTouch old1 av2).foldl (fun m u => m.set u w.now) la).get x =
      if (∃ e, av2.get x = some e ∧ old1.get x ≠ some true ∧ e ≠ []) then some w.now
      else la.get x := by
    intro x
    rw [foldl_set_get]
    by_cases hx : x ∈ needsTouch old1 av2
    · rw [if_pos hx, if_pos ((needsTouch_mem old1 av2 hn2 x).mp hx)]
    · rw [if_neg hx, if_neg (fun h => hx ((needsTouch_mem old1 av2 hn2 x).mpr h))]
  refine ⟨ch1, cb1, av2, (needsTouch old1 av2).foldl (fun m u => m.set u w.now) la,
    ?_, hentry, hch, hcb, ?_, ?_, ?_, ?_⟩
  · unfold Tournament.getAvailableMatches
    simp only [hms, hav, hr, ha, hla]
  · intro a b l1 l2 h1 h2
    have hmema := hlisted ch1 a l1 (hl1 a) h1
    have hmemb := hlisted cb1 b l2 (hl2 b) h2
    obtain ⟨l, g1, g2⟩ := hch a hmema
    obtain ⟨l3, g3, g4⟩ := hcb b hmemb
    rw [h1] at g1
    rw [h2] at g3
    have e1 : l1 = l := Option.some.inj g1
    have e2 : l2 = l3 := Option.some.inj g3
    subst e1; subst e2
    rw [g2 b, g4 a]
  · intro x hx e e2 he he2
    rw [htouch x]
    have hflag := hf1 x hx e he
    by_cases hc : e = [] ∧ e2 ≠ []
    · rw [if_pos hc, if_pos]
      refine ⟨e2, he2, ?_, hc.2⟩
      rw [hflag]
      simp [hc.1]
    · rw [if_neg hc, if_neg]
      rintro ⟨e3, g1, g2, g3⟩
      rw [he2] at g1
      have : e2 = e3 := Option.some.inj g1
      subst this
      apply hc
      refine ⟨?_, g3⟩
      by_contra hne
      apply g2
      rw [hflag]
      simp [hne]
  · intro x hx e he
    have h2 : av2.get x = some e := by rw [hstale x hx]; exact he
    refine ⟨h2, ?_⟩
    rw [htouch x]
    have hflag : old1.get x = none := by rw [hf2 x hx]; rfl
    by_cases hc : e ≠ []
    · rw [if_pos hc, if_pos]
      exact ⟨e, h2, by rw [hflag]; simp, hc⟩
    · rw [if_neg hc, if_neg]
      rintro ⟨e3, g1, _, g3⟩
      rw [h2] at g1
      have : e = e3 := Option.some.inj g1
      subst this
      exact hc g3
  · intro x hx
    have hnot : x ∉ S.getUsers t.generator false := by
      intro hmemx
      have := hkeys x hmemx
      rw [hx] at this
      exact absurd this (by simp)
    have h2 : av2.get x = none := by rw [hstale x hnot]; exact hx
    refine ⟨h2, ?_⟩
    rw [htouch x, if_neg]
    rintro ⟨e3, g1, _, _⟩
    rw [h2] at g1
    exact absurd g1 (by simp)

set_option maxRecDepth 100000 in
theorem getAvailableMatches_rebuilds_listed_witness :
    roundRobin.getAvailableMatches raceFreed.generator = .ok [(1, 2), (1, 3), (2, 3)] ∧
    raceFreed.availableMatches = some [(1, []), (2, []), (3, [])] ∧
    raceFreed.lastActionTimes = some [(1, 9000), (2, 9000), (3, 9000)] ∧
    (raceFreed.getAvailableMatches roundRobin (calmWorld 9100)).state.lastActionTimes =
      some [(1, 9100), (2, 9100), (3, 9000)] ∧
    ∃ ch cb av2 la2,
      raceFreed.getAvailableMatches roundRobin (calmWorld 9100) = .ok (some ⟨ch, cb⟩)
        { raceFreed with availableMatches := some av2, lastActionTimes := some la2 } ∧
      (∀ a ∈ roundRobin.getUsers raceFreed.generator false,
        ∃ e, av2.get a = some e ∧ ∀ b, b ∈ e ↔ (a, b) ∈ [(1, 2), (1, 3), (2, 3)]) :=
  have key := getAvailableMatches_rebuilds_listed roundRobin (calmWorld 9100) raceFreed
    [(1, 2), (1, 3), (2, 3)] [(1, []), (2, []), (3, [])] [(1, 9000), (2, 9000), (3, 9000)]
    rfl (by decide) (by decide) (by decide) (by decide) (by decide) (by decide)
  ⟨rfl, by decide, by decide, by decide,
    key.elim fun ch h1 => h1.elim fun cb h2 => h2.elim fun av2 h3 => h3.elim fun la2 h4 =>
      ⟨ch, cb, av2, la2, h4.1, h4.2.1⟩⟩

set_option maxRecDepth 100000 in
/-- C27: on the started round robin of three, `setAutoDisqualifyTimeout` is
called with the string "0x10000".  The test of line 504 reads 65536, which is
a number and not below 30000, so the call is not rejected; line 509 stores
`parseFloat` of the string, which is 0.  The call returns `true`, announces
`autodq|on|0` and leaves `autoDisqualifyTimeout` at 0, below the warning
window; its sweep warns players 1 and 2 at once, moves their last-action
times 30000 ms into the future and arms the next sweep with a delay of 0.
The number 0 itself is rejected, and `setAutoStartTimeout`, which parses
before it tests, rejects the parsed value. -/
theorem unparsed_timeout_passes_test :
    hexTimeout.toNumber = .finite 65536 ∧ hexTimeout.parseFloat = .finite 0 ∧
    (hexTimeout.toNumber.below AUTO_DISQUALIFY_WARNING_TIMEOUT) = false ∧
    threeStarted.isTournamentStarted = true ∧
    threeStarted.autoDisqualifyTimeout = none ∧
    threeStarted.lastActionTimes = some [(1, 9000), (2, 9000), (3, 9000)] ∧
    hexAccepted.value = some true ∧
    hexAccepted.state.autoDisqualifyTimeout = some 0 ∧
    (0 : Int) < AUTO_DISQUALIFY_WARNING_TIMEOUT ∧
    hexAccepted.state.log.drop threeStarted.log.length =
      [.autodqOn 0, .autodqTarget 1 30000, .autodqTarget 2 30000] ∧
    hexAccepted.state.lastActionTimes = some [(1, 39500), (2, 39500), (3, 9000)] ∧
    hexAccepted.state.timers.filter (fun x => x.kind = .autoDisqualify) =
      [⟨4, .autoDisqualify, 0⟩] ∧
    (threeStarted.setAutoDisqualifyTimeout roundRobin (calmWorld 9500) (.number (.finite 0))
      (.caller 0)).value = some false ∧
    (threeStarted.setAutoDisqualifyTimeout roundRobin (calmWorld 9500) (.number (.finite 0))
      (.caller 0)).state.autoDisqualifyTimeout = none ∧
    (threeStarted.setAutoDisqualifyTimeout roundRobin (calmWorld 9500)
      (.number (.finite 65536)) (.caller 0)).state.autoDisqualifyTimeout = some 65536 ∧
    (formingTwo.setAutoStartTimeout (calmWorld 6000) hexTimeout.parseFloat (.caller 0)).value =
      some false ∧
    (formingTwo.setAutoStartTimeout (calmWorld 6000) hexTimeout.parseFloat
      (.caller 0)).state.log.drop formingTwo.log.length =
      [.reply 0 .InvalidAutoStartTimeout] := by
  decide

set_option maxRecDepth 100000 in
/-- C30: in the started round robin of three, `replaceUser(1, 5)` returns with
the tournament not ended and the guard of `updateFor` false.  `challenge(2, 3)`
then marks the available matches dirty and throws while recomputing them, so
the tournament is left started, not ended, with dirty available matches.
From then on `cancelChallenge`, `finishAcceptChallenge` with a failed setup
and a rejected `addUser` each return normally without a recomputation, with
the tournament not ended and the guard of `updateFor` true, and `updateFor`
reports the internal error. -/
theorem early_return_keeps_dirty_matches :
    threeReplaced.returned = true ∧
    threeReplaced.state.isEnded = false ∧
    threeReplaced.state.staleBracket = false ∧
    threeReplaced.state.staleMatches = false ∧
    threeRechallenged.returned = false ∧
    threeRechallenged.state.isEnded = false ∧
    threeRechallenged.state.isTournamentStarted = true ∧
    threeRechallenged.state.isAvailableMatchesInvalidated = true ∧
    dirtyCancelled.returned = true ∧
    dirtyCancelled.state.isEnded = false ∧
    dirtyCancelled.state.staleMatches = true ∧
    dirtyDeclined.returned = true ∧
    dirtyDeclined.state.isEnded = false ∧
    dirtyDeclined.state.staleMatches = true ∧
    dirtyJoin.returned = true ∧
    dirtyJoin.state.isEnded = false ∧
    dirtyJoin.state.staleMatches = true ∧
    (dirtyCancelled.state.updateFor roundRobin 2 none).state.log.drop
      dirtyCancelled.state.log.length = [.updateForError false true] := by
  decide

set_option maxRecDepth 100000 in
/-- C24, counterexample: before the sweep at 582000 player 3 is the initiator
of the pending challenge to player 1 and has the warned flag set.  The run
visits player 1 first and disqualifies them, which voids the challenge and
gives player 3 an available match; when the same run reaches player 3 they
are no initiator any more, and their warned flag is cleared. -/
theorem initiator_flag_cleared_in_run :
    mirrorWaiting.pendingChallenges =
      some [(1, some (Challenge.fromUser 3 3)), (2, none), (3, some (Challenge.toUser 1 3))] ∧
    mirrorWaiting.availableMatches = some [(1, []), (2, []), (3, [])] ∧
    mirrorWaiting.isAutoDisqualifyWarned = some [(1, true), (2, true), (3, true)] ∧
    mirrorWaiting.lastActionTimes = some [(1, 281001), (2, 9000), (3, 281001)] ∧
    mirrorWaiting.disqualifiedUsers = some [(1, false), (2, false), (3, false)] ∧
    mirrorWaiting.autoDisqualifyTimeout = some 300000 ∧
    mirrorSwept.returned = true ∧
    mirrorSwept.state.disqualifiedUsers = some [(1, true), (2, false), (3, false)] ∧
    mirrorSwept.state.pendingChallenges = some [(1, none), (2, none), (3, none)] ∧
    mirrorSwept.state.availableMatches = some [(1, []), (2, []), (3, [2])] ∧
    mirrorSwept.state.lastActionTimes = some [(1, 281001), (2, 9000), (3, 582000)] ∧
    mirrorSwept.state.isAutoDisqualifyWarned = some [(1, true), (2, true), (3, false)] ∧
    mirrorSwept.state.isEnded = false :=
  ⟨by decide, by decide, by decide, by decide, by decide, by decide, by decide, by decide,
    by decide, by decide, by decide, by decide, by decide⟩

/-- C24, amended: a player who is not marked disqualified before a run of
`runAutoDisqualify` and is marked after it had the warned flag set before the
run, and the run visited their entry of `lastActionTimes` in a state in
which they had a non-empty `availableMatches` entry or a pending challenge
received, the time of the entry plus the timeout was strictly before now,
and the warned flag was set.  A visit of a player who initiated a pending
challenge returns the state unchanged, and a visit of a player who is not due
leaves the disqualified marks and `isEnded` as they were.  Over a whole run
the exemption holds when the run disqualifies nobody: a player who initiated
a pending challenge before such a run keeps the challenge and the warned
flag and is sent no warning. -/
theorem sweep_disqualifies_only_due (S : Strategy G) (w : World) (o : Output)
    (t : Tournament G) :
    (∀ la dq dq2 x, t.lastActionTimes = some la → (la.map Prod.fst).Nodup →
      t.disqualifiedUsers = some dq → dq.get x ≠ some true →
      (t.runAutoDisqualify S w o).state.disqualifiedUsers = some dq2 →
      dq2.get x = some true →
      (∃ wd, t.isAutoDisqualifyWarned = some wd ∧ wd.get x = some true) ∧
      ∃ j t1 time la1, (j, t1, x, time) ∈
          Tournament.sweepTrace S w o (t.clearIfSet t.autoDisqualifyTimer).sweepFuel 0
            (t.clearIfSet t.autoDisqualifyTimer) ∧
        t1.lastActionTimes = some la1 ∧ la1[j]? = some (x, time) ∧ SweepDue t1 w x time) ∧
    (∀ u time av pc e q tm, t.availableMatches = some av → t.pendingChallenges = some pc →
      av.get u = some e → pc.get u = some (some (.toUser q tm)) →
      t.sweepVisit S w o u time = .ok () t) ∧
    (∀ u time, ¬ SweepDue t w u time →
      (t.sweepVisit S w o u time).state.disqualifiedUsers = t.disqualifiedUsers ∧
      (t.sweepVisit S w o u time).state.isEnded = t.isEnded) ∧
    (∀ u q tm av pc e, t.availableMatches = some av → t.pendingChallenges = some pc →
      av.get u = some e → pc.get u = some (some (.toUser q tm)) →
      (t.runAutoDisqualify S w o).state.disqualifiedUsers = t.disqualifiedUsers →
      (t.runAutoDisqualify S w o).state.pendingChallenges = t.pendingChallenges ∧
      (t.runAutoDisqualify S w o).state.isAutoDisqualifyWarned.map (fun m => m.get u)
        = t.isAutoDisqualifyWarned.map (fun m => m.get u) ∧
      (t.runAutoDisqualify S w o).state.warnings u = t.warnings u) := by
  refine ⟨fun la dq dq2 x hla hn hdq hx h5 hx2 => ?_,
    fun u time av pc e q tm hav hpc he hq =>
      sweepVisit_initiator S w o u time t av pc e q tm hav hpc he hq,
    fun u time hnd => ?_,
    fun u q tm av pc e hav hpc he hq hdq => ?_⟩
  · have hc := clearIfSet_sweep t t.autoDisqualifyTimer
    rcases runAutoDisqualify_dq S w o t with h | h
    · exfalso
      have e : dq2 = dq := Option.some.inj (h5.symm.trans (h.trans hdq))
      rw [e] at hx2
      exact hx hx2
    · obtain ⟨j, t1, time, la1, hmem, _, hla1, hj, _, hdue, hwd⟩ :=
        sweepLoop_marks S w o _ 0 (t.clearIfSet t.autoDisqualifyTimer) la x dq dq2
          (hc.1.trans hla) hn (hc.2.1.trans hdq) hx (h.symm.trans h5) hx2
      refine ⟨?_, j, t1, time, la1, hmem, hla1, hj, hdue⟩
      obtain ⟨_, _, wd1, _, _, _, _, hw1, _, _, _, _, hflag⟩ := hdue
      rw [hc.2.2, hw1] at hwd
      cases hw : t.isAutoDisqualifyWarned with
      | none =>
        rw [hw] at hwd
        cases hwd
      | some wd =>
        rw [hw] at hwd
        refine ⟨wd, rfl, ?_⟩
        have e : wd1.get x = wd.get x := Option.some.inj hwd
        rw [← e]
        exact hflag
  · rcases (sweepVisit_marks S w o u time t).2.2 with h | ⟨hdue, _⟩
    · exact h
    · exact absurd hdue hnd
  · have k := runAutoDisqualify_spares S w o t u q tm av pc e hav hpc he hq hdq
    exact ⟨k.pend, k.flag, k.told⟩

set_option maxRecDepth 100000 in
/-- C24, witness: after the warning at 4:31, the sweep 5:01 after the last
action of player 1 disqualifies them; they were warned before that run and
were due when the run visited their entry.  In the mirrored round robin the
sweep at 560000 disqualifies nobody, and player 3, who waits for the answer
of player 1, keeps the warned flag and the single warning received. -/
theorem sweep_disqualifies_only_due_witness :
    ((∃ wd, idleWarned.isAutoDisqualifyWarned = some wd ∧ wd.get 1 = some true) ∧
    ∃ j t1 time la1, (j, t1, 1, time) ∈
        Tournament.sweepTrace roundRobin (calmWorld 310000) .absent
          (idleWarned.clearIfSet idleWarned.autoDisqualifyTimer).sweepFuel 0
          (idleWarned.clearIfSet idleWarned.autoDisqualifyTimer) ∧
      t1.lastActionTimes = some la1 ∧ la1[j]? = some (1, time) ∧
      SweepDue t1 (calmWorld 310000) 1 time) ∧
    mirrorWaiting.isAutoDisqualifyWarned.map (fun m => m.get 3) = some (some true) ∧
    mirrorWaiting.warnings 3 = [29000] ∧
    (mirrorWaiting.runAutoDisqualify mirrorRoundRobin (calmWorld 560000)
        .absent).state.pendingChallenges = mirrorWaiting.pendingChallenges ∧
    (mirrorWaiting.runAutoDisqualify mirrorRoundRobin (calmWorld 560000)
        .absent).state.isAutoDisqualifyWarned.map (fun m => m.get 3)
      = mirrorWaiting.isAutoDisqualifyWarned.map (fun m => m.get 3) ∧
    (mirrorWaiting.runAutoDisqualify mirrorRoundRobin (calmWorld 560000)
        .absent).state.warnings 3 = mirrorWaiting.warnings 3 :=
  ⟨(sweep_disqualifies_only_due roundRobin (calmWorld 310000) .absent idleWarned).1
      [(1, 9000), (2, 9000), (3, 9000)] [(1, false), (2, false), (3, false)]
      [(1, true), (2, true), (3, false)] 1
      (by decide) (by decide) (by decide) (by decide) (by decide) (by decide),
    by decide, by decide,
    (sweep_disqualifies_only_due mirrorRoundRobin (calmWorld 560000) .absent
      mirrorWaiting).2.2.2 3 1 3 [(1, []), (2, []), (3, [])]
      [(1, some (.fromUser 3 3)), (2, none), (3, some (.toUser 1 3))] []
      (by decide) (by decide) (by decide) (by decide) (by decide)⟩

/-- C15: along every run of calls of the class, `update()` calls and
bracket-timer firings among them, each made at its own time, the first
bracket snapshot broadcast is taken at least BRACKET_MINIMUM_UPDATE_INTERVAL
after `lastBracketUpdate`, and every later one at least that long after the
one before it; no call broadcasts two.  The clock need not even be
non-decreasing. -/
theorem snapshots_are_spaced (S : Strategy G) (calls : List (Call G × World))
    (t : Tournament G) :
    List.Chain (fun a b => a + BRACKET_MINIMUM_UPDATE_INTERVAL ≤ b) t.lastBracketUpdate
      (snapshotTimes S calls t) := by
  induction calls generalizing t with
  | nil => exact List.Chain.nil
  | cons p rest ih =>
    obtain ⟨c, w⟩ := p
    unfold snapshotTimes
    rcases call_paced S w c t with ⟨h1, h2⟩ | ⟨h1, h2, h3⟩
    · rw [h1, Nat.sub_self, List.replicate_zero, List.nil_append, ← h2]
      exact ih _
    · rw [h1, Nat.add_sub_cancel_left, List.replicate_one, List.singleton_append]
      refine List.Chain.cons h2 ?_
      rw [← h3]
      exact ih _

set_option maxRecDepth 100000 in
/-- C15, witness: created at 5000 with a first snapshot, the tournament
broadcasts the next snapshots at 7500, 11000 and 14000, each at least 2000 ms
after the one before. -/
theorem snapshots_are_spaced_witness :
    createdAtFive.lastBracketUpdate = 5000 ∧
    snapshotTimes roundRobin joinsAndRefreshes createdAtFive = [7500, 11000, 14000] ∧
    List.Chain (fun a b => a + BRACKET_MINIMUM_UPDATE_INTERVAL ≤ b)
      createdAtFive.lastBracketUpdate
      (snapshotTimes roundRobin joinsAndRefreshes createdAtFive) :=
  ⟨by decide, by decide, snapshots_are_spaced roundRobin joinsAndRefreshes createdAtFive⟩

end Tournaments
